import Mathlib

/-!
# SkinParam: the Gaussian parameter calculator

A shallow embedding of `GaussianParams.cpp` (namespace `Skin`):

* the table loader `GaussianParamsCalculator::parseFile`,
* the grid interpolator `searchLerp` / `lerp` / `nsample` / `sample`,
* the reducer `GaussianParamsCalculator::getParamsFromRGBProfile`,
* the background task and the cancel callback of
  `GaussianParamsCalculator::getLiveFitParams`, as a step relation.

Conventions of the embedding.

* `float` has two readings. In the exact reading (the definitions of `Skin`
  itself) a `float` is a rational and the operations are exact; it serves the
  loader, the statements made over exact arithmetic, and the statements in which
  `float`s are only compared or copied. In the binary32 reading (the type `F32`
  and the definitions of `Skin.Binary32`) a `float` is an IEEE 754 binary32
  value, a NaN and the infinities included, and every operation rounds to
  nearest, ties to even; it serves the statements about the interpolator and
  the reducer that depend on rounding or on a NaN.
* `int` values are integers wrapped to 32 bits by `wrapInt` wherever the source
  computes a product or a sum of table strides; sizes and loop counters that are
  bounded by the number of tokens of a line stay natural numbers.
* Reading a `std::vector` or a C array outside its bounds is undefined in the
  source and is a failure (`none`) here; so is a failed `ASSERT`.
* `std::vector` is a `List`.
-/

namespace Skin

/-! ## Machine integers -/

/-- The value an `int` holds after 32-bit two's-complement wrap-around. -/
def wrapInt (x : Int) : Int := (x + 2147483648) % 4294967296 - 2147483648

/-! ## Data model

The header `GaussianParams.h` that declares these types is not part of the
sources; each type has the fields that `GaussianParams.cpp` reads and writes, as
the spec describes them. -/

/-- Modelled from the spec: the type `SingleProfile` (declared in the missing
`GaussianParams.h`), a `vector<float>` with one coefficient per sigma term. -/
abbrev SingleProfile := List ℚ

/-- Modelled from the spec: the structure `RGBProfile` (declared in the missing
`GaussianParams.h`), three parallel coefficient sequences. -/
structure RGBProfile where
  red : SingleProfile
  green : SingleProfile
  blue : SingleProfile
deriving DecidableEq

/-- Modelled from the spec: the structure `SamplePoints` (declared in the missing
`GaussianParams.h`), the grid coordinates of one dimension and its stride into
the flattened profile array. -/
structure SamplePoints where
  points : List ℚ
  idMultiplier : Int
deriving DecidableEq

/-- Modelled from the spec: the type of the loaded table `psp` (declared in the
missing `GaussianParams.h`). -/
structure ParamSamplePoints where
  paramSamplePoints : List SamplePoints
  profiles : List RGBProfile
  sigmas : List ℚ
deriving DecidableEq

/-- The structure `LerpStruct` of `GaussianParams.cpp`. -/
structure LerpStruct where
  minId : Nat
  maxId : Nat
  lerpAmount : ℚ
deriving DecidableEq

/-! ## Grid interpolator -/

/-- The scan `while (points[id] < sample) id++` of `searchLerp`. The first
argument is the part of `points` from index `id` on, so its head is
`points[id]`; running off the end of the vector is a failure. -/
def searchLerp.scan : List ℚ → ℚ → Nat → Option Nat
  | [], _, _ => none
  | p :: rest, sample, id =>
    if p < sample then searchLerp.scan rest sample (id + 1) else some id

/-- The function `searchLerp(sps, sample)`. -/
def searchLerp (sps : SamplePoints) (sample : ℚ) : Option LerpStruct :=
  match sps.points with
  | [] => none
  | p0 :: rest =>
    if sample ≤ p0 then
      some { minId := 0, maxId := 0, lerpAmount := 0 }
    else if sample ≥ (p0 :: rest).getLast (List.cons_ne_nil p0 rest) then
      some { minId := (p0 :: rest).length - 1, maxId := (p0 :: rest).length - 1,
             lerpAmount := 0 }
    else
      match searchLerp.scan rest sample 1 with
      | none => none
      | some id =>
        let pid := (p0 :: rest).getD id 0
        let pprev := (p0 :: rest).getD (id - 1) 0
        if pid > sample then
          some { minId := id - 1, maxId := id,
                 lerpAmount := (sample - pprev) / (pid - pprev) }
        else
          some { minId := id, maxId := id, lerpAmount := 0 }

/-- The function `lerp(amount, p1, p2)` on `SingleProfile`; the `ASSERT` on the
sizes is a failure when it does not hold. -/
def SingleProfile.lerp (amount : ℚ) (p1 p2 : SingleProfile) : Option SingleProfile :=
  if p1.length = p2.length then
    some (List.zipWith (fun a b => (1 - amount) * a + amount * b) p1 p2)
  else none

/-- The function `lerp(amount, p1, p2)` on `RGBProfile`. -/
def RGBProfile.lerp (amount : ℚ) (p1 p2 : RGBProfile) : Option RGBProfile :=
  match SingleProfile.lerp amount p1.red p2.red,
        SingleProfile.lerp amount p1.green p2.green,
        SingleProfile.lerp amount p1.blue p2.blue with
  | some r, some g, some b => some { red := r, green := g, blue := b }
  | _, _, _ => none

/-- The read `psp.profiles[id]` with an `int` index. -/
def profileAt (psp : ParamSamplePoints) (id : Int) : Option RGBProfile :=
  if 0 ≤ id then psp.profiles[id.toNat]? else none

/-- The recursion of `nsample`. The list argument is the part of the array
`lerps` from index `dim` on, so its head is `lerps[dim]`. -/
def nsample.go (psp : ParamSamplePoints) (nDims : Int) :
    List LerpStruct → Nat → Int → Option RGBProfile
  | [], _, _ => none
  | nextLerp :: rest, dim, baseId =>
    match psp.paramSamplePoints[dim]? with
    | none => none
    | some sp =>
      let multiplier := sp.idMultiplier
      let minId := wrapInt (baseId + wrapInt ((nextLerp.minId : Int) * multiplier))
      let leaf : Bool := decide ((dim : Int) = nDims - 1)
      match (if leaf then profileAt psp minId else nsample.go psp nDims rest (dim + 1) minId) with
      | none => none
      | some p1 =>
        if nextLerp.maxId ≠ nextLerp.minId then
          let maxId := wrapInt (baseId + wrapInt ((nextLerp.maxId : Int) * multiplier))
          match (if leaf then profileAt psp maxId
                 else nsample.go psp nDims rest (dim + 1) maxId) with
          | none => none
          | some p2 => RGBProfile.lerp nextLerp.lerpAmount p1 p2
        else some p1

/-- The method `GaussianParamsCalculator::nsample(baseId, nDims, dim, lerps)`. -/
def nsample (psp : ParamSamplePoints) (baseId : Int) (nDims : Int) (dim : Nat)
    (lerps : List LerpStruct) : Option RGBProfile :=
  nsample.go psp nDims (lerps.drop dim) dim baseId

/-- The loop of `sample` that pushes `searchLerp(psp.paramSamplePoints[d], params[d])`
for every dimension `d`; `params` is a C array, reading past its end fails. -/
def sample.searches : List SamplePoints → List ℚ → Option (List LerpStruct)
  | [], _ => some []
  | _ :: _, [] => none
  | sp :: sps, q :: qs =>
    match searchLerp sp q, sample.searches sps qs with
    | some l, some ls => some (l :: ls)
    | _, _ => none

/-- The method `GaussianParamsCalculator::sample(params)`. -/
def sample (psp : ParamSamplePoints) (params : List ℚ) : Option RGBProfile :=
  match sample.searches psp.paramSamplePoints params with
  | none => none
  | some lerps => nsample psp 0 (psp.paramSamplePoints.length : Int) 0 lerps

/-! ## Sample table loader -/

/-- Modelled from the spec: `D3DHelper::checkFailure` (not part of the sources)
called with `E_FAIL` is fatal and ends the load. The fatal outcomes of
`parseFile` are its two `checkFailure(E_FAIL, ...)` calls, and a
`profiles.resize` with a negative `int` argument, which no allocation serves. -/
inductive ParseError where
  | illFormed
  | insufficientData
  | allocFailure
deriving DecidableEq

/-- The local `state` of `parseFile` together with the table `psp` it fills. -/
structure ParserState where
  wantSamplePoints : Bool
  rgbColumnIndex : Nat
  minColumns : Nat
  totalProfiles : Int
  psp : ParamSamplePoints
deriving DecidableEq

/-- The state `{ true, 0, 0, 0 }` before the first line, with an empty table
(`sps.clear()`, and `profiles`, `sigmas` of a freshly constructed calculator). -/
def ParserState.init : ParserState :=
  { wantSamplePoints := true, rgbColumnIndex := 0, minColumns := 0, totalProfiles := 0,
    psp := { paramSamplePoints := [], profiles := [], sigmas := [] } }

/-- The sigma loop of the `ID` line, run over the tokens from
`rgbColumnIndex + 1` on: it stops at the token `Error`. -/
def parseSigmas (atof : String → ℚ) : List String → List ℚ
  | [] => []
  | token :: rest => if token = "Error" then [] else atof token :: parseSigmas atof rest

/-- The loop over `sps.rbegin() .. sps.rend()`: the last dimension is visited
first. Returns the updated dimensions and the final value of `multiplier`. -/
def assignMultipliers : List SamplePoints → List SamplePoints × Int
  | [] => ([], 1)
  | sp :: rest =>
    let r := assignMultipliers rest
    ({ sp with idMultiplier := r.2 } :: r.1, wrapInt (r.2 * wrapInt (sp.points.length : Int)))

/-- The call `profiles.resize(n)` of a `std::vector<RGBProfile>`. -/
def resizeProfiles (profiles : List RGBProfile) (n : Nat) : List RGBProfile :=
  profiles.take n ++ List.replicate (n - profiles.length) { red := [], green := [], blue := [] }

/-- The branch `tokens[0] == "ID"` of `parseFile`. -/
def parseHeader (atof : String → ℚ) (st : ParserState) (tokens : List String) :
    Except ParseError ParserState :=
  let nParams := st.psp.paramSamplePoints.length
  let rgbColumnIndex := nParams + 1
  if tokens.length < rgbColumnIndex + 2 then Except.error ParseError.illFormed
  else
    let sigmas := parseSigmas atof (tokens.drop (rgbColumnIndex + 1))
    let minColumns := rgbColumnIndex + 1 + sigmas.length
    let r := assignMultipliers st.psp.paramSamplePoints
    let multiplier := r.2
    if multiplier < 0 then Except.error ParseError.allocFailure
    else
      Except.ok
        { wantSamplePoints := false, rgbColumnIndex := rgbColumnIndex, minColumns := minColumns,
          totalProfiles := multiplier,
          psp := { paramSamplePoints := r.1,
                   profiles := resizeProfiles st.psp.profiles multiplier.toNat,
                   sigmas := sigmas } }

/-- The `else` branch of the sample-points section: one dimension line. A freshly
declared `SamplePoints` has its `idMultiplier` not yet assigned, here 0. -/
def parseSamplePoints (atoi : String → Int) (atof : String → ℚ) (st : ParserState)
    (tokens : List String) : ParserState :=
  if tokens.length < 2 then st
  else
    let nPoints := atoi (tokens.getD 1 "")
    -- `tokens.size() - 2 < (size_t)nPoints`: a negative `nPoints` converts to a huge size
    if nPoints < 0 ∨ ((tokens.length - 2 : Nat) : Int) < nPoints then st
    else
      let points : SamplePoints :=
        { points := (List.range nPoints.toNat).map (fun ptId => atof (tokens.getD (ptId + 2) "")),
          idMultiplier := 0 }
      { st with psp := { st.psp with paramSamplePoints := st.psp.paramSamplePoints ++ [points] } }

/-- The profile section of `parseFile`: one `(cell id, channel)` row. -/
def parseProfileRow (atoi : String → Int) (atof : String → ℚ) (st : ParserState)
    (tokens : List String) : ParserState :=
  if tokens.length < st.minColumns then st
  else
    let rgb := tokens.getD st.rgbColumnIndex ""
    if rgb ≠ "R" ∧ rgb ≠ "G" ∧ rgb ≠ "B" then st
    else
      let id := atoi (tokens.getD 0 "")
      if id < st.totalProfiles ∧ id ≥ 0 then
        let sp : SingleProfile :=
          (List.range' (st.rgbColumnIndex + 1) (st.minColumns - (st.rgbColumnIndex + 1))).map
            (fun i => atof (tokens.getD i ""))
        let p := st.psp.profiles.getD id.toNat { red := [], green := [], blue := [] }
        let p' : RGBProfile :=
          if rgb = "R" then { p with red := sp }
          else if rgb = "G" then { p with green := sp }
          else { p with blue := sp }
        { st with psp := { st.psp with profiles := st.psp.profiles.set id.toNat p' } }
      else st

/-- The body of the `while (getLine(in, line))` loop for one tokenised line. -/
def parseLine (atoi : String → Int) (atof : String → ℚ) (st : ParserState)
    (tokens : List String) : Except ParseError ParserState :=
  if st.wantSamplePoints then
    if tokens.length = 0 ∨ tokens.head? = some "Param" then Except.ok st
    else if tokens.head? = some "ID" then parseHeader atof st tokens
    else Except.ok (parseSamplePoints atoi atof st tokens)
  else Except.ok (parseProfileRow atoi atof st tokens)

/-- The `while (getLine(in, line))` loop over the lines of the file, each given as
its whitespace-separated tokens; a fatal error ends the loop. -/
def parseLines (atoi : String → Int) (atof : String → ℚ) :
    ParserState → List (List String) → Except ParseError ParserState
  | st, [] => Except.ok st
  | st, tokens :: rest =>
    match parseLine atoi atof st tokens with
    | Except.error e => Except.error e
    | Except.ok st' => parseLines atoi atof st' rest

/-- The test of the final loop of `parseFile` on one profile. -/
def RGBProfile.incomplete (p : RGBProfile) : Bool :=
  p.red.length = 0 || p.green.length = 0 || p.blue.length = 0

/-- The method `GaussianParamsCalculator::parseFile` on an opened file, given as
the list of its tokenised lines (the loop may see one more, empty, line at the
end of the file; an empty line changes nothing). The C library functions `atoi`
and `atof` are parameters. -/
def parseFile (atoi : String → Int) (atof : String → ℚ) (lines : List (List String)) :
    Except ParseError ParamSamplePoints :=
  match parseLines atoi atof ParserState.init lines with
  | Except.error e => Except.error e
  | Except.ok st =>
    if st.psp.profiles.any RGBProfile.incomplete then Except.error ParseError.insufficientData
    else Except.ok st.psp

/-- A small decimal reader standing in for `atoi` and `atof` in examples: the
value of a token among "0" .. "5", and 0 for every other token. -/
def digitValue (s : String) : Int :=
  if s = "1" then 1 else if s = "2" then 2 else if s = "3" then 3
  else if s = "4" then 4 else if s = "5" then 5 else 0

/-! ## Gaussian reducer -/

/-- Modelled from the spec: the constant `GaussianParams::NUM_GAUSSIANS` (declared
in the missing `GaussianParams.h`); the spec fixes the count to 6. -/
def NUM_GAUSSIANS : Nat := 6

/-- Modelled from the spec: the DirectX vector `XMFLOAT3`, a coefficient triple. -/
structure XMFLOAT3 where
  x : ℚ
  y : ℚ
  z : ℚ
deriving DecidableEq

/-- Modelled from the spec: the structure `GaussianParams` (declared in the
missing `GaussianParams.h`), the arrays `sigmas[NUM_GAUSSIANS]` and
`coeffs[NUM_GAUSSIANS]`. -/
structure GaussianParams where
  sigmas : List ℚ
  coeffs : List XMFLOAT3
deriving DecidableEq

/-- The declaration `GaussianParams gp;`: both arrays have `NUM_GAUSSIANS` slots.
Every slot is assigned before `gp` is returned, so the initial content, zero
here, is never observed. -/
def GaussianParams.fresh : GaussianParams :=
  { sigmas := List.replicate NUM_GAUSSIANS 0,
    coeffs := List.replicate NUM_GAUSSIANS { x := 0, y := 0, z := 0 } }

/-- The structure `SigmaWeight` of `GaussianParams.cpp`. -/
structure SigmaWeight where
  id : Nat
  weight : ℚ
deriving DecidableEq

instance : Inhabited SigmaWeight := ⟨{ id := 0, weight := 0 }⟩

/-- The first loop of the reduce branch: one `SigmaWeight` per sigma term (the
totals `rtotal`, `gtotal`, `btotal` are computed by the source and never read). -/
def sigmaWeights (profile : RGBProfile) (n : Nat) : List SigmaWeight :=
  (List.range n).map fun sid =>
    let r := profile.red.getD sid 0 * (2126 / 10000)
    let g := profile.green.getD sid 0 * (7152 / 10000)
    let b := profile.blue.getD sid 0 * (722 / 10000)
    { id := sid, weight := 0 + (r * r + g * g + b * b) }

/-- The comparison passed to `partial_sort`. -/
def weightOrder (sw1 sw2 : SigmaWeight) : Bool :=
  if sw1.weight > sw2.weight then true
  else if sw1.weight = sw2.weight then decide (sw1.id > sw2.id)
  else false

/-- The comparison passed to `sort`, as the order `sort` leaves its range in
(the ids of the range are distinct). -/
def idOrder (sw1 sw2 : SigmaWeight) : Prop := sw1.id ≤ sw2.id

instance : DecidableRel idOrder := fun a b => inferInstanceAs (Decidable (a.id ≤ b.id))

/-- The contract of `std::partial_sort(first, first + k, last, comp)`: the range
is permuted, its first `k` entries are in `comp` order and none of the other
entries is `comp`-before one of them. The order of the other entries is not
specified. -/
def IsPartialSort {α : Type} (comp : α → α → Bool) (k : Nat) (input output : List α) : Prop :=
  output.Perm input ∧
  (output.take k).Pairwise (fun a b => comp b a = false) ∧
  ∀ a ∈ output.take k, ∀ b ∈ output.drop k, comp b a = false

/-- The loop that writes the selected terms into `gp`. -/
def writeSelected (profile : RGBProfile) (sigmas : List ℚ) (sws : List SigmaWeight)
    (gp : GaussianParams) : GaussianParams :=
  (List.range NUM_GAUSSIANS).foldl
    (fun gp swid =>
      let sid := (sws.getD swid default).id
      { sigmas := gp.sigmas.set swid (sigmas.getD sid 0),
        coeffs := gp.coeffs.set swid
          { x := profile.red.getD sid 0, y := profile.green.getD sid 0,
            z := profile.blue.getD sid 0 } })
    gp

/-- The inner loop of the merge: the slot whose sigma is nearest to `sigma`,
the first such slot when several are equally near (`abs` is the absolute value
of a `float`). -/
def nearestSelected (sigmas : List ℚ) (sws : List SigmaWeight) (sigma : ℚ) : Nat :=
  ((List.range' 1 (NUM_GAUSSIANS - 1)).foldl
    (fun (acc : Nat × ℚ) selswid =>
      let diff := |sigma - sigmas.getD (sws.getD selswid default).id 0|
      if diff < acc.2 then (selswid, diff) else acc)
    (0, |sigma - sigmas.getD (sws.getD 0 default).id 0|)).1

/-- The body of the merge loop for the entry `sw = sws[swid]`: its coefficients
are added to the slot `nearestswid`. -/
def mergeStep (profile : RGBProfile) (sigmas : List ℚ) (sws : List SigmaWeight)
    (gp : GaussianParams) (sw : SigmaWeight) : GaussianParams :=
  let sid := sw.id
  let sigma := sigmas.getD sid 0
  let nearestswid := nearestSelected sigmas sws sigma
  let c := gp.coeffs.getD nearestswid { x := 0, y := 0, z := 0 }
  { sigmas := gp.sigmas,
    coeffs := gp.coeffs.set nearestswid
      { x := c.x + profile.red.getD sid 0, y := c.y + profile.green.getD sid 0,
        z := c.z + profile.blue.getD sid 0 } }

/-- The merge loop over the entries `sws[NUM_GAUSSIANS ..]`. -/
def mergeRest (profile : RGBProfile) (sigmas : List ℚ) (sws : List SigmaWeight)
    (gp : GaussianParams) : GaussianParams :=
  (sws.drop NUM_GAUSSIANS).foldl (mergeStep profile sigmas sws) gp

/-- The `else` branch: pad with zeros in front, then copy the terms. -/
def padZeros (profile : RGBProfile) (sigmas : List ℚ) (gp : GaussianParams) : GaussianParams :=
  let numZeros := NUM_GAUSSIANS - sigmas.length
  let gp := (List.range numZeros).foldl
    (fun gp i =>
      { sigmas := gp.sigmas.set i 0, coeffs := gp.coeffs.set i { x := 0, y := 0, z := 0 } })
    gp
  (List.range sigmas.length).foldl
    (fun gp sid =>
      { sigmas := gp.sigmas.set (numZeros + sid) (sigmas.getD sid 0),
        coeffs := gp.coeffs.set (numZeros + sid)
          { x := profile.red.getD sid 0, y := profile.green.getD sid 0,
            z := profile.blue.getD sid 0 } })
    gp

/-- The method `GaussianParamsCalculator::getParamsFromRGBProfile`. The library
function `std::partial_sort` is the parameter `partial_sort` (its contract is
`IsPartialSort`); `std::sort` by id is an insertion sort. Both branches read
`profile.red[sid]`, `profile.green[sid]` and `profile.blue[sid]` for every
`sid < sigmas.size()`; a channel that is too short makes that read fail. The
later reads `sigmas[sid]` and `profile.red[sid]` use the ids of the sorted
entries, which are below `sigmas.size()` whenever `partial_sort` permutes its
range. -/
def getParamsFromRGBProfile (partial_sort : List SigmaWeight → List SigmaWeight)
    (profile : RGBProfile) (sigmas : List ℚ) : Option GaussianParams :=
  if profile.red.length < sigmas.length ∨ profile.green.length < sigmas.length
      ∨ profile.blue.length < sigmas.length then none
  else if sigmas.length > NUM_GAUSSIANS then
    let sws := partial_sort (sigmaWeights profile sigmas.length)
    let sws := (sws.take NUM_GAUSSIANS).insertionSort idOrder ++ sws.drop NUM_GAUSSIANS
    some (mergeRest profile sigmas sws (writeSelected profile sigmas sws GaussianParams.fresh))
  else
    some (padZeros profile sigmas GaussianParams.fresh)

/-- One admissible `std::partial_sort`: sort the whole range. -/
def sortAll (sws : List SigmaWeight) : List SigmaWeight :=
  sws.insertionSort (fun a b => weightOrder b a = false)


/-! ## Live fit: the background task of `getLiveFitParams`

The lambda that `getLiveFitParams` hands to `std::async` and the cancel callback
it returns run on two threads. They are a step relation here: one state holds
the program point of the task and the data both threads see, one event is one
atomic action of the task or of the callback, and a schedule is a list of
events in the order they happen. The task holds the mutex from the `lock_guard`
to the end of the debounce block except while it waits in `wait_until`, and the
callback writes the flag under that mutex; so the flag cannot change between the
loop test and the `if (*pCancel)` after the loop, and waking up, testing the loop
condition and testing the flag are one event. The fitting engine (`TaskQueue`,
`CreateGaussianFitTasks`, `SpectralGaussianCoeffs`) is outside the sources: its
calls are recorded by name, and what it has collected when the task reads it is
carried by the event. -/

/-- Program points of the task: in the debounce loop (before or inside
`wait_until`), before `CreateGaussianFitTasks`, before `tq->EnqueueTasks`,
inside `tq->WaitForAllTasks`, after it, and returned. -/
inductive LiveFitPc where
  | delay
  | create
  | enqueue
  | wait
  | collect
  | returned
deriving DecidableEq

/-- The calls of the task into the fitting engine. -/
inductive LiveFitCall where
  | createGaussianFitTasks
  | enqueueTasks
  | waitForAllTasks
  | destroyGaussianTasks
  | clearGaussianTasksCache
deriving DecidableEq

/-- The value the future delivers, by the `return` statement that produced it:
`return GaussianParams();` after the debounce loop, or
`return getParamsFromRGBProfile(profile, spectralGaussianCoeffs.sigmas);`. -/
inductive LiveFitResult where
  | cancelled
  | reduced (gp : Option GaussianParams)
deriving DecidableEq

/-- The state of one live-fit request: the program point of the task, the shared
flag `*pCancel`, whether `tq->Abort()` has been called, the calls the task has
made so far (oldest first) and the value of the future once the task returned. -/
structure LiveFitState where
  pc : LiveFitPc
  cancel : Bool
  aborted : Bool
  calls : List LiveFitCall
  delivered : Option LiveFitResult
deriving DecidableEq

/-- The state when `getLiveFitParams` returns: `pCancel(new bool(false))`, a new
task queue, and the task not yet past its debounce loop. -/
def LiveFitState.init : LiveFitState :=
  { pc := LiveFitPc.delay, cancel := false, aborted := false, calls := [], delivered := none }

/-- The atomic actions. Of the task: `wake timeUp`, `wait_until` returns and the
loop condition is tested, `timeUp` telling whether `now < targetTime` fails;
`task`, the next call among `CreateGaussianFitTasks` and `EnqueueTasks`;
`waitReturns`, `WaitForAllTasks` returns; `finish profile sigmas`, the rest of
the lambda, where `profile` and `sigmas` are what `spectralGaussianCoeffs` holds
at that time, converted by `ToRGB`. Of the cancel callback: `abort`, the call
`tq->Abort()`, and `setCancel`, the assignment `*pCancel = true` (the
`notify_one` that follows makes a `wake` possible). -/
inductive LiveFitEvent where
  | wake (timeUp : Bool)
  | task
  | waitReturns
  | finish (profile : RGBProfile) (sigmas : List ℚ)
  | abort
  | setCancel

/-- One step of a live-fit request; an event that cannot happen at the current
program point leaves the state as it is. -/
def getLiveFitParams.step (partial_sort : List SigmaWeight → List SigmaWeight)
    (s : LiveFitState) : LiveFitEvent → LiveFitState
  | LiveFitEvent.wake timeUp =>
    if s.pc = LiveFitPc.delay then
      -- `while (!*pCancel && now < targetTime)`
      if !s.cancel && !timeUp then s
      -- `if (*pCancel) return GaussianParams();`
      else if s.cancel then
        { s with pc := LiveFitPc.returned, delivered := some LiveFitResult.cancelled }
      else { s with pc := LiveFitPc.create }
    else s
  | LiveFitEvent.task =>
    if s.pc = LiveFitPc.create then
      { s with pc := LiveFitPc.enqueue,
               calls := s.calls ++ [LiveFitCall.createGaussianFitTasks] }
    else if s.pc = LiveFitPc.enqueue then
      { s with pc := LiveFitPc.wait, calls := s.calls ++ [LiveFitCall.enqueueTasks] }
    else s
  | LiveFitEvent.waitReturns =>
    if s.pc = LiveFitPc.wait then
      { s with pc := LiveFitPc.collect, calls := s.calls ++ [LiveFitCall.waitForAllTasks] }
    else s
  | LiveFitEvent.finish profile sigmas =>
    if s.pc = LiveFitPc.collect then
      { s with pc := LiveFitPc.returned,
               calls := s.calls ++
                 [LiveFitCall.destroyGaussianTasks, LiveFitCall.clearGaussianTasksCache],
               delivered :=
                 some (LiveFitResult.reduced
                   (getParamsFromRGBProfile partial_sort profile sigmas)) }
    else s
  | LiveFitEvent.abort => { s with aborted := true }
  | LiveFitEvent.setCancel => { s with cancel := true }

/-- A schedule run from a state. -/
def getLiveFitParams.run (partial_sort : List SigmaWeight → List SigmaWeight)
    (s : LiveFitState) (events : List LiveFitEvent) : LiveFitState :=
  events.foldl (getLiveFitParams.step partial_sort) s
/-! ## Grid cells (vocabulary of the statements about `sample`) -/

/-- The index tuple `is` names a cell of the grid: one index per dimension, each
below the number of points of its dimension. -/
def IsCell (sps : List SamplePoints) (is : List Nat) : Prop :=
  List.Forall₂ (fun (i : Nat) (sp : SamplePoints) => i < sp.points.length) is sps

/-- The flattened index `sum_d is_d * idMultiplier_d` of a cell, as an integer. -/
def flatIndex : List SamplePoints → List Nat → Int
  | sp :: sps, i :: is => (i : Int) * sp.idMultiplier + flatIndex sps is
  | _, _ => 0

/-- The query that sits exactly on the cell `is`: coordinate `d` is point `is_d`
of dimension `d`. -/
def gridPoint : List SamplePoints → List Nat → List ℚ
  | sp :: sps, i :: is => sp.points.getD i 0 :: gridPoint sps is
  | _, _ => []

/-! ## Lines of a coefficients file (vocabulary of the statements about `parseFile`) -/

/-- The line `tokens`, met in the sample-points section, is taken as a dimension:
it is neither blank, nor a `Param` line, nor the `ID` line, it has a count in
token 1 and at least that many tokens after it. -/
def dimensionLineAccepted (atoi : String → Int) (tokens : List String) : Prop :=
  tokens.length ≠ 0 ∧ tokens.head? ≠ some "Param" ∧ tokens.head? ≠ some "ID" ∧
  2 ≤ tokens.length ∧ 0 ≤ atoi (tokens.getD 1 "") ∧
  atoi (tokens.getD 1 "") ≤ ((tokens.length - 2 : Nat) : Int)

instance (atoi : String → Int) (tokens : List String) :
    Decidable (dimensionLineAccepted atoi tokens) :=
  inferInstanceAs (Decidable (tokens.length ≠ 0 ∧ tokens.head? ≠ some "Param" ∧
    tokens.head? ≠ some "ID" ∧ 2 ≤ tokens.length ∧ 0 ≤ atoi (tokens.getD 1 "") ∧
    atoi (tokens.getD 1 "") ≤ ((tokens.length - 2 : Nat) : Int)))

/-- The number of dimension lines accepted among `lines`. -/
def acceptedDimensions (atoi : String → Int) (lines : List (List String)) : Nat :=
  lines.countP (fun tokens => decide (dimensionLineAccepted atoi tokens))

/-- The number of cells of the grid: the product of the sizes of its dimensions. -/
def gridSize (sps : List SamplePoints) : Nat :=
  (sps.map (fun sp => sp.points.length)).prod

/-- The channel of a profile a row with marker `marker` is stored in:
`rgb == "R" ? p.red : (rgb == "G" ? p.green : p.blue)`. -/
def channelOf (p : RGBProfile) (marker : String) : SingleProfile :=
  if marker = "R" then p.red else if marker = "G" then p.green else p.blue

/-- The line `tokens` of the profile section is a row for cell `id` and channel
`marker`: it has at least `minColumns` tokens, its token at the channel-marker
column is `marker` and its leading integer is `id`. -/
def rowAddresses (atoi : String → Int) (rgbColumnIndex minColumns : Nat)
    (tokens : List String) (id : Nat) (marker : String) : Prop :=
  minColumns ≤ tokens.length ∧ tokens.getD rgbColumnIndex "" = marker ∧
  atoi (tokens.getD 0 "") = (id : Int)

instance (atoi : String → Int) (rgbColumnIndex minColumns : Nat) (tokens : List String)
    (id : Nat) (marker : String) :
    Decidable (rowAddresses atoi rgbColumnIndex minColumns tokens id marker) :=
  inferInstanceAs (Decidable (minColumns ≤ tokens.length ∧
    tokens.getD rgbColumnIndex "" = marker ∧ atoi (tokens.getD 0 "") = (id : Int)))

/-- Cell `id` is left with an empty red, green or blue sequence by the rows
`rows` read after a header that left the loop in state `st`: for one of the
three channels there is no sigma column or no row for that cell and channel. -/
def cellIncomplete (atoi : String → Int) (st : ParserState) (rows : List (List String))
    (id : Nat) : Prop :=
  ∃ marker ∈ ["R", "G", "B"], st.psp.sigmas = [] ∨
    ∀ tokens ∈ rows, ¬ rowAddresses atoi st.rgbColumnIndex st.minColumns tokens id marker

/-! ## Reducer (vocabulary of the statements about `getParamsFromRGBProfile`) -/

instance : IsTotal SigmaWeight idOrder := ⟨fun a b => Nat.le_total a.id b.id⟩

instance : IsTrans SigmaWeight idOrder := ⟨fun _ _ _ h1 h2 => Nat.le_trans h1 h2⟩

/-- The significance of term `i`:
`(0.2126 * red[i])^2 + (0.7152 * green[i])^2 + (0.0722 * blue[i])^2`. -/
def luminanceWeight (profile : RGBProfile) (i : Nat) : ℚ :=
  (2126 / 10000 * profile.red.getD i 0) ^ 2 + (7152 / 10000 * profile.green.getD i 0) ^ 2 +
    (722 / 10000 * profile.blue.getD i 0) ^ 2

/-- Slot `k` is the nearest slot of term `j`, where slot `k'` holds the selected
term `selected[k']`: `k` is the smallest slot index that minimises
`|sigmas[j] - sigmas[selected[k']]|` over the `NUM_GAUSSIANS` slots. -/
def IsNearestSlot (sigmas : List ℚ) (selected : List Nat) (j k : Nat) : Prop :=
  k < NUM_GAUSSIANS ∧
  (∀ k', k' < NUM_GAUSSIANS →
    |sigmas.getD j 0 - sigmas.getD (selected.getD k 0) 0| ≤
      |sigmas.getD j 0 - sigmas.getD (selected.getD k' 0) 0|) ∧
  (∀ k', k' < k →
    |sigmas.getD j 0 - sigmas.getD (selected.getD k 0) 0| <
      |sigmas.getD j 0 - sigmas.getD (selected.getD k' 0) 0|)

instance (sigmas : List ℚ) (selected : List Nat) (j k : Nat) :
    Decidable (IsNearestSlot sigmas selected j k) :=
  inferInstanceAs (Decidable (k < NUM_GAUSSIANS ∧
    (∀ k', k' < NUM_GAUSSIANS →
      |sigmas.getD j 0 - sigmas.getD (selected.getD k 0) 0| ≤
        |sigmas.getD j 0 - sigmas.getD (selected.getD k' 0) 0|) ∧
    (∀ k', k' < k →
      |sigmas.getD j 0 - sigmas.getD (selected.getD k 0) 0| <
        |sigmas.getD j 0 - sigmas.getD (selected.getD k' 0) 0|)))

/-! ## Interpolated profiles (vocabulary of the statements about `sample`) -/

/-- Every coefficient of `r` lies between (inclusive) the corresponding
coefficients of `a` and `b`; the three sequences have one length. -/
def SingleProfile.Between (a r b : SingleProfile) : Prop :=
  a.length = r.length ∧ b.length = r.length ∧
  ∀ m, m < r.length →
    min (a.getD m 0) (b.getD m 0) ≤ r.getD m 0 ∧ r.getD m 0 ≤ max (a.getD m 0) (b.getD m 0)

/-- Every coefficient of every channel of `r` lies between the corresponding
coefficients of `a` and `b`. -/
def RGBProfile.Between (a r b : RGBProfile) : Prop :=
  SingleProfile.Between a.red r.red b.red ∧ SingleProfile.Between a.green r.green b.green ∧
  SingleProfile.Between a.blue r.blue b.blue


/-! ## Strides and dimension lines (vocabulary of the statements about the loaded table) -/

/-- The strides of `sps` are row-major: the stride of every dimension is the
product of the sizes of the dimensions after it (1 for the last dimension). -/
def RowMajor : List SamplePoints → Prop
  | [] => True
  | sp :: rest => sp.idMultiplier = (gridSize rest : Int) ∧ RowMajor rest

/-- A table `sample` can be used on: at least one dimension, no empty dimension,
row-major strides, one profile per cell, fewer than `2^31` cells (so that an
`int` indexes them), and every channel of every profile with one coefficient per
sigma. -/
def WellFormedTable (psp : ParamSamplePoints) : Prop :=
  psp.paramSamplePoints ≠ [] ∧ (∀ sp ∈ psp.paramSamplePoints, sp.points ≠ []) ∧
  RowMajor psp.paramSamplePoints ∧ psp.profiles.length = gridSize psp.paramSamplePoints ∧
  psp.profiles.length < 2147483648 ∧
  ∀ p ∈ psp.profiles, p.red.length = psp.sigmas.length ∧
    p.green.length = psp.sigmas.length ∧ p.blue.length = psp.sigmas.length

/-- The corners `{0,1}^n`: one bit per dimension. -/
def corners : Nat → List (List Bool)
  | 0 => [[]]
  | n + 1 => (corners n).map (fun c => false :: c) ++ (corners n).map (fun c => true :: c)

/-- The weight of a corner: the product over the dimensions `d` of `w_d(c_d)`,
where `w_d(0) = 1 - lerpAmount_d` and `w_d(1) = lerpAmount_d`. -/
def cornerWeight : List LerpStruct → List Bool → ℚ
  | l :: ls, c :: cs => (if c then l.lerpAmount else 1 - l.lerpAmount) * cornerWeight ls cs
  | _, _ => 1

/-- The cell of a corner: `idx_d(c_d)` per dimension, where `idx_d(0) = minId_d`
and `idx_d(1) = maxId_d`. -/
def cornerCell : List LerpStruct → List Bool → List Nat
  | l :: ls, c :: cs => (if c then l.maxId else l.minId) :: cornerCell ls cs
  | _, _ => []

/-- The sum over the corners `c` of the weight of `c` times coefficient `m` of
channel `channel` of the profile at index `base + sum_d idx_d(c_d) * idMultiplier_d`,
over the dimensions `sps`. -/
def cornerSum (psp : ParamSamplePoints) (sps : List SamplePoints) (lerps : List LerpStruct)
    (base : Int) (channel : RGBProfile → SingleProfile) (m : Nat) : ℚ :=
  ((corners lerps.length).map (fun c =>
    cornerWeight lerps c *
      (channel (psp.profiles.getD (base + flatIndex sps (cornerCell lerps c)).toNat
        { red := [], green := [], blue := [] })).getD m 0)).sum

/-- The full multilinear expansion of the claim: the sum over the `2^N` corners
of the `N` dimensions of the table, with base index 0. -/
def multilinear (psp : ParamSamplePoints) (lerps : List LerpStruct)
    (channel : RGBProfile → SingleProfile) (m : Nat) : ℚ :=
  cornerSum psp psp.paramSamplePoints lerps 0 channel m

/-! ## Skipped rows (vocabulary of the statements about the profile section) -/

/-- The line `tokens` is one the profile section skips in state `st`: it has
fewer than `minColumns` tokens, or its token at the channel-marker column is
none of `R`, `G`, `B`, or its leading integer is negative or not below the
total profile count. -/
def rowSkipped (atoi : String → Int) (st : ParserState) (tokens : List String) : Prop :=
  tokens.length < st.minColumns ∨
  (tokens.getD st.rgbColumnIndex "" ≠ "R" ∧ tokens.getD st.rgbColumnIndex "" ≠ "G" ∧
    tokens.getD st.rgbColumnIndex "" ≠ "B") ∨
  atoi (tokens.getD 0 "") < 0 ∨ st.totalProfiles ≤ atoi (tokens.getD 0 "")

instance (atoi : String → Int) (st : ParserState) (tokens : List String) :
    Decidable (rowSkipped atoi st tokens) :=
  inferInstanceAs (Decidable (tokens.length < st.minColumns ∨
    (tokens.getD st.rgbColumnIndex "" ≠ "R" ∧ tokens.getD st.rgbColumnIndex "" ≠ "G" ∧
      tokens.getD st.rgbColumnIndex "" ≠ "B") ∨
    atoi (tokens.getD 0 "") < 0 ∨ st.totalProfiles ≤ atoi (tokens.getD 0 "")))

/-! ## Tables set as by the loader -/

/-- The strides of the table and the size of its profile array are those the
`ID` branch of the loader leaves: the multiplier loop, run over the dimensions
of the table, assigns the strides the table has, and `profiles.resize(multiplier)`
gives the array the final value of the `int` `multiplier` as its size. -/
def SetByLoader (psp : ParamSamplePoints) : Prop :=
  assignMultipliers psp.paramSamplePoints =
    (psp.paramSamplePoints, (psp.profiles.length : Int))

instance (psp : ParamSamplePoints) : Decidable (SetByLoader psp) :=
  inferInstanceAs (Decidable (assignMultipliers psp.paramSamplePoints =
    (psp.paramSamplePoints, (psp.profiles.length : Int))))
/-! ## Example data -/

/-- The function `atof` of the examples. -/
def digitAtof (s : String) : ℚ := (digitValue s : ℚ)

/-- A coefficients file with one dimension whose two points are written in
descending order, one sigma and two cells. -/
def unsortedLines : List (List String) :=
  [["mel", "2", "5", "3"],
   ["ID", "mel", "RGB", "1", "Error"],
   ["0", "5", "R", "1"], ["0", "5", "G", "1"], ["0", "5", "B", "1"],
   ["1", "3", "R", "1"], ["1", "3", "G", "1"], ["1", "3", "B", "2"]]

/-- The table `parseFile` builds from `unsortedLines`. -/
def unsortedTable : ParamSamplePoints :=
  { paramSamplePoints := [{ points := [5, 3], idMultiplier := 1 }],
    profiles := [{ red := [1], green := [1], blue := [1] },
                 { red := [1], green := [1], blue := [2] }],
    sigmas := [1] }

/-- A coefficients file without any dimension line: one sigma, one cell. -/
def zeroDimLines : List (List String) :=
  [["ID", "RGB", "1", "Error"], ["0", "R", "1"], ["0", "G", "1"], ["0", "B", "1"]]

/-- The table `parseFile` builds from `zeroDimLines`. -/
def zeroDimTable : ParamSamplePoints :=
  { paramSamplePoints := [],
    profiles := [{ red := [1], green := [1], blue := [1] }],
    sigmas := [1] }

/-- A coefficients file with two dimensions (3 and 2 points), one sigma and
six cells; cell `c` holds red `c`, green `c + 1` (0 in the last cell) and blue 2. -/
def gridLines : List (List String) :=
  [["Param", "file"],
   ["mel", "3", "0", "1", "2"],
   ["blood", "2", "0", "5"],
   ["ID", "mel", "blood", "RGB", "1", "Error", "0"],
   ["0", "0", "0", "R", "0"], ["0", "0", "0", "G", "1"], ["0", "0", "0", "B", "2"],
   ["1", "0", "5", "R", "1"], ["1", "0", "5", "G", "2"], ["1", "0", "5", "B", "2"],
   ["2", "1", "0", "R", "2"], ["2", "1", "0", "G", "3"], ["2", "1", "0", "B", "2"],
   ["3", "1", "5", "R", "3"], ["3", "1", "5", "G", "4"], ["3", "1", "5", "B", "2"],
   ["4", "2", "0", "R", "4"], ["4", "2", "0", "G", "5"], ["4", "2", "0", "B", "2"],
   ["5", "2", "5", "R", "5"], ["5", "2", "5", "G", "0"], ["5", "2", "5", "B", "2"]]

/-- The table `parseFile` builds from `gridLines`. -/
def gridTable : ParamSamplePoints :=
  { paramSamplePoints := [{ points := [0, 1, 2], idMultiplier := 2 },
                          { points := [0, 5], idMultiplier := 1 }],
    profiles := [{ red := [0], green := [1], blue := [2] },
                 { red := [1], green := [2], blue := [2] },
                 { red := [2], green := [3], blue := [2] },
                 { red := [3], green := [4], blue := [2] },
                 { red := [4], green := [5], blue := [2] },
                 { red := [5], green := [0], blue := [2] }],
    sigmas := [1] }

/-- The sample-points section of a small file: one dimension with two points. -/
def smallPre : List (List String) := [["mel", "2", "0", "1"]]

/-- The `ID` line of the small file: one sigma column. -/
def smallId : List String := ["ID", "mel", "RGB", "1", "Error"]

/-- Profile rows of the small file that leave cell 1 without green and blue. -/
def smallRows : List (List String) :=
  [["0", "0", "R", "1"], ["0", "0", "G", "1"], ["0", "0", "B", "1"], ["1", "1", "R", "1"]]

/-- The state of the loop after the `ID` line of the small file. -/
def smallHeaderState : ParserState :=
  { wantSamplePoints := false, rgbColumnIndex := 2, minColumns := 4, totalProfiles := 2,
    psp := { paramSamplePoints := [{ points := [0, 1], idMultiplier := 1 }],
             profiles := [{ red := [], green := [], blue := [] },
                          { red := [], green := [], blue := [] }],
             sigmas := [1] } }

/-- The sample-points section of a file with 32 dimensions of two points each:
the grid has `2^32` cells. -/
def overflowPre : List (List String) := List.replicate 32 ["p", "2", "0", "1"]

/-- The `ID` line of the file with 32 dimensions: one sigma column. -/
def overflowId : List String := ["ID"] ++ List.replicate 32 "p" ++ ["RGB", "1", "Error"]

/-- The state of the loop after the `ID` line of the file with 32 dimensions: the
`int` product of the sizes has wrapped to 0. -/
def overflowHeaderState : ParserState :=
  { wantSamplePoints := false, rgbColumnIndex := 33, minColumns := 35, totalProfiles := 0,
    psp := { paramSamplePoints :=
               (List.range 32).map (fun i =>
                 { points := [0, 1], idMultiplier := wrapInt (2 ^ (31 - i)) }),
             profiles := [],
             sigmas := [1] } }

/-- A profile of eight terms: term 0 is strong in red, term 3 in green, the
other six terms are equal. -/
def eightProfile : RGBProfile :=
  { red := [9, 1, 1, 1, 1, 1, 1, 1], green := [1, 1, 1, 5, 1, 1, 1, 1],
    blue := [1, 1, 1, 1, 1, 1, 1, 1] }

/-- The eight sigmas of `eightProfile`. -/
def eightSigmas : List ℚ := [1, 2, 3, 4, 5, 6, 7, 8]


/-- The table `parseFile` builds from the file `smallPre`, which has one dimension
line and no `ID` line: the stride is never assigned and no profile is allocated. -/
def noHeaderTable : ParamSamplePoints :=
  { paramSamplePoints := [{ points := [0, 1], idMultiplier := 0 }],
    profiles := [],
    sigmas := [] }

/-- Another admissible `std::partial_sort`: sort the whole range, then reverse
the order of the entries after the first `NUM_GAUSSIANS`. -/
def sortTailReversed (sws : List SigmaWeight) : List SigmaWeight :=
  (sortAll sws).take NUM_GAUSSIANS ++ ((sortAll sws).drop NUM_GAUSSIANS).reverse

/-- A schedule in which the caller cancels while the task is fitting: the
debounce elapses with the flag unset, the tasks are created and enqueued, the
cancel callback aborts the queue and sets the flag, `WaitForAllTasks` returns
and the task runs to its end. -/
def cancelDuringFit (profile : RGBProfile) (sigmas : List ℚ) : List LiveFitEvent :=
  [LiveFitEvent.wake true, LiveFitEvent.task, LiveFitEvent.task, LiveFitEvent.abort,
   LiveFitEvent.setCancel, LiveFitEvent.waitReturns, LiveFitEvent.finish profile sigmas]

/-- A schedule in which the caller cancels during the debounce: the callback
aborts the queue and sets the flag, the task wakes up before the two seconds
have passed, and further events follow. -/
def cancelDuringDelay : List LiveFitEvent :=
  [LiveFitEvent.wake false, LiveFitEvent.abort, LiveFitEvent.setCancel]

/-- The state of the loop after the `ID` line of `gridLines`: strides assigned,
six empty profiles allocated. -/
def gridHeaderState : ParserState :=
  { wantSamplePoints := false, rgbColumnIndex := 3, minColumns := 5, totalProfiles := 6,
    psp := { paramSamplePoints := gridTable.paramSamplePoints,
             profiles := List.replicate 6 { red := [], green := [], blue := [] },
             sigmas := [1] } }

/-! ## The type `float` in binary32

The second reading of `float`: IEEE 754 binary32 with the default rounding,
to nearest and ties to even, gradual underflow, and no wider intermediate
precision, so that every operation of the source rounds once. -/

/-- A value of the C type `float`: a NaN, an infinity with its sign, or a finite
number, given by its value (`fin q` is a `float` when `q` is a binary32 number,
see `F32.IsBinary32`). The payload of a NaN and the sign of a zero are not
recorded: no comparison tells them apart, and where a zero divides, it counts as
`+0`. -/
inductive F32 where
  | nan : F32
  | inf (negative : Bool) : F32
  | fin (value : ℚ) : F32
deriving DecidableEq

namespace F32

/-- The integer nearest to `x`, the even one of the two when `x` is half-way. -/
def roundHalfEven (x : ℚ) : Int :=
  if x - ⌊x⌋ < 1 / 2 then ⌊x⌋
  else if 1 / 2 < x - ⌊x⌋ then ⌊x⌋ + 1
  else if ⌊x⌋ % 2 = 0 then ⌊x⌋ else ⌊x⌋ + 1

/-- The search for the exponent of `x`: the first `e` among `e`, `e + 1`, ...
with `|x| < 2^(e+1)`, and `e + fuel` when `fuel` candidates have failed. -/
def exponentFrom (x : ℚ) : Nat → Int → Int
  | 0, e => e
  | fuel + 1, e => if |x| < 2 ^ (e + 1) then e else exponentFrom x fuel (e + 1)

/-- The exponent that fixes the spacing of the binary32 numbers around `x`: the
least `e` from `-126` (the exponent of the subnormal numbers and of the smallest
normal ones) to `127` with `|x| < 2^(e+1)`, and `128` when `|x| ≥ 2^128`. -/
def exponent (x : ℚ) : Int := exponentFrom x 254 (-126)

/-- The number `x` rounded to 24 significant bits (to a multiple of `2^-149`
below the normal range): the multiple of `2^(e-23)` nearest to `x`, ties to the
even multiple, for the exponent `e` of `x`. -/
def roundQ (x : ℚ) : ℚ :=
  (roundHalfEven (x / 2 ^ (exponent x - 23)) : ℚ) * 2 ^ (exponent x - 23)

/-- The `float` nearest to the real number `x`: `x` rounded to 24 significant
bits, and an infinity when that reaches `2^128`. -/
def round (x : ℚ) : F32 :=
  if |roundQ x| < 2 ^ 128 then fin (roundQ x) else inf (decide (x < 0))

/-- The value `fin q` is a `float`: `q` is a binary32 number, that is, rounding
leaves it as it is. A NaN and the infinities are `float`s. -/
def IsBinary32 : F32 → Prop
  | fin q => round q = fin q
  | _ => True

instance (a : F32) : Decidable (IsBinary32 a) :=
  match a with
  | nan => isTrue trivial
  | inf _ => isTrue trivial
  | fin q => inferInstanceAs (Decidable (round q = fin q))

/-- The unary `-`. -/
def neg : F32 → F32
  | nan => nan
  | inf s => inf (!s)
  | fin x => fin (-x)

/-- The operator `+` of two `float`s. -/
def add : F32 → F32 → F32
  | nan, _ => nan
  | _, nan => nan
  | inf s, inf t => if s = t then inf s else nan
  | inf s, fin _ => inf s
  | fin _, inf t => inf t
  | fin x, fin y => round (x + y)

/-- The operator `-` of two `float`s. -/
def sub (a b : F32) : F32 := add a (neg b)

/-- The operator `*` of two `float`s. -/
def mul : F32 → F32 → F32
  | nan, _ => nan
  | _, nan => nan
  | inf s, inf t => inf (xor s t)
  | inf s, fin y => if y = 0 then nan else inf (xor s (decide (y < 0)))
  | fin x, inf t => if x = 0 then nan else inf (xor (decide (x < 0)) t)
  | fin x, fin y => round (x * y)

/-- The operator `/` of two `float`s. -/
def div : F32 → F32 → F32
  | nan, _ => nan
  | _, nan => nan
  | inf _, inf _ => nan
  | inf s, fin y => inf (xor s (decide (y < 0)))
  | fin _, inf _ => fin 0
  | fin x, fin y =>
    if y = 0 then (if x = 0 then nan else inf (decide (x < 0))) else round (x / y)

/-- The function `abs` on a `float`. -/
def abs : F32 → F32
  | nan => nan
  | inf _ => inf false
  | fin x => fin |x|

/-- The operator `<`: false when an operand is a NaN. -/
def lt : F32 → F32 → Bool
  | nan, _ => false
  | _, nan => false
  | inf s, inf t => s && !t
  | inf s, fin _ => s
  | fin _, inf t => !t
  | fin x, fin y => decide (x < y)

/-- The operator `<=`: false when an operand is a NaN. -/
def le : F32 → F32 → Bool
  | nan, _ => false
  | _, nan => false
  | inf s, inf t => s || !t
  | inf s, fin _ => s
  | fin _, inf t => !t
  | fin x, fin y => decide (x ≤ y)

/-- The operator `>`. -/
def gt (a b : F32) : Bool := lt b a

/-- The operator `>=`. -/
def ge (a b : F32) : Bool := le b a

/-- The operator `==`: false when an operand is a NaN. -/
def eq (a b : F32) : Bool := decide (a ≠ nan ∧ a = b)

end F32

/-! ## The interpolator and the reducer in binary32

The same functions of `GaussianParams.cpp` as above, with `float` read as
binary32: every `float` operation of the source is one operation of `F32`. -/

namespace Binary32

/-- Modelled from the spec: the type `SingleProfile` (declared in the missing
`GaussianParams.h`), a `vector<float>`. -/
abbrev SingleProfile := List F32

/-- Modelled from the spec: the structure `RGBProfile` (declared in the missing
`GaussianParams.h`). -/
structure RGBProfile where
  red : SingleProfile
  green : SingleProfile
  blue : SingleProfile
deriving DecidableEq

/-- Modelled from the spec: the structure `SamplePoints` (declared in the missing
`GaussianParams.h`). -/
structure SamplePoints where
  points : List F32
  idMultiplier : Int
deriving DecidableEq

/-- Modelled from the spec: the type of the loaded table `psp` (declared in the
missing `GaussianParams.h`). -/
structure ParamSamplePoints where
  paramSamplePoints : List SamplePoints
  profiles : List RGBProfile
  sigmas : List F32
deriving DecidableEq

/-- The structure `LerpStruct` of `GaussianParams.cpp`. -/
structure LerpStruct where
  minId : Nat
  maxId : Nat
  lerpAmount : F32
deriving DecidableEq

/-- The scan `while (points[id] < sample) id++` of `searchLerp`. The first
argument is the part of `points` from index `id` on, so its head is
`points[id]`; running off the end of the vector is a failure. -/
def searchLerp.scan : List F32 → F32 → Nat → Option Nat
  | [], _, _ => none
  | p :: rest, sample, id =>
    if F32.lt p sample then searchLerp.scan rest sample (id + 1) else some id

/-- The function `searchLerp(sps, sample)`. -/
def searchLerp (sps : SamplePoints) (sample : F32) : Option LerpStruct :=
  match sps.points with
  | [] => none
  | p0 :: rest =>
    if F32.le sample p0 then
      some { minId := 0, maxId := 0, lerpAmount := F32.fin 0 }
    else if F32.ge sample ((p0 :: rest).getLast (List.cons_ne_nil p0 rest)) then
      some { minId := (p0 :: rest).length - 1, maxId := (p0 :: rest).length - 1,
             lerpAmount := F32.fin 0 }
    else
      match searchLerp.scan rest sample 1 with
      | none => none
      | some id =>
        let pid := (p0 :: rest).getD id (F32.fin 0)
        let pprev := (p0 :: rest).getD (id - 1) (F32.fin 0)
        if F32.gt pid sample then
          some { minId := id - 1, maxId := id,
                 lerpAmount := F32.div (F32.sub sample pprev) (F32.sub pid pprev) }
        else
          some { minId := id, maxId := id, lerpAmount := F32.fin 0 }

/-- The function `lerp(amount, p1, p2)` on `SingleProfile`, each entry
`(1.f - amount) * p1[i] + amount * p2[i]`; the `ASSERT` on the sizes is a
failure when it does not hold. -/
def SingleProfile.lerp (amount : F32) (p1 p2 : SingleProfile) : Option SingleProfile :=
  if p1.length = p2.length then
    some (List.zipWith
      (fun a b => F32.add (F32.mul (F32.sub (F32.fin 1) amount) a) (F32.mul amount b)) p1 p2)
  else none

/-- The function `lerp(amount, p1, p2)` on `RGBProfile`. -/
def RGBProfile.lerp (amount : F32) (p1 p2 : RGBProfile) : Option RGBProfile :=
  match SingleProfile.lerp amount p1.red p2.red,
        SingleProfile.lerp amount p1.green p2.green,
        SingleProfile.lerp amount p1.blue p2.blue with
  | some r, some g, some b => some { red := r, green := g, blue := b }
  | _, _, _ => none

/-- The read `psp.profiles[id]` with an `int` index. -/
def profileAt (psp : ParamSamplePoints) (id : Int) : Option RGBProfile :=
  if 0 ≤ id then psp.profiles[id.toNat]? else none

/-- The recursion of `nsample`. The list argument is the part of the array
`lerps` from index `dim` on, so its head is `lerps[dim]`. -/
def nsample.go (psp : ParamSamplePoints) (nDims : Int) :
    List LerpStruct → Nat → Int → Option RGBProfile
  | [], _, _ => none
  | nextLerp :: rest, dim, baseId =>
    match psp.paramSamplePoints[dim]? with
    | none => none
    | some sp =>
      let multiplier := sp.idMultiplier
      let minId := wrapInt (baseId + wrapInt ((nextLerp.minId : Int) * multiplier))
      let leaf : Bool := decide ((dim : Int) = nDims - 1)
      match (if leaf then profileAt psp minId else nsample.go psp nDims rest (dim + 1) minId) with
      | none => none
      | some p1 =>
        if nextLerp.maxId ≠ nextLerp.minId then
          let maxId := wrapInt (baseId + wrapInt ((nextLerp.maxId : Int) * multiplier))
          match (if leaf then profileAt psp maxId
                 else nsample.go psp nDims rest (dim + 1) maxId) with
          | none => none
          | some p2 => RGBProfile.lerp nextLerp.lerpAmount p1 p2
        else some p1

/-- The method `GaussianParamsCalculator::nsample(baseId, nDims, dim, lerps)`. -/
def nsample (psp : ParamSamplePoints) (baseId : Int) (nDims : Int) (dim : Nat)
    (lerps : List LerpStruct) : Option RGBProfile :=
  nsample.go psp nDims (lerps.drop dim) dim baseId

/-- The loop of `sample` that pushes `searchLerp(psp.paramSamplePoints[d], params[d])`
for every dimension `d`; `params` is a C array, reading past its end fails. -/
def sample.searches : List SamplePoints → List F32 → Option (List LerpStruct)
  | [], _ => some []
  | _ :: _, [] => none
  | sp :: sps, q :: qs =>
    match searchLerp sp q, sample.searches sps qs with
    | some l, some ls => some (l :: ls)
    | _, _ => none

/-- The method `GaussianParamsCalculator::sample(params)`. -/
def sample (psp : ParamSamplePoints) (params : List F32) : Option RGBProfile :=
  match sample.searches psp.paramSamplePoints params with
  | none => none
  | some lerps => nsample psp 0 (psp.paramSamplePoints.length : Int) 0 lerps

/-- The loop over `sps.rbegin() .. sps.rend()` of the loader: the last dimension
is visited first. Returns the updated dimensions and the final value of
`multiplier`. -/
def assignMultipliers : List SamplePoints → List SamplePoints × Int
  | [] => ([], 1)
  | sp :: rest =>
    let r := assignMultipliers rest
    ({ sp with idMultiplier := r.2 } :: r.1, wrapInt (r.2 * wrapInt (sp.points.length : Int)))

/-- Modelled from the spec: the DirectX vector `XMFLOAT3`, a coefficient triple. -/
structure XMFLOAT3 where
  x : F32
  y : F32
  z : F32
deriving DecidableEq

/-- Modelled from the spec: the structure `GaussianParams` (declared in the
missing `GaussianParams.h`), the arrays `sigmas[NUM_GAUSSIANS]` and
`coeffs[NUM_GAUSSIANS]`. -/
structure GaussianParams where
  sigmas : List F32
  coeffs : List XMFLOAT3
deriving DecidableEq

/-- The declaration `GaussianParams gp;`: both arrays have `NUM_GAUSSIANS` slots.
Every slot is assigned before `gp` is returned, so the initial content, zero
here, is never observed. -/
def GaussianParams.fresh : GaussianParams :=
  { sigmas := List.replicate NUM_GAUSSIANS (F32.fin 0),
    coeffs := List.replicate NUM_GAUSSIANS { x := F32.fin 0, y := F32.fin 0, z := F32.fin 0 } }

/-- The structure `SigmaWeight` of `GaussianParams.cpp`. -/
structure SigmaWeight where
  id : Nat
  weight : F32
deriving DecidableEq

instance : Inhabited SigmaWeight := ⟨{ id := 0, weight := F32.fin 0 }⟩

/-- The value `sw.weight` of term `sid` after the body of the first loop of the
reduce branch: with `r = profile.red[sid] * 0.2126f`, `g = profile.green[sid] *
0.7152f` and `b = profile.blue[sid] * 0.0722f`, the sum `r * r + g * g + b * b`
added to the initial `0.f`. The literals are the decimals rounded to `float`. -/
def luminanceWeight (profile : RGBProfile) (sid : Nat) : F32 :=
  let r := F32.mul (profile.red.getD sid (F32.fin 0)) (F32.round (2126 / 10000))
  let g := F32.mul (profile.green.getD sid (F32.fin 0)) (F32.round (7152 / 10000))
  let b := F32.mul (profile.blue.getD sid (F32.fin 0)) (F32.round (722 / 10000))
  F32.add (F32.fin 0) (F32.add (F32.add (F32.mul r r) (F32.mul g g)) (F32.mul b b))

/-- The first loop of the reduce branch: one `SigmaWeight` per sigma term (the
totals `rtotal`, `gtotal`, `btotal` are computed by the source and never read). -/
def sigmaWeights (profile : RGBProfile) (n : Nat) : List SigmaWeight :=
  (List.range n).map fun sid => { id := sid, weight := luminanceWeight profile sid }

/-- The comparison passed to `partial_sort`. -/
def weightOrder (sw1 sw2 : SigmaWeight) : Bool :=
  if F32.gt sw1.weight sw2.weight then true
  else if F32.eq sw1.weight sw2.weight then decide (sw1.id > sw2.id)
  else false

/-- The comparison passed to `sort`, as the order `sort` leaves its range in
(the ids of the range are distinct). -/
def idOrder (sw1 sw2 : SigmaWeight) : Prop := sw1.id ≤ sw2.id

instance : DecidableRel idOrder := fun a b => inferInstanceAs (Decidable (a.id ≤ b.id))

instance : IsTotal SigmaWeight idOrder := ⟨fun a b => Nat.le_total a.id b.id⟩

instance : IsTrans SigmaWeight idOrder := ⟨fun _ _ _ h1 h2 => Nat.le_trans h1 h2⟩

/-- The loop that writes the selected terms into `gp`. -/
def writeSelected (profile : RGBProfile) (sigmas : List F32) (sws : List SigmaWeight)
    (gp : GaussianParams) : GaussianParams :=
  (List.range NUM_GAUSSIANS).foldl
    (fun gp swid =>
      let sid := (sws.getD swid default).id
      { sigmas := gp.sigmas.set swid (sigmas.getD sid (F32.fin 0)),
        coeffs := gp.coeffs.set swid
          { x := profile.red.getD sid (F32.fin 0), y := profile.green.getD sid (F32.fin 0),
            z := profile.blue.getD sid (F32.fin 0) } })
    gp

/-- The value `abs(sigma - sigmas[sws[selswid].id])` of the merge loop. -/
def slotDistance (sigmas : List F32) (sws : List SigmaWeight) (sigma : F32) (selswid : Nat) :
    F32 :=
  F32.abs (F32.sub sigma (sigmas.getD (sws.getD selswid default).id (F32.fin 0)))

/-- The inner loop of the merge: the slot whose sigma is nearest to `sigma`; a
later slot replaces the slot held only when `diff < nearestdiff`. -/
def nearestSelected (sigmas : List F32) (sws : List SigmaWeight) (sigma : F32) : Nat :=
  ((List.range' 1 (NUM_GAUSSIANS - 1)).foldl
    (fun (acc : Nat × F32) selswid =>
      let diff := slotDistance sigmas sws sigma selswid
      if F32.lt diff acc.2 then (selswid, diff) else acc)
    (0, slotDistance sigmas sws sigma 0)).1

/-- The body of the merge loop for the entry `sw = sws[swid]`: its coefficients
are added to the slot `nearestswid`. -/
def mergeStep (profile : RGBProfile) (sigmas : List F32) (sws : List SigmaWeight)
    (gp : GaussianParams) (sw : SigmaWeight) : GaussianParams :=
  let sid := sw.id
  let sigma := sigmas.getD sid (F32.fin 0)
  let nearestswid := nearestSelected sigmas sws sigma
  let c := gp.coeffs.getD nearestswid { x := F32.fin 0, y := F32.fin 0, z := F32.fin 0 }
  { sigmas := gp.sigmas,
    coeffs := gp.coeffs.set nearestswid
      { x := F32.add c.x (profile.red.getD sid (F32.fin 0)),
        y := F32.add c.y (profile.green.getD sid (F32.fin 0)),
        z := F32.add c.z (profile.blue.getD sid (F32.fin 0)) } }

/-- The merge loop over the entries `sws[NUM_GAUSSIANS ..]`. -/
def mergeRest (profile : RGBProfile) (sigmas : List F32) (sws : List SigmaWeight)
    (gp : GaussianParams) : GaussianParams :=
  (sws.drop NUM_GAUSSIANS).foldl (mergeStep profile sigmas sws) gp

/-- The `else` branch: pad with zeros in front, then copy the terms. -/
def padZeros (profile : RGBProfile) (sigmas : List F32) (gp : GaussianParams) : GaussianParams :=
  let numZeros := NUM_GAUSSIANS - sigmas.length
  let gp := (List.range numZeros).foldl
    (fun gp i =>
      { sigmas := gp.sigmas.set i (F32.fin 0),
        coeffs := gp.coeffs.set i { x := F32.fin 0, y := F32.fin 0, z := F32.fin 0 } })
    gp
  (List.range sigmas.length).foldl
    (fun gp sid =>
      { sigmas := gp.sigmas.set (numZeros + sid) (sigmas.getD sid (F32.fin 0)),
        coeffs := gp.coeffs.set (numZeros + sid)
          { x := profile.red.getD sid (F32.fin 0), y := profile.green.getD sid (F32.fin 0),
            z := profile.blue.getD sid (F32.fin 0) } })
    gp

/-- The method `GaussianParamsCalculator::getParamsFromRGBProfile`. The library
function `std::partial_sort` is the parameter `partial_sort` (its contract is
`IsPartialSort`); `std::sort` by id is an insertion sort. A channel shorter than
`sigmas` makes the read `profile.red[sid]` of the first loop fail. -/
def getParamsFromRGBProfile (partial_sort : List SigmaWeight → List SigmaWeight)
    (profile : RGBProfile) (sigmas : List F32) : Option GaussianParams :=
  if profile.red.length < sigmas.length ∨ profile.green.length < sigmas.length
      ∨ profile.blue.length < sigmas.length then none
  else if sigmas.length > NUM_GAUSSIANS then
    let sws := partial_sort (sigmaWeights profile sigmas.length)
    let sws := (sws.take NUM_GAUSSIANS).insertionSort idOrder ++ sws.drop NUM_GAUSSIANS
    some (mergeRest profile sigmas sws (writeSelected profile sigmas sws GaussianParams.fresh))
  else
    some (padZeros profile sigmas GaussianParams.fresh)

/-- One admissible `std::partial_sort`: sort the whole range. -/
def sortAll (sws : List SigmaWeight) : List SigmaWeight :=
  sws.insertionSort (fun a b => weightOrder b a = false)

/-- Another admissible `std::partial_sort`: sort the whole range, then reverse
the order of the entries after the first `NUM_GAUSSIANS`. -/
def sortTailReversed (sws : List SigmaWeight) : List SigmaWeight :=
  (sortAll sws).take NUM_GAUSSIANS ++ ((sortAll sws).drop NUM_GAUSSIANS).reverse

end Binary32

/-! ## Vocabulary of the statements in binary32 -/

instance {α : Type} [DecidableEq α] (comp : α → α → Bool) (k : Nat) (input output : List α) :
    Decidable (IsPartialSort comp k input output) :=
  inferInstanceAs (Decidable (output.Perm input ∧
    (output.take k).Pairwise (fun a b => comp b a = false) ∧
    ∀ a ∈ output.take k, ∀ b ∈ output.drop k, comp b a = false))

namespace Binary32

/-- The number of cells of the grid: the product of the sizes of its dimensions. -/
def gridSize (sps : List SamplePoints) : Nat :=
  (sps.map (fun sp => sp.points.length)).prod

/-- The sizes and the stride of a dimension, as a dimension of the exact
reading with every coordinate replaced by 0: what the index arithmetic of
`nsample` depends on. -/
def SamplePoints.layout (sp : SamplePoints) : Skin.SamplePoints :=
  { points := sp.points.map (fun _ => 0), idMultiplier := sp.idMultiplier }

/-- The strides of the table and the size of its profile array are those the
`ID` branch of the loader leaves: the multiplier loop, run over the dimensions
of the table, assigns the strides the table has, and `profiles.resize(multiplier)`
gives the array the final value of the `int` `multiplier` as its size. -/
def SetByLoader (psp : ParamSamplePoints) : Prop :=
  assignMultipliers psp.paramSamplePoints =
    (psp.paramSamplePoints, (psp.profiles.length : Int))

instance (psp : ParamSamplePoints) : Decidable (SetByLoader psp) :=
  inferInstanceAs (Decidable (assignMultipliers psp.paramSamplePoints =
    (psp.paramSamplePoints, (psp.profiles.length : Int))))

/-- The reads of `psp.profiles` in a call of `nsample`: the recursion of
`nsample.go` with every read `psp.profiles[minId]`, `psp.profiles[maxId]`
recorded instead of performed, as the pair of the dimension `dim` of the call
that reads and the index it reads at, and with the lists of the two sub-calls
joined where `nsample` interpolates. Reading `lerps[dim]` or
`psp.paramSamplePoints[dim]` outside the array is a failure, as in `nsample.go`. -/
def nsample.reads (psp : ParamSamplePoints) (nDims : Int) :
    List LerpStruct → Nat → Int → Option (List (Nat × Int))
  | [], _, _ => none
  | nextLerp :: rest, dim, baseId =>
    match psp.paramSamplePoints[dim]? with
    | none => none
    | some sp =>
      let multiplier := sp.idMultiplier
      let minId := wrapInt (baseId + wrapInt ((nextLerp.minId : Int) * multiplier))
      let leaf : Bool := decide ((dim : Int) = nDims - 1)
      match (if leaf then some [(dim, minId)]
             else nsample.reads psp nDims rest (dim + 1) minId) with
      | none => none
      | some l1 =>
        if nextLerp.maxId ≠ nextLerp.minId then
          let maxId := wrapInt (baseId + wrapInt ((nextLerp.maxId : Int) * multiplier))
          match (if leaf then some [(dim, maxId)]
                 else nsample.reads psp nDims rest (dim + 1) maxId) with
          | none => none
          | some l2 => some (l1 ++ l2)
        else some l1

/-- The binary32 value of `|sigmas[j] - sigmas[selected[k]]|`: the distance of
term `j` to slot `k`, where slot `k` holds the selected term `selected[k]`. -/
def sigmaDistance (sigmas : List F32) (selected : List Nat) (j k : Nat) : F32 :=
  F32.abs (F32.sub (sigmas.getD j (F32.fin 0)) (sigmas.getD (selected.getD k 0) (F32.fin 0)))

/-- Slot `k` is the nearest slot of term `j`: `k` is the smallest slot index
that minimises the distance of `j` over the `NUM_GAUSSIANS` slots. -/
def IsNearestSlot (sigmas : List F32) (selected : List Nat) (j k : Nat) : Prop :=
  k < NUM_GAUSSIANS ∧
  (∀ k', k' < NUM_GAUSSIANS →
    F32.le (sigmaDistance sigmas selected j k) (sigmaDistance sigmas selected j k') = true) ∧
  (∀ k', k' < k →
    F32.lt (sigmaDistance sigmas selected j k) (sigmaDistance sigmas selected j k') = true)

instance (sigmas : List F32) (selected : List Nat) (j k : Nat) :
    Decidable (IsNearestSlot sigmas selected j k) :=
  inferInstanceAs (Decidable (k < NUM_GAUSSIANS ∧
    (∀ k', k' < NUM_GAUSSIANS →
      F32.le (sigmaDistance sigmas selected j k) (sigmaDistance sigmas selected j k') = true) ∧
    (∀ k', k' < k →
      F32.lt (sigmaDistance sigmas selected j k) (sigmaDistance sigmas selected j k') = true)))

/-- The coefficient triple of term `j` of a profile. -/
def termCoeffs (profile : RGBProfile) (j : Nat) : XMFLOAT3 :=
  { x := profile.red.getD j (F32.fin 0), y := profile.green.getD j (F32.fin 0),
    z := profile.blue.getD j (F32.fin 0) }

/-- The triple `c` after the coefficient triples of the terms `js` are added to
it one after the other, each addition rounded to `float`. -/
def addTerms (profile : RGBProfile) (c : XMFLOAT3) (js : List Nat) : XMFLOAT3 :=
  js.foldl
    (fun c j =>
      { x := F32.add c.x (profile.red.getD j (F32.fin 0)),
        y := F32.add c.y (profile.green.getD j (F32.fin 0)),
        z := F32.add c.z (profile.blue.getD j (F32.fin 0)) })
    c

end Binary32

/-! ## Example data in binary32 -/

namespace Binary32

/-- A dimension with the points 0 and 3. -/
def thirdsDimension : SamplePoints :=
  { points := [F32.fin 0, F32.fin 3], idMultiplier := 1 }

/-- A dimension with the points `-1` and `2^-30`: next to `-1` the `float`s are
`2^-24` apart, so the `float` sum of 1 and a number up to `2^-25` is 1. -/
def roundedDimension : SamplePoints :=
  { points := [F32.fin (-1), F32.fin (1 / 2 ^ 30)], idMultiplier := 1 }

/-- A dimension with the single point 0. -/
def onePointDimension : SamplePoints :=
  { points := [F32.fin 0], idMultiplier := 1 }

/-- A dimension whose single point is a NaN. -/
def nanPointDimension : SamplePoints :=
  { points := [F32.nan], idMultiplier := 1 }

/-- A dimension with the points `-2^127` and `3 * 2^126`, further apart than
the largest `float`. -/
def wideDimension : SamplePoints :=
  { points := [F32.fin (-(2 ^ 127)), F32.fin (3 * 2 ^ 126)], idMultiplier := 1 }

end Binary32

namespace Binary32

/-- The two-dimensional example table (3 and 2 points, one sigma, six cells) in
binary32. -/
def gridTable : ParamSamplePoints :=
  { paramSamplePoints := [{ points := [F32.fin 0, F32.fin 1, F32.fin 2], idMultiplier := 2 },
                          { points := [F32.fin 0, F32.fin 5], idMultiplier := 1 }],
    profiles := [{ red := [F32.fin 0], green := [F32.fin 1], blue := [F32.fin 2] },
                 { red := [F32.fin 1], green := [F32.fin 2], blue := [F32.fin 2] },
                 { red := [F32.fin 2], green := [F32.fin 3], blue := [F32.fin 2] },
                 { red := [F32.fin 3], green := [F32.fin 4], blue := [F32.fin 2] },
                 { red := [F32.fin 4], green := [F32.fin 5], blue := [F32.fin 2] },
                 { red := [F32.fin 5], green := [F32.fin 0], blue := [F32.fin 2] }],
    sigmas := [F32.fin 1] }

/-- A table with one dimension of one point, one sigma and one cell. -/
def oneCellTable : ParamSamplePoints :=
  { paramSamplePoints := [onePointDimension],
    profiles := [{ red := [F32.fin 1], green := [F32.fin 1], blue := [F32.fin 1] }],
    sigmas := [F32.fin 1] }

end Binary32

namespace Binary32

/-- The binary32 profile with the given values, each of them a `float`. -/
def RGBProfile.ofValues (p : Skin.RGBProfile) : RGBProfile :=
  { red := p.red.map F32.fin, green := p.green.map F32.fin, blue := p.blue.map F32.fin }

end Binary32

/-- A profile of seven terms: terms 0 and 1 have one exact weight, because
`2126 * 0.7152 = 7152 * 0.2126`, and the terms 2 to 6 have a larger weight. -/
def tieProfile : RGBProfile :=
  { red := [0, 7152, 8000, 8000, 8000, 8000, 8000], green := [2126, 0, 0, 0, 0, 0, 0],
    blue := [0, 0, 0, 0, 0, 0, 0] }

/-- The seven sigmas of `tieProfile`. -/
def tieSigmas : List ℚ := [1, 2, 3, 4, 5, 6, 7]

/-- A profile of seven terms whose term 0 has a NaN as red coefficient. -/
def nanProfile : Binary32.RGBProfile :=
  { red := [F32.nan, F32.fin 1, F32.fin 1, F32.fin 1, F32.fin 1, F32.fin 1, F32.fin 1],
    green := List.replicate 7 (F32.fin 0), blue := List.replicate 7 (F32.fin 0) }

/-- A profile of seven terms: the terms 0 to 5 have red 2, term 6 has red 1 and
so the least weight. -/
def farProfile : RGBProfile :=
  { red := [2, 2, 2, 2, 2, 2, 1], green := [0, 0, 0, 0, 0, 0, 0],
    blue := [0, 0, 0, 0, 0, 0, 0] }

/-- The seven sigmas of `farProfile`: six small ones, `k / 2^20` for `k = 1..6`,
and 1024. Next to 1024 the `float`s are `2^-14` apart or more, so the `float`
difference of 1024 and any of the small sigmas is 1024. -/
def farSigmas : List ℚ :=
  [1 / 2 ^ 20, 2 / 2 ^ 20, 3 / 2 ^ 20, 4 / 2 ^ 20, 5 / 2 ^ 20, 6 / 2 ^ 20, 1024]

/-- The sigmas of `farProfile` with a NaN as sigma of term 6. -/
def nanSigmas : List F32 :=
  [F32.fin 1, F32.fin 2, F32.fin 3, F32.fin 4, F32.fin 5, F32.fin 6, F32.nan]

/-- A profile of eight terms: the terms 0 to 5 have green 4 and the larger
weights; the red coefficients are `2^24` for term 0, 1 for term 6 and 2 for
term 7. From `2^24` on the `float`s are 2 apart. -/
def orderProfile : RGBProfile :=
  { red := [16777216, 0, 0, 0, 0, 0, 1, 2], green := [4, 4, 4, 4, 4, 4, 0, 0],
    blue := [0, 0, 0, 0, 0, 0, 0, 0] }

/-- The eight sigmas of `orderProfile`: the terms 6 and 7 are nearest to term 0. -/
def orderSigmas : List ℚ := [1, 10, 20, 30, 40, 50, 2, 3]

end Skin

deriving instance DecidableEq for Except

/-! # Theorems -/

namespace Skin

/-! ## Helper lemmas: the array-writing loops -/

theorem foldl_set_getElem? {α : Type} (f : Nat → α) (m : Nat) (n : Nat) (l : List α) (j : Nat) :
    ((List.range n).foldl (fun acc i => acc.set (m + i) (f i)) l)[j]? =
      if m ≤ j ∧ j < m + n ∧ j < l.length then some (f (j - m)) else l[j]? := by
  induction n with
  | zero =>
    have : ¬ (m ≤ j ∧ j < m ∧ j < l.length) := by omega
    simp [this]
  | succ n ih =>
    rw [List.range_succ, List.foldl_append]
    simp only [List.foldl_cons, List.foldl_nil]
    rw [List.getElem?_set, ih]
    have hlen : ((List.range n).foldl (fun acc i => acc.set (m + i) (f i)) l).length = l.length := by
      clear ih
      induction n with
      | zero => simp
      | succ k ihk => rw [List.range_succ, List.foldl_append]; simp [ihk]
    rw [hlen]
    by_cases h1 : m + n = j
    · subst h1
      by_cases h2 : m + n < l.length
      · have : m ≤ m + n ∧ m + n < m + (n + 1) ∧ m + n < l.length := by omega
        simp [h2, this]
      · have : ¬ (m ≤ m + n ∧ m + n < m + (n + 1) ∧ m + n < l.length) := by omega
        have h3 : l.length ≤ m + n := by omega
        simp [h2, this, List.getElem?_eq_none h3]
    · simp only [h1, if_false]
      by_cases h4 : m ≤ j ∧ j < m + n ∧ j < l.length
      · have : m ≤ j ∧ j < m + (n + 1) ∧ j < l.length := by omega
        simp [h4, this]
      · have : ¬ (m ≤ j ∧ j < m + (n + 1) ∧ j < l.length) := by omega
        simp [h4, this]

theorem foldl_set_length {α : Type} (idx : Nat → Nat) (f : Nat → α) (steps : List Nat) (l : List α) :
    (steps.foldl (fun acc i => acc.set (idx i) (f i)) l).length = l.length := by
  induction steps generalizing l with
  | nil => rfl
  | cons a t ih => simp [ih]

theorem foldl_gp_eq (idx : Nat → Nat) (s : Nat → ℚ) (c : Nat → XMFLOAT3) (steps : List Nat)
    (gp : GaussianParams) :
    steps.foldl (fun gp i =>
        ({ sigmas := gp.sigmas.set (idx i) (s i), coeffs := gp.coeffs.set (idx i) (c i) } :
          GaussianParams)) gp =
      { sigmas := steps.foldl (fun l i => l.set (idx i) (s i)) gp.sigmas,
        coeffs := steps.foldl (fun l i => l.set (idx i) (c i)) gp.coeffs } := by
  induction steps generalizing gp with
  | nil => rfl
  | cons a t ih => simp [ih]

end Skin

namespace Skin

theorem padZeros_eq (profile : RGBProfile) (sigmas : List ℚ) (gp : GaussianParams) :
    padZeros profile sigmas gp =
      { sigmas := (List.range sigmas.length).foldl
          (fun l sid => l.set ((NUM_GAUSSIANS - sigmas.length) + sid) (sigmas.getD sid 0))
          ((List.range (NUM_GAUSSIANS - sigmas.length)).foldl (fun l i => l.set (0 + i) (0 : ℚ))
            gp.sigmas),
        coeffs := (List.range sigmas.length).foldl
          (fun l sid => l.set ((NUM_GAUSSIANS - sigmas.length) + sid)
            ({ x := profile.red.getD sid 0, y := profile.green.getD sid 0,
               z := profile.blue.getD sid 0 } : XMFLOAT3))
          ((List.range (NUM_GAUSSIANS - sigmas.length)).foldl
            (fun l i => l.set (0 + i) ({ x := 0, y := 0, z := 0 } : XMFLOAT3)) gp.coeffs) } := by
  have h1 := foldl_gp_eq (fun i => 0 + i) (fun _ => 0) (fun _ => { x := 0, y := 0, z := 0 })
    (List.range (NUM_GAUSSIANS - sigmas.length)) gp
  have h2 := fun gp => foldl_gp_eq (fun sid => (NUM_GAUSSIANS - sigmas.length) + sid)
    (fun sid => sigmas.getD sid 0)
    (fun sid => { x := profile.red.getD sid 0, y := profile.green.getD sid 0,
                  z := profile.blue.getD sid 0 })
    (List.range sigmas.length) gp
  simp only [Nat.zero_add] at h1
  unfold padZeros
  simp only [Nat.zero_add]
  rw [h1, h2]

theorem padZeros_sigmas_getElem? (profile : RGBProfile) (sigmas : List ℚ)
    (hn : sigmas.length ≤ NUM_GAUSSIANS) (j : Nat) :
    (padZeros profile sigmas GaussianParams.fresh).sigmas[j]? =
      if j < NUM_GAUSSIANS - sigmas.length then some 0
      else if j < NUM_GAUSSIANS then sigmas[j - (NUM_GAUSSIANS - sigmas.length)]?
      else none := by
  rw [padZeros_eq]
  simp only [foldl_set_getElem?, foldl_set_length, GaussianParams.fresh, List.length_replicate,
    List.getElem?_replicate, List.getD_eq_getElem?_getD]
  unfold NUM_GAUSSIANS at *
  split_ifs <;> first | rfl | (exfalso; omega) | skip
  have h4 : j - (6 - sigmas.length) < sigmas.length := by omega
  simp [List.getElem?_eq_getElem h4]

theorem padZeros_coeffs_getElem? (profile : RGBProfile) (sigmas : List ℚ)
    (hn : sigmas.length ≤ NUM_GAUSSIANS) (j : Nat) :
    (padZeros profile sigmas GaussianParams.fresh).coeffs[j]? =
      if j < NUM_GAUSSIANS - sigmas.length then some { x := 0, y := 0, z := 0 }
      else if j < NUM_GAUSSIANS then
        some { x := profile.red.getD (j - (NUM_GAUSSIANS - sigmas.length)) 0,
               y := profile.green.getD (j - (NUM_GAUSSIANS - sigmas.length)) 0,
               z := profile.blue.getD (j - (NUM_GAUSSIANS - sigmas.length)) 0 }
      else none := by
  rw [padZeros_eq]
  simp only [foldl_set_getElem?, foldl_set_length, GaussianParams.fresh, List.length_replicate,
    List.getElem?_replicate]
  unfold NUM_GAUSSIANS at *
  split_ifs <;> first | rfl | (exfalso; omega)

end Skin

namespace Skin

/-! ## The reducer on at most six terms -/

/-- C2. Reducer size and padding: for a sigma list of length `n ≤ 6` and a profile
whose three channels have length `n`, `getParamsFromRGBProfile` returns a result
with 6 sigma slots and 6 coefficient slots; the slots `0 .. (6-n)-1` hold sigma 0
and coefficient (0,0,0), slot `(6-n)+i` holds `sigmas[i]` and
`(red[i], green[i], blue[i])` for every `i < n`; for `n = 6` the output is the
input in order. -/
theorem getParamsFromRGBProfile_pad (partial_sort : List SigmaWeight → List SigmaWeight)
    (profile : RGBProfile) (sigmas : List ℚ)
    (hn : sigmas.length ≤ 6)
    (hr : profile.red.length = sigmas.length)
    (hg : profile.green.length = sigmas.length)
    (hb : profile.blue.length = sigmas.length) :
    ∃ gp, getParamsFromRGBProfile partial_sort profile sigmas = some gp ∧
      gp.sigmas.length = 6 ∧ gp.coeffs.length = 6 ∧
      (∀ i, i < 6 - sigmas.length →
        gp.sigmas[i]? = some 0 ∧ gp.coeffs[i]? = some { x := 0, y := 0, z := 0 }) ∧
      (∀ i, i < sigmas.length → ∃ s r g b,
        sigmas[i]? = some s ∧ profile.red[i]? = some r ∧ profile.green[i]? = some g ∧
        profile.blue[i]? = some b ∧
        gp.sigmas[6 - sigmas.length + i]? = some s ∧
        gp.coeffs[6 - sigmas.length + i]? = some { x := r, y := g, z := b }) ∧
      (sigmas.length = 6 →
        gp.sigmas = sigmas ∧ gp.coeffs.map XMFLOAT3.x = profile.red ∧
        gp.coeffs.map XMFLOAT3.y = profile.green ∧ gp.coeffs.map XMFLOAT3.z = profile.blue) := by
  have hn' : sigmas.length ≤ NUM_GAUSSIANS := hn
  have hS := padZeros_sigmas_getElem? profile sigmas hn'
  have hC := padZeros_coeffs_getElem? profile sigmas hn'
  refine ⟨padZeros profile sigmas GaussianParams.fresh, ?_, ?_, ?_, ?_, ?_, ?_⟩
  · have h1 : ¬ (profile.red.length < sigmas.length ∨ profile.green.length < sigmas.length
        ∨ profile.blue.length < sigmas.length) := by omega
    have h2 : ¬ (sigmas.length > NUM_GAUSSIANS) := by omega
    simp only [getParamsFromRGBProfile, h1, h2, if_false]
  · rw [padZeros_eq]
    simp [foldl_set_length, GaussianParams.fresh, NUM_GAUSSIANS]
  · rw [padZeros_eq]
    simp [foldl_set_length, GaussianParams.fresh, NUM_GAUSSIANS]
  · intro i hi
    have hi' : i < NUM_GAUSSIANS - sigmas.length := hi
    rw [hS, hC]
    simp [hi']
  · intro i hi
    have h1 : ¬ (6 - sigmas.length + i < NUM_GAUSSIANS - sigmas.length) := by
      unfold NUM_GAUSSIANS; omega
    have h2 : 6 - sigmas.length + i < NUM_GAUSSIANS := by unfold NUM_GAUSSIANS; omega
    have h3 : 6 - sigmas.length + i - (NUM_GAUSSIANS - sigmas.length) = i := by
      unfold NUM_GAUSSIANS; omega
    refine ⟨sigmas[i], profile.red[i], profile.green[i], profile.blue[i], ?_, ?_, ?_, ?_, ?_, ?_⟩
    · exact List.getElem?_eq_getElem hi
    · exact List.getElem?_eq_getElem (by omega)
    · exact List.getElem?_eq_getElem (by omega)
    · exact List.getElem?_eq_getElem (by omega)
    · rw [hS, if_neg h1, if_pos h2, h3]
      exact List.getElem?_eq_getElem hi
    · rw [hC, if_neg h1, if_pos h2]
      simp only [h3]
      have e1 : profile.red[i]? = some profile.red[i] := List.getElem?_eq_getElem (by omega)
      have e2 : profile.green[i]? = some profile.green[i] := List.getElem?_eq_getElem (by omega)
      have e3 : profile.blue[i]? = some profile.blue[i] := List.getElem?_eq_getElem (by omega)
      simp [e1, e2, e3]
  · intro h6
    have hz : NUM_GAUSSIANS - sigmas.length = 0 := by unfold NUM_GAUSSIANS; omega
    refine ⟨?_, ?_, ?_, ?_⟩
    · apply List.ext_getElem?
      intro j
      rw [hS, hz]
      by_cases hj : j < NUM_GAUSSIANS
      · simp [hj]
      · have : sigmas.length ≤ j := by unfold NUM_GAUSSIANS at hj; omega
        simp [hj, List.getElem?_eq_none this]
    all_goals
      apply List.ext_getElem?
      intro j
      rw [List.getElem?_map, hC, hz]
      by_cases hj : j < NUM_GAUSSIANS
      · have hj' : j < 6 := hj
        have e1 : profile.red[j]? = some profile.red[j] := List.getElem?_eq_getElem (by omega)
        have e2 : profile.green[j]? = some profile.green[j] :=
          List.getElem?_eq_getElem (by omega)
        have e3 : profile.blue[j]? = some profile.blue[j] := List.getElem?_eq_getElem (by omega)
        simp [hj, e1, e2, e3]
      · have hj' : ¬ j < 6 := hj
        simp [hj, List.getElem?_eq_none (show profile.red.length ≤ j by omega),
          List.getElem?_eq_none (show profile.green.length ≤ j by omega),
          List.getElem?_eq_none (show profile.blue.length ≤ j by omega)]

/-- Witness for C2 on two terms. -/
theorem getParamsFromRGBProfile_pad_witness :
    ∃ gp, getParamsFromRGBProfile sortAll ⟨[1, 2], [3, 4], [5, 6]⟩ [7, 8] = some gp ∧
      gp.sigmas.length = 6 ∧ gp.coeffs.length = 6 ∧
      (∀ i, i < 6 - ([7, 8] : List ℚ).length →
        gp.sigmas[i]? = some 0 ∧ gp.coeffs[i]? = some { x := 0, y := 0, z := 0 }) ∧
      (∀ i, i < ([7, 8] : List ℚ).length → ∃ s r g b,
        ([7, 8] : List ℚ)[i]? = some s ∧ ([1, 2] : List ℚ)[i]? = some r ∧
        ([3, 4] : List ℚ)[i]? = some g ∧ ([5, 6] : List ℚ)[i]? = some b ∧
        gp.sigmas[6 - ([7, 8] : List ℚ).length + i]? = some s ∧
        gp.coeffs[6 - ([7, 8] : List ℚ).length + i]? = some { x := r, y := g, z := b }) ∧
      (([7, 8] : List ℚ).length = 6 →
        gp.sigmas = [7, 8] ∧ gp.coeffs.map XMFLOAT3.x = [1, 2] ∧
        gp.coeffs.map XMFLOAT3.y = [3, 4] ∧ gp.coeffs.map XMFLOAT3.z = [5, 6]) :=
  getParamsFromRGBProfile_pad sortAll ⟨[1, 2], [3, 4], [5, 6]⟩ [7, 8]
    (by decide) (by decide) (by decide) (by decide)

end Skin

namespace Skin

/-! ## The loader: invariants of the line loop -/

theorem wrapInt_lt (x : Int) : wrapInt x < 2147483648 := by
  unfold wrapInt; omega

theorem wrapInt_ge (x : Int) : -2147483648 ≤ wrapInt x := by
  unfold wrapInt; omega

theorem wrapInt_of_range (x : Int) (h1 : -2147483648 ≤ x) (h2 : x < 2147483648) :
    wrapInt x = x := by
  unfold wrapInt; omega

theorem wrapInt_add_wrapInt (a b : Int) : wrapInt (wrapInt a + wrapInt b) = wrapInt (a + b) := by
  unfold wrapInt; omega

/-- A property kept by every line is kept by the whole loop. -/
theorem parseLines_invariant (atoi : String → Int) (atof : String → ℚ)
    (P : ParserState → Prop)
    (hstep : ∀ st tokens st', P st → parseLine atoi atof st tokens = Except.ok st' → P st')
    (lines : List (List String)) (st st' : ParserState) (h0 : P st)
    (h : parseLines atoi atof st lines = Except.ok st') : P st' := by
  induction lines generalizing st with
  | nil =>
    simp only [parseLines, Except.ok.injEq] at h
    exact h ▸ h0
  | cons tokens rest ih =>
    simp only [parseLines] at h
    cases hl : parseLine atoi atof st tokens with
    | error e => rw [hl] at h; simp at h
    | ok st1 =>
      rw [hl] at h
      exact ih st1 (hstep st tokens st1 h0 hl) h

theorem resizeProfiles_length (profiles : List RGBProfile) (n : Nat) :
    (resizeProfiles profiles n).length = n := by
  unfold resizeProfiles
  simp only [List.length_append, List.length_take, List.length_replicate]
  omega

theorem parseSamplePoints_profiles (atoi : String → Int) (atof : String → ℚ) (st : ParserState)
    (tokens : List String) :
    (parseSamplePoints atoi atof st tokens).psp.profiles = st.psp.profiles := by
  unfold parseSamplePoints
  dsimp only
  split_ifs <;> rfl

theorem parseProfileRow_profiles_length (atoi : String → Int) (atof : String → ℚ)
    (st : ParserState) (tokens : List String) :
    (parseProfileRow atoi atof st tokens).psp.profiles.length = st.psp.profiles.length := by
  unfold parseProfileRow
  dsimp only
  split_ifs <;> simp

theorem parseLine_profiles_length (atoi : String → Int) (atof : String → ℚ)
    (st st' : ParserState) (tokens : List String)
    (h0 : st.psp.profiles.length < 2147483648)
    (h : parseLine atoi atof st tokens = Except.ok st') :
    st'.psp.profiles.length < 2147483648 := by
  unfold parseLine at h
  split_ifs at h with h1 h2 h3
  · simp only [Except.ok.injEq] at h; subst h; exact h0
  · unfold parseHeader at h
    dsimp only at h
    split_ifs at h with h4 h5
    simp only [Except.ok.injEq] at h
    subst h
    simp only [resizeProfiles_length]
    have := wrapInt_lt
      ((assignMultipliers st.psp.paramSamplePoints).2)
    have hlt : (assignMultipliers st.psp.paramSamplePoints).2 < 2147483648 := by
      cases hs : st.psp.paramSamplePoints with
      | nil => simp [assignMultipliers]
      | cons sp rest => simp only [assignMultipliers]; exact wrapInt_lt _
    omega
  · simp only [Except.ok.injEq] at h; subst h
    rw [parseSamplePoints_profiles]; exact h0
  · simp only [Except.ok.injEq] at h; subst h
    rw [parseProfileRow_profiles_length]; exact h0

/-- Every table the loader returns has fewer than `2^31` profiles: the profile
array is sized by an `int`. -/
theorem parseFile_profiles_length (atoi : String → Int) (atof : String → ℚ)
    (lines : List (List String)) (psp : ParamSamplePoints)
    (h : parseFile atoi atof lines = Except.ok psp) :
    psp.profiles.length < 2147483648 := by
  unfold parseFile at h
  cases hl : parseLines atoi atof ParserState.init lines with
  | error e => rw [hl] at h; simp at h
  | ok st =>
    rw [hl] at h
    simp only at h
    split_ifs at h
    simp only [Except.ok.injEq] at h
    subst h
    exact parseLines_invariant atoi atof (fun s => s.psp.profiles.length < 2147483648)
      (fun s t s' hs hst => parseLine_profiles_length atoi atof s s' t hs hst)
      lines ParserState.init st (by simp [ParserState.init]) hl

end Skin

namespace Skin

/-! ## The interpolator: `searchLerp` -/

theorem searchLerp_le_first (sp : SamplePoints) (x first : ℚ)
    (hf : sp.points.head? = some first) (hx : x ≤ first) :
    searchLerp sp x = some { minId := 0, maxId := 0, lerpAmount := 0 } := by
  unfold searchLerp
  cases hp : sp.points with
  | nil => rw [hp] at hf; simp at hf
  | cons p0 rest =>
    rw [hp] at hf
    simp only [List.head?_cons, Option.some.injEq] at hf
    subst hf
    simp [hx]

theorem searchLerp_ge_last (sp : SamplePoints) (x first last : ℚ)
    (hf : sp.points.head? = some first) (hl : sp.points.getLast? = some last)
    (hx : last ≤ x) (hfx : first < x) :
    searchLerp sp x =
      some { minId := sp.points.length - 1, maxId := sp.points.length - 1, lerpAmount := 0 } := by
  unfold searchLerp
  cases hp : sp.points with
  | nil => rw [hp] at hf; simp at hf
  | cons p0 rest =>
    rw [hp] at hf hl
    simp only [List.head?_cons, Option.some.injEq] at hf
    subst hf
    rw [List.getLast?_eq_getLast _ (List.cons_ne_nil p0 rest)] at hl
    simp only [Option.some.injEq] at hl
    have h1 : ¬ x ≤ p0 := not_le.mpr hfx
    simp only [h1, if_false, ge_iff_le, hl, hx, if_true]

theorem searches_set (sps : List SamplePoints) (q : List ℚ) (d : Nat) (sp : SamplePoints)
    (x y : ℚ) (hd : sps[d]? = some sp) (hq : q[d]? = some x)
    (h : searchLerp sp x = searchLerp sp y) :
    sample.searches sps (q.set d y) = sample.searches sps q := by
  induction sps generalizing q d with
  | nil => simp at hd
  | cons s rest ih =>
    cases q with
    | nil => simp at hq
    | cons a qs =>
      cases d with
      | zero =>
        simp only [List.getElem?_cons_zero, Option.some.injEq] at hd hq
        subst hd; subst hq
        simp only [List.set_cons_zero, sample.searches, h]
      | succ k =>
        simp only [List.getElem?_cons_succ] at hd hq
        simp only [List.set_cons_succ, sample.searches, ih qs k hd hq]

theorem sample_set (psp : ParamSamplePoints) (q : List ℚ) (d : Nat) (sp : SamplePoints)
    (x y : ℚ) (hd : psp.paramSamplePoints[d]? = some sp) (hq : q[d]? = some x)
    (h : searchLerp sp x = searchLerp sp y) :
    sample psp (q.set d y) = sample psp q := by
  unfold sample
  rw [searches_set psp.paramSamplePoints q d sp x y hd hq h]

end Skin

namespace Skin

/-- C6 (amended). Boundary clamping of `sample`: let dimension `d` of the table
have first point `first` and last point `last`, and let `x` be the coordinate of
the query `q` in dimension `d`. If `x ≤ first` then `sample q` equals `sample`
of `q` with `x` replaced by `first`, and `searchLerp` returns both bracketing
indices 0 with fraction 0. If `last ≤ x`, and `first < last` or the dimension has
a single point, then `sample q` equals `sample` of `q` with `x` replaced by
`last`, and `searchLerp` returns both bracketing indices `size - 1` with
fraction 0. -/
theorem sample_clamp (psp : ParamSamplePoints) (q : List ℚ) (d : Nat) (sp : SamplePoints)
    (x first last : ℚ)
    (hd : psp.paramSamplePoints[d]? = some sp) (hq : q[d]? = some x)
    (hf : sp.points.head? = some first) (hl : sp.points.getLast? = some last) :
    (x ≤ first →
      sample psp q = sample psp (q.set d first) ∧
      searchLerp sp x = some { minId := 0, maxId := 0, lerpAmount := 0 }) ∧
    (last ≤ x → (first < last ∨ sp.points.length = 1) →
      sample psp q = sample psp (q.set d last) ∧
      searchLerp sp x = some { minId := sp.points.length - 1, maxId := sp.points.length - 1,
                               lerpAmount := 0 }) := by
  constructor
  · intro hx
    have h1 := searchLerp_le_first sp x first hf hx
    have h2 := searchLerp_le_first sp first first hf (le_refl first)
    exact ⟨(sample_set psp q d sp x first hd hq (h1.trans h2.symm)).symm, h1⟩
  · intro hx hfl
    have key : ∀ y, last ≤ y → searchLerp sp y =
        some { minId := sp.points.length - 1, maxId := sp.points.length - 1,
               lerpAmount := 0 } := by
      intro y hy
      rcases hfl with hlt | hone
      · exact searchLerp_ge_last sp y first last hf hl hy (lt_of_lt_of_le hlt hy)
      · by_cases hy1 : y ≤ first
        · rw [searchLerp_le_first sp y first hf hy1, hone]
        · exact searchLerp_ge_last sp y first last hf hl hy (not_le.mp hy1)
    have h1 := key x hx
    have h2 := key last (le_refl last)
    exact ⟨(sample_set psp q d sp x last hd hq (h1.trans h2.symm)).symm, h1⟩

/-- Witness for C6 on the two-dimensional example table: the query `(7, 1)` is
clamped to `(2, 1)` in dimension 0. -/
theorem sample_clamp_witness :
    sample gridTable [7, 1] = sample gridTable ([7, 1].set 0 2) ∧
    searchLerp { points := [0, 1, 2], idMultiplier := 2 } 7 =
      some { minId := ([0, 1, 2] : List ℚ).length - 1, maxId := ([0, 1, 2] : List ℚ).length - 1,
             lerpAmount := 0 } :=
  (sample_clamp gridTable [7, 1] 0 { points := [0, 1, 2], idMultiplier := 2 } 7 0 2
    (by decide) (by decide) (by decide) (by decide)).2 (by decide) (Or.inl (by decide))

/-- C6 fails as stated on a loaded table whose points are not increasing: the
file `unsortedLines` loads the dimension `[5, 3]`; the query 6 is at least the
last point 3, yet `sample` at 6 reads cell 1 and `sample` at 3 reads cell 0. -/
theorem sample_clamp_counterexample :
    parseFile digitValue digitAtof unsortedLines = Except.ok unsortedTable ∧
    unsortedTable.paramSamplePoints = [{ points := [5, 3], idMultiplier := 1 }] ∧
    (3 : ℚ) ≤ 6 ∧
    sample unsortedTable [6] = some { red := [1], green := [1], blue := [2] } ∧
    sample unsortedTable ([6].set 0 3) = some { red := [1], green := [1], blue := [1] } ∧
    sample unsortedTable [6] ≠ sample unsortedTable ([6].set 0 3) := by
  decide

end Skin

namespace Skin

/-! ## The interpolator at grid points -/

theorem scan_sorted (l : List ℚ) (k i : Nat) (hs : l.Sorted (· < ·)) (hi : i < l.length) :
    searchLerp.scan l (l.getD i 0) k = some (k + i) := by
  induction l generalizing k i with
  | nil => simp at hi
  | cons p rest ih =>
    cases i with
    | zero => simp [searchLerp.scan]
    | succ j =>
      have hj : j < rest.length := by simpa using hi
      have hsr : rest.Sorted (· < ·) := hs.of_cons
      have hlt : p < rest.getD j 0 := by
        have hmem : rest.getD j 0 ∈ rest := by
          rw [List.getD_eq_getElem _ _ hj]
          exact List.getElem_mem hj
        exact List.rel_of_sorted_cons hs _ hmem
      have e : (p :: rest).getD (j + 1) 0 = rest.getD j 0 := by simp
      rw [e]
      simp only [searchLerp.scan, hlt, if_true]
      rw [ih (k + 1) j hsr hj]
      congr 1
      omega

theorem searchLerp_grid (sp : SamplePoints) (i : Nat) (hs : sp.points.Sorted (· < ·))
    (hi : i < sp.points.length) :
    searchLerp sp (sp.points.getD i 0) = some { minId := i, maxId := i, lerpAmount := 0 } := by
  unfold searchLerp
  cases hp : sp.points with
  | nil => rw [hp] at hi; simp at hi
  | cons p0 rest =>
    rw [hp] at hs hi
    cases i with
    | zero => simp
    | succ j =>
      have hj : j < rest.length := by simpa using hi
      have hsr : rest.Sorted (· < ·) := hs.of_cons
      have e : (p0 :: rest).getD (j + 1) 0 = rest.getD j 0 := by simp
      have hmem : rest.getD j 0 ∈ rest := by
        rw [List.getD_eq_getElem _ _ hj]
        exact List.getElem_mem hj
      have hlt : p0 < rest.getD j 0 := List.rel_of_sorted_cons hs _ hmem
      simp only [e]
      rw [if_neg (not_le.mpr hlt)]
      by_cases hlast : rest.getD j 0 ≥ (p0 :: rest).getLast (List.cons_ne_nil p0 rest)
      · rw [if_pos hlast]
        -- the last point is reached only at the last index
        have hjl : j + 1 = rest.length := by
          by_contra hne
          have hj2 : j + 1 < rest.length := by omega
          have hne' : rest ≠ [] := by intro h0; rw [h0] at hj; simp at hj
          have hl : (p0 :: rest).getLast (List.cons_ne_nil p0 rest) = rest.getLast hne' :=
            List.getLast_cons hne'
          rw [hl, List.getLast_eq_getElem] at hlast
          have hpw := List.pairwise_iff_getElem.mp hsr j (rest.length - 1) hj (by omega) (by omega)
          rw [List.getD_eq_getElem _ _ hj] at hlast
          exact absurd hpw (not_lt.mpr hlast)
        simp only [List.length_cons]
        have : rest.length + 1 - 1 = j + 1 := by omega
        rw [this]
      · rw [if_neg hlast]
        have hscan := scan_sorted rest 1 j hsr hj
        rw [hscan]
        have e1 : 1 + j = j + 1 := by omega
        simp only [e1, e, gt_iff_lt, lt_irrefl, if_false]

theorem searches_grid (sps : List SamplePoints) (is : List Nat)
    (hinc : ∀ sp ∈ sps, sp.points.Sorted (· < ·)) (hcell : IsCell sps is) :
    sample.searches sps (gridPoint sps is) =
      some (is.map (fun i => ({ minId := i, maxId := i, lerpAmount := 0 } : LerpStruct))) := by
  unfold IsCell at hcell
  induction hcell with
  | nil => simp [sample.searches, gridPoint]
  | @cons i sp is' sps' hi _ ih =>
    have h1 := searchLerp_grid sp i (hinc sp (List.mem_cons_self _ _)) hi
    have h2 := ih (fun s hs => hinc s (List.mem_cons_of_mem _ hs))
    simp only [gridPoint, sample.searches, h1, h2, List.map_cons]

/-- Along lerps whose bracketing indices coincide, `nsample` follows one path
and reads the profile at the wrapped flattened index. -/
theorem go_diag (psp : ParamSamplePoints) (post : List SamplePoints) (is : List Nat)
    (hcell : IsCell post is) (hne : post ≠ []) (dim : Nat) (b : Int)
    (hdrop : psp.paramSamplePoints.drop dim = post) :
    nsample.go psp (psp.paramSamplePoints.length : Int)
        (is.map (fun i => ({ minId := i, maxId := i, lerpAmount := 0 } : LerpStruct)))
        dim (wrapInt b) =
      profileAt psp (wrapInt (b + flatIndex post is)) := by
  unfold IsCell at hcell
  induction hcell generalizing dim b with
  | nil => exact absurd rfl hne
  | @cons i sp is' sps' hi hrest ih =>
    have hlen : dim < psp.paramSamplePoints.length := by
      by_contra hge
      have : psp.paramSamplePoints.drop dim = [] := List.drop_eq_nil_of_le (by omega)
      rw [this] at hdrop
      exact absurd hdrop (by simp)
    have hget : psp.paramSamplePoints[dim]? = some sp := by
      have := List.getElem?_drop psp.paramSamplePoints dim 0
      rw [hdrop] at this
      simpa using this.symm
    have hdrop' : psp.paramSamplePoints.drop (dim + 1) = sps' := by
      have := List.drop_drop 1 dim psp.paramSamplePoints
      rw [hdrop] at this
      simpa [Nat.add_comm] using this.symm
    have hN : psp.paramSamplePoints.length = dim + (sps'.length + 1) := by
      have := congrArg List.length hdrop
      simp only [List.length_drop, List.length_cons] at this
      omega
    have hstep : wrapInt (wrapInt b + wrapInt ((i : Int) * sp.idMultiplier)) =
        wrapInt (b + (i : Int) * sp.idMultiplier) := wrapInt_add_wrapInt _ _
    simp only [List.map_cons, nsample.go, hget, ne_eq, not_true_eq_false, if_false, hstep]
    by_cases hnil : sps' = []
    · subst hnil
      cases hrest
      have hleaf : ((dim : Int) = (psp.paramSamplePoints.length : Int) - 1) := by
        rw [hN]; simp
      simp only [hleaf, decide_True, if_true, flatIndex]
      rw [show b + ((i : Int) * sp.idMultiplier + 0) = b + (i : Int) * sp.idMultiplier by ring]
      cases profileAt psp (wrapInt (b + (i : Int) * sp.idMultiplier)) <;> rfl
    · have hpos : 0 < sps'.length := List.length_pos.mpr hnil
      have hnl : ¬ ((dim : Int) = (psp.paramSamplePoints.length : Int) - 1) := by
        rw [hN]; push_cast; omega
      have := ih hnil (dim + 1) (b + (i : Int) * sp.idMultiplier) hdrop'
      simp only [hnl, decide_False, Bool.false_eq_true, if_false, this, flatIndex]
      rw [show b + ((i : Int) * sp.idMultiplier + flatIndex sps' is') =
        b + (i : Int) * sp.idMultiplier + flatIndex sps' is' by ring]
      cases profileAt psp (wrapInt (b + (i : Int) * sp.idMultiplier + flatIndex sps' is')) <;> rfl

end Skin

namespace Skin

/-- C1 (amended). Round-trip identity of `sample`: for every table returned by
`parseFile` that has at least one dimension, whose dimensions have strictly
increasing points and whose profile array holds a profile at the flattened index
of every cell, and for every cell `is`, `sample` at the coordinates
`points_d[is_d]` returns exactly the stored profile
`profiles[sum_d is_d * idMultiplier_d]`. -/
theorem sample_grid_point (atoi : String → Int) (atof : String → ℚ)
    (lines : List (List String)) (psp : ParamSamplePoints)
    (hload : parseFile atoi atof lines = Except.ok psp)
    (hdims : psp.paramSamplePoints ≠ [])
    (hinc : ∀ sp ∈ psp.paramSamplePoints, sp.points.Sorted (· < ·))
    (hcells : ∀ js, IsCell psp.paramSamplePoints js →
      0 ≤ flatIndex psp.paramSamplePoints js ∧
      flatIndex psp.paramSamplePoints js < psp.profiles.length)
    (is : List Nat) (his : IsCell psp.paramSamplePoints is) :
    ∃ p, psp.profiles[(flatIndex psp.paramSamplePoints is).toNat]? = some p ∧
      sample psp (gridPoint psp.paramSamplePoints is) = some p := by
  have hL := parseFile_profiles_length atoi atof lines psp hload
  obtain ⟨h0, h1⟩ := hcells is his
  have hidx : (flatIndex psp.paramSamplePoints is).toNat < psp.profiles.length := by omega
  refine ⟨psp.profiles[(flatIndex psp.paramSamplePoints is).toNat], List.getElem?_eq_getElem hidx, ?_⟩
  unfold sample
  rw [searches_grid psp.paramSamplePoints is hinc his]
  simp only [nsample, List.drop_zero]
  have hgo := go_diag psp psp.paramSamplePoints is his hdims 0 0 (by simp)
  have hw0 : wrapInt 0 = 0 := by decide
  rw [hw0] at hgo
  rw [hgo, Int.zero_add, wrapInt_of_range _ (by omega) (by omega)]
  unfold profileAt
  rw [if_pos h0]
  exact List.getElem?_eq_getElem hidx

/-- Witness for C1: the cell `(2, 1)` of the two-dimensional example table. -/
theorem sample_grid_point_witness :
    ∃ p, gridTable.profiles[(flatIndex gridTable.paramSamplePoints [2, 1]).toNat]? = some p ∧
      sample gridTable (gridPoint gridTable.paramSamplePoints [2, 1]) = some p :=
  sample_grid_point digitValue digitAtof gridLines gridTable (by decide) (by decide) (by decide)
    (by
      intro js h
      unfold IsCell at h
      rcases h with _ | ⟨h1, h'⟩
      rcases h' with _ | ⟨h2, h''⟩
      cases h''
      simp only [gridTable, List.length_cons, List.length_nil] at h1 h2
      simp only [flatIndex, gridTable, List.length_cons, List.length_nil]
      omega)
    [2, 1] (List.Forall₂.cons (by decide) (List.Forall₂.cons (by decide) List.Forall₂.nil))

/-- C1 fails as stated on a table without dimensions: the file `zeroDimLines`
loads a table with no dimension and one complete profile; the only index tuple
is the empty one, its flattened index is 0, and `sample` returns nothing
(`nsample` reads `lerps[0]` of an empty array). -/
theorem sample_grid_point_counterexample :
    parseFile digitValue digitAtof zeroDimLines = Except.ok zeroDimTable ∧
    IsCell zeroDimTable.paramSamplePoints [] ∧
    zeroDimTable.profiles[(flatIndex zeroDimTable.paramSamplePoints []).toNat]? =
      some { red := [1], green := [1], blue := [1] } ∧
    sample zeroDimTable (gridPoint zeroDimTable.paramSamplePoints []) = none :=
  ⟨by decide, List.Forall₂.nil, by decide, by decide⟩

/-- C8. Concrete interpolation example: on the 1-dimension table with points
`[0, 1]`, `idMultiplier` 1, cell 0 = (red [1,0], green [0,1], blue [0,0]) and
cell 1 = (red [0,0], green [0,0], blue [1,1]), whatever the two sigma values,
`sample` at 0.5 returns red [0.5, 0], green [0, 0.5], blue [0.5, 0.5]. -/
theorem sample_concrete_example (s0 s1 : ℚ) :
    sample
      { paramSamplePoints := [{ points := [0, 1], idMultiplier := 1 }],
        profiles := [{ red := [1, 0], green := [0, 1], blue := [0, 0] },
                     { red := [0, 0], green := [0, 0], blue := [1, 1] }],
        sigmas := [s0, s1] }
      [1 / 2] =
    some { red := [1 / 2, 0], green := [0, 1 / 2], blue := [1 / 2, 1 / 2] } := by
  norm_num [sample, sample.searches, searchLerp, searchLerp.scan, nsample, nsample.go,
    profileAt, wrapInt, RGBProfile.lerp, SingleProfile.lerp]

end Skin

namespace Skin

/-! ## The loader: the sample-points section and the `ID` line -/

theorem parseLines_append (atoi : String → Int) (atof : String → ℚ) (st : ParserState)
    (a b : List (List String)) :
    parseLines atoi atof st (a ++ b) =
      match parseLines atoi atof st a with
      | Except.error e => Except.error e
      | Except.ok st' => parseLines atoi atof st' b := by
  induction a generalizing st with
  | nil => simp [parseLines]
  | cons t rest ih =>
    simp only [List.cons_append, parseLines]
    cases parseLine atoi atof st t with
    | error e => rfl
    | ok st1 => exact ih st1

theorem parseSamplePoints_dims (atoi : String → Int) (atof : String → ℚ) (st : ParserState)
    (tokens : List String) (h1 : tokens.length ≠ 0) (h2 : tokens.head? ≠ some "Param")
    (h3 : tokens.head? ≠ some "ID") :
    (parseSamplePoints atoi atof st tokens).psp.paramSamplePoints.length =
      st.psp.paramSamplePoints.length +
        (if dimensionLineAccepted atoi tokens then 1 else 0) := by
  unfold parseSamplePoints dimensionLineAccepted
  dsimp only
  by_cases h4 : tokens.length < 2
  · have : ¬ 2 ≤ tokens.length := by omega
    simp [h4, this]
  · by_cases h5 : atoi (tokens.getD 1 "") < 0 ∨
        ((tokens.length - 2 : Nat) : Int) < atoi (tokens.getD 1 "")
    · have : ¬ (0 ≤ atoi (tokens.getD 1 "") ∧
          atoi (tokens.getD 1 "") ≤ ((tokens.length - 2 : Nat) : Int)) := by omega
      rw [if_neg h4, if_pos h5, if_neg]
      · rfl
      · intro hc; exact this ⟨hc.2.2.2.2.1, hc.2.2.2.2.2⟩
    · have h6 : 0 ≤ atoi (tokens.getD 1 "") ∧
          atoi (tokens.getD 1 "") ≤ ((tokens.length - 2 : Nat) : Int) := by omega
      rw [if_neg h4, if_neg h5, if_pos ⟨h1, h2, h3, by omega, h6.1, h6.2⟩]
      simp

theorem parseSamplePoints_want (atoi : String → Int) (atof : String → ℚ) (st : ParserState)
    (tokens : List String) :
    (parseSamplePoints atoi atof st tokens).wantSamplePoints = st.wantSamplePoints := by
  unfold parseSamplePoints
  dsimp only
  split_ifs <;> rfl

/-- Before the `ID` line the loop does not fail, stays in the sample-points
section and holds one dimension per accepted dimension line. -/
theorem parseLines_sample_section (atoi : String → Int) (atof : String → ℚ)
    (pre : List (List String)) (hpre : ∀ l ∈ pre, l.head? ≠ some "ID")
    (st : ParserState) (hw : st.wantSamplePoints = true) :
    ∃ st', parseLines atoi atof st pre = Except.ok st' ∧ st'.wantSamplePoints = true ∧
      st'.psp.paramSamplePoints.length =
        st.psp.paramSamplePoints.length + acceptedDimensions atoi pre ∧
      st'.psp.profiles = st.psp.profiles := by
  induction pre generalizing st with
  | nil => exact ⟨st, rfl, hw, by simp [acceptedDimensions], rfl⟩
  | cons t rest ih =>
    have hrest : ∀ l ∈ rest, l.head? ≠ some "ID" := fun l hl => hpre l (List.mem_cons_of_mem _ hl)
    have ht : t.head? ≠ some "ID" := hpre t (List.mem_cons_self _ _)
    simp only [parseLines, parseLine, hw, if_true]
    by_cases h1 : t.length = 0 ∨ t.head? = some "Param"
    · rw [if_pos h1]
      obtain ⟨st', e1, e2, e3, e4⟩ := ih hrest st hw
      refine ⟨st', e1, e2, ?_, e4⟩
      have hna : ¬ dimensionLineAccepted atoi t := by
        unfold dimensionLineAccepted
        rcases h1 with h | h
        · intro hc; exact hc.1 h
        · intro hc; exact hc.2.1 h
      rw [e3]
      simp [acceptedDimensions, List.countP_cons, hna]
    · rw [if_neg h1, if_neg ht]
      have h1a : t.length ≠ 0 := fun h => h1 (Or.inl h)
      have h1b : t.head? ≠ some "Param" := fun h => h1 (Or.inr h)
      obtain ⟨st', e1, e2, e3, e4⟩ := ih hrest (parseSamplePoints atoi atof st t)
        (by rw [parseSamplePoints_want]; exact hw)
      refine ⟨st', e1, e2, ?_, ?_⟩
      · rw [e3, parseSamplePoints_dims atoi atof st t h1a h1b ht]
        simp only [acceptedDimensions, List.countP_cons]
        by_cases ha : dimensionLineAccepted atoi t
        · simp [ha]; omega
        · simp [ha]
      · rw [e4, parseSamplePoints_profiles]

/-- C9. Malformed header is rejected: when `nDims` dimension lines were accepted
before the first line whose first token is `ID`, and that `ID` line has fewer
than `nDims + 2` tokens, `parseFile` ends in the fatal format error (and so
yields no table), whatever follows the `ID` line. -/
theorem parseFile_short_header (atoi : String → Int) (atof : String → ℚ)
    (pre : List (List String)) (idLine : List String) (post : List (List String))
    (hpre : ∀ l ∈ pre, l.head? ≠ some "ID") (hid : idLine.head? = some "ID")
    (hshort : idLine.length < acceptedDimensions atoi pre + 2) :
    parseFile atoi atof (pre ++ idLine :: post) = Except.error ParseError.illFormed := by
  obtain ⟨st, e1, e2, e3, _⟩ :=
    parseLines_sample_section atoi atof pre hpre ParserState.init rfl
  have hlen : st.psp.paramSamplePoints.length = acceptedDimensions atoi pre := by
    rw [e3]; simp [ParserState.init]
  have hne : ¬ (idLine.length = 0 ∨ idLine.head? = some "Param") := by
    rintro (h | h)
    · have : idLine = [] := List.length_eq_zero.mp h
      rw [this] at hid; simp at hid
    · rw [hid] at h; simp at h
  have hhead : parseLine atoi atof st idLine = Except.error ParseError.illFormed := by
    unfold parseLine
    rw [if_pos e2, if_neg hne, if_pos hid]
    unfold parseHeader
    dsimp only
    rw [if_pos (by rw [hlen]; omega)]
  unfold parseFile
  rw [parseLines_append, e1]
  simp only [parseLines, hhead]

/-- Witness for C9: one accepted dimension line, then an `ID` line of two tokens. -/
theorem parseFile_short_header_witness :
    parseFile digitValue digitAtof ([["mel", "2", "0", "1"]] ++ ["ID", "mel"] :: [["0", "R", "1"]])
      = Except.error ParseError.illFormed :=
  parseFile_short_header digitValue digitAtof [["mel", "2", "0", "1"]] ["ID", "mel"]
    [["0", "R", "1"]] (by decide) (by decide) (by decide)

end Skin

namespace Skin

/-! ## The loader: strides and the size of the profile array -/

theorem wrapInt_modEq (x : Int) : wrapInt x ≡ x [ZMOD 4294967296] := by
  unfold wrapInt Int.ModEq; omega

theorem assignMultipliers_points (sps : List SamplePoints) :
    (assignMultipliers sps).1.map (fun sp => sp.points) = sps.map (fun sp => sp.points) := by
  induction sps with
  | nil => rfl
  | cons sp rest ih => simp only [assignMultipliers, List.map_cons, ih]

theorem gridSize_assignMultipliers (sps : List SamplePoints) :
    gridSize (assignMultipliers sps).1 = gridSize sps := by
  unfold gridSize
  have h := congrArg (List.map List.length) (assignMultipliers_points sps)
  simp only [List.map_map] at h
  exact congrArg List.prod h

theorem assignMultipliers_modEq (sps : List SamplePoints) :
    (assignMultipliers sps).2 ≡ (gridSize sps : Int) [ZMOD 4294967296] := by
  induction sps with
  | nil => simp [assignMultipliers, gridSize]
  | cons sp rest ih =>
    simp only [assignMultipliers]
    have h1 := wrapInt_modEq ((assignMultipliers rest).2 * wrapInt (sp.points.length : Int))
    have h2 := Int.ModEq.mul ih (wrapInt_modEq (sp.points.length : Int))
    have h3 : ((gridSize (sp :: rest) : Nat) : Int) =
        (gridSize rest : Int) * (sp.points.length : Int) := by
      simp only [gridSize, List.map_cons, List.prod_cons]
      push_cast
      ring
    rw [h3]
    exact h1.trans h2

theorem assignMultipliers_range (sps : List SamplePoints) :
    -2147483648 ≤ (assignMultipliers sps).2 ∧ (assignMultipliers sps).2 < 2147483648 := by
  cases sps with
  | nil => simp [assignMultipliers]
  | cons sp rest => exact ⟨wrapInt_ge _, wrapInt_lt _⟩

/-- Without overflow the final `multiplier` is the number of cells. -/
theorem assignMultipliers_total (sps : List SamplePoints) (h : gridSize sps < 2147483648) :
    (assignMultipliers sps).2 = (gridSize sps : Int) := by
  have h1 := assignMultipliers_modEq sps
  have h2 := assignMultipliers_range sps
  unfold Int.ModEq at h1
  omega

end Skin

namespace Skin

/-! ## The loader: the profile section -/

theorem parseProfileRow_frame (atoi : String → Int) (atof : String → ℚ) (st : ParserState)
    (tokens : List String) :
    (parseProfileRow atoi atof st tokens).wantSamplePoints = st.wantSamplePoints ∧
    (parseProfileRow atoi atof st tokens).rgbColumnIndex = st.rgbColumnIndex ∧
    (parseProfileRow atoi atof st tokens).minColumns = st.minColumns ∧
    (parseProfileRow atoi atof st tokens).totalProfiles = st.totalProfiles ∧
    (parseProfileRow atoi atof st tokens).psp.sigmas = st.psp.sigmas ∧
    (parseProfileRow atoi atof st tokens).psp.paramSamplePoints = st.psp.paramSamplePoints := by
  unfold parseProfileRow
  dsimp only
  split_ifs <;> simp

theorem parseLines_rows (atoi : String → Int) (atof : String → ℚ)
    (rows : List (List String)) (st : ParserState) (hw : st.wantSamplePoints = false) :
    parseLines atoi atof st rows = Except.ok (rows.foldl (parseProfileRow atoi atof) st) := by
  induction rows generalizing st with
  | nil => rfl
  | cons r rest ih =>
    have hstep : parseLine atoi atof st r = Except.ok (parseProfileRow atoi atof st r) := by
      unfold parseLine
      rw [if_neg (by rw [hw]; simp)]
    simp only [parseLines, hstep, List.foldl_cons]
    exact ih _ (by rw [(parseProfileRow_frame atoi atof st r).1]; exact hw)

theorem foldl_rows_frame (atoi : String → Int) (atof : String → ℚ)
    (rows : List (List String)) (st : ParserState) :
    (rows.foldl (parseProfileRow atoi atof) st).rgbColumnIndex = st.rgbColumnIndex ∧
    (rows.foldl (parseProfileRow atoi atof) st).minColumns = st.minColumns ∧
    (rows.foldl (parseProfileRow atoi atof) st).totalProfiles = st.totalProfiles ∧
    (rows.foldl (parseProfileRow atoi atof) st).psp.sigmas = st.psp.sigmas ∧
    (rows.foldl (parseProfileRow atoi atof) st).psp.paramSamplePoints =
      st.psp.paramSamplePoints ∧
    (rows.foldl (parseProfileRow atoi atof) st).psp.profiles.length =
      st.psp.profiles.length := by
  induction rows generalizing st with
  | nil => simp
  | cons r rest ih =>
    simp only [List.foldl_cons]
    obtain ⟨h1, h2, h3, h4, h5, h6⟩ := ih (parseProfileRow atoi atof st r)
    obtain ⟨_, g2, g3, g4, g5, g6⟩ := parseProfileRow_frame atoi atof st r
    exact ⟨h1.trans g2, h2.trans g3, h3.trans g4, h4.trans g5, h5.trans g6,
      h6.trans (parseProfileRow_profiles_length atoi atof st r)⟩

theorem getD_set {α : Type} (l : List α) (i j : Nat) (a d : α) :
    (l.set i a).getD j d = if i = j ∧ i < l.length then a else l.getD j d := by
  simp only [List.getD_eq_getElem?_getD, List.getElem?_set]
  by_cases h1 : i = j
  · subst h1
    by_cases h2 : i < l.length
    · simp [h2]
    · simp [h2, List.getElem?_eq_none (show l.length ≤ i by omega)]
  · simp [h1]

theorem string_RG : (("R" : String) = "G") = False := by decide
theorem string_RB : (("R" : String) = "B") = False := by decide
theorem string_GR : (("G" : String) = "R") = False := by decide
theorem string_GB : (("G" : String) = "B") = False := by decide
theorem string_BR : (("B" : String) = "R") = False := by decide
theorem string_BG : (("B" : String) = "G") = False := by decide

/-- The profile row `r` as `parseProfileRow` sees it: either it is skipped, or it
overwrites one channel of one cell with its coefficient columns. -/
theorem parseProfileRow_cases (atoi : String → Int) (atof : String → ℚ) (st : ParserState)
    (r : List String) (htot : st.totalProfiles = (st.psp.profiles.length : Int)) :
    (parseProfileRow atoi atof st r = st ∧
      ∀ id m, id < st.psp.profiles.length → m ∈ ["R", "G", "B"] →
        ¬ rowAddresses atoi st.rgbColumnIndex st.minColumns r id m) ∨
    (∃ id0 m0 p', id0 < st.psp.profiles.length ∧ m0 ∈ ["R", "G", "B"] ∧
      rowAddresses atoi st.rgbColumnIndex st.minColumns r id0 m0 ∧
      (parseProfileRow atoi atof st r).psp.profiles = st.psp.profiles.set id0 p' ∧
      channelOf p' m0 =
        (List.range' (st.rgbColumnIndex + 1) (st.minColumns - (st.rgbColumnIndex + 1))).map
          (fun i => atof (r.getD i "")) ∧
      ∀ m ∈ ["R", "G", "B"], m ≠ m0 →
        channelOf p' m =
          channelOf (st.psp.profiles.getD id0 { red := [], green := [], blue := [] }) m) := by
  unfold parseProfileRow
  dsimp only
  by_cases h1 : r.length < st.minColumns
  · left
    rw [if_pos h1]
    exact ⟨rfl, fun id m _ _ hc => absurd hc.1 (by omega)⟩
  rw [if_neg h1]
  by_cases h2 : r.getD st.rgbColumnIndex "" ≠ "R" ∧ r.getD st.rgbColumnIndex "" ≠ "G" ∧
      r.getD st.rgbColumnIndex "" ≠ "B"
  · left
    rw [if_pos h2]
    refine ⟨rfl, fun id m _ hm hc => ?_⟩
    simp only [List.mem_cons, List.mem_singleton, List.not_mem_nil, or_false] at hm
    rw [hc.2.1] at h2
    rcases hm with h | h | h
    · exact h2.1 h
    · exact h2.2.1 h
    · exact h2.2.2 h
  rw [if_neg h2]
  by_cases h3 : atoi (r.getD 0 "") < st.totalProfiles ∧ atoi (r.getD 0 "") ≥ 0
  swap
  · left
    rw [if_neg h3]
    refine ⟨rfl, fun id m hid _ hc => h3 ?_⟩
    rw [hc.2.2, htot]
    exact ⟨by exact_mod_cast hid, by omega⟩
  right
  rw [if_pos h3]
  have hid0 : (atoi (r.getD 0 "")).toNat < st.psp.profiles.length := by omega
  have hcast : atoi (r.getD 0 "") = (((atoi (r.getD 0 "")).toNat : Nat) : Int) := by omega
  have hle : st.minColumns ≤ r.length := by omega
  have h2' : r.getD st.rgbColumnIndex "" = "R" ∨ r.getD st.rgbColumnIndex "" = "G" ∨
      r.getD st.rgbColumnIndex "" = "B" := by
    by_contra hc
    push_neg at hc
    exact h2 hc
  refine ⟨(atoi (r.getD 0 "")).toNat, r.getD st.rgbColumnIndex "", _, hid0, ?_,
    ⟨hle, rfl, hcast⟩, rfl, ?_, ?_⟩
  · rcases h2' with g | g | g <;> rw [g] <;> simp
  · rcases h2' with g | g | g <;>
      simp only [g, channelOf, if_true, if_false, string_GR, string_BR, string_BG]
  · intro m hm hne
    simp only [List.mem_cons, List.mem_singleton, List.not_mem_nil, or_false] at hm
    rcases h2' with g | g | g <;> rw [g] at hne <;> rcases hm with h | h | h <;>
      first
      | exact absurd h hne
      | (subst h
         simp only [g, channelOf, if_true, if_false, string_GR, string_BR, string_BG,
           string_RG, string_RB, string_GB])

end Skin

namespace Skin

/-! ## The loader: the completeness check -/

/-- After the rows `rows`, a channel of a cell is non-empty exactly when there
is a coefficient column and a row for that cell and channel. -/
theorem rows_channel_nonempty (atoi : String → Int) (atof : String → ℚ) (st0 : ParserState)
    (htot : st0.totalProfiles = (st0.psp.profiles.length : Int))
    (hempty : ∀ id m,
      channelOf (st0.psp.profiles.getD id { red := [], green := [], blue := [] }) m = [])
    (rows : List (List String)) (id : Nat) (hid : id < st0.psp.profiles.length)
    (m : String) (hm : m ∈ ["R", "G", "B"]) :
    channelOf ((rows.foldl (parseProfileRow atoi atof) st0).psp.profiles.getD id
        { red := [], green := [], blue := [] }) m ≠ [] ↔
      (st0.rgbColumnIndex + 1 < st0.minColumns ∧
        ∃ r ∈ rows, rowAddresses atoi st0.rgbColumnIndex st0.minColumns r id m) := by
  induction rows using List.reverseRecOn with
  | nil =>
    constructor
    · intro h; exact absurd (hempty id m) h
    · rintro ⟨_, r, hr, _⟩; simp at hr
  | append_singleton rows r ih =>
    rw [List.foldl_append]
    simp only [List.foldl_cons, List.foldl_nil]
    obtain ⟨f1, f2, f3, _, _, f6⟩ := foldl_rows_frame atoi atof rows st0
    have htot' : (rows.foldl (parseProfileRow atoi atof) st0).totalProfiles =
        ((rows.foldl (parseProfileRow atoi atof) st0).psp.profiles.length : Int) := by
      rw [f3, f6]; exact htot
    have hex : (∃ r' ∈ rows ++ [r], rowAddresses atoi st0.rgbColumnIndex st0.minColumns r' id m) ↔
        ((∃ r' ∈ rows, rowAddresses atoi st0.rgbColumnIndex st0.minColumns r' id m) ∨
          rowAddresses atoi st0.rgbColumnIndex st0.minColumns r id m) := by
      constructor
      · rintro ⟨r', hr', ha⟩
        rcases List.mem_append.mp hr' with h | h
        · exact Or.inl ⟨r', h, ha⟩
        · rw [List.mem_singleton] at h; subst h; exact Or.inr ha
      · rintro (⟨r', hr', ha⟩ | ha)
        · exact ⟨r', List.mem_append_left _ hr', ha⟩
        · exact ⟨r, List.mem_append_right _ (List.mem_singleton_self r), ha⟩
    rw [hex]
    generalize (∃ r' ∈ rows, rowAddresses atoi st0.rgbColumnIndex st0.minColumns r' id m) = E
      at ih ⊢
    rcases parseProfileRow_cases atoi atof (rows.foldl (parseProfileRow atoi atof) st0) r htot'
      with ⟨hsame, hno⟩ | ⟨id0, m0, p', hid0, hm0, haddr, hset, hch, hother⟩
    · rw [hsame, ih]
      rw [f1, f2, f6] at hno
      have := hno id m hid hm
      tauto
    · rw [hset, getD_set]
      rw [f1, f2] at haddr hch
      rw [f6] at hid0
      by_cases hi : id0 = id
      · subst hi
        rw [if_pos ⟨rfl, by rw [f6]; exact hid0⟩]
        by_cases hmm : m = m0
        · subst hmm
          rw [hch]
          have hlen : ((List.range' (st0.rgbColumnIndex + 1)
              (st0.minColumns - (st0.rgbColumnIndex + 1))).map
                (fun i => atof (r.getD i ""))).length =
              st0.minColumns - (st0.rgbColumnIndex + 1) := by simp
          constructor
          · intro hne
            have : 0 < st0.minColumns - (st0.rgbColumnIndex + 1) := by
              rw [← hlen]; exact List.length_pos.mpr hne
            exact ⟨by omega, Or.inr haddr⟩
          · rintro ⟨hlt, _⟩
            apply List.ne_nil_of_length_pos
            rw [hlen]; omega
        · rw [hother m hm hmm, ih]
          have hno : ¬ rowAddresses atoi st0.rgbColumnIndex st0.minColumns r id0 m := by
            intro hc
            exact hmm (hc.2.1.symm.trans haddr.2.1)
          tauto
      · rw [if_neg (fun hc => hi hc.1), ih]
        have hno : ¬ rowAddresses atoi st0.rgbColumnIndex st0.minColumns r id m := by
          intro hc
          have h1 := hc.2.2
          have h2 := haddr.2.2
          rw [h1] at h2
          exact hi (by exact_mod_cast h2.symm)
        tauto

theorem incomplete_iff (p : RGBProfile) :
    p.incomplete = true ↔ ∃ m ∈ ["R", "G", "B"], channelOf p m = [] := by
  simp only [RGBProfile.incomplete, Bool.or_eq_true, decide_eq_true_eq, List.length_eq_zero,
    List.mem_cons, List.mem_singleton, List.not_mem_nil, or_false, exists_eq_or_imp,
    exists_eq_left, channelOf, if_true, if_false, string_GR, string_BR, string_BG]
  tauto

/-- The state the `ID` line leaves behind when it is accepted. -/
theorem parseHeader_ok (atof : String → ℚ) (st st1 : ParserState) (tokens : List String)
    (h : parseHeader atof st tokens = Except.ok st1) :
    st1.wantSamplePoints = false ∧
    st1.rgbColumnIndex = st.psp.paramSamplePoints.length + 1 ∧
    st1.minColumns = st1.rgbColumnIndex + 1 + st1.psp.sigmas.length ∧
    0 ≤ st1.totalProfiles ∧
    st1.totalProfiles = (assignMultipliers st.psp.paramSamplePoints).2 ∧
    st1.psp.paramSamplePoints = (assignMultipliers st.psp.paramSamplePoints).1 ∧
    st1.psp.profiles = resizeProfiles st.psp.profiles st1.totalProfiles.toNat ∧
    st.psp.paramSamplePoints.length + 3 ≤ tokens.length := by
  unfold parseHeader at h
  dsimp only at h
  split_ifs at h with h1 h2
  simp only [Except.ok.injEq] at h
  subst h
  refine ⟨rfl, rfl, rfl, by simpa using h2, rfl, rfl, rfl, by omega⟩

end Skin

namespace Skin

theorem resizeProfiles_nil (n : Nat) :
    resizeProfiles [] n = List.replicate n { red := [], green := [], blue := [] } := by
  simp [resizeProfiles]

/-- What the loop has done when the `ID` line has been accepted. -/
theorem header_accepted (atoi : String → Int) (atof : String → ℚ)
    (pre : List (List String)) (idLine : List String) (st1 : ParserState)
    (hpre : ∀ l ∈ pre, l.head? ≠ some "ID") (hid : idLine.head? = some "ID")
    (hacc : parseLines atoi atof ParserState.init (pre ++ [idLine]) = Except.ok st1) :
    st1.wantSamplePoints = false ∧
    st1.minColumns = st1.rgbColumnIndex + 1 + st1.psp.sigmas.length ∧
    0 ≤ st1.totalProfiles ∧
    st1.totalProfiles ≡ (gridSize st1.psp.paramSamplePoints : Int) [ZMOD 4294967296] ∧
    st1.totalProfiles < 2147483648 ∧
    st1.psp.profiles =
      List.replicate st1.totalProfiles.toNat { red := [], green := [], blue := [] } := by
  obtain ⟨st, e1, e2, _, e4⟩ :=
    parseLines_sample_section atoi atof pre hpre ParserState.init rfl
  rw [parseLines_append, e1] at hacc
  have hne : ¬ (idLine.length = 0 ∨ idLine.head? = some "Param") := by
    rintro (h | h)
    · have : idLine = [] := List.length_eq_zero.mp h
      rw [this] at hid; simp at hid
    · rw [hid] at h; simp at h
  have hhead : parseHeader atof st idLine = Except.ok st1 := by
    simp only [parseLines] at hacc
    unfold parseLine at hacc
    rw [if_pos e2, if_neg hne, if_pos hid] at hacc
    cases hh : parseHeader atof st idLine with
    | error e => rw [hh] at hacc; simp at hacc
    | ok s =>
      rw [hh] at hacc
      simp only [Except.ok.injEq] at hacc
      rw [hacc]
  obtain ⟨h1, _, h3, h4, h5, h6, h7, _⟩ := parseHeader_ok atof st st1 idLine hhead
  refine ⟨h1, h3, h4, ?_, ?_, ?_⟩
  · rw [h5, h6, gridSize_assignMultipliers]
    exact assignMultipliers_modEq _
  · rw [h5]; exact (assignMultipliers_range _).2
  · rw [h7, e4]
    exact resizeProfiles_nil _

/-- C10 (amended). Incomplete cell is rejected: let the `ID` header be accepted,
leaving the loop in state `st1`, and let the grid have fewer than `2^31` cells.
If after the rows some cell id below the product of the dimension sizes has an
empty red, green or blue sequence (no row for that cell and channel, or no sigma
column), `parseFile` ends in the fatal 'Insufficient data' error; otherwise it
succeeds, with one profile per cell. -/
theorem parseFile_completeness (atoi : String → Int) (atof : String → ℚ)
    (pre : List (List String)) (idLine : List String) (rows : List (List String))
    (st1 : ParserState)
    (hpre : ∀ l ∈ pre, l.head? ≠ some "ID") (hid : idLine.head? = some "ID")
    (hacc : parseLines atoi atof ParserState.init (pre ++ [idLine]) = Except.ok st1)
    (hsize : gridSize st1.psp.paramSamplePoints < 2147483648) :
    ((∃ id, id < gridSize st1.psp.paramSamplePoints ∧ cellIncomplete atoi st1 rows id) →
      parseFile atoi atof (pre ++ idLine :: rows) =
        Except.error ParseError.insufficientData) ∧
    ((¬ ∃ id, id < gridSize st1.psp.paramSamplePoints ∧ cellIncomplete atoi st1 rows id) →
      ∃ psp, parseFile atoi atof (pre ++ idLine :: rows) = Except.ok psp ∧
        psp.paramSamplePoints = st1.psp.paramSamplePoints ∧ psp.sigmas = st1.psp.sigmas ∧
        psp.profiles.length = gridSize st1.psp.paramSamplePoints) := by
  obtain ⟨hw, hmin, hnn, hmod, hlt, hprof⟩ :=
    header_accepted atoi atof pre idLine st1 hpre hid hacc
  have htotal : st1.totalProfiles = (gridSize st1.psp.paramSamplePoints : Int) := by
    unfold Int.ModEq at hmod
    omega
  have hlen : st1.psp.profiles.length = gridSize st1.psp.paramSamplePoints := by
    rw [hprof, List.length_replicate, htotal]
    simp
  have htot : st1.totalProfiles = (st1.psp.profiles.length : Int) := by rw [hlen, htotal]
  have hempty : ∀ id m,
      channelOf (st1.psp.profiles.getD id { red := [], green := [], blue := [] }) m = [] := by
    intro id m
    have hp : st1.psp.profiles.getD id { red := [], green := [], blue := [] } =
        { red := [], green := [], blue := [] } := by
      rw [hprof, List.getD_eq_getElem?_getD, List.getElem?_replicate]
      split_ifs <;> rfl
    rw [hp]
    unfold channelOf
    split_ifs <;> rfl
  have hsplit : pre ++ idLine :: rows = (pre ++ [idLine]) ++ rows := by simp
  have hrun : parseLines atoi atof ParserState.init (pre ++ idLine :: rows) =
      Except.ok (rows.foldl (parseProfileRow atoi atof) st1) := by
    rw [hsplit, parseLines_append, hacc]
    exact parseLines_rows atoi atof rows st1 hw
  obtain ⟨_, _, _, f4, f5, f6⟩ := foldl_rows_frame atoi atof rows st1
  -- the final check fires exactly on an incomplete cell
  have hcheck : (rows.foldl (parseProfileRow atoi atof) st1).psp.profiles.any
        RGBProfile.incomplete = true ↔
      ∃ id, id < gridSize st1.psp.paramSamplePoints ∧ cellIncomplete atoi st1 rows id := by
    rw [List.any_eq_true]
    constructor
    · rintro ⟨p, hp, hinc⟩
      obtain ⟨id, hid', hget⟩ := List.mem_iff_getElem.mp hp
      have hid1 : id < st1.psp.profiles.length := by rw [← f6]; exact hid'
      obtain ⟨m, hm, hch⟩ := (incomplete_iff p).mp hinc
      refine ⟨id, by rw [← hlen]; exact hid1, m, hm, ?_⟩
      have hiff := rows_channel_nonempty atoi atof st1 htot hempty rows id hid1 m hm
      have hgd : (rows.foldl (parseProfileRow atoi atof) st1).psp.profiles.getD id
          { red := [], green := [], blue := [] } = p := by
        rw [List.getD_eq_getElem _ _ hid', hget]
      rw [hgd] at hiff
      have hnot := (not_congr hiff).mp (by simpa using hch)
      by_cases hs : st1.psp.sigmas = []
      · exact Or.inl hs
      · right
        intro r hr hc
        apply hnot
        refine ⟨?_, r, hr, hc⟩
        have : 0 < st1.psp.sigmas.length := List.length_pos.mpr hs
        omega
    · rintro ⟨id, hid', m, hm, hc⟩
      have hid1 : id < st1.psp.profiles.length := by rw [hlen]; exact hid'
      have hid2 : id < (rows.foldl (parseProfileRow atoi atof) st1).psp.profiles.length := by
        rw [f6]; exact hid1
      refine ⟨_, List.getElem_mem hid2, (incomplete_iff _).mpr ⟨m, hm, ?_⟩⟩
      have hiff := rows_channel_nonempty atoi atof st1 htot hempty rows id hid1 m hm
      rw [List.getD_eq_getElem _ _ hid2] at hiff
      by_contra hne
      obtain ⟨hcols, r, hr, ha⟩ := hiff.mp hne
      rcases hc with hs | hno
      · rw [hmin, hs] at hcols
        simp at hcols
      · exact hno r hr ha
  constructor
  · intro hex
    unfold parseFile
    rw [hrun]
    simp only
    rw [if_pos (hcheck.mpr hex)]
  · intro hex
    refine ⟨(rows.foldl (parseProfileRow atoi atof) st1).psp, ?_, f5, f4, by rw [f6, hlen]⟩
    unfold parseFile
    rw [hrun]
    simp only
    rw [if_neg (fun h => hex (hcheck.mp h))]

end Skin

namespace Skin

/-- Witness for C10: in the small file cell 1 has no green row, and loading
ends in the 'Insufficient data' error. -/
theorem parseFile_completeness_witness :
    parseFile digitValue digitAtof (smallPre ++ smallId :: smallRows) =
      Except.error ParseError.insufficientData :=
  (parseFile_completeness digitValue digitAtof smallPre smallId smallRows smallHeaderState
    (by decide) (by decide) (by decide) (by decide)).1
    ⟨1, by decide, "G", by decide, Or.inr (by decide)⟩

set_option maxRecDepth 100000 in
/-- C10 fails as stated when the product of the dimension sizes does not fit an
`int`: with 32 dimensions of two points the header is accepted, the grid has
`2^32` cells, `multiplier` wraps to 0, no profile is allocated, and `parseFile`
succeeds although cell 0 has no row at all. -/
theorem parseFile_completeness_counterexample :
    parseLines digitValue digitAtof ParserState.init (overflowPre ++ [overflowId]) =
      Except.ok overflowHeaderState ∧
    gridSize overflowHeaderState.psp.paramSamplePoints = 4294967296 ∧
    cellIncomplete digitValue overflowHeaderState [] 0 ∧
    parseFile digitValue digitAtof (overflowPre ++ overflowId :: []) =
      Except.ok overflowHeaderState.psp :=
  ⟨by decide, by decide, ⟨"R", by decide, Or.inr (by simp)⟩, by decide⟩

end Skin

namespace Skin

/-! ## The reducer on more than six terms: sorting -/

theorem weightOrder_false_iff (a b : SigmaWeight) :
    weightOrder b a = false ↔
      b.weight < a.weight ∨ (b.weight = a.weight ∧ b.id ≤ a.id) := by
  unfold weightOrder
  by_cases h1 : b.weight > a.weight
  · simp only [h1, if_true, Bool.true_eq_false, false_iff]
    rintro (h | ⟨h, _⟩)
    · exact absurd h (not_lt.mpr (le_of_lt h1))
    · rw [h] at h1; exact absurd h1 (lt_irrefl _)
  · rw [if_neg h1]
    by_cases h2 : b.weight = a.weight
    · simp only [h2, if_true, decide_eq_false_iff_not, not_lt, lt_irrefl, true_and, false_or,
        gt_iff_lt]
    · simp only [h2, if_false, false_and, or_false, true_iff]
      exact lt_of_le_of_ne (not_lt.mp h1) h2

theorem weightOrder_total : IsTotal SigmaWeight (fun a b => weightOrder b a = false) :=
  ⟨fun a b => by
    simp only [weightOrder_false_iff]
    rcases lt_trichotomy a.weight b.weight with h | h | h
    · exact Or.inr (Or.inl h)
    · rcases Nat.le_total a.id b.id with g | g
      · exact Or.inr (Or.inr ⟨h, g⟩)
      · exact Or.inl (Or.inr ⟨h.symm, g⟩)
    · exact Or.inl (Or.inl h)⟩

theorem weightOrder_trans : IsTrans SigmaWeight (fun a b => weightOrder b a = false) :=
  ⟨fun a b c h1 h2 => by
    simp only [weightOrder_false_iff] at h1 h2 ⊢
    rcases h1 with h1 | ⟨h1, g1⟩ <;> rcases h2 with h2 | ⟨h2, g2⟩
    · exact Or.inl (lt_trans h2 h1)
    · exact Or.inl (by rw [h2]; exact h1)
    · exact Or.inl (by rw [← h1]; exact h2)
    · exact Or.inr ⟨h2.trans h1, Nat.le_trans g2 g1⟩⟩

/-- Sorting the whole range is one admissible outcome of `std::partial_sort`. -/
theorem isPartialSort_sortAll (k : Nat) (sws : List SigmaWeight) :
    IsPartialSort weightOrder k sws (sortAll sws) := by
  haveI := weightOrder_total
  haveI := weightOrder_trans
  have hs : (sortAll sws).Pairwise (fun a b => weightOrder b a = false) :=
    List.sorted_insertionSort (fun a b => weightOrder b a = false) sws
  refine ⟨List.perm_insertionSort _ sws, hs.sublist (List.take_sublist k _), ?_⟩
  intro a ha b hb
  have h := hs
  rw [← List.take_append_drop k (sortAll sws), List.pairwise_append] at h
  exact h.2.2 a ha b hb

theorem sigmaWeights_ids (profile : RGBProfile) (n : Nat) :
    (sigmaWeights profile n).map (fun sw => sw.id) = List.range n := by
  unfold sigmaWeights
  rw [List.map_map]
  conv_rhs => rw [← List.map_id (List.range n)]
  rfl

theorem sigmaWeights_mem (profile : RGBProfile) (n : Nat) (sw : SigmaWeight)
    (h : sw ∈ sigmaWeights profile n) :
    sw.id < n ∧ sw.weight = luminanceWeight profile sw.id := by
  unfold sigmaWeights at h
  rw [List.mem_map] at h
  obtain ⟨sid, hsid, rfl⟩ := h
  refine ⟨List.mem_range.mp hsid, ?_⟩
  simp only [luminanceWeight]
  ring

theorem sigmaWeights_mem_of_lt (profile : RGBProfile) (n j : Nat) (hj : j < n) :
    ∃ sw ∈ sigmaWeights profile n, sw.id = j := by
  have : j ∈ (sigmaWeights profile n).map (fun sw => sw.id) := by
    rw [sigmaWeights_ids]; exact List.mem_range.mpr hj
  obtain ⟨sw, hsw, hid⟩ := List.mem_map.mp this
  exact ⟨sw, hsw, hid⟩

end Skin

namespace Skin

/-! ## The reducer: the nearest selected slot -/

/-- The scan over the slots `s .. s + len - 1`, started from the best slot `b`
among the slots below `s`, ends at the first slot of least distance. -/
theorem argmin_scan_from (d : Nat → ℚ) (len s b : Nat) (hb : b < s)
    (hmin : ∀ k', k' < s → d b ≤ d k') (hfirst : ∀ k', k' < b → d b < d k') :
    ((List.range' s len).foldl
        (fun (acc : Nat × ℚ) s => if d s < acc.2 then (s, d s) else acc) (b, d b)).1 < s + len ∧
    (∀ k', k' < s + len →
      d ((List.range' s len).foldl
        (fun (acc : Nat × ℚ) s => if d s < acc.2 then (s, d s) else acc) (b, d b)).1 ≤ d k') ∧
    (∀ k', k' < ((List.range' s len).foldl
        (fun (acc : Nat × ℚ) s => if d s < acc.2 then (s, d s) else acc) (b, d b)).1 →
      d ((List.range' s len).foldl
        (fun (acc : Nat × ℚ) s => if d s < acc.2 then (s, d s) else acc) (b, d b)).1 < d k') := by
  induction len generalizing s b with
  | zero => exact ⟨by simpa using hb, by simpa using hmin, by simpa using hfirst⟩
  | succ len ih =>
    simp only [List.range', List.foldl_cons]
    by_cases hlt : d s < d b
    · rw [if_pos hlt]
      have := ih (s + 1) s (by omega)
        (fun k' hk' => by
          rcases Nat.lt_succ_iff_lt_or_eq.mp hk' with h | h
          · exact le_of_lt (lt_of_lt_of_le hlt (hmin k' h))
          · rw [h])
        (fun k' hk' => lt_of_lt_of_le hlt (hmin k' hk'))
      rw [show s + (len + 1) = s + 1 + len by omega]
      exact this
    · rw [if_neg hlt]
      have := ih (s + 1) b (by omega)
        (fun k' hk' => by
          rcases Nat.lt_succ_iff_lt_or_eq.mp hk' with h | h
          · exact hmin k' h
          · rw [h]; exact not_lt.mp hlt)
        hfirst
      rw [show s + (len + 1) = s + 1 + len by omega]
      exact this

/-- The scan over the slots 1..5 keeps the first slot of least distance. -/
theorem argmin_scan (d : Nat → ℚ) :
    ((List.range' 1 5).foldl
        (fun (acc : Nat × ℚ) s => if d s < acc.2 then (s, d s) else acc) (0, d 0)).1 < 6 ∧
    (∀ k', k' < 6 →
      d ((List.range' 1 5).foldl
        (fun (acc : Nat × ℚ) s => if d s < acc.2 then (s, d s) else acc) (0, d 0)).1 ≤ d k') ∧
    (∀ k', k' < ((List.range' 1 5).foldl
        (fun (acc : Nat × ℚ) s => if d s < acc.2 then (s, d s) else acc) (0, d 0)).1 →
      d ((List.range' 1 5).foldl
        (fun (acc : Nat × ℚ) s => if d s < acc.2 then (s, d s) else acc) (0, d 0)).1 < d k') :=
  argmin_scan_from d 5 1 0 (by omega)
    (fun k' hk' => by
      have : k' = 0 := by omega
      rw [this])
    (fun k' hk' => absurd hk' (by omega))

theorem nearestSelected_eq (sigmas : List ℚ) (sws : List SigmaWeight) (sigma : ℚ) :
    nearestSelected sigmas sws sigma =
      ((List.range' 1 5).foldl
        (fun (acc : Nat × ℚ) s =>
          if |sigma - sigmas.getD (sws.getD s default).id 0| < acc.2
          then (s, |sigma - sigmas.getD (sws.getD s default).id 0|) else acc)
        (0, |sigma - sigmas.getD (sws.getD 0 default).id 0|)).1 := rfl

theorem nearestSelected_lt (sigmas : List ℚ) (sws : List SigmaWeight) (sigma : ℚ) :
    nearestSelected sigmas sws sigma < 6 := by
  rw [nearestSelected_eq]
  exact (argmin_scan (fun s => |sigma - sigmas.getD (sws.getD s default).id 0|)).1

theorem getD_append_map_id (sel rest : List SigmaWeight) (k : Nat) (hk : k < sel.length) :
    ((sel ++ rest).getD k default).id = (sel.map (fun sw => sw.id)).getD k 0 := by
  rw [List.getD_eq_getElem _ _ (by rw [List.length_append]; omega),
    List.getD_eq_getElem _ _ (by rw [List.length_map]; exact hk),
    List.getElem_append_left hk, List.getElem_map]

/-- The slot the merge loop picks for term `j` is the nearest slot of `j`. -/
theorem nearestSelected_isNearest (sigmas : List ℚ) (sel rest : List SigmaWeight)
    (hsel : sel.length = 6) (j : Nat) :
    IsNearestSlot sigmas (sel.map (fun sw => sw.id)) j
      (nearestSelected sigmas (sel ++ rest) (sigmas.getD j 0)) := by
  have hd : ∀ k, k < 6 →
      |sigmas.getD j 0 - sigmas.getD ((sel.map (fun sw => sw.id)).getD k 0) 0| =
        (fun s => |sigmas.getD j 0 - sigmas.getD ((sel ++ rest).getD s default).id 0|) k := by
    intro k hk
    simp only
    rw [getD_append_map_id sel rest k (by omega)]
  obtain ⟨h1, h2, h3⟩ :=
    argmin_scan (fun s => |sigmas.getD j 0 - sigmas.getD ((sel ++ rest).getD s default).id 0|)
  rw [← nearestSelected_eq] at h1 h2 h3
  refine ⟨h1, fun k' hk' => ?_, fun k' hk' => ?_⟩
  · rw [hd _ h1, hd k' hk']
    exact h2 k' hk'
  · rw [hd _ h1, hd k' (by omega)]
    exact h3 k' hk'

/-- A term has at most one nearest slot. -/
theorem isNearestSlot_unique (sigmas : List ℚ) (selected : List Nat) (j k1 k2 : Nat)
    (h1 : IsNearestSlot sigmas selected j k1) (h2 : IsNearestSlot sigmas selected j k2) :
    k1 = k2 := by
  rcases Nat.lt_trichotomy k1 k2 with h | h | h
  · exact absurd (h2.2.2 k1 h) (not_lt.mpr (h1.2.1 k2 h2.1))
  · exact h
  · exact absurd (h1.2.2 k2 h) (not_lt.mpr (h2.2.1 k1 h1.1))

end Skin

namespace Skin

/-! ## The reducer: the write loop and the merge loop -/

theorem length_six {α : Type} (l : List α) (h : l.length = 6) :
    ∃ a0 a1 a2 a3 a4 a5, l = [a0, a1, a2, a3, a4, a5] := by
  match l, h with
  | [a0, a1, a2, a3, a4, a5], _ => exact ⟨a0, a1, a2, a3, a4, a5, rfl⟩

/-- The write loop fills slot `k` from the `k`-th selected term. -/
theorem writeSelected_eq (profile : RGBProfile) (sigmas : List ℚ) (sel rest : List SigmaWeight)
    (hsel : sel.length = 6) :
    writeSelected profile sigmas (sel ++ rest) GaussianParams.fresh =
      { sigmas := sel.map (fun sw => sigmas.getD sw.id 0),
        coeffs := sel.map (fun sw =>
          ({ x := profile.red.getD sw.id 0, y := profile.green.getD sw.id 0,
             z := profile.blue.getD sw.id 0 } : XMFLOAT3)) } := by
  obtain ⟨a0, a1, a2, a3, a4, a5, rfl⟩ := length_six sel hsel
  simp [writeSelected, NUM_GAUSSIANS, GaussianParams.fresh, List.range, List.range.loop,
    List.replicate]

/-- The merge loop leaves the sigmas alone and adds every merged term to the
slot `nearestSelected` picks for it. -/
theorem merge_fold (profile : RGBProfile) (sigmas : List ℚ) (sws rest : List SigmaWeight)
    (gp : GaussianParams) (hlen : gp.coeffs.length = 6) :
    (rest.foldl (mergeStep profile sigmas sws) gp).sigmas = gp.sigmas ∧
    (rest.foldl (mergeStep profile sigmas sws) gp).coeffs.length = 6 ∧
    ∀ k, k < 6 →
      (rest.foldl (mergeStep profile sigmas sws) gp).coeffs.getD k { x := 0, y := 0, z := 0 } =
        { x := (gp.coeffs.getD k { x := 0, y := 0, z := 0 }).x +
            ((rest.filter (fun sw =>
              decide (nearestSelected sigmas sws (sigmas.getD sw.id 0) = k))).map
                (fun sw => profile.red.getD sw.id 0)).sum,
          y := (gp.coeffs.getD k { x := 0, y := 0, z := 0 }).y +
            ((rest.filter (fun sw =>
              decide (nearestSelected sigmas sws (sigmas.getD sw.id 0) = k))).map
                (fun sw => profile.green.getD sw.id 0)).sum,
          z := (gp.coeffs.getD k { x := 0, y := 0, z := 0 }).z +
            ((rest.filter (fun sw =>
              decide (nearestSelected sigmas sws (sigmas.getD sw.id 0) = k))).map
                (fun sw => profile.blue.getD sw.id 0)).sum } := by
  induction rest generalizing gp with
  | nil =>
    refine ⟨rfl, hlen, fun k _ => ?_⟩
    simp
  | cons sw rest ih =>
    simp only [List.foldl_cons]
    have hlen' : (mergeStep profile sigmas sws gp sw).coeffs.length = 6 := by
      simp [mergeStep, hlen]
    obtain ⟨h1, h2, h3⟩ := ih (mergeStep profile sigmas sws gp sw) hlen'
    refine ⟨h1, h2, fun k hk => ?_⟩
    rw [h3 k hk]
    have hn := nearestSelected_lt sigmas sws (sigmas.getD sw.id 0)
    by_cases hk' : nearestSelected sigmas sws (sigmas.getD sw.id 0) = k
    · have hget : (mergeStep profile sigmas sws gp sw).coeffs.getD k { x := 0, y := 0, z := 0 } =
          { x := (gp.coeffs.getD k { x := 0, y := 0, z := 0 }).x + profile.red.getD sw.id 0,
            y := (gp.coeffs.getD k { x := 0, y := 0, z := 0 }).y + profile.green.getD sw.id 0,
            z := (gp.coeffs.getD k { x := 0, y := 0, z := 0 }).z + profile.blue.getD sw.id 0 } := by
        simp only [mergeStep, getD_set]
        rw [if_pos ⟨hk', by omega⟩, hk']
      rw [hget]
      simp only [List.filter_cons, hk', decide_True, if_true, List.map_cons, List.sum_cons]
      congr 1 <;> ring
    · have hget : (mergeStep profile sigmas sws gp sw).coeffs.getD k { x := 0, y := 0, z := 0 } =
          gp.coeffs.getD k { x := 0, y := 0, z := 0 } := by
        simp only [mergeStep, getD_set]
        rw [if_neg (fun hc => hk' hc.1)]
      rw [hget]
      simp only [List.filter_cons, hk', decide_False, Bool.false_eq_true, if_false]

end Skin

namespace Skin

/-! ## The reducer on more than six terms: the shape of the result -/

/-- The reduce branch: the six selected entries `sel` are in id order, no other
entry `rest` comes before one of them in the weight order, and the result is
the merge of `rest` into the slots written from `sel`. -/
theorem reduce_form (partial_sort : List SigmaWeight → List SigmaWeight)
    (profile : RGBProfile) (sigmas : List ℚ)
    (hn : 6 < sigmas.length)
    (hr : profile.red.length = sigmas.length)
    (hg : profile.green.length = sigmas.length)
    (hb : profile.blue.length = sigmas.length)
    (hps : IsPartialSort weightOrder 6 (sigmaWeights profile sigmas.length)
      (partial_sort (sigmaWeights profile sigmas.length))) :
    ∃ sel rest : List SigmaWeight,
      sel.length = 6 ∧ (sel ++ rest).Perm (sigmaWeights profile sigmas.length) ∧
      sel.Sorted idOrder ∧ (∀ a ∈ sel, ∀ b ∈ rest, weightOrder b a = false) ∧
      getParamsFromRGBProfile partial_sort profile sigmas =
        some (rest.foldl (mergeStep profile sigmas (sel ++ rest))
          { sigmas := sel.map (fun sw => sigmas.getD sw.id 0),
            coeffs := sel.map (fun sw =>
              ({ x := profile.red.getD sw.id 0, y := profile.green.getD sw.id 0,
                 z := profile.blue.getD sw.id 0 } : XMFLOAT3)) }) := by
  obtain ⟨hperm, _, hdom⟩ := hps
  have hlen : (partial_sort (sigmaWeights profile sigmas.length)).length = sigmas.length := by
    rw [hperm.length_eq]
    simp [sigmaWeights]
  have htake : ((partial_sort (sigmaWeights profile sigmas.length)).take 6).length = 6 := by
    rw [List.length_take, hlen]; omega
  have hsel : (((partial_sort (sigmaWeights profile sigmas.length)).take 6).insertionSort
      idOrder).length = 6 := by
    rw [List.length_insertionSort, htake]
  refine ⟨((partial_sort (sigmaWeights profile sigmas.length)).take 6).insertionSort idOrder,
    (partial_sort (sigmaWeights profile sigmas.length)).drop 6, hsel, ?_, ?_, ?_, ?_⟩
  · have h1 := (List.perm_insertionSort idOrder
      ((partial_sort (sigmaWeights profile sigmas.length)).take 6)).append_right
      ((partial_sort (sigmaWeights profile sigmas.length)).drop 6)
    rw [List.take_append_drop] at h1
    exact h1.trans hperm
  · exact List.sorted_insertionSort idOrder _
  · intro a ha b hb
    exact hdom a ((List.perm_insertionSort idOrder _).mem_iff.mp ha) b hb
  · have h1 : ¬ (profile.red.length < sigmas.length ∨ profile.green.length < sigmas.length
        ∨ profile.blue.length < sigmas.length) := by omega
    have h2 : sigmas.length > NUM_GAUSSIANS := hn
    unfold getParamsFromRGBProfile
    rw [if_neg h1, if_pos h2]
    simp only [NUM_GAUSSIANS]
    rw [writeSelected_eq profile sigmas _ _ hsel]
    unfold mergeRest
    simp only [NUM_GAUSSIANS]
    rw [List.drop_left' hsel]

end Skin

namespace Skin

/-! ## The reducer: energy conservation -/

theorem sum_map_set {α : Type} (f : α → ℚ) (l : List α) (k : Nat) (b d : α)
    (hk : k < l.length) :
    ((l.set k b).map f).sum = (l.map f).sum - f (l.getD k d) + f b := by
  induction l generalizing k with
  | nil => simp at hk
  | cons a t ih =>
    cases k with
    | zero => simp; ring
    | succ k =>
      have hk' : k < t.length := by simpa using hk
      simp only [List.set_cons_succ, List.map_cons, List.sum_cons, ih k hk']
      have : (a :: t).getD (k + 1) d = t.getD k d := by simp
      rw [this]
      ring

/-- The merge loop adds to the sum of a component of the slots the sum of that
component over the merged terms. -/
theorem merge_fold_sum (profile : RGBProfile) (sigmas : List ℚ) (sws : List SigmaWeight)
    (f : XMFLOAT3 → ℚ) (g : Nat → ℚ)
    (hfg : ∀ (c : XMFLOAT3) (sid : Nat),
      f { x := c.x + profile.red.getD sid 0, y := c.y + profile.green.getD sid 0,
          z := c.z + profile.blue.getD sid 0 } = f c + g sid)
    (rest : List SigmaWeight) (gp : GaussianParams) (hlen : gp.coeffs.length = 6) :
    ((rest.foldl (mergeStep profile sigmas sws) gp).coeffs.map f).sum =
      (gp.coeffs.map f).sum + (rest.map (fun sw => g sw.id)).sum := by
  induction rest generalizing gp with
  | nil => simp
  | cons sw rest ih =>
    simp only [List.foldl_cons, List.map_cons, List.sum_cons]
    have hn := nearestSelected_lt sigmas sws (sigmas.getD sw.id 0)
    have hlen' : (mergeStep profile sigmas sws gp sw).coeffs.length = 6 := by
      simp [mergeStep, hlen]
    rw [ih _ hlen']
    have hstep : ((mergeStep profile sigmas sws gp sw).coeffs.map f).sum =
        (gp.coeffs.map f).sum + g sw.id := by
      simp only [mergeStep]
      rw [sum_map_set f gp.coeffs _ _ { x := 0, y := 0, z := 0 } (by omega), hfg]
      ring
    rw [hstep]
    ring

theorem sum_getD_range (l : List ℚ) :
    ((List.range l.length).map (fun i => l.getD i 0)).sum = l.sum := by
  have : (List.range l.length).map (fun i => l.getD i 0) = l := by
    apply List.ext_getElem?
    intro i
    by_cases hi : i < l.length
    · rw [List.getElem?_map, List.getElem?_range hi, List.getElem?_eq_getElem hi]
      simp only [Option.map_some', List.getD_eq_getElem _ _ hi]
    · rw [List.getElem?_eq_none (by simpa using hi), List.getElem?_eq_none (by omega)]
  rw [this]

/-- The sum of a per-term quantity over the sorted entries is its sum over all
terms. -/
theorem sum_over_entries (profile : RGBProfile) (n : Nat) (l : List SigmaWeight)
    (hperm : l.Perm (sigmaWeights profile n)) (g : Nat → ℚ) :
    (l.map (fun sw => g sw.id)).sum = ((List.range n).map g).sum := by
  have h1 : (l.map (fun sw => g sw.id)).Perm ((sigmaWeights profile n).map (fun sw => g sw.id)) :=
    hperm.map _
  rw [h1.sum_eq]
  have h2 : (sigmaWeights profile n).map (fun sw => g sw.id) =
      ((sigmaWeights profile n).map (fun sw => sw.id)).map g := by
    rw [List.map_map]; rfl
  rw [h2, sigmaWeights_ids]

/-- C3. Reducer energy conservation: over exact arithmetic, for a sigma list of
length `n > 6` and a profile whose channels have length `n`, whatever order
`partial_sort` leaves the unselected entries in, `getParamsFromRGBProfile`
returns 6 slots whose `coeffs.x` sum to the sum of all `n` red coefficients,
and likewise `coeffs.y` for green and `coeffs.z` for blue. -/
theorem getParamsFromRGBProfile_energy (partial_sort : List SigmaWeight → List SigmaWeight)
    (profile : RGBProfile) (sigmas : List ℚ)
    (hn : 6 < sigmas.length)
    (hr : profile.red.length = sigmas.length)
    (hg : profile.green.length = sigmas.length)
    (hb : profile.blue.length = sigmas.length)
    (hps : IsPartialSort weightOrder 6 (sigmaWeights profile sigmas.length)
      (partial_sort (sigmaWeights profile sigmas.length))) :
    ∃ gp, getParamsFromRGBProfile partial_sort profile sigmas = some gp ∧
      gp.sigmas.length = 6 ∧ gp.coeffs.length = 6 ∧
      (gp.coeffs.map XMFLOAT3.x).sum = profile.red.sum ∧
      (gp.coeffs.map XMFLOAT3.y).sum = profile.green.sum ∧
      (gp.coeffs.map XMFLOAT3.z).sum = profile.blue.sum := by
  obtain ⟨sel, rest, hsel, hperm, _, _, hres⟩ :=
    reduce_form partial_sort profile sigmas hn hr hg hb hps
  have hlen0 : (sel.map (fun sw =>
      ({ x := profile.red.getD sw.id 0, y := profile.green.getD sw.id 0,
         z := profile.blue.getD sw.id 0 } : XMFLOAT3))).length = 6 := by
    rw [List.length_map, hsel]
  obtain ⟨hsig, hclen, _⟩ := merge_fold profile sigmas (sel ++ rest) rest
    { sigmas := sel.map (fun sw => sigmas.getD sw.id 0),
      coeffs := sel.map (fun sw =>
        ({ x := profile.red.getD sw.id 0, y := profile.green.getD sw.id 0,
           z := profile.blue.getD sw.id 0 } : XMFLOAT3)) } hlen0
  have key : ∀ (f : XMFLOAT3 → ℚ) (ch : List ℚ), ch.length = sigmas.length →
      (∀ (c : XMFLOAT3) (sid : Nat),
        f { x := c.x + profile.red.getD sid 0, y := c.y + profile.green.getD sid 0,
            z := c.z + profile.blue.getD sid 0 } = f c + ch.getD sid 0) →
      (∀ sid : Nat,
        f { x := profile.red.getD sid 0, y := profile.green.getD sid 0,
            z := profile.blue.getD sid 0 } = ch.getD sid 0) →
      (((rest.foldl (mergeStep profile sigmas (sel ++ rest))
          { sigmas := sel.map (fun sw => sigmas.getD sw.id 0),
            coeffs := sel.map (fun sw =>
              ({ x := profile.red.getD sw.id 0, y := profile.green.getD sw.id 0,
                 z := profile.blue.getD sw.id 0 } : XMFLOAT3)) }).coeffs.map f).sum = ch.sum) := by
    intro f ch hch hfg hf0
    rw [merge_fold_sum profile sigmas (sel ++ rest) f (fun sid => ch.getD sid 0) hfg rest _ hlen0]
    have h1 : ((sel.map (fun sw =>
        ({ x := profile.red.getD sw.id 0, y := profile.green.getD sw.id 0,
           z := profile.blue.getD sw.id 0 } : XMFLOAT3))).map f).sum =
        (sel.map (fun sw => (fun sid => ch.getD sid 0) sw.id)).sum := by
      rw [List.map_map]
      congr 1
      apply List.map_congr_left
      intro sw _
      exact hf0 sw.id
    simp only at h1 ⊢
    rw [h1, ← List.sum_append, ← List.map_append,
      sum_over_entries profile sigmas.length (sel ++ rest) hperm (fun sid => ch.getD sid 0),
      ← hch, sum_getD_range]
  refine ⟨_, hres, ?_, hclen, ?_, ?_, ?_⟩
  · rw [hsig]; simp [hsel]
  · exact key XMFLOAT3.x profile.red hr (fun _ _ => rfl) (fun _ => rfl)
  · exact key XMFLOAT3.y profile.green hg (fun _ _ => rfl) (fun _ => rfl)
  · exact key XMFLOAT3.z profile.blue hb (fun _ _ => rfl) (fun _ => rfl)

end Skin

namespace Skin

/-- Witness for C3 on eight terms, with the whole range sorted. -/
theorem getParamsFromRGBProfile_energy_witness :
    ∃ gp, getParamsFromRGBProfile sortAll eightProfile eightSigmas = some gp ∧
      gp.sigmas.length = 6 ∧ gp.coeffs.length = 6 ∧
      (gp.coeffs.map XMFLOAT3.x).sum = eightProfile.red.sum ∧
      (gp.coeffs.map XMFLOAT3.y).sum = eightProfile.green.sum ∧
      (gp.coeffs.map XMFLOAT3.z).sum = eightProfile.blue.sum :=
  getParamsFromRGBProfile_energy sortAll eightProfile eightSigmas (by decide) (by decide)
    (by decide) (by decide) (isPartialSort_sortAll 6 _)

/-! ## The reducer: which terms are selected -/

/-- Six increasing ids below `n` that dominate every other id by position are
the last six ids. -/
theorem last_six (n : Nat) (I : List Nat) (hlen : I.length = 6) (hn : 6 < n)
    (hsorted : I.Sorted (· < ·)) (hlt : ∀ i ∈ I, i < n)
    (hdom : ∀ j, j < n → j ∉ I → ∀ i ∈ I, j < i) :
    I = List.range' (n - 6) 6 := by
  obtain ⟨i0, i1, i2, i3, i4, i5, rfl⟩ := length_six I hlen
  simp only [List.Sorted, List.pairwise_cons, List.mem_cons, List.mem_singleton,
    List.not_mem_nil, or_false, forall_eq_or_imp, forall_eq, List.Pairwise.nil, and_true,
    IsEmpty.forall_iff, implies_true, List.mem_nil_iff] at hsorted hlt hdom
  obtain ⟨⟨h01, h02, h03, h04, h05⟩, ⟨h12, h13, h14, h15⟩, ⟨h23, h24, h25⟩, ⟨h34, h35⟩,
    h45⟩ := hsorted
  obtain ⟨l0, l1, l2, l3, l4, l5⟩ := hlt
  have e5 : i5 = n - 1 := by
    by_contra h
    have := (hdom (n - 1) (by omega) (by omega)).2.2.2.2.2
    omega
  have e4 : i4 = n - 2 := by
    by_contra h
    have := (hdom (n - 2) (by omega) (by omega)).2.2.2.2.1
    omega
  have e3 : i3 = n - 3 := by
    by_contra h
    have := (hdom (n - 3) (by omega) (by omega)).2.2.2.1
    omega
  have e2 : i2 = n - 4 := by
    by_contra h
    have := (hdom (n - 4) (by omega) (by omega)).2.2.1
    omega
  have e1 : i1 = n - 5 := by
    by_contra h
    have := (hdom (n - 5) (by omega) (by omega)).2.1
    omega
  have e0 : i0 = n - 6 := by
    by_contra h
    have := (hdom (n - 6) (by omega) (by omega)).1
    omega
  simp only [List.range', List.cons.injEq, and_true]
  omega

end Skin

namespace Skin

/-! ## The interpolator: `searchLerp` inside a cell and in general -/

/-- The scan stops at the first entry that is not below the sample. -/
theorem scan_first_ge (l : List ℚ) (x : ℚ) (k m : Nat) (hm : m < l.length)
    (hge : x ≤ l.getD m 0) (hlt : ∀ m', m' < m → l.getD m' 0 < x) :
    searchLerp.scan l x k = some (k + m) := by
  induction l generalizing k m with
  | nil => simp at hm
  | cons p rest ih =>
    cases m with
    | zero =>
      have : ¬ p < x := by simpa using hge
      simp [searchLerp.scan, this]
    | succ m =>
      have hp : p < x := by simpa using hlt 0 (by omega)
      simp only [searchLerp.scan, hp, if_true]
      rw [ih (k + 1) m (by simpa using hm) (by simpa using hge)
        (fun m' hm' => by simpa using hlt (m' + 1) (by omega))]
      congr 1
      omega

theorem sorted_getD_lt (l : List ℚ) (hs : l.Sorted (· < ·)) (i j : Nat) (hij : i < j)
    (hj : j < l.length) : l.getD i 0 < l.getD j 0 := by
  rw [List.getD_eq_getElem _ _ (by omega), List.getD_eq_getElem _ _ hj]
  exact List.pairwise_iff_getElem.mp hs i j (by omega) hj hij

theorem sorted_getD_le (l : List ℚ) (hs : l.Sorted (· < ·)) (i j : Nat) (hij : i ≤ j)
    (hj : j < l.length) : l.getD i 0 ≤ l.getD j 0 := by
  rcases Nat.lt_or_eq_of_le hij with h | h
  · exact le_of_lt (sorted_getD_lt l hs i j h hj)
  · rw [h]

/-- Strictly inside the cell between two adjacent points, `searchLerp` brackets
the sample by the two points and returns the linear fraction. -/
theorem searchLerp_inside (sp : SamplePoints) (hs : sp.points.Sorted (· < ·)) (i : Nat)
    (hi : i + 1 < sp.points.length) (x : ℚ)
    (h1 : sp.points.getD i 0 < x) (h2 : x < sp.points.getD (i + 1) 0) :
    searchLerp sp x =
      some { minId := i, maxId := i + 1,
             lerpAmount := (x - sp.points.getD i 0) /
               (sp.points.getD (i + 1) 0 - sp.points.getD i 0) } := by
  unfold searchLerp
  cases hp : sp.points with
  | nil => rw [hp] at hi; simp at hi
  | cons p0 rest =>
    rw [hp] at hs hi h1 h2
    have hlen : i < rest.length := by simpa using hi
    have h0 : ¬ x ≤ p0 := by
      have := sorted_getD_le (p0 :: rest) hs 0 i (by omega) (by omega)
      simp only [List.getD_cons_zero] at this
      exact not_le.mpr (lt_of_le_of_lt this h1)
    have hlast : ¬ x ≥ (p0 :: rest).getLast (List.cons_ne_nil p0 rest) := by
      rw [List.getLast_eq_getElem]
      have := sorted_getD_le (p0 :: rest) hs (i + 1) ((p0 :: rest).length - 1)
        (by simp only [List.length_cons]; omega) (by simp)
      rw [List.getD_eq_getElem (p0 :: rest) 0 (show (p0 :: rest).length - 1 < (p0 :: rest).length
        by simp)] at this
      exact not_le.mpr (lt_of_lt_of_le h2 this)
    simp only
    rw [if_neg h0, if_neg hlast]
    have hscan : searchLerp.scan rest x 1 = some (1 + i) := by
      apply scan_first_ge rest x 1 i hlen
      · have : (p0 :: rest).getD (i + 1) 0 = rest.getD i 0 := by simp
        rw [← this]; exact le_of_lt h2
      · intro m' hm'
        have : (p0 :: rest).getD (m' + 1) 0 = rest.getD m' 0 := by simp
        rw [← this]
        exact lt_of_le_of_lt
          (sorted_getD_le (p0 :: rest) hs (m' + 1) i (by omega) (by omega)) h1
    rw [hscan]
    have e1 : 1 + i = i + 1 := by omega
    simp only [e1, gt_iff_lt, h2, if_true, Nat.add_sub_cancel]

/-- The scan does not run off the end when the last entry is not below the
sample. -/
theorem scan_total (l : List ℚ) (x : ℚ) (k : Nat) (hne : l ≠ [])
    (hlast : x ≤ l.getLast hne) :
    ∃ id, searchLerp.scan l x k = some id ∧ k ≤ id ∧ id < k + l.length := by
  induction l generalizing k with
  | nil => exact absurd rfl hne
  | cons p rest ih =>
    by_cases hp : p < x
    · simp only [searchLerp.scan, hp, if_true]
      have hne' : rest ≠ [] := by
        intro h0
        subst h0
        simp only [List.getLast_singleton] at hlast
        exact absurd hp (not_lt.mpr hlast)
      rw [List.getLast_cons hne'] at hlast
      obtain ⟨id, h1, h2, h3⟩ := ih (k + 1) hne' hlast
      exact ⟨id, h1, by omega, by simp only [List.length_cons]; omega⟩
    · exact ⟨k, by simp [searchLerp.scan, hp], le_refl k, by simp⟩

/-- On a non-empty dimension `searchLerp` returns, with both bracketing indices
below the number of points. -/
theorem searchLerp_total (sp : SamplePoints) (x : ℚ) (hne : sp.points ≠ []) :
    ∃ l, searchLerp sp x = some l ∧ l.minId < sp.points.length ∧
      l.maxId < sp.points.length := by
  unfold searchLerp
  cases hp : sp.points with
  | nil => exact absurd hp hne
  | cons p0 rest =>
    simp only
    by_cases h0 : x ≤ p0
    · rw [if_pos h0]
      exact ⟨_, rfl, by simp, by simp⟩
    · rw [if_neg h0]
      by_cases hl : x ≥ (p0 :: rest).getLast (List.cons_ne_nil p0 rest)
      · rw [if_pos hl]
        exact ⟨_, rfl, by simp, by simp⟩
      · rw [if_neg hl]
        have hne' : rest ≠ [] := by
          intro hr
          subst hr
          simp only [List.getLast_singleton, ge_iff_le] at hl
          exact hl (le_of_lt (not_le.mp h0))
        have hlast : x ≤ rest.getLast hne' := by
          rw [List.getLast_cons hne'] at hl
          exact le_of_lt (not_le.mp hl)
        obtain ⟨id, h1, h2, h3⟩ := scan_total rest x 1 hne' hlast
        rw [h1]
        simp only
        split_ifs
        · exact ⟨_, rfl, by simp only [List.length_cons]; omega,
            by simp only [List.length_cons]; omega⟩
        · exact ⟨_, rfl, by simp only [List.length_cons]; omega,
            by simp only [List.length_cons]; omega⟩

end Skin

namespace Skin

/-! ## The interpolator: algebra of `lerp` -/

theorem zipWith_interchange (s t : ℚ) (a b c e : List ℚ) :
    List.zipWith (fun u v => (1 - s) * u + s * v)
        (List.zipWith (fun u v => (1 - t) * u + t * v) a b)
        (List.zipWith (fun u v => (1 - t) * u + t * v) c e) =
      List.zipWith (fun u v => (1 - t) * u + t * v)
        (List.zipWith (fun u v => (1 - s) * u + s * v) a c)
        (List.zipWith (fun u v => (1 - s) * u + s * v) b e) := by
  induction a generalizing b c e with
  | nil => simp
  | cons a0 a ih =>
    cases b with
    | nil => simp
    | cons b0 b =>
      cases c with
      | nil => simp
      | cons c0 c =>
        cases e with
        | nil => simp
        | cons e0 e =>
          simp only [List.zipWith_cons_cons, ih, List.cons.injEq, and_true]
          ring

theorem single_lerp_eq_some (t : ℚ) (a b r : SingleProfile) :
    SingleProfile.lerp t a b = some r ↔
      a.length = b.length ∧ r = List.zipWith (fun u v => (1 - t) * u + t * v) a b := by
  unfold SingleProfile.lerp
  by_cases h : a.length = b.length
  · simp [h, eq_comm]
  · simp [h]

theorem single_lerp_length (t : ℚ) (a b r : SingleProfile)
    (h : SingleProfile.lerp t a b = some r) : r.length = a.length ∧ r.length = b.length := by
  obtain ⟨h1, h2⟩ := (single_lerp_eq_some t a b r).mp h
  subst h2
  simp [h1]

theorem single_lerp_self (t : ℚ) (a : SingleProfile) : SingleProfile.lerp t a a = some a := by
  rw [single_lerp_eq_some]
  refine ⟨rfl, ?_⟩
  induction a with
  | nil => rfl
  | cons u a ih =>
    simp only [List.zipWith_cons_cons, ← ih, List.cons.injEq, and_true]
    ring

/-- Interpolating two interpolants is interpolating the interpolated endpoints. -/
theorem single_lerp_interchange (s t : ℚ) (a1 a2 b1 b2 x1 x2 ra rb rx : SingleProfile)
    (hx : SingleProfile.lerp s x1 x2 = some rx)
    (ha : SingleProfile.lerp s a1 a2 = some ra)
    (hb : SingleProfile.lerp s b1 b2 = some rb)
    (h1 : SingleProfile.lerp t a1 b1 = some x1)
    (h2 : SingleProfile.lerp t a2 b2 = some x2) :
    SingleProfile.lerp t ra rb = some rx := by
  have la := single_lerp_length s a1 a2 ra ha
  have lb := single_lerp_length s b1 b2 rb hb
  obtain ⟨_, ex⟩ := (single_lerp_eq_some s x1 x2 rx).mp hx
  obtain ⟨_, ea⟩ := (single_lerp_eq_some s a1 a2 ra).mp ha
  obtain ⟨_, eb⟩ := (single_lerp_eq_some s b1 b2 rb).mp hb
  obtain ⟨l1, e1⟩ := (single_lerp_eq_some t a1 b1 x1).mp h1
  obtain ⟨_, e2⟩ := (single_lerp_eq_some t a2 b2 x2).mp h2
  rw [single_lerp_eq_some]
  refine ⟨by omega, ?_⟩
  rw [ex, e1, e2, ea, eb]
  exact zipWith_interchange s t a1 b1 a2 b2

theorem single_lerp_between (t : ℚ) (a b r : SingleProfile) (ht0 : 0 ≤ t) (ht1 : t ≤ 1)
    (h : SingleProfile.lerp t a b = some r) : SingleProfile.Between a r b := by
  obtain ⟨hl, hr⟩ := (single_lerp_eq_some t a b r).mp h
  have hlen := single_lerp_length t a b r h
  refine ⟨hlen.1.symm, hlen.2.symm, fun m hm => ?_⟩
  have hma : m < a.length := by omega
  have hmb : m < b.length := by omega
  have hget : r.getD m 0 = (1 - t) * a.getD m 0 + t * b.getD m 0 := by
    rw [List.getD_eq_getElem _ _ hm, List.getD_eq_getElem _ _ hma,
      List.getD_eq_getElem _ _ hmb]
    subst hr
    simp
  rw [hget]
  rcases le_total (a.getD m 0) (b.getD m 0) with hab | hab
  · rw [min_eq_left hab, max_eq_right hab]
    constructor <;> nlinarith
  · rw [min_eq_right hab, max_eq_left hab]
    constructor <;> nlinarith

theorem single_between_left (a b : SingleProfile) (h : a.length = b.length) :
    SingleProfile.Between a a b :=
  ⟨rfl, h.symm, fun _ _ => ⟨min_le_left _ _, le_max_left _ _⟩⟩

theorem single_between_right (a b : SingleProfile) (h : a.length = b.length) :
    SingleProfile.Between a b b :=
  ⟨h, rfl, fun _ _ => ⟨min_le_right _ _, le_max_right _ _⟩⟩

theorem rgb_lerp_eq_some (t : ℚ) (a b r : RGBProfile) :
    RGBProfile.lerp t a b = some r ↔
      SingleProfile.lerp t a.red b.red = some r.red ∧
      SingleProfile.lerp t a.green b.green = some r.green ∧
      SingleProfile.lerp t a.blue b.blue = some r.blue := by
  unfold RGBProfile.lerp
  cases h1 : SingleProfile.lerp t a.red b.red with
  | none => simp
  | some x =>
    cases h2 : SingleProfile.lerp t a.green b.green with
    | none => simp
    | some y =>
      cases h3 : SingleProfile.lerp t a.blue b.blue with
      | none => simp
      | some z =>
        simp only [Option.some.injEq]
        constructor
        · intro h; subst h; exact ⟨rfl, rfl, rfl⟩
        · rintro ⟨e1, e2, e3⟩
          cases r
          simp only at e1 e2 e3
          subst e1 e2 e3
          rfl

theorem rgb_lerp_self (t : ℚ) (a : RGBProfile) : RGBProfile.lerp t a a = some a :=
  (rgb_lerp_eq_some t a a a).mpr ⟨single_lerp_self t _, single_lerp_self t _, single_lerp_self t _⟩

theorem rgb_lerp_interchange (s t : ℚ) (a1 a2 b1 b2 x1 x2 ra rb rx : RGBProfile)
    (hx : RGBProfile.lerp s x1 x2 = some rx)
    (ha : RGBProfile.lerp s a1 a2 = some ra)
    (hb : RGBProfile.lerp s b1 b2 = some rb)
    (h1 : RGBProfile.lerp t a1 b1 = some x1)
    (h2 : RGBProfile.lerp t a2 b2 = some x2) :
    RGBProfile.lerp t ra rb = some rx := by
  rw [rgb_lerp_eq_some] at hx ha hb h1 h2 ⊢
  exact ⟨single_lerp_interchange s t _ _ _ _ _ _ _ _ _ hx.1 ha.1 hb.1 h1.1 h2.1,
    single_lerp_interchange s t _ _ _ _ _ _ _ _ _ hx.2.1 ha.2.1 hb.2.1 h1.2.1 h2.2.1,
    single_lerp_interchange s t _ _ _ _ _ _ _ _ _ hx.2.2 ha.2.2 hb.2.2 h1.2.2 h2.2.2⟩

theorem rgb_lerp_between (t : ℚ) (a b r : RGBProfile) (ht0 : 0 ≤ t) (ht1 : t ≤ 1)
    (h : RGBProfile.lerp t a b = some r) : RGBProfile.Between a r b := by
  rw [rgb_lerp_eq_some] at h
  exact ⟨single_lerp_between t _ _ _ ht0 ht1 h.1, single_lerp_between t _ _ _ ht0 ht1 h.2.1,
    single_lerp_between t _ _ _ ht0 ht1 h.2.2⟩

end Skin

namespace Skin

/-! ## The interpolator: `nsample` is linear in the fraction of one dimension -/

/-- Replace, at one dimension, the lerp `(i, i+1, t)` by the lerps `(i, i, 0)`
and `(i+1, i+1, 0)` of the two end points: the result with `(i, i+1, t)` is the
`lerp` by `t` of the two other results. -/
theorem go_linear (psp : ParamSamplePoints) (nDims : Int) (i : Nat) (t : ℚ)
    (post : List LerpStruct) (pre : List LerpStruct) (dim : Nat) (base : Int)
    (r a b : RGBProfile)
    (hX : nsample.go psp nDims
      (pre ++ { minId := i, maxId := i + 1, lerpAmount := t } :: post) dim base = some r)
    (hA : nsample.go psp nDims
      (pre ++ { minId := i, maxId := i, lerpAmount := 0 } :: post) dim base = some a)
    (hB : nsample.go psp nDims
      (pre ++ { minId := i + 1, maxId := i + 1, lerpAmount := 0 } :: post) dim base = some b) :
    RGBProfile.lerp t a b = some r := by
  induction pre generalizing dim base r a b with
  | nil =>
    simp only [List.nil_append, nsample.go] at hX hA hB
    cases hsp : psp.paramSamplePoints[dim]? with
    | none => rw [hsp] at hX; simp at hX
    | some sp =>
      rw [hsp] at hX hA hB
      simp only [ne_eq, not_true_eq_false, if_false] at hA hB
      have hne : ¬ (i + 1 = i) := by omega
      simp only [ne_eq, hne, not_false_eq_true, if_true] at hX
      generalize (if decide ((dim : Int) = nDims - 1) = true
          then profileAt psp (wrapInt (base + wrapInt ((i : Int) * sp.idMultiplier)))
          else nsample.go psp nDims post (dim + 1)
            (wrapInt (base + wrapInt ((i : Int) * sp.idMultiplier)))) = s1 at hX hA
      generalize (if decide ((dim : Int) = nDims - 1) = true
          then profileAt psp (wrapInt (base + wrapInt (((i + 1 : Nat) : Int) * sp.idMultiplier)))
          else nsample.go psp nDims post (dim + 1)
            (wrapInt (base + wrapInt (((i + 1 : Nat) : Int) * sp.idMultiplier)))) = s2 at hX hB
      cases s1 with
      | none => simp at hA
      | some p1 =>
        cases s2 with
        | none => simp at hB
        | some p2 =>
          simp only [Option.some.injEq] at hA hB hX
          subst hA hB
          exact hX
  | cons l pre ih =>
    rw [List.cons_append] at hX hA hB
    simp only [nsample.go] at hX hA hB
    cases hsp : psp.paramSamplePoints[dim]? with
    | none => rw [hsp] at hX; simp at hX
    | some sp =>
      rw [hsp] at hX hA hB
      simp only at hX hA hB
      by_cases hleaf : (dim : Int) = nDims - 1
      · simp only [hleaf, decide_True, if_true] at hX hA hB
        rw [hX] at hA hB
        simp only [Option.some.injEq] at hA hB
        subst hA hB
        exact rgb_lerp_self t r
      · simp only [hleaf, decide_False, Bool.false_eq_true, if_false] at hX hA hB
        cases h1X : nsample.go psp nDims
            (pre ++ { minId := i, maxId := i + 1, lerpAmount := t } :: post) (dim + 1)
            (wrapInt (base + wrapInt ((l.minId : Int) * sp.idMultiplier))) with
        | none => rw [h1X] at hX; simp at hX
        | some p1X =>
          cases h1A : nsample.go psp nDims
              (pre ++ { minId := i, maxId := i, lerpAmount := 0 } :: post) (dim + 1)
              (wrapInt (base + wrapInt ((l.minId : Int) * sp.idMultiplier))) with
          | none => rw [h1A] at hA; simp at hA
          | some p1A =>
            cases h1B : nsample.go psp nDims
                (pre ++ { minId := i + 1, maxId := i + 1, lerpAmount := 0 } :: post) (dim + 1)
                (wrapInt (base + wrapInt ((l.minId : Int) * sp.idMultiplier))) with
            | none => rw [h1B] at hB; simp at hB
            | some p1B =>
              have e1 := ih (dim + 1) _ p1X p1A p1B h1X h1A h1B
              rw [h1X] at hX
              rw [h1A] at hA
              rw [h1B] at hB
              simp only at hX hA hB
              by_cases hmm : l.maxId ≠ l.minId
              · rw [if_pos hmm] at hX hA hB
                cases h2X : nsample.go psp nDims
                    (pre ++ { minId := i, maxId := i + 1, lerpAmount := t } :: post) (dim + 1)
                    (wrapInt (base + wrapInt ((l.maxId : Int) * sp.idMultiplier))) with
                | none => rw [h2X] at hX; simp at hX
                | some p2X =>
                  cases h2A : nsample.go psp nDims
                      (pre ++ { minId := i, maxId := i, lerpAmount := 0 } :: post) (dim + 1)
                      (wrapInt (base + wrapInt ((l.maxId : Int) * sp.idMultiplier))) with
                  | none => rw [h2A] at hA; simp at hA
                  | some p2A =>
                    cases h2B : nsample.go psp nDims
                        (pre ++ { minId := i + 1, maxId := i + 1, lerpAmount := 0 } :: post)
                        (dim + 1)
                        (wrapInt (base + wrapInt ((l.maxId : Int) * sp.idMultiplier))) with
                    | none => rw [h2B] at hB; simp at hB
                    | some p2B =>
                      have e2 := ih (dim + 1) _ p2X p2A p2B h2X h2A h2B
                      rw [h2X] at hX
                      rw [h2A] at hA
                      rw [h2B] at hB
                      simp only at hX hA hB
                      exact rgb_lerp_interchange l.lerpAmount t p1A p2A p1B p2B p1X p2X a b r
                        hX hA hB e1 e2
              · rw [if_neg hmm] at hX hA hB
                simp only [Option.some.injEq] at hX hA hB
                subst hX hA hB
                exact e1

end Skin

namespace Skin

/-! ## The interpolator: `sample` returns on a complete table -/

theorem rgb_lerp_total (t : ℚ) (a b : RGBProfile) (S : Nat)
    (ha : a.red.length = S ∧ a.green.length = S ∧ a.blue.length = S)
    (hb : b.red.length = S ∧ b.green.length = S ∧ b.blue.length = S) :
    ∃ r, RGBProfile.lerp t a b = some r ∧
      r.red.length = S ∧ r.green.length = S ∧ r.blue.length = S := by
  refine ⟨{ red := List.zipWith (fun u v => (1 - t) * u + t * v) a.red b.red,
            green := List.zipWith (fun u v => (1 - t) * u + t * v) a.green b.green,
            blue := List.zipWith (fun u v => (1 - t) * u + t * v) a.blue b.blue }, ?_, ?_, ?_, ?_⟩
  · rw [rgb_lerp_eq_some]
    simp only [single_lerp_eq_some, and_true]
    omega
  · simp only [List.length_zipWith]; omega
  · simp only [List.length_zipWith]; omega
  · simp only [List.length_zipWith]; omega

theorem profileAt_ok (psp : ParamSamplePoints) (x : Int) (h0 : 0 ≤ x)
    (h1 : x < psp.profiles.length) (hL : psp.profiles.length < 2147483648) :
    ∃ p, profileAt psp (wrapInt x) = some p ∧ p ∈ psp.profiles := by
  rw [wrapInt_of_range x (by omega) (by omega)]
  unfold profileAt
  rw [if_pos h0]
  have hx : x.toNat < psp.profiles.length := by omega
  exact ⟨psp.profiles[x.toNat], List.getElem?_eq_getElem hx, List.getElem_mem hx⟩

/-- With every lerp index below the size of its dimension, every cell holding a
profile and all profiles of one shape, the recursion of `nsample` returns a
profile of that shape. -/
theorem go_total (psp : ParamSamplePoints) (hL : psp.profiles.length < 2147483648) (S : Nat)
    (hshape : ∀ p ∈ psp.profiles, p.red.length = S ∧ p.green.length = S ∧ p.blue.length = S)
    (post : List SamplePoints) (ls : List LerpStruct)
    (hbr : List.Forall₂
      (fun (l : LerpStruct) (sp : SamplePoints) =>
        l.minId < sp.points.length ∧ l.maxId < sp.points.length) ls post)
    (hne : post ≠ []) (dim : Nat) (b : Int)
    (hdrop : psp.paramSamplePoints.drop dim = post)
    (hcells : ∀ js, IsCell post js →
      0 ≤ b + flatIndex post js ∧ b + flatIndex post js < psp.profiles.length) :
    ∃ r, nsample.go psp (psp.paramSamplePoints.length : Int) ls dim (wrapInt b) = some r ∧
      r.red.length = S ∧ r.green.length = S ∧ r.blue.length = S := by
  induction hbr generalizing dim b with
  | nil => exact absurd rfl hne
  | @cons l sp ls' post' hl hrest ih =>
    have hlen : dim < psp.paramSamplePoints.length := by
      by_contra hge
      have : psp.paramSamplePoints.drop dim = [] := List.drop_eq_nil_of_le (by omega)
      rw [this] at hdrop
      exact absurd hdrop (by simp)
    have hget : psp.paramSamplePoints[dim]? = some sp := by
      have := List.getElem?_drop psp.paramSamplePoints dim 0
      rw [hdrop] at this
      simpa using this.symm
    have hdrop' : psp.paramSamplePoints.drop (dim + 1) = post' := by
      have := List.drop_drop 1 dim psp.paramSamplePoints
      rw [hdrop] at this
      simpa [Nat.add_comm] using this.symm
    have hN : psp.paramSamplePoints.length = dim + (post'.length + 1) := by
      have := congrArg List.length hdrop
      simp only [List.length_drop, List.length_cons] at this
      omega
    have hstep : ∀ c : Nat, wrapInt (wrapInt b + wrapInt ((c : Int) * sp.idMultiplier)) =
        wrapInt (b + (c : Int) * sp.idMultiplier) := fun c => wrapInt_add_wrapInt _ _
    -- the value read or computed below one bracketing index
    have hsub : ∀ c : Nat, c < sp.points.length →
        ∃ p, (if decide ((dim : Int) = (psp.paramSamplePoints.length : Int) - 1) = true
            then profileAt psp (wrapInt (b + (c : Int) * sp.idMultiplier))
            else nsample.go psp (psp.paramSamplePoints.length : Int) ls' (dim + 1)
              (wrapInt (b + (c : Int) * sp.idMultiplier))) = some p ∧
          p.red.length = S ∧ p.green.length = S ∧ p.blue.length = S := by
      intro c hc
      by_cases hnil : post' = []
      · subst hnil
        have hleaf : ((dim : Int) = (psp.paramSamplePoints.length : Int) - 1) := by
          rw [hN]; simp
        simp only [hleaf, decide_True, if_true]
        have hcell := hcells [c] (List.Forall₂.cons hc List.Forall₂.nil)
        simp only [flatIndex] at hcell
        obtain ⟨p, hp, hmem⟩ := profileAt_ok psp (b + (c : Int) * sp.idMultiplier)
          (by omega) (by omega) hL
        exact ⟨p, hp, hshape p hmem⟩
      · have hpos : 0 < post'.length := List.length_pos.mpr hnil
        have hnl : ¬ ((dim : Int) = (psp.paramSamplePoints.length : Int) - 1) := by
          rw [hN]; push_cast; omega
        simp only [hnl, decide_False, Bool.false_eq_true, if_false]
        apply ih hnil (dim + 1) (b + (c : Int) * sp.idMultiplier) hdrop'
        intro js hjs
        have hcell := hcells (c :: js) (List.Forall₂.cons hc hjs)
        simp only [flatIndex] at hcell
        constructor <;> omega
    obtain ⟨p1, hp1, s1⟩ := hsub l.minId hl.1
    obtain ⟨p2, hp2, s2⟩ := hsub l.maxId hl.2
    simp only [nsample.go, hget, hstep, hp1, hp2]
    by_cases hmm : l.maxId ≠ l.minId
    · rw [if_pos hmm]
      exact rgb_lerp_total l.lerpAmount p1 p2 S s1 s2
    · rw [if_neg hmm]
      exact ⟨p1, rfl, s1⟩

/-- On non-empty dimensions the searches of `sample` return, with every index
below the size of its dimension. -/
theorem searches_total (sps : List SamplePoints) (q : List ℚ)
    (hne : ∀ sp ∈ sps, sp.points ≠ []) (hq : sps.length ≤ q.length) :
    ∃ ls, sample.searches sps q = some ls ∧
      List.Forall₂
        (fun (l : LerpStruct) (sp : SamplePoints) =>
          l.minId < sp.points.length ∧ l.maxId < sp.points.length) ls sps := by
  induction sps generalizing q with
  | nil => exact ⟨[], by simp [sample.searches], List.Forall₂.nil⟩
  | cons sp sps ih =>
    cases q with
    | nil => simp at hq
    | cons x qs =>
      obtain ⟨l, h1, h2, h3⟩ := searchLerp_total sp x (hne sp (List.mem_cons_self _ _))
      obtain ⟨ls, h4, h5⟩ := ih qs (fun s hs => hne s (List.mem_cons_of_mem _ hs))
        (by simpa using hq)
      exact ⟨l :: ls, by simp only [sample.searches, h1, h4], List.Forall₂.cons ⟨h2, h3⟩ h5⟩

/-- The method `sample` returns on a table with at least one dimension, no empty
dimension, a profile at every cell and all profiles of one shape. -/
theorem sample_total (psp : ParamSamplePoints) (hL : psp.profiles.length < 2147483648)
    (S : Nat)
    (hshape : ∀ p ∈ psp.profiles, p.red.length = S ∧ p.green.length = S ∧ p.blue.length = S)
    (hcells : ∀ js, IsCell psp.paramSamplePoints js →
      0 ≤ flatIndex psp.paramSamplePoints js ∧
      flatIndex psp.paramSamplePoints js < psp.profiles.length)
    (hdims : psp.paramSamplePoints ≠ [])
    (hne : ∀ sp ∈ psp.paramSamplePoints, sp.points ≠ [])
    (q : List ℚ) (hq : psp.paramSamplePoints.length ≤ q.length) :
    ∃ r, sample psp q = some r ∧
      r.red.length = S ∧ r.green.length = S ∧ r.blue.length = S := by
  obtain ⟨ls, h1, h2⟩ := searches_total psp.paramSamplePoints q hne hq
  unfold sample
  rw [h1]
  simp only [nsample, List.drop_zero]
  have hw0 : wrapInt 0 = 0 := by decide
  obtain ⟨r, hr, hs⟩ := go_total psp hL S hshape psp.paramSamplePoints ls h2 hdims 0 0
    (by simp) (by simpa using hcells)
  rw [hw0] at hr
  exact ⟨r, hr, hs⟩

end Skin

namespace Skin

/-! ## The interpolator: interpolation stays between the end points -/

theorem searches_some_nonempty (sps : List SamplePoints) (q : List ℚ) (ls : List LerpStruct)
    (h : sample.searches sps q = some ls) : ∀ sp ∈ sps, sp.points ≠ [] := by
  induction sps generalizing q ls with
  | nil => intro sp hsp; simp at hsp
  | cons s rest ih =>
    cases q with
    | nil => simp [sample.searches] at h
    | cons x qs =>
      simp only [sample.searches] at h
      cases h1 : searchLerp s x with
      | none => rw [h1] at h; simp at h
      | some l =>
        cases h2 : sample.searches rest qs with
        | none => rw [h1, h2] at h; simp at h
        | some ls' =>
          intro sp hsp
          rcases List.mem_cons.mp hsp with e | e
          · subst e
            intro hnil
            unfold searchLerp at h1
            rw [hnil] at h1
            simp at h1
          · exact ih qs ls' h2 sp e

/-- The searches for a query changed in coordinate `d` differ only in entry `d`. -/
theorem searches_set_some (sps : List SamplePoints) (q : List ℚ) (d : Nat) (sp : SamplePoints)
    (y : ℚ) (ls : List LerpStruct) (hd : sps[d]? = some sp) (hq : d < q.length)
    (h : sample.searches sps (q.set d y) = some ls) :
    ∃ pre l post, ls = pre ++ l :: post ∧ searchLerp sp y = some l ∧
      ∀ y' l', searchLerp sp y' = some l' →
        sample.searches sps (q.set d y') = some (pre ++ l' :: post) := by
  induction sps generalizing q d ls with
  | nil => simp at hd
  | cons s rest ih =>
    cases q with
    | nil => simp at hq
    | cons x0 qs =>
      cases d with
      | zero =>
        simp only [List.getElem?_cons_zero, Option.some.injEq] at hd
        subst hd
        simp only [List.set_cons_zero, sample.searches] at h ⊢
        cases h1 : searchLerp s y with
        | none => rw [h1] at h; simp at h
        | some l =>
          cases h2 : sample.searches rest qs with
          | none => rw [h1, h2] at h; simp at h
          | some ls' =>
            rw [h1, h2] at h
            simp only [Option.some.injEq] at h
            refine ⟨[], l, ls', by rw [← h]; rfl, rfl, fun y' l' hl' => ?_⟩
            rw [hl']
            rfl
      | succ k =>
        simp only [List.getElem?_cons_succ] at hd
        simp only [List.set_cons_succ, sample.searches] at h ⊢
        cases h1 : searchLerp s x0 with
        | none => rw [h1] at h; simp at h
        | some l0 =>
          cases h2 : sample.searches rest (qs.set k y) with
          | none => rw [h1, h2] at h; simp at h
          | some ls' =>
            rw [h1, h2] at h
            simp only [Option.some.injEq] at h
            obtain ⟨pre, l, post, e1, e2, e3⟩ := ih qs k ls' hd (by simpa using hq) h2
            refine ⟨l0 :: pre, l, post, by rw [← h, e1]; rfl, e2, fun y' l' hl' => ?_⟩
            rw [e3 y' l' hl']
            rfl

/-- C7. Interpolation stays between endpoints: over exact arithmetic, on a loaded
table with strictly increasing points, a profile at every cell and one
coefficient per sigma in every channel, for a dimension `d`, two adjacent points
`p_i`, `p_{i+1}` of `d`, a query `q` and `x` with `p_i ≤ x ≤ p_{i+1}`: whenever
`sample` returns at `q` with coordinate `d` set to `x`, it also returns at `p_i`
and at `p_{i+1}`, and each coefficient of each channel of the result at `x` lies
between the corresponding coefficients of the two others; and `sample` does
return at `x` when no dimension is empty. -/
theorem sample_between (atoi : String → Int) (atof : String → ℚ)
    (lines : List (List String)) (psp : ParamSamplePoints)
    (hload : parseFile atoi atof lines = Except.ok psp)
    (hinc : ∀ sp ∈ psp.paramSamplePoints, sp.points.Sorted (· < ·))
    (hcells : ∀ js, IsCell psp.paramSamplePoints js →
      0 ≤ flatIndex psp.paramSamplePoints js ∧
      flatIndex psp.paramSamplePoints js < psp.profiles.length)
    (hshape : ∀ p ∈ psp.profiles, p.red.length = psp.sigmas.length ∧
      p.green.length = psp.sigmas.length ∧ p.blue.length = psp.sigmas.length)
    (d : Nat) (sp : SamplePoints) (hd : psp.paramSamplePoints[d]? = some sp)
    (i : Nat) (hi : i + 1 < sp.points.length)
    (q : List ℚ) (hq : q.length = psp.paramSamplePoints.length)
    (x : ℚ) (hx1 : sp.points.getD i 0 ≤ x) (hx2 : x ≤ sp.points.getD (i + 1) 0) :
    (∀ r, sample psp (q.set d x) = some r →
      ∃ a b, sample psp (q.set d (sp.points.getD i 0)) = some a ∧
        sample psp (q.set d (sp.points.getD (i + 1) 0)) = some b ∧
        RGBProfile.Between a r b) ∧
    ((∀ sp' ∈ psp.paramSamplePoints, sp'.points ≠ []) →
      ∃ r, sample psp (q.set d x) = some r) := by
  have hL := parseFile_profiles_length atoi atof lines psp hload
  have hdlt : d < psp.paramSamplePoints.length := by
    by_contra hge
    rw [List.getElem?_eq_none (by omega)] at hd
    simp at hd
  have hdims : psp.paramSamplePoints ≠ [] := by
    intro h0; rw [h0] at hdlt; simp at hdlt
  have hmem : sp ∈ psp.paramSamplePoints := List.mem_iff_getElem?.mpr ⟨d, hd⟩
  have hsorted := hinc sp hmem
  have htotal : (∀ sp' ∈ psp.paramSamplePoints, sp'.points ≠ []) → ∀ y,
      ∃ r, sample psp (q.set d y) = some r ∧ r.red.length = psp.sigmas.length ∧
        r.green.length = psp.sigmas.length ∧ r.blue.length = psp.sigmas.length :=
    fun hne y => sample_total psp hL psp.sigmas.length hshape hcells hdims hne (q.set d y)
      (by rw [List.length_set, hq])
  refine ⟨fun r hr => ?_, fun hne => ?_⟩
  swap
  · obtain ⟨r, hr, _⟩ := htotal hne x
    exact ⟨r, hr⟩
  -- the searches at `x`
  have hr' := hr
  unfold sample at hr'
  cases hsX : sample.searches psp.paramSamplePoints (q.set d x) with
  | none => rw [hsX] at hr'; simp at hr'
  | some lsX =>
    rw [hsX] at hr'
    simp only [nsample, List.drop_zero] at hr'
    have hne := searches_some_nonempty _ _ _ hsX
    obtain ⟨a, ha, sa⟩ := htotal hne (sp.points.getD i 0)
    obtain ⟨b, hb, sb⟩ := htotal hne (sp.points.getD (i + 1) 0)
    refine ⟨a, b, ha, hb, ?_⟩
    rcases eq_or_lt_of_le hx1 with e1 | l1
    · -- `x` is the lower point
      rw [← e1, ha] at hr
      simp only [Option.some.injEq] at hr
      subst hr
      exact ⟨single_between_left _ _ (by omega), single_between_left _ _ (by omega),
        single_between_left _ _ (by omega)⟩
    rcases eq_or_lt_of_le hx2 with e2 | l2
    · -- `x` is the upper point
      rw [e2, hb] at hr
      simp only [Option.some.injEq] at hr
      subst hr
      exact ⟨single_between_right _ _ (by omega), single_between_right _ _ (by omega),
        single_between_right _ _ (by omega)⟩
    -- `x` is strictly inside the cell
    obtain ⟨pre, l, post, els, hl, hother⟩ :=
      searches_set_some psp.paramSamplePoints q d sp x lsX hd (by omega) hsX
    rw [searchLerp_inside sp hsorted i hi x l1 l2] at hl
    simp only [Option.some.injEq] at hl
    have hsA := hother (sp.points.getD i 0) _ (searchLerp_grid sp i hsorted (by omega))
    have hsB := hother (sp.points.getD (i + 1) 0) _ (searchLerp_grid sp (i + 1) hsorted hi)
    have ha' := ha
    have hb' := hb
    unfold sample at ha' hb'
    rw [hsA] at ha'
    rw [hsB] at hb'
    simp only [nsample, List.drop_zero] at ha' hb'
    rw [els, ← hl] at hr'
    have hlerp := go_linear psp _ i _ post pre 0 0 r a b hr' ha' hb'
    have hpos : 0 < sp.points.getD (i + 1) 0 - sp.points.getD i 0 := by linarith
    apply rgb_lerp_between _ a b r _ _ hlerp
    · exact div_nonneg (by linarith) (le_of_lt hpos)
    · rw [div_le_one hpos]; linarith

end Skin

namespace Skin

/-- Witness for C7 on the two-dimensional example table: dimension 0, the
adjacent points 0 and 1, the query `(1/2, 5)`. -/
theorem sample_between_witness :
    ∃ a b,
      sample gridTable
        (([0, 5] : List ℚ).set 0
          ((({ points := [0, 1, 2], idMultiplier := 2 } : SamplePoints).points).getD 0 0)) =
        some a ∧
      sample gridTable
        (([0, 5] : List ℚ).set 0
          ((({ points := [0, 1, 2], idMultiplier := 2 } : SamplePoints).points).getD (0 + 1) 0)) =
        some b ∧
      RGBProfile.Between a { red := [2], green := [3], blue := [2] } b :=
  (sample_between digitValue digitAtof gridLines gridTable (by decide) (by decide)
    (by
      intro js h
      unfold IsCell at h
      rcases h with _ | ⟨h1, h'⟩
      rcases h' with _ | ⟨h2, h''⟩
      cases h''
      simp only [gridTable, List.length_cons, List.length_nil] at h1 h2
      simp only [flatIndex, gridTable, List.length_cons, List.length_nil]
      omega)
    (by decide) 0 { points := [0, 1, 2], idMultiplier := 2 } (by decide) 0 (by decide)
    [0, 5] (by decide) (1 / 2) (by norm_num) (by norm_num)).1
    { red := [2], green := [3], blue := [2] }
    (by
      have h3 : Int.toNat 3 = 3 := rfl
      have h1 : Int.toNat 1 = 1 := rfl
      norm_num [sample, sample.searches, searchLerp, searchLerp.scan, nsample, nsample.go,
        profileAt, wrapInt, RGBProfile.lerp, SingleProfile.lerp, gridTable, h3, h1])

end Skin

namespace Skin

/-! ## The loader: row-major strides -/

theorem rowMajor_getElem? (sps : List SamplePoints) (h : RowMajor sps) (d : Nat)
    (sp : SamplePoints) (hd : sps[d]? = some sp) :
    sp.idMultiplier = (gridSize (sps.drop (d + 1)) : Int) := by
  induction sps generalizing d with
  | nil => simp at hd
  | cons s rest ih =>
    cases d with
    | zero =>
      simp only [List.getElem?_cons_zero, Option.some.injEq] at hd
      subst hd
      simpa using h.1
    | succ d =>
      simp only [List.getElem?_cons_succ] at hd
      simpa using ih h.2 d hd

theorem gridSize_drop_assignMultipliers (sps : List SamplePoints) (d : Nat) :
    gridSize ((assignMultipliers sps).1.drop d) = gridSize (sps.drop d) := by
  unfold gridSize
  have h := congrArg (List.map List.length) (assignMultipliers_points sps)
  simp only [List.map_map] at h
  have h2 := congrArg (List.drop d) h
  simp only [← List.map_drop] at h2
  exact congrArg List.prod h2

/-- When no product of the sizes of a run of trailing dimensions overflows, the
multiplier loop leaves row-major strides. -/
theorem assignMultipliers_rowMajor (sps : List SamplePoints)
    (h : ∀ d, gridSize (sps.drop d) < 2147483648) : RowMajor (assignMultipliers sps).1 := by
  induction sps with
  | nil => exact trivial
  | cons sp rest ih =>
    have hrest : ∀ d, gridSize (rest.drop d) < 2147483648 := fun d => by
      simpa using h (d + 1)
    refine ⟨?_, ih hrest⟩
    show (assignMultipliers rest).2 = (gridSize (assignMultipliers rest).1 : Int)
    rw [gridSize_assignMultipliers]
    exact assignMultipliers_total rest (by simpa using hrest 0)

theorem assignMultipliers_length (sps : List SamplePoints) :
    (assignMultipliers sps).1.length = sps.length := by
  have h := congrArg List.length (assignMultipliers_points sps)
  simpa using h

/-- The multiplier loop starts at the last dimension with `multiplier = 1`. -/
theorem assignMultipliers_last (sps : List SamplePoints) (sp : SamplePoints)
    (h : (assignMultipliers sps).1.getLast? = some sp) : sp.idMultiplier = 1 := by
  induction sps with
  | nil => simp [assignMultipliers] at h
  | cons s rest ih =>
    cases rest with
    | nil =>
      simp only [assignMultipliers, List.getLast?_singleton, Option.some.injEq] at h
      rw [← h]
    | cons s2 rest2 =>
      have hne : (assignMultipliers (s2 :: rest2)).1 ≠ [] := by
        intro hc
        have := assignMultipliers_length (s2 :: rest2)
        rw [hc] at this
        simp at this
      obtain ⟨x, xs, hx⟩ := List.exists_cons_of_ne_nil hne
      have hstep : (assignMultipliers (s :: s2 :: rest2)).1.getLast? =
          (assignMultipliers (s2 :: rest2)).1.getLast? := by
        show ({ s with idMultiplier := (assignMultipliers (s2 :: rest2)).2 } ::
          (assignMultipliers (s2 :: rest2)).1).getLast? = _
        rw [hx, List.getLast?_cons_cons]
      rw [hstep] at h
      exact ih h

theorem gridSize_cons (sp : SamplePoints) (sps : List SamplePoints) :
    gridSize (sp :: sps) = sp.points.length * gridSize sps := by
  simp [gridSize]

/-- With row-major strides the flattened index of a cell is below the number of
cells. -/
theorem flatIndex_range (sps : List SamplePoints) (is : List Nat) (hrm : RowMajor sps)
    (hc : IsCell sps is) :
    0 ≤ flatIndex sps is ∧ flatIndex sps is < (gridSize sps : Int) := by
  unfold IsCell at hc
  induction hc with
  | nil => simp [flatIndex, gridSize]
  | @cons i sp is' sps' hi _ ih =>
    obtain ⟨h0, h1⟩ := ih hrm.2
    have hm : sp.idMultiplier = (gridSize sps' : Int) := hrm.1
    simp only [flatIndex, hm, gridSize_cons]
    push_cast
    have hG : (0 : Int) ≤ (gridSize sps' : Int) := Int.natCast_nonneg _
    have hi' : ((i : Int) + 1) ≤ (sp.points.length : Int) := by exact_mod_cast hi
    have hmul := mul_le_mul_of_nonneg_right hi' hG
    have hi0 : (0 : Int) ≤ (i : Int) * (gridSize sps' : Int) :=
      mul_nonneg (Int.natCast_nonneg _) hG
    constructor
    · linarith
    · linarith

/-- With row-major strides two cells with one flattened index are one cell. -/
theorem flatIndex_injective (sps : List SamplePoints) (is js : List Nat) (hrm : RowMajor sps)
    (hi : IsCell sps is) (hj : IsCell sps js) (heq : flatIndex sps is = flatIndex sps js) :
    is = js := by
  unfold IsCell at hi
  induction hi generalizing js with
  | nil =>
    cases hj
    rfl
  | @cons i sp is' sps' hlt hrest ih =>
    cases hj with
    | @cons j _ js' _ hlt' hrest' =>
      have hm : sp.idMultiplier = (gridSize sps' : Int) := hrm.1
      obtain ⟨a0, a1⟩ := flatIndex_range sps' is' hrm.2 hrest
      obtain ⟨b0, b1⟩ := flatIndex_range sps' js' hrm.2 hrest'
      simp only [flatIndex, hm] at heq
      have hG : (0 : Int) ≤ (gridSize sps' : Int) := Int.natCast_nonneg _
      have hij : i = j := by
        rcases Nat.lt_trichotomy i j with h | h | h
        · exfalso
          have h' : ((i : Int) + 1) ≤ (j : Int) := by exact_mod_cast h
          have := mul_le_mul_of_nonneg_right h' hG
          linarith
        · exact h
        · exfalso
          have h' : ((j : Int) + 1) ≤ (i : Int) := by exact_mod_cast h
          have := mul_le_mul_of_nonneg_right h' hG
          linarith
      subst hij
      have hrest_eq : flatIndex sps' is' = flatIndex sps' js' := by linarith
      rw [ih js' hrm.2 hrest' hrest_eq]

/-- With row-major strides every index below the number of cells is the
flattened index of a cell. -/
theorem flatIndex_surjective (sps : List SamplePoints) (hrm : RowMajor sps) (k : Nat)
    (hk : k < gridSize sps) : ∃ is, IsCell sps is ∧ flatIndex sps is = (k : Int) := by
  induction sps generalizing k with
  | nil =>
    have : k = 0 := by simpa [gridSize] using hk
    subst this
    exact ⟨[], List.Forall₂.nil, rfl⟩
  | cons sp rest ih =>
    rw [gridSize_cons] at hk
    have hm : sp.idMultiplier = (gridSize rest : Int) := hrm.1
    have hGpos : 0 < gridSize rest := by
      rcases Nat.eq_zero_or_pos (gridSize rest) with h | h
      · rw [h] at hk; simp at hk
      · exact h
    obtain ⟨is', hcell, hflat⟩ := ih hrm.2 (k % gridSize rest) (Nat.mod_lt _ hGpos)
    have hdiv : k / gridSize rest < sp.points.length :=
      Nat.div_lt_of_lt_mul (by rw [Nat.mul_comm]; exact hk)
    refine ⟨k / gridSize rest :: is', List.Forall₂.cons hdiv hcell, ?_⟩
    simp only [flatIndex, hm, hflat]
    have := Nat.div_add_mod k (gridSize rest)
    have h2 : ((gridSize rest * (k / gridSize rest) + k % gridSize rest : Nat) : Int) = (k : Int) := by
      rw [this]
    rw [Nat.cast_add, Nat.cast_mul] at h2
    linarith

end Skin

namespace Skin

/-! ## The loader: the shape of a whole run -/

/-- A file either has no line whose first token is `ID`, or splits at the first
such line. -/
theorem lines_split (lines : List (List String)) :
    (∀ l ∈ lines, l.head? ≠ some "ID") ∨
    ∃ pre idLine rows, lines = pre ++ idLine :: rows ∧
      (∀ l ∈ pre, l.head? ≠ some "ID") ∧ idLine.head? = some "ID" := by
  induction lines with
  | nil => exact Or.inl (fun l hl => absurd hl (List.not_mem_nil l))
  | cons t rest ih =>
    by_cases ht : t.head? = some "ID"
    · exact Or.inr ⟨[], t, rest, rfl, fun l hl => absurd hl (List.not_mem_nil l), ht⟩
    · rcases ih with h | ⟨pre, idLine, rows, h1, h2, h3⟩
      · left
        intro l hl
        rcases List.mem_cons.mp hl with h' | h'
        · rw [h']; exact ht
        · exact h l h'
      · right
        refine ⟨t :: pre, idLine, rows, by rw [h1]; rfl, ?_, h3⟩
        intro l hl
        rcases List.mem_cons.mp hl with h' | h'
        · rw [h']; exact ht
        · exact h2 l h'

/-- A run over a file with an `ID` line: the sample-points section ends in a
state `st`, the header turns it into `st1`, and the rows are folded over `st1`. -/
theorem header_run (atoi : String → Int) (atof : String → ℚ)
    (pre : List (List String)) (idLine : List String) (rows : List (List String))
    (st2 : ParserState)
    (hpre : ∀ l ∈ pre, l.head? ≠ some "ID") (hid : idLine.head? = some "ID")
    (hrun : parseLines atoi atof ParserState.init (pre ++ idLine :: rows) = Except.ok st2) :
    ∃ st st1, parseLines atoi atof ParserState.init pre = Except.ok st ∧
      st.wantSamplePoints = true ∧ st.psp.profiles = [] ∧
      parseHeader atof st idLine = Except.ok st1 ∧
      parseLines atoi atof ParserState.init (pre ++ [idLine]) = Except.ok st1 ∧
      st2 = rows.foldl (parseProfileRow atoi atof) st1 := by
  obtain ⟨st, e1, e2, _, e4⟩ :=
    parseLines_sample_section atoi atof pre hpre ParserState.init rfl
  have hne : ¬ (idLine.length = 0 ∨ idLine.head? = some "Param") := by
    rintro (h | h)
    · have : idLine = [] := List.length_eq_zero.mp h
      rw [this] at hid; simp at hid
    · rw [hid] at h; simp at h
  have hline : parseLine atoi atof st idLine = parseHeader atof st idLine := by
    unfold parseLine
    rw [if_pos e2, if_neg hne, if_pos hid]
  rw [parseLines_append, e1] at hrun
  simp only [parseLines, hline] at hrun
  cases hh : parseHeader atof st idLine with
  | error e => rw [hh] at hrun; simp at hrun
  | ok st1 =>
    rw [hh] at hrun
    simp only at hrun
    have hw := (parseHeader_ok atof st st1 idLine hh).1
    rw [parseLines_rows atoi atof rows st1 hw] at hrun
    simp only [Except.ok.injEq] at hrun
    refine ⟨st, st1, e1, e2, by rw [e4]; rfl, hh, ?_, hrun.symm⟩
    rw [parseLines_append, e1]
    simp only [parseLines, hline, hh]

/-- A run over a file without an `ID` line never leaves the sample-points
section and allocates no profile. -/
theorem no_header_run (atoi : String → Int) (atof : String → ℚ)
    (lines : List (List String)) (hno : ∀ l ∈ lines, l.head? ≠ some "ID") :
    ∃ st, parseLines atoi atof ParserState.init lines = Except.ok st ∧
      st.wantSamplePoints = true ∧ st.psp.profiles = [] ∧
      parseFile atoi atof lines = Except.ok st.psp := by
  obtain ⟨st, e1, e2, _, e4⟩ :=
    parseLines_sample_section atoi atof lines hno ParserState.init rfl
  have hp : st.psp.profiles = [] := by rw [e4]; rfl
  refine ⟨st, e1, e2, hp, ?_⟩
  unfold parseFile
  rw [e1]
  simp only [hp, List.any_nil, Bool.false_eq_true, if_false]

end Skin

namespace Skin

/-- C11 (amended). Stride invariant: after `parseFile` has processed an `ID`
header (and any number of profile rows after it), `idMultiplier` of the last
dimension is 1; and if every product `s_d * ... * s_{N-1}` of the sizes of a run
of trailing dimensions is below `2^31`, then `idMultiplier` of dimension `d` is
the product `s_{d+1} * ... * s_{N-1}`, and the map
`(i_0..i_{N-1}) -> sum_d i_d * idMultiplier_d` with `i_d < s_d` is a bijection
onto `[0, s_0 * ... * s_{N-1})`: it stays in that range, is injective and
reaches every index of the range. -/
theorem parseFile_strides (atoi : String → Int) (atof : String → ℚ)
    (pre : List (List String)) (idLine : List String) (rows : List (List String))
    (st2 : ParserState)
    (hpre : ∀ l ∈ pre, l.head? ≠ some "ID") (hid : idLine.head? = some "ID")
    (hrun : parseLines atoi atof ParserState.init (pre ++ idLine :: rows) = Except.ok st2) :
    (∀ sp, st2.psp.paramSamplePoints.getLast? = some sp → sp.idMultiplier = 1) ∧
    ((∀ d, gridSize (st2.psp.paramSamplePoints.drop d) < 2147483648) →
      (∀ d sp, st2.psp.paramSamplePoints[d]? = some sp →
        sp.idMultiplier = (gridSize (st2.psp.paramSamplePoints.drop (d + 1)) : Int)) ∧
      (∀ is, IsCell st2.psp.paramSamplePoints is →
        0 ≤ flatIndex st2.psp.paramSamplePoints is ∧
        flatIndex st2.psp.paramSamplePoints is < (gridSize st2.psp.paramSamplePoints : Int)) ∧
      (∀ is js, IsCell st2.psp.paramSamplePoints is → IsCell st2.psp.paramSamplePoints js →
        flatIndex st2.psp.paramSamplePoints is = flatIndex st2.psp.paramSamplePoints js →
        is = js) ∧
      (∀ k : Nat, k < gridSize st2.psp.paramSamplePoints →
        ∃ is, IsCell st2.psp.paramSamplePoints is ∧
          flatIndex st2.psp.paramSamplePoints is = (k : Int))) := by
  obtain ⟨st, st1, _, _, _, hhead, _, hfold⟩ :=
    header_run atoi atof pre idLine rows st2 hpre hid hrun
  have hsps : st2.psp.paramSamplePoints = (assignMultipliers st.psp.paramSamplePoints).1 := by
    rw [hfold, (foldl_rows_frame atoi atof rows st1).2.2.2.2.1]
    exact (parseHeader_ok atof st st1 idLine hhead).2.2.2.2.2.1
  constructor
  · intro sp hlast
    rw [hsps] at hlast
    exact assignMultipliers_last _ sp hlast
  · intro hfit
    have hrm : RowMajor st2.psp.paramSamplePoints := by
      rw [hsps]
      apply assignMultipliers_rowMajor
      intro d
      rw [← gridSize_drop_assignMultipliers, ← hsps]
      exact hfit d
    exact ⟨rowMajor_getElem? _ hrm, fun is h => flatIndex_range _ is hrm h,
      fun is js h1 h2 h3 => flatIndex_injective _ is js hrm h1 h2 h3,
      fun k hk => flatIndex_surjective _ hrm k hk⟩

/-- Witness for C11: the two-dimensional example file, with sizes 3 and 2; its
six cells are numbered 0..5. -/
theorem parseFile_strides_witness :
    (∀ d sp, gridTable.paramSamplePoints[d]? = some sp →
      sp.idMultiplier = (gridSize (gridTable.paramSamplePoints.drop (d + 1)) : Int)) ∧
    (∀ k : Nat, k < gridSize gridTable.paramSamplePoints →
      ∃ is, IsCell gridTable.paramSamplePoints is ∧
        flatIndex gridTable.paramSamplePoints is = (k : Int)) :=
  have h := (parseFile_strides digitValue digitAtof (gridLines.take 3) (gridLines.getD 3 [])
    (gridLines.drop 4)
    { wantSamplePoints := false, rgbColumnIndex := 3, minColumns := 5, totalProfiles := 6,
      psp := gridTable }
    (by decide) (by decide) (by decide)).2
    (fun d => by rcases d with _ | _ | d <;> simp [gridTable, gridSize])
  ⟨h.1, h.2.2.2⟩

set_option maxRecDepth 100000 in
/-- C11 fails as stated when a product of sizes does not fit an `int`: with 32
dimensions of two points the header is accepted, the sizes after dimension 0
multiply to `2^31`, and `idMultiplier` of dimension 0 has wrapped to `-2^31`;
the cell `(1, 0, ..., 0)` then has the flattened index `-2^31`, outside
`[0, 2^32)`. -/
theorem parseFile_strides_counterexample :
    parseLines digitValue digitAtof ParserState.init (overflowPre ++ overflowId :: []) =
      Except.ok overflowHeaderState ∧
    overflowHeaderState.psp.paramSamplePoints[0]? =
      some { points := [0, 1], idMultiplier := -2147483648 } ∧
    gridSize (overflowHeaderState.psp.paramSamplePoints.drop 1) = 2147483648 ∧
    flatIndex overflowHeaderState.psp.paramSamplePoints (1 :: List.replicate 31 0) =
      -2147483648 :=
  ⟨by decide, by decide, by decide, by decide⟩

end Skin

namespace Skin

/-! ## The loader: the size of the profile array -/

/-- A successful load returns the table of the final state of the loop. -/
theorem parseFile_ok (atoi : String → Int) (atof : String → ℚ) (lines : List (List String))
    (psp : ParamSamplePoints) (hload : parseFile atoi atof lines = Except.ok psp) :
    ∃ st, parseLines atoi atof ParserState.init lines = Except.ok st ∧ st.psp = psp ∧
      st.psp.profiles.any RGBProfile.incomplete = false := by
  unfold parseFile at hload
  cases hrun : parseLines atoi atof ParserState.init lines with
  | error e => rw [hrun] at hload; simp at hload
  | ok st =>
    rw [hrun] at hload
    simp only at hload
    by_cases hany : st.psp.profiles.any RGBProfile.incomplete = true
    · rw [if_pos hany] at hload; simp at hload
    · rw [if_neg hany] at hload
      simp only [Except.ok.injEq] at hload
      exact ⟨st, rfl, hload, by simpa using hany⟩

/-- C12 (amended). Profile array size: for every input on which `parseFile`
succeeds, if the input has an `ID` line and the product of the sizes of all
entries of `psp.paramSamplePoints` is below `2^31`, the number of entries of
`psp.profiles` equals that product; if the input has no `ID` line,
`psp.profiles` is empty. -/
theorem parseFile_profile_count (atoi : String → Int) (atof : String → ℚ)
    (lines : List (List String)) (psp : ParamSamplePoints)
    (hload : parseFile atoi atof lines = Except.ok psp) :
    ((∃ l ∈ lines, l.head? = some "ID") → gridSize psp.paramSamplePoints < 2147483648 →
      psp.profiles.length = gridSize psp.paramSamplePoints) ∧
    ((∀ l ∈ lines, l.head? ≠ some "ID") → psp.profiles = []) := by
  obtain ⟨st2, hrun, hpsp, _⟩ := parseFile_ok atoi atof lines psp hload
  constructor
  · rintro ⟨l, hl, hlid⟩ hsize
    rcases lines_split lines with hno | ⟨pre, idLine, rows, hsplit, hpre, hid⟩
    · exact absurd hlid (hno l hl)
    · rw [hsplit] at hrun
      obtain ⟨st, st1, _, _, _, _, hacc, hfold⟩ :=
        header_run atoi atof pre idLine rows st2 hpre hid hrun
      obtain ⟨_, _, hnn, hmod, hlt, hprof⟩ :=
        header_accepted atoi atof pre idLine st1 hpre hid hacc
      obtain ⟨_, _, _, _, f5, f6⟩ := foldl_rows_frame atoi atof rows st1
      rw [← hfold] at f5 f6
      rw [← hpsp, f6, f5, hprof, List.length_replicate]
      rw [← hpsp, f5] at hsize
      unfold Int.ModEq at hmod
      omega
  · intro hno
    obtain ⟨st, e1, _, e3, _⟩ := no_header_run atoi atof lines hno
    rw [e1] at hrun
    simp only [Except.ok.injEq] at hrun
    rw [← hpsp, ← hrun, e3]

/-- Witness for C12: the two-dimensional example file has an `ID` line and loads
a table with `3 * 2` profiles. -/
theorem parseFile_profile_count_witness :
    gridTable.profiles.length = gridSize gridTable.paramSamplePoints :=
  (parseFile_profile_count digitValue digitAtof gridLines gridTable (by decide)).1
    ⟨["ID", "mel", "blood", "RGB", "1", "Error", "0"], by decide, by decide⟩ (by decide)

set_option maxRecDepth 100000 in
/-- C12 fails as stated on an input without an `ID` line: the file `smallPre`
(one dimension line with two points) loads successfully with no profile, while
the product of the sizes is 2. It also fails when the product does not fit an
`int`: the file with 32 dimensions of two points loads with no profile, while
the product of the sizes is `2^32`. -/
theorem parseFile_profile_count_counterexample :
    (parseFile digitValue digitAtof smallPre = Except.ok noHeaderTable ∧
      noHeaderTable.profiles.length = 0 ∧ gridSize noHeaderTable.paramSamplePoints = 2) ∧
    (parseFile digitValue digitAtof (overflowPre ++ [overflowId]) =
        Except.ok overflowHeaderState.psp ∧
      overflowHeaderState.psp.profiles.length = 0 ∧
      gridSize overflowHeaderState.psp.paramSamplePoints = 4294967296) :=
  ⟨⟨by decide, by decide, by decide⟩, ⟨by decide, by decide, by decide⟩⟩

end Skin

namespace Skin

/-! ## The loader: the shape of the profiles -/

/-- Every channel the rows leave behind is empty or has one coefficient per
column between the channel marker and `minColumns`. -/
theorem rows_channel_shape (atoi : String → Int) (atof : String → ℚ)
    (rows : List (List String)) (st0 : ParserState)
    (htot : st0.totalProfiles = (st0.psp.profiles.length : Int))
    (hinv : ∀ p ∈ st0.psp.profiles, ∀ m ∈ ["R", "G", "B"],
      channelOf p m = [] ∨
        (channelOf p m).length = st0.minColumns - (st0.rgbColumnIndex + 1)) :
    ∀ p ∈ (rows.foldl (parseProfileRow atoi atof) st0).psp.profiles, ∀ m ∈ ["R", "G", "B"],
      channelOf p m = [] ∨
        (channelOf p m).length = st0.minColumns - (st0.rgbColumnIndex + 1) := by
  induction rows generalizing st0 with
  | nil => exact hinv
  | cons r rest ih =>
    simp only [List.foldl_cons]
    obtain ⟨_, g2, g3, g4, _, _⟩ := parseProfileRow_frame atoi atof st0 r
    have g6 := parseProfileRow_profiles_length atoi atof st0 r
    have step := ih (parseProfileRow atoi atof st0 r) (by rw [g4, g6]; exact htot)
    rw [g2, g3] at step
    apply step
    rcases parseProfileRow_cases atoi atof st0 r htot with
      ⟨hsame, _⟩ | ⟨id0, m0, p', hid0, _, _, hset, hch, hother⟩
    · rw [hsame]; exact hinv
    · intro p hp m hm
      rw [hset] at hp
      rcases List.mem_or_eq_of_mem_set hp with h | h
      · exact hinv p h m hm
      · subst h
        by_cases hmm : m = m0
        · right
          rw [hmm, hch]
          simp
        · rw [hother m hm hmm, List.getD_eq_getElem _ _ hid0]
          exact hinv _ (List.getElem_mem hid0) m hm

/-- C13. Profile shape invariant: for every input on which `parseFile` succeeds,
every profile of `psp.profiles` has red, green and blue sequences of one length,
that length is not zero, and it is the number of entries of `psp.sigmas`. -/
theorem parseFile_profile_shape (atoi : String → Int) (atof : String → ℚ)
    (lines : List (List String)) (psp : ParamSamplePoints)
    (hload : parseFile atoi atof lines = Except.ok psp) :
    ∀ p ∈ psp.profiles,
      p.red.length = p.green.length ∧ p.green.length = p.blue.length ∧
      p.red.length ≠ 0 ∧ p.red.length = psp.sigmas.length := by
  obtain ⟨st2, hrun, hpsp, hany⟩ := parseFile_ok atoi atof lines psp hload
  rcases lines_split lines with hno | ⟨pre, idLine, rows, hsplit, hpre, hid⟩
  · obtain ⟨st, e1, _, e3, _⟩ := no_header_run atoi atof lines hno
    rw [e1] at hrun
    simp only [Except.ok.injEq] at hrun
    intro p hp
    rw [← hpsp, ← hrun, e3] at hp
    exact absurd hp (List.not_mem_nil p)
  · rw [hsplit] at hrun
    obtain ⟨st, st1, _, _, _, _, hacc, hfold⟩ :=
      header_run atoi atof pre idLine rows st2 hpre hid hrun
    obtain ⟨_, hmin, hnn, _, _, hprof⟩ :=
      header_accepted atoi atof pre idLine st1 hpre hid hacc
    obtain ⟨_, _, _, f4, _, _⟩ := foldl_rows_frame atoi atof rows st1
    have htot : st1.totalProfiles = (st1.psp.profiles.length : Int) := by
      rw [hprof, List.length_replicate]
      omega
    have hinv : ∀ p ∈ st1.psp.profiles, ∀ m ∈ ["R", "G", "B"],
        channelOf p m = [] ∨
          (channelOf p m).length = st1.minColumns - (st1.rgbColumnIndex + 1) := by
      intro p hp m _
      rw [hprof] at hp
      rw [List.eq_of_mem_replicate hp]
      left
      unfold channelOf
      split_ifs <;> rfl
    have hshape := rows_channel_shape atoi atof rows st1 htot hinv
    rw [← hfold] at hshape f4
    have hcols : st1.minColumns - (st1.rgbColumnIndex + 1) = psp.sigmas.length := by
      rw [← hpsp, f4, hmin]
      omega
    intro p hp
    rw [← hpsp] at hp
    have hcomplete : ∀ m ∈ ["R", "G", "B"], channelOf p m ≠ [] := by
      intro m hm hc
      have hinc : p.incomplete = true := (incomplete_iff p).mpr ⟨m, hm, hc⟩
      have : st2.psp.profiles.any RGBProfile.incomplete = true :=
        List.any_eq_true.mpr ⟨p, hp, hinc⟩
      rw [hany] at this
      exact absurd this (by simp)
    have hlen : ∀ m ∈ ["R", "G", "B"], (channelOf p m).length = psp.sigmas.length := by
      intro m hm
      rcases hshape p hp m hm with h | h
      · exact absurd h (hcomplete m hm)
      · rw [h, hcols]
    have hR := hlen "R" (by simp)
    have hG := hlen "G" (by simp)
    have hB := hlen "B" (by simp)
    have hR0 := hcomplete "R" (by simp)
    simp only [channelOf, if_true, if_false, string_GR, string_BR, string_BG] at hR hG hB hR0
    refine ⟨by rw [hR, hG], by rw [hG, hB], ?_, hR⟩
    intro h0
    exact hR0 (List.length_eq_zero.mp h0)

/-- Witness for C13: the last profile of the two-dimensional example table has
one red, one green and one blue coefficient, and the table has one sigma. -/
theorem parseFile_profile_shape_witness :
    ({ red := [5], green := [0], blue := [2] } : RGBProfile).red.length =
        ({ red := [5], green := [0], blue := [2] } : RGBProfile).green.length ∧
      ({ red := [5], green := [0], blue := [2] } : RGBProfile).green.length =
        ({ red := [5], green := [0], blue := [2] } : RGBProfile).blue.length ∧
      ({ red := [5], green := [0], blue := [2] } : RGBProfile).red.length ≠ 0 ∧
      ({ red := [5], green := [0], blue := [2] } : RGBProfile).red.length =
        gridTable.sigmas.length :=
  parseFile_profile_shape digitValue digitAtof gridLines gridTable (by decide)
    { red := [5], green := [0], blue := [2] } (by decide)

end Skin

namespace Skin

/-! ## The loader: the points of a dimension -/

end Skin

namespace Skin

/-! ## The interpolator: the three branches of `searchLerp` -/

/-- Where the scan stops: at the first entry that is not below the sample. -/
theorem scan_spec (l : List ℚ) (x : ℚ) (k id : Nat) (h : searchLerp.scan l x k = some id) :
    k ≤ id ∧ id - k < l.length ∧ x ≤ l.getD (id - k) 0 ∧
      ∀ m, m < id - k → l.getD m 0 < x := by
  induction l generalizing k with
  | nil => simp [searchLerp.scan] at h
  | cons p rest ih =>
    by_cases hp : p < x
    · simp only [searchLerp.scan, hp, if_true] at h
      obtain ⟨h1, h2, h3, h4⟩ := ih (k + 1) h
      have e : id - k = (id - (k + 1)) + 1 := by omega
      refine ⟨by omega, by rw [e]; simpa using h2, by rw [e]; simpa using h3, ?_⟩
      intro m hm
      cases m with
      | zero => simpa using hp
      | succ m => simpa using h4 m (by omega)
    · simp only [searchLerp.scan, hp, if_false, Option.some.injEq] at h
      subst h
      refine ⟨le_refl _, by simp, by simpa using not_lt.mp hp, ?_⟩
      intro m hm
      omega

/-- The three branches of `searchLerp` on a non-empty dimension, sorted or not:
clamp to the first point, clamp to the last point, or stop the scan at the
first index `id` whose coordinate is not below the sample. -/
theorem searchLerp_cases (sp : SamplePoints) (x : ℚ) (hne : sp.points ≠ []) :
    (x ≤ sp.points.getD 0 0 ∧
      searchLerp sp x = some { minId := 0, maxId := 0, lerpAmount := 0 }) ∨
    (sp.points.getD 0 0 < x ∧ sp.points.getLast hne ≤ x ∧
      searchLerp sp x = some { minId := sp.points.length - 1, maxId := sp.points.length - 1,
                               lerpAmount := 0 }) ∨
    (sp.points.getD 0 0 < x ∧ x < sp.points.getLast hne ∧
      ∃ id, 1 ≤ id ∧ id < sp.points.length ∧ (∀ m, m < id → sp.points.getD m 0 < x) ∧
        x ≤ sp.points.getD id 0 ∧
        searchLerp sp x =
          some (if x < sp.points.getD id 0 then
                  { minId := id - 1, maxId := id,
                    lerpAmount := (x - sp.points.getD (id - 1) 0) /
                      (sp.points.getD id 0 - sp.points.getD (id - 1) 0) }
                else { minId := id, maxId := id, lerpAmount := 0 })) := by
  obtain ⟨pts, mult⟩ := sp
  cases pts with
  | nil => exact absurd rfl hne
  | cons p0 rest =>
    unfold searchLerp
    simp only [List.getD_cons_zero]
    by_cases h0 : x ≤ p0
    · left
      rw [if_pos h0]
      exact ⟨h0, rfl⟩
    · right
      rw [if_neg h0]
      have h0' : p0 < x := not_le.mp h0
      by_cases hl : x ≥ (p0 :: rest).getLast (List.cons_ne_nil p0 rest)
      · left
        rw [if_pos hl]
        exact ⟨h0', hl, rfl⟩
      · right
        rw [if_neg hl]
        have hl' : x < (p0 :: rest).getLast (List.cons_ne_nil p0 rest) := not_le.mp hl
        refine ⟨h0', hl', ?_⟩
        have hne' : rest ≠ [] := by
          intro hr
          subst hr
          simp only [List.getLast_singleton] at hl'
          exact absurd hl' (not_lt.mpr (le_of_lt h0'))
        have hlast : x ≤ rest.getLast hne' := by
          rw [List.getLast_cons hne'] at hl'
          exact le_of_lt hl'
        obtain ⟨id, h1, _, _⟩ := scan_total rest x 1 hne' hlast
        obtain ⟨s1, s2, s3, s4⟩ := scan_spec rest x 1 id h1
        have eid : (p0 :: rest).getD id 0 = rest.getD (id - 1) 0 := by
          have : id = (id - 1) + 1 := by omega
          rw [this]
          simp
        refine ⟨id, s1, by simp only [List.length_cons]; omega, ?_, by rw [eid]; exact s3, ?_⟩
        · intro m hm
          cases m with
          | zero => simpa using h0'
          | succ m => simpa using s4 m (by omega)
        · rw [h1]
          simp only [gt_iff_lt]
          split_ifs <;> rfl

end Skin

namespace Skin

/-- C18. `searchLerp` brackets and reconstructs the query (over exact
arithmetic): for every strictly increasing non-empty points list and every
query `q` with `points[0] ≤ q ≤ points.back()`, the result satisfies
`points[minId] ≤ q ≤ points[maxId]` and
`(1 - lerpAmount) * points[minId] + lerpAmount * points[maxId] = q`; `maxId` is
the first index whose coordinate is `≥ q`, and `minId = maxId` exactly when `q`
is a grid coordinate. -/
theorem searchLerp_brackets (sp : SamplePoints) (hs : sp.points.Sorted (· < ·))
    (hne : sp.points ≠ []) (q : ℚ)
    (hlo : sp.points.getD 0 0 ≤ q) (hhi : q ≤ sp.points.getLast hne) :
    ∃ l, searchLerp sp q = some l ∧
      sp.points.getD l.minId 0 ≤ q ∧ q ≤ sp.points.getD l.maxId 0 ∧
      (1 - l.lerpAmount) * sp.points.getD l.minId 0 +
        l.lerpAmount * sp.points.getD l.maxId 0 = q ∧
      l.maxId < sp.points.length ∧ (∀ m, m < l.maxId → sp.points.getD m 0 < q) ∧
      (l.minId = l.maxId ↔ q ∈ sp.points) := by
  have hpos : 0 < sp.points.length := List.length_pos.mpr hne
  have hmem : ∀ i, i < sp.points.length → sp.points.getD i 0 ∈ sp.points := by
    intro i hi
    rw [List.getD_eq_getElem _ _ hi]
    exact List.getElem_mem hi
  have hlastD : sp.points.getLast hne = sp.points.getD (sp.points.length - 1) 0 := by
    rw [List.getLast_eq_getElem, List.getD_eq_getElem _ _ (by omega)]
  rcases searchLerp_cases sp q hne with ⟨h0, h⟩ | ⟨_, hl, h⟩ | ⟨_, _, id, h1, h2, h3, h4, h⟩
  · have heq : sp.points.getD 0 0 = q := le_antisymm hlo h0
    refine ⟨_, h, by simp only; rw [heq], by simp only; rw [heq], by simp only; rw [heq]; ring,
      hpos, fun m hm => absurd hm (by simp), ?_⟩
    simp only [true_iff]
    rw [← heq]
    exact hmem 0 hpos
  · have heq : sp.points.getD (sp.points.length - 1) 0 = q := by
      rw [← hlastD]; exact le_antisymm hl hhi
    refine ⟨_, h, by simp only; rw [heq], by simp only; rw [heq], by simp only; rw [heq]; ring,
      by simp only; omega, ?_, ?_⟩
    · intro m hm
      simp only at hm
      rw [← heq]
      exact sorted_getD_lt sp.points hs m _ hm (by omega)
    · simp only [true_iff]
      rw [← heq]
      exact hmem _ (by omega)
  · by_cases hlt : q < sp.points.getD id 0
    · rw [if_pos hlt] at h
      have hprev : sp.points.getD (id - 1) 0 < q := h3 (id - 1) (by omega)
      have hden : sp.points.getD id 0 - sp.points.getD (id - 1) 0 ≠ 0 := by
        have : 0 < sp.points.getD id 0 - sp.points.getD (id - 1) 0 := by linarith
        exact ne_of_gt this
      refine ⟨_, h, le_of_lt hprev, h4, ?_, h2, h3, ?_⟩
      · simp only
        generalize sp.points.getD id 0 = b at hden ⊢
        generalize sp.points.getD (id - 1) 0 = a at hden ⊢
        field_simp
        ring
      · simp only
        constructor
        · intro hc; omega
        · intro hin
          exfalso
          obtain ⟨j, hj, hget⟩ := List.mem_iff_getElem.mp hin
          have hjD : sp.points.getD j 0 = q := by rw [List.getD_eq_getElem _ _ hj, hget]
          rcases Nat.lt_or_ge j id with hji | hji
          · have := h3 j hji
            rw [hjD] at this
            exact lt_irrefl _ this
          · have := sorted_getD_le sp.points hs id j hji hj
            rw [hjD] at this
            exact absurd hlt (not_lt.mpr this)
    · rw [if_neg hlt] at h
      have heq : sp.points.getD id 0 = q := le_antisymm (not_lt.mp hlt) h4
      refine ⟨_, h, by simp only; rw [heq], by simp only; rw [heq], by simp only; rw [heq]; ring,
        h2, h3, ?_⟩
      simp only [true_iff]
      rw [← heq]
      exact hmem id h2

/-- Witness for C18: the points `[0, 1, 2]` and the query `3/2`, strictly inside
the cell between the points 1 and 2. -/
theorem searchLerp_brackets_witness :
    ∃ l, searchLerp { points := [0, 1, 2], idMultiplier := 1 } (3 / 2) = some l ∧
      ({ points := [0, 1, 2], idMultiplier := 1 } : SamplePoints).points.getD l.minId 0 ≤ 3 / 2 ∧
      3 / 2 ≤ ({ points := [0, 1, 2], idMultiplier := 1 } : SamplePoints).points.getD l.maxId 0 ∧
      (1 - l.lerpAmount) *
          ({ points := [0, 1, 2], idMultiplier := 1 } : SamplePoints).points.getD l.minId 0 +
        l.lerpAmount *
          ({ points := [0, 1, 2], idMultiplier := 1 } : SamplePoints).points.getD l.maxId 0 =
        3 / 2 ∧
      l.maxId < ({ points := [0, 1, 2], idMultiplier := 1 } : SamplePoints).points.length ∧
      (∀ m, m < l.maxId →
        ({ points := [0, 1, 2], idMultiplier := 1 } : SamplePoints).points.getD m 0 < 3 / 2) ∧
      (l.minId = l.maxId ↔
        (3 / 2 : ℚ) ∈ ({ points := [0, 1, 2], idMultiplier := 1 } : SamplePoints).points) :=
  searchLerp_brackets { points := [0, 1, 2], idMultiplier := 1 } (by decide) (by decide) (3 / 2)
    (by norm_num) (by norm_num)

end Skin

namespace Skin

/-! ## The reducer: the outcome does not depend on `partial_sort` -/

theorem sigmaWeights_nodup (profile : RGBProfile) (n : Nat) : (sigmaWeights profile n).Nodup := by
  apply List.Nodup.of_map (fun sw => sw.id)
  rw [sigmaWeights_ids]
  exact List.nodup_range n

/-- Two entries of which none comes before the other in the weight order are
one entry. -/
theorem weightOrder_antisymm (a b : SigmaWeight) (h1 : weightOrder a b = false)
    (h2 : weightOrder b a = false) : a = b := by
  rw [weightOrder_false_iff] at h1 h2
  have hw : a.weight = b.weight := by
    rcases h1 with h1 | ⟨h1, _⟩ <;> rcases h2 with h2 | ⟨h2, _⟩
    · exact absurd h1 (not_lt.mpr (le_of_lt h2))
    · exact h2.symm
    · exact h1
    · exact h1
  have hi : a.id = b.id := by
    rcases h1 with h1 | ⟨_, g1⟩
    · rw [hw] at h1; exact absurd h1 (lt_irrefl _)
    · rcases h2 with h2 | ⟨_, g2⟩
      · rw [hw] at h2; exact absurd h2 (lt_irrefl _)
      · omega
  cases a
  cases b
  simp only at hw hi
  rw [hw, hi]

/-- Every entry selected by one outcome of `partial_sort` is selected by every
other outcome. -/
theorem selected_subset (input o1 o2 : List SigmaWeight) (hnd : input.Nodup)
    (hlen : 6 ≤ input.length)
    (h1 : IsPartialSort weightOrder 6 input o1) (h2 : IsPartialSort weightOrder 6 input o2) :
    o1.take 6 ⊆ o2.take 6 := by
  obtain ⟨p1, _, d1⟩ := h1
  obtain ⟨p2, _, d2⟩ := h2
  have nd1 : (o1.take 6).Nodup := (p1.nodup_iff.mpr hnd).sublist (List.take_sublist 6 o1)
  have nd2 : (o2.take 6).Nodup := (p2.nodup_iff.mpr hnd).sublist (List.take_sublist 6 o2)
  have l1 : (o1.take 6).length = 6 := by rw [List.length_take, p1.length_eq]; omega
  have l2 : (o2.take 6).length = 6 := by rw [List.length_take, p2.length_eq]; omega
  intro a ha
  by_contra hna
  have ha2 : a ∈ o2.drop 6 := by
    have : a ∈ o2.take 6 ++ o2.drop 6 := by
      rw [List.take_append_drop]
      exact p2.mem_iff.mpr (p1.mem_iff.mp (List.mem_of_mem_take ha))
    rcases List.mem_append.mp this with h | h
    · exact absurd h hna
    · exact h
  have hsub : o2.take 6 ⊆ o1.take 6 := by
    intro b hb
    have hab : weightOrder a b = false := d2 b hb a ha2
    have hb1 : b ∈ o1.take 6 ++ o1.drop 6 := by
      rw [List.take_append_drop]
      exact p1.mem_iff.mpr (p2.mem_iff.mp (List.mem_of_mem_take hb))
    rcases List.mem_append.mp hb1 with h | h
    · exact h
    · exfalso
      have hba : weightOrder b a = false := d1 a ha b h
      have := weightOrder_antisymm a b hab hba
      rw [this] at hna
      exact hna hb
  have hcons : (a :: o2.take 6).Nodup := List.nodup_cons.mpr ⟨hna, nd2⟩
  have hsub' : a :: o2.take 6 ⊆ o1.take 6 := by
    intro b hb
    rcases List.mem_cons.mp hb with h | h
    · rw [h]; exact ha
    · exact hsub h
  have := (List.subperm_of_subset hcons hsub').length_le
  simp only [List.length_cons, l1, l2] at this
  omega

/-- The six selected entries, sorted by id, and the other entries up to their
order, are the same for every outcome of `partial_sort`. -/
theorem selected_eq (profile : RGBProfile) (n : Nat) (o1 o2 : List SigmaWeight) (hn : 6 < n)
    (h1 : IsPartialSort weightOrder 6 (sigmaWeights profile n) o1)
    (h2 : IsPartialSort weightOrder 6 (sigmaWeights profile n) o2) :
    (o1.take 6).insertionSort idOrder = (o2.take 6).insertionSort idOrder ∧
    (o1.drop 6).Perm (o2.drop 6) := by
  have hnd := sigmaWeights_nodup profile n
  have hlen : 6 ≤ (sigmaWeights profile n).length := by simp [sigmaWeights]; omega
  have nd1 : (o1.take 6).Nodup := (h1.1.nodup_iff.mpr hnd).sublist (List.take_sublist 6 o1)
  have nd2 : (o2.take 6).Nodup := (h2.1.nodup_iff.mpr hnd).sublist (List.take_sublist 6 o2)
  have hperm : (o1.take 6).Perm (o2.take 6) :=
    (List.perm_ext_iff_of_nodup nd1 nd2).mpr (fun a =>
      ⟨fun h => selected_subset _ o1 o2 hnd hlen h1 h2 h,
       fun h => selected_subset _ o2 o1 hnd hlen h2 h1 h⟩)
  constructor
  · -- the sorted lists have the same ids, and an entry is determined by its id
    have hs1 := List.sorted_insertionSort idOrder (o1.take 6)
    have hs2 := List.sorted_insertionSort idOrder (o2.take 6)
    have hp : ((o1.take 6).insertionSort idOrder).Perm ((o2.take 6).insertionSort idOrder) :=
      (List.perm_insertionSort idOrder _).trans (hperm.trans (List.perm_insertionSort idOrder _).symm)
    have hids : ((o1.take 6).insertionSort idOrder).map (fun sw => sw.id) =
        ((o2.take 6).insertionSort idOrder).map (fun sw => sw.id) := by
      apply List.eq_of_perm_of_sorted (hp.map _) (r := (· ≤ ·))
      · unfold List.Sorted at hs1 ⊢
        rw [List.pairwise_map]
        exact hs1
      · unfold List.Sorted at hs2 ⊢
        rw [List.pairwise_map]
        exact hs2
    have hentry : ∀ (o : List SigmaWeight), IsPartialSort weightOrder 6 (sigmaWeights profile n) o →
        (o.take 6).insertionSort idOrder =
          (((o.take 6).insertionSort idOrder).map (fun sw => sw.id)).map
            (fun sid => ({ id := sid, weight := luminanceWeight profile sid } : SigmaWeight)) := by
      intro o ho
      rw [List.map_map]
      conv_lhs => rw [← List.map_id ((o.take 6).insertionSort idOrder)]
      apply List.map_congr_left
      intro sw hsw
      have hin : sw ∈ sigmaWeights profile n :=
        ho.1.mem_iff.mp (List.mem_of_mem_take ((List.perm_insertionSort idOrder _).mem_iff.mp hsw))
      have hw := (sigmaWeights_mem profile n sw hin).2
      cases sw
      simp only [id, Function.comp] at hw ⊢
      rw [hw]
    rw [hentry o1 h1, hentry o2 h2, hids]
  · have hall : (o1.take 6 ++ o1.drop 6).Perm (o2.take 6 ++ o2.drop 6) := by
      rw [List.take_append_drop, List.take_append_drop]
      exact h1.1.trans h2.1.symm
    have h3 : (o1.take 6 ++ o1.drop 6).Perm (o1.take 6 ++ o2.drop 6) :=
      hall.trans (hperm.symm.append_right _)
    exact (List.perm_append_left_iff _).mp h3

end Skin

namespace Skin

/-- The slot picked for a term depends only on the six selected entries. -/
theorem nearestSelected_rest (sigmas : List ℚ) (sel rest1 rest2 : List SigmaWeight)
    (hsel : sel.length = 6) (j : Nat) :
    nearestSelected sigmas (sel ++ rest1) (sigmas.getD j 0) =
      nearestSelected sigmas (sel ++ rest2) (sigmas.getD j 0) :=
  isNearestSlot_unique sigmas (sel.map (fun sw => sw.id)) j
    (nearestSelected sigmas (sel ++ rest1) (sigmas.getD j 0))
    (nearestSelected sigmas (sel ++ rest2) (sigmas.getD j 0))
    (nearestSelected_isNearest sigmas sel rest1 hsel j)
    (nearestSelected_isNearest sigmas sel rest2 hsel j)

/-- Merging the same entries in another order gives the same result. -/
theorem merge_fold_perm (profile : RGBProfile) (sigmas : List ℚ)
    (sel rest1 rest2 : List SigmaWeight) (hsel : sel.length = 6) (hperm : rest1.Perm rest2)
    (gp : GaussianParams) (hlen : gp.coeffs.length = 6) :
    rest1.foldl (mergeStep profile sigmas (sel ++ rest1)) gp =
      rest2.foldl (mergeStep profile sigmas (sel ++ rest2)) gp := by
  obtain ⟨a1, a2, a3⟩ := merge_fold profile sigmas (sel ++ rest1) rest1 gp hlen
  obtain ⟨b1, b2, b3⟩ := merge_fold profile sigmas (sel ++ rest2) rest2 gp hlen
  have hfilter : ∀ k, (rest1.filter (fun sw =>
        decide (nearestSelected sigmas (sel ++ rest1) (sigmas.getD sw.id 0) = k))).Perm
      (rest2.filter (fun sw =>
        decide (nearestSelected sigmas (sel ++ rest2) (sigmas.getD sw.id 0) = k))) := by
    intro k
    have hfun : (fun (sw : SigmaWeight) =>
          decide (nearestSelected sigmas (sel ++ rest1) (sigmas.getD sw.id 0) = k)) =
        (fun (sw : SigmaWeight) =>
          decide (nearestSelected sigmas (sel ++ rest2) (sigmas.getD sw.id 0) = k)) := by
      funext sw
      rw [nearestSelected_rest sigmas sel rest1 rest2 hsel sw.id]
    rw [hfun]
    exact hperm.filter _
  have hsum : ∀ (k : Nat) (g : SigmaWeight → ℚ),
      ((rest1.filter (fun sw =>
        decide (nearestSelected sigmas (sel ++ rest1) (sigmas.getD sw.id 0) = k))).map g).sum =
      ((rest2.filter (fun sw =>
        decide (nearestSelected sigmas (sel ++ rest2) (sigmas.getD sw.id 0) = k))).map g).sum :=
    fun k g => ((hfilter k).map g).sum_eq
  have hcoeffs : (rest1.foldl (mergeStep profile sigmas (sel ++ rest1)) gp).coeffs =
      (rest2.foldl (mergeStep profile sigmas (sel ++ rest2)) gp).coeffs := by
    apply List.ext_getElem (by rw [a2, b2])
    intro k hk1 hk2
    have hk : k < 6 := by rw [a2] at hk1; exact hk1
    have e1 := a3 k hk
    have e2 := b3 k hk
    rw [List.getD_eq_getElem _ _ hk1] at e1
    rw [List.getD_eq_getElem _ _ hk2] at e2
    rw [e1, e2, hsum k, hsum k, hsum k]
  have hsig : (rest1.foldl (mergeStep profile sigmas (sel ++ rest1)) gp).sigmas =
      (rest2.foldl (mergeStep profile sigmas (sel ++ rest2)) gp).sigmas := by rw [a1, b1]
  cases h1 : rest1.foldl (mergeStep profile sigmas (sel ++ rest1)) gp
  cases h2 : rest2.foldl (mergeStep profile sigmas (sel ++ rest2)) gp
  rw [h1, h2] at hcoeffs hsig
  simp only at hcoeffs hsig
  rw [hcoeffs, hsig]

/-- C20. The reducer is deterministic despite the unspecified tail order (over
exact arithmetic): for every input with `n > 6` sigmas, any two outcomes of
`partial_sort` that meet its contract, whatever order they leave the `n - 6`
unselected entries in, give the same output of `getParamsFromRGBProfile`; the
result is a function of `(profile, sigmas)` only. -/
theorem getParamsFromRGBProfile_deterministic
    (ps1 ps2 : List SigmaWeight → List SigmaWeight)
    (profile : RGBProfile) (sigmas : List ℚ)
    (hn : 6 < sigmas.length)
    (h1 : IsPartialSort weightOrder 6 (sigmaWeights profile sigmas.length)
      (ps1 (sigmaWeights profile sigmas.length)))
    (h2 : IsPartialSort weightOrder 6 (sigmaWeights profile sigmas.length)
      (ps2 (sigmaWeights profile sigmas.length))) :
    getParamsFromRGBProfile ps1 profile sigmas = getParamsFromRGBProfile ps2 profile sigmas := by
  unfold getParamsFromRGBProfile
  by_cases hshort : profile.red.length < sigmas.length ∨ profile.green.length < sigmas.length
      ∨ profile.blue.length < sigmas.length
  · rw [if_pos hshort, if_pos hshort]
  · have hbig : sigmas.length > NUM_GAUSSIANS := hn
    rw [if_neg hshort, if_neg hshort, if_pos hbig, if_pos hbig]
    simp only [NUM_GAUSSIANS]
    obtain ⟨hsel, hrest⟩ := selected_eq profile sigmas.length _ _ hn h1 h2
    have hlen2 : (ps2 (sigmaWeights profile sigmas.length)).length = sigmas.length := by
      rw [h2.1.length_eq]
      simp [sigmaWeights]
    have hsel6 : (((ps2 (sigmaWeights profile sigmas.length)).take 6).insertionSort
        idOrder).length = 6 := by
      rw [List.length_insertionSort, List.length_take, hlen2]
      omega
    rw [hsel]
    unfold mergeRest
    simp only [NUM_GAUSSIANS]
    rw [writeSelected_eq profile sigmas _ _ hsel6, writeSelected_eq profile sigmas _ _ hsel6,
      List.drop_left' hsel6, List.drop_left' hsel6]
    congr 1
    exact merge_fold_perm profile sigmas _ _ _ hsel6 hrest _ (by rw [List.length_map, hsel6])

/-- Reversing the entries after the first six of a sorted range is one admissible
outcome of `std::partial_sort`. -/
theorem isPartialSort_sortTailReversed (sws : List SigmaWeight) (hlen : 6 ≤ sws.length) :
    IsPartialSort weightOrder 6 sws (sortTailReversed sws) := by
  obtain ⟨hp, hs, hd⟩ := isPartialSort_sortAll 6 sws
  have htl : ((sortAll sws).take 6).length = 6 := by
    rw [List.length_take, hp.length_eq]; omega
  have htake : (sortTailReversed sws).take 6 = (sortAll sws).take 6 := by
    unfold sortTailReversed
    simp only [NUM_GAUSSIANS]
    exact List.take_left' htl
  have hdrop : (sortTailReversed sws).drop 6 = ((sortAll sws).drop 6).reverse := by
    unfold sortTailReversed
    simp only [NUM_GAUSSIANS]
    exact List.drop_left' htl
  refine ⟨?_, by rw [htake]; exact hs, ?_⟩
  · have h1 : (sortTailReversed sws).Perm ((sortAll sws).take 6 ++ (sortAll sws).drop 6) :=
      (List.reverse_perm _).append_left _
    rw [List.take_append_drop] at h1
    exact h1.trans hp
  · intro a ha b hb
    rw [htake] at ha
    rw [hdrop, List.mem_reverse] at hb
    exact hd a ha b hb

/-- Witness for C20 on eight terms: sorting the whole range, and sorting it and
then reversing the two unselected entries, give the same output. -/
theorem getParamsFromRGBProfile_deterministic_witness :
    getParamsFromRGBProfile sortAll eightProfile eightSigmas =
      getParamsFromRGBProfile sortTailReversed eightProfile eightSigmas :=
  getParamsFromRGBProfile_deterministic sortAll sortTailReversed eightProfile eightSigmas
    (by decide) (isPartialSort_sortAll 6 _) (isPartialSort_sortTailReversed _ (by decide))

end Skin

namespace Skin

/-! ## Live fit: cancellation -/

theorem run_append (ps : List SigmaWeight → List SigmaWeight) (s : LiveFitState)
    (es1 es2 : List LiveFitEvent) :
    getLiveFitParams.run ps s (es1 ++ es2) =
      getLiveFitParams.run ps (getLiveFitParams.run ps s es1) es2 := by
  unfold getLiveFitParams.run
  rw [List.foldl_append]

/-- While the task is in its debounce loop it has made no call. -/
theorem step_delay_calls (ps : List SigmaWeight → List SigmaWeight) (s : LiveFitState)
    (e : LiveFitEvent) (hs : s.pc = LiveFitPc.delay → s.calls = [])
    (h : (getLiveFitParams.step ps s e).pc = LiveFitPc.delay) :
    (getLiveFitParams.step ps s e).calls = [] := by
  cases e <;> simp only [getLiveFitParams.step] at h ⊢ <;> (try split_ifs at h ⊢) <;>
    exact hs h

theorem run_delay_calls (ps : List SigmaWeight → List SigmaWeight) (es : List LiveFitEvent)
    (s : LiveFitState) (hs : s.pc = LiveFitPc.delay → s.calls = [])
    (h : (getLiveFitParams.run ps s es).pc = LiveFitPc.delay) :
    (getLiveFitParams.run ps s es).calls = [] := by
  induction es using List.reverseRecOn with
  | nil => exact hs h
  | append_singleton es e ih =>
    rw [run_append] at h ⊢
    exact step_delay_calls ps _ e ih h

/-- Once the task has returned nothing changes but the two flags. -/
theorem step_returned (ps : List SigmaWeight → List SigmaWeight) (s : LiveFitState)
    (e : LiveFitEvent) (h : s.pc = LiveFitPc.returned) :
    (getLiveFitParams.step ps s e).pc = LiveFitPc.returned ∧
    (getLiveFitParams.step ps s e).calls = s.calls ∧
    (getLiveFitParams.step ps s e).delivered = s.delivered := by
  cases e <;> simp [getLiveFitParams.step, h]

theorem run_returned (ps : List SigmaWeight → List SigmaWeight) (es : List LiveFitEvent)
    (s : LiveFitState) (h : s.pc = LiveFitPc.returned) :
    (getLiveFitParams.run ps s es).pc = LiveFitPc.returned ∧
    (getLiveFitParams.run ps s es).calls = s.calls ∧
    (getLiveFitParams.run ps s es).delivered = s.delivered := by
  induction es generalizing s with
  | nil => exact ⟨h, rfl, rfl⟩
  | cons e es ih =>
    obtain ⟨h1, h2, h3⟩ := step_returned ps s e h
    obtain ⟨g1, g2, g3⟩ := ih (getLiveFitParams.step ps s e) h1
    exact ⟨g1, g2.trans h2, g3.trans h3⟩

/-- C15. Cancellation before the debounce elapses never starts fitting: in every
schedule of the background task of `getLiveFitParams`, if the shared cancel flag
is set when the task wakes up in its debounce loop (so that the loop exits,
whether or not the two seconds have passed), the task has returned, the future
holds the default `GaussianParams()`, and neither `CreateGaussianFitTasks` nor
`EnqueueTasks` is ever called, whatever happens afterwards. -/
theorem liveFit_cancel_before_debounce (ps : List SigmaWeight → List SigmaWeight)
    (es1 es2 : List LiveFitEvent) (timeUp : Bool)
    (hpc : (getLiveFitParams.run ps LiveFitState.init es1).pc = LiveFitPc.delay)
    (hc : (getLiveFitParams.run ps LiveFitState.init es1).cancel = true) :
    (getLiveFitParams.run ps LiveFitState.init
      (es1 ++ LiveFitEvent.wake timeUp :: es2)).pc = LiveFitPc.returned ∧
    (getLiveFitParams.run ps LiveFitState.init
      (es1 ++ LiveFitEvent.wake timeUp :: es2)).delivered = some LiveFitResult.cancelled ∧
    LiveFitCall.createGaussianFitTasks ∉
      (getLiveFitParams.run ps LiveFitState.init
        (es1 ++ LiveFitEvent.wake timeUp :: es2)).calls ∧
    LiveFitCall.enqueueTasks ∉
      (getLiveFitParams.run ps LiveFitState.init
        (es1 ++ LiveFitEvent.wake timeUp :: es2)).calls := by
  have hcalls := run_delay_calls ps es1 LiveFitState.init (fun _ => rfl) hpc
  have hstep : getLiveFitParams.step ps (getLiveFitParams.run ps LiveFitState.init es1)
      (LiveFitEvent.wake timeUp) =
      { getLiveFitParams.run ps LiveFitState.init es1 with
        pc := LiveFitPc.returned, delivered := some LiveFitResult.cancelled } := by
    simp [getLiveFitParams.step, hpc, hc]
  have hrun : getLiveFitParams.run ps LiveFitState.init
      (es1 ++ LiveFitEvent.wake timeUp :: es2) =
      getLiveFitParams.run ps
        { getLiveFitParams.run ps LiveFitState.init es1 with
          pc := LiveFitPc.returned, delivered := some LiveFitResult.cancelled } es2 := by
    rw [run_append]
    conv_lhs => rw [getLiveFitParams.run, List.foldl_cons, hstep]
    rfl
  obtain ⟨h1, h2, h3⟩ := run_returned ps es2
    { getLiveFitParams.run ps LiveFitState.init es1 with
      pc := LiveFitPc.returned, delivered := some LiveFitResult.cancelled } rfl
  rw [hrun, h1, h2, h3]
  simp only [hcalls, List.not_mem_nil, not_false_eq_true, and_self]

/-- Witness for C15: the caller cancels during the debounce, the task wakes up,
and the events of a fitting run follow. -/
theorem liveFit_cancel_before_debounce_witness :
    (getLiveFitParams.run sortAll LiveFitState.init
      (cancelDuringDelay ++ LiveFitEvent.wake false ::
        cancelDuringFit eightProfile eightSigmas)).pc = LiveFitPc.returned ∧
    (getLiveFitParams.run sortAll LiveFitState.init
      (cancelDuringDelay ++ LiveFitEvent.wake false ::
        cancelDuringFit eightProfile eightSigmas)).delivered = some LiveFitResult.cancelled ∧
    LiveFitCall.createGaussianFitTasks ∉
      (getLiveFitParams.run sortAll LiveFitState.init
        (cancelDuringDelay ++ LiveFitEvent.wake false ::
          cancelDuringFit eightProfile eightSigmas)).calls ∧
    LiveFitCall.enqueueTasks ∉
      (getLiveFitParams.run sortAll LiveFitState.init
        (cancelDuringDelay ++ LiveFitEvent.wake false ::
          cancelDuringFit eightProfile eightSigmas)).calls :=
  liveFit_cancel_before_debounce sortAll cancelDuringDelay
    (cancelDuringFit eightProfile eightSigmas) false (by decide) (by decide)

/-- C16, the run that contradicts it: when the flag is unset at the end of the
debounce and the caller cancels while the task is fitting (the queue is aborted
and the flag set before `WaitForAllTasks` returns), the task tests nothing after
`WaitForAllTasks`: the future delivers the output of the reducer on what the
fitting engine holds, not the default `GaussianParams()`. -/
theorem liveFit_cancel_during_fitting (ps : List SigmaWeight → List SigmaWeight)
    (profile : RGBProfile) (sigmas : List ℚ) :
    (getLiveFitParams.run ps LiveFitState.init (cancelDuringFit profile sigmas)).cancel = true ∧
    (getLiveFitParams.run ps LiveFitState.init (cancelDuringFit profile sigmas)).aborted = true ∧
    (getLiveFitParams.run ps LiveFitState.init (cancelDuringFit profile sigmas)).calls =
      [LiveFitCall.createGaussianFitTasks, LiveFitCall.enqueueTasks,
       LiveFitCall.waitForAllTasks, LiveFitCall.destroyGaussianTasks,
       LiveFitCall.clearGaussianTasksCache] ∧
    (getLiveFitParams.run ps LiveFitState.init (cancelDuringFit profile sigmas)).delivered =
      some (LiveFitResult.reduced (getParamsFromRGBProfile ps profile sigmas)) ∧
    (getLiveFitParams.run ps LiveFitState.init (cancelDuringFit profile sigmas)).delivered ≠
      some LiveFitResult.cancelled := by
  refine ⟨rfl, rfl, rfl, rfl, ?_⟩
  intro h
  have h2 : (getLiveFitParams.run ps LiveFitState.init (cancelDuringFit profile sigmas)).delivered =
      some (LiveFitResult.reduced (getParamsFromRGBProfile ps profile sigmas)) := rfl
  rw [h2] at h
  simp at h

end Skin

namespace Skin

/-! ## The interpolator: the multilinear expansion -/

theorem cornerSum_nil (psp : ParamSamplePoints) (b : Int)
    (channel : RGBProfile → SingleProfile) (m : Nat) :
    cornerSum psp [] [] b channel m =
      (channel (psp.profiles.getD b.toNat { red := [], green := [], blue := [] })).getD m 0 := by
  simp [cornerSum, corners, cornerWeight, cornerCell, flatIndex]

/-- The expansion over one more dimension: the two halves of the corners. -/
theorem cornerSum_cons (psp : ParamSamplePoints) (sp : SamplePoints) (post : List SamplePoints)
    (l : LerpStruct) (ls : List LerpStruct) (b : Int)
    (channel : RGBProfile → SingleProfile) (m : Nat) :
    cornerSum psp (sp :: post) (l :: ls) b channel m =
      (1 - l.lerpAmount) *
          cornerSum psp post ls (b + (l.minId : Int) * sp.idMultiplier) channel m +
        l.lerpAmount *
          cornerSum psp post ls (b + (l.maxId : Int) * sp.idMultiplier) channel m := by
  unfold cornerSum
  simp only [List.length_cons, corners, List.map_append, List.map_map, List.sum_append,
    ← List.sum_map_mul_left]
  congr 1
  · congr 1
    apply List.map_congr_left
    intro c _
    simp only [Function.comp, cornerWeight, cornerCell, flatIndex, Bool.false_eq_true, if_false]
    rw [show b + ((l.minId : Int) * sp.idMultiplier + flatIndex post (cornerCell ls c)) =
      b + (l.minId : Int) * sp.idMultiplier + flatIndex post (cornerCell ls c) by ring]
    ring
  · congr 1
    apply List.map_congr_left
    intro c _
    simp only [Function.comp, cornerWeight, cornerCell, flatIndex, if_true]
    rw [show b + ((l.maxId : Int) * sp.idMultiplier + flatIndex post (cornerCell ls c)) =
      b + (l.maxId : Int) * sp.idMultiplier + flatIndex post (cornerCell ls c) by ring]
    ring

/-- The weights of the corners sum to 1. -/
theorem cornerWeight_sum (ls : List LerpStruct) :
    ((corners ls.length).map (cornerWeight ls)).sum = 1 := by
  induction ls with
  | nil => simp [corners, cornerWeight]
  | cons l ls ih =>
    simp only [List.length_cons, corners, List.map_append, List.map_map, List.sum_append]
    have h0 : (List.map (cornerWeight (l :: ls) ∘ fun c => false :: c) (corners ls.length)) =
        (corners ls.length).map (fun c => (1 - l.lerpAmount) * cornerWeight ls c) := by
      apply List.map_congr_left
      intro c _
      simp [cornerWeight]
    have h1 : (List.map (cornerWeight (l :: ls) ∘ fun c => true :: c) (corners ls.length)) =
        (corners ls.length).map (fun c => l.lerpAmount * cornerWeight ls c) := by
      apply List.map_congr_left
      intro c _
      simp [cornerWeight]
    rw [h0, h1, List.sum_map_mul_left, List.sum_map_mul_left, ih]
    ring

/-- With every fraction in `[0, 1]` the weight of every corner is not negative. -/
theorem cornerWeight_nonneg (ls : List LerpStruct)
    (h : ∀ l ∈ ls, 0 ≤ l.lerpAmount ∧ l.lerpAmount ≤ 1) (c : List Bool) :
    0 ≤ cornerWeight ls c := by
  induction ls generalizing c with
  | nil => simp [cornerWeight]
  | cons l ls ih =>
    cases c with
    | nil => simp [cornerWeight]
    | cons bit cs =>
      simp only [cornerWeight]
      have hl := h l (List.mem_cons_self _ _)
      have hrest := ih (fun l' hl' => h l' (List.mem_cons_of_mem _ hl')) cs
      apply mul_nonneg _ hrest
      cases bit
      · simp only [Bool.false_eq_true, if_false]; linarith [hl.2]
      · simp only [if_true]; exact hl.1

/-- One coefficient of a `lerp` result. -/
theorem rgb_lerp_getD (t : ℚ) (a b r : RGBProfile) (h : RGBProfile.lerp t a b = some r)
    (m : Nat) :
    r.red.getD m 0 = (1 - t) * a.red.getD m 0 + t * b.red.getD m 0 ∧
    r.green.getD m 0 = (1 - t) * a.green.getD m 0 + t * b.green.getD m 0 ∧
    r.blue.getD m 0 = (1 - t) * a.blue.getD m 0 + t * b.blue.getD m 0 := by
  have key : ∀ (x y z : SingleProfile), SingleProfile.lerp t x y = some z →
      z.getD m 0 = (1 - t) * x.getD m 0 + t * y.getD m 0 := by
    intro x y z hz
    obtain ⟨hlen, hzip⟩ := (single_lerp_eq_some t x y z).mp hz
    subst hzip
    by_cases hm : m < x.length
    · rw [List.getD_eq_getElem _ _ (by simp only [List.length_zipWith]; omega),
        List.getD_eq_getElem _ _ hm, List.getD_eq_getElem _ _ (by omega)]
      simp
    · rw [List.getD_eq_default _ _ (by simp only [List.length_zipWith]; omega),
        List.getD_eq_default _ _ (by omega), List.getD_eq_default _ _ (by omega)]
      ring
  obtain ⟨h1, h2, h3⟩ := (rgb_lerp_eq_some t a b r).mp h
  exact ⟨key _ _ _ h1, key _ _ _ h2, key _ _ _ h3⟩

end Skin

namespace Skin

/-- The profile read at an index inside the array. -/
theorem profileAt_getD (psp : ParamSamplePoints) (x : Int) (h0 : 0 ≤ x)
    (h1 : x < psp.profiles.length) (hL : psp.profiles.length < 2147483648) :
    profileAt psp (wrapInt x) =
      some (psp.profiles.getD x.toNat { red := [], green := [], blue := [] }) ∧
    psp.profiles.getD x.toNat { red := [], green := [], blue := [] } ∈ psp.profiles := by
  rw [wrapInt_of_range x (by omega) (by omega)]
  unfold profileAt
  rw [if_pos h0]
  have hx : x.toNat < psp.profiles.length := by omega
  rw [List.getD_eq_getElem _ _ hx]
  exact ⟨List.getElem?_eq_getElem hx, List.getElem_mem hx⟩

/-- The recursion of `nsample` computes the sum over the corners of the
dimensions it still has to visit. -/
theorem go_expand (psp : ParamSamplePoints) (hL : psp.profiles.length < 2147483648) (S : Nat)
    (hshape : ∀ p ∈ psp.profiles, p.red.length = S ∧ p.green.length = S ∧ p.blue.length = S)
    (post : List SamplePoints) (ls : List LerpStruct)
    (hbr : List.Forall₂
      (fun (l : LerpStruct) (sp : SamplePoints) =>
        l.minId < sp.points.length ∧ l.maxId < sp.points.length) ls post)
    (hne : post ≠ []) (dim : Nat) (b : Int)
    (hdrop : psp.paramSamplePoints.drop dim = post)
    (hcells : ∀ js, IsCell post js →
      0 ≤ b + flatIndex post js ∧ b + flatIndex post js < psp.profiles.length) :
    ∃ r, nsample.go psp (psp.paramSamplePoints.length : Int) ls dim (wrapInt b) = some r ∧
      (r.red.length = S ∧ r.green.length = S ∧ r.blue.length = S) ∧
      ∀ m, r.red.getD m 0 = cornerSum psp post ls b (fun p => p.red) m ∧
        r.green.getD m 0 = cornerSum psp post ls b (fun p => p.green) m ∧
        r.blue.getD m 0 = cornerSum psp post ls b (fun p => p.blue) m := by
  induction hbr generalizing dim b with
  | nil => exact absurd rfl hne
  | @cons l sp ls' post' hl hrest ih =>
    have hlen : dim < psp.paramSamplePoints.length := by
      by_contra hge
      have : psp.paramSamplePoints.drop dim = [] := List.drop_eq_nil_of_le (by omega)
      rw [this] at hdrop
      exact absurd hdrop (by simp)
    have hget : psp.paramSamplePoints[dim]? = some sp := by
      have := List.getElem?_drop psp.paramSamplePoints dim 0
      rw [hdrop] at this
      simpa using this.symm
    have hdrop' : psp.paramSamplePoints.drop (dim + 1) = post' := by
      have := List.drop_drop 1 dim psp.paramSamplePoints
      rw [hdrop] at this
      simpa [Nat.add_comm] using this.symm
    have hN : psp.paramSamplePoints.length = dim + (post'.length + 1) := by
      have := congrArg List.length hdrop
      simp only [List.length_drop, List.length_cons] at this
      omega
    have hstep : ∀ c : Nat, wrapInt (wrapInt b + wrapInt ((c : Int) * sp.idMultiplier)) =
        wrapInt (b + (c : Int) * sp.idMultiplier) := fun c => wrapInt_add_wrapInt _ _
    -- the value read or computed below one bracketing index
    have hsub : ∀ c : Nat, c < sp.points.length →
        ∃ p, (if decide ((dim : Int) = (psp.paramSamplePoints.length : Int) - 1) = true
            then profileAt psp (wrapInt (b + (c : Int) * sp.idMultiplier))
            else nsample.go psp (psp.paramSamplePoints.length : Int) ls' (dim + 1)
              (wrapInt (b + (c : Int) * sp.idMultiplier))) = some p ∧
          (p.red.length = S ∧ p.green.length = S ∧ p.blue.length = S) ∧
          ∀ m, p.red.getD m 0 =
              cornerSum psp post' ls' (b + (c : Int) * sp.idMultiplier) (fun p => p.red) m ∧
            p.green.getD m 0 =
              cornerSum psp post' ls' (b + (c : Int) * sp.idMultiplier) (fun p => p.green) m ∧
            p.blue.getD m 0 =
              cornerSum psp post' ls' (b + (c : Int) * sp.idMultiplier) (fun p => p.blue) m := by
      intro c hc
      by_cases hnil : post' = []
      · subst hnil
        cases hrest
        have hleaf : ((dim : Int) = (psp.paramSamplePoints.length : Int) - 1) := by
          rw [hN]; simp
        simp only [hleaf, decide_True, if_true]
        have hcell := hcells [c] (List.Forall₂.cons hc List.Forall₂.nil)
        simp only [flatIndex] at hcell
        obtain ⟨hp, hmem⟩ := profileAt_getD psp (b + (c : Int) * sp.idMultiplier)
          (by omega) (by omega) hL
        refine ⟨_, hp, hshape _ hmem, fun m => ?_⟩
        simp only [cornerSum_nil, and_self]
      · have hpos : 0 < post'.length := List.length_pos.mpr hnil
        have hnl : ¬ ((dim : Int) = (psp.paramSamplePoints.length : Int) - 1) := by
          rw [hN]; push_cast; omega
        simp only [hnl, decide_False, Bool.false_eq_true, if_false]
        apply ih hnil (dim + 1) (b + (c : Int) * sp.idMultiplier) hdrop'
        intro js hjs
        have hcell := hcells (c :: js) (List.Forall₂.cons hc hjs)
        simp only [flatIndex] at hcell
        constructor <;> omega
    obtain ⟨p1, hp1, s1, v1⟩ := hsub l.minId hl.1
    obtain ⟨p2, hp2, s2, v2⟩ := hsub l.maxId hl.2
    simp only [nsample.go, hget, hstep, hp1, hp2]
    by_cases hmm : l.maxId ≠ l.minId
    · rw [if_pos hmm]
      obtain ⟨r, hr, sr⟩ := rgb_lerp_total l.lerpAmount p1 p2 S s1 s2
      refine ⟨r, hr, sr, fun m => ?_⟩
      obtain ⟨e1, e2, e3⟩ := rgb_lerp_getD l.lerpAmount p1 p2 r hr m
      obtain ⟨a1, a2, a3⟩ := v1 m
      obtain ⟨b1, b2, b3⟩ := v2 m
      simp only [cornerSum_cons]
      rw [e1, e2, e3, a1, a2, a3, b1, b2, b3]
      exact ⟨rfl, rfl, rfl⟩
    · rw [if_neg hmm]
      have heq : l.maxId = l.minId := by
        by_contra h
        exact hmm h
      refine ⟨p1, rfl, s1, fun m => ?_⟩
      obtain ⟨a1, a2, a3⟩ := v1 m
      simp only [cornerSum_cons, heq]
      rw [a1, a2, a3]
      refine ⟨by ring, by ring, by ring⟩

/-- On non-empty dimensions the searches of `sample` return fractions in `[0, 1)`
and indices below the sizes of the dimensions. -/
theorem searches_bounds (sps : List SamplePoints) (q : List ℚ)
    (hne : ∀ sp ∈ sps, sp.points ≠ []) (hq : sps.length ≤ q.length) :
    ∃ ls, sample.searches sps q = some ls ∧
      List.Forall₂
        (fun (l : LerpStruct) (sp : SamplePoints) =>
          l.minId < sp.points.length ∧ l.maxId < sp.points.length) ls sps ∧
      ∀ l ∈ ls, 0 ≤ l.lerpAmount ∧ l.lerpAmount ≤ 1 := by
  induction sps generalizing q with
  | nil => exact ⟨[], by simp [sample.searches], List.Forall₂.nil, by simp⟩
  | cons sp sps ih =>
    cases q with
    | nil => simp at hq
    | cons x qs =>
      have hsp := hne sp (List.mem_cons_self _ _)
      obtain ⟨l, h1, h2, h3⟩ := searchLerp_total sp x hsp
      rcases searchLerp_cases sp x hsp with ⟨_, h⟩ | ⟨_, _, h⟩ | ⟨_, _, id, g1, _, g3, g4, h⟩
      all_goals
        obtain ⟨ls, h4, h5, h6⟩ := ih qs (fun s hs => hne s (List.mem_cons_of_mem _ hs))
          (by simpa using hq)
        refine ⟨l :: ls, by simp only [sample.searches, h1, h4], List.Forall₂.cons ⟨h2, h3⟩ h5, ?_⟩
        intro l' hl'
        rcases List.mem_cons.mp hl' with e | e
        swap
        · exact h6 l' e
        subst e
        rw [h1] at h
        simp only [Option.some.injEq] at h
      · rw [h]; norm_num
      · rw [h]; norm_num
      · by_cases hlt : x < sp.points.getD id 0
        · rw [if_pos hlt] at h
          rw [h]
          have hprev : sp.points.getD (id - 1) 0 < x := g3 (id - 1) (by omega)
          have hden : 0 < sp.points.getD id 0 - sp.points.getD (id - 1) 0 := by linarith
          exact ⟨div_nonneg (by linarith) (le_of_lt hden),
            (div_le_one hden).mpr (by linarith)⟩
        · rw [if_neg hlt] at h
          rw [h]; norm_num

/-- C19. Recursive `sample` equals the full multilinear expansion (over exact
arithmetic): for every well-formed table with `N ≥ 1` dimensions and every query
with one scalar per dimension, `sample` returns a profile, and every coefficient
of it is the sum over the `2^N` corners `c` of `{0,1}^N` of the product over `d`
of `w_d(c_d)` times the coefficient of the cell `sum_d idx_d(c_d) * idMultiplier_d`,
where `idx_d(0) = minId_d`, `idx_d(1) = maxId_d`, `w_d(0) = 1 - lerpAmount_d` and
`w_d(1) = lerpAmount_d`; the weights are not negative and sum to 1. -/
theorem sample_multilinear (psp : ParamSamplePoints) (hwf : WellFormedTable psp)
    (q : List ℚ) (hq : q.length = psp.paramSamplePoints.length) :
    ∃ lerps r, sample.searches psp.paramSamplePoints q = some lerps ∧
      sample psp q = some r ∧
      (∀ m, r.red.getD m 0 = multilinear psp lerps (fun p => p.red) m ∧
        r.green.getD m 0 = multilinear psp lerps (fun p => p.green) m ∧
        r.blue.getD m 0 = multilinear psp lerps (fun p => p.blue) m) ∧
      (∀ c ∈ corners lerps.length, 0 ≤ cornerWeight lerps c) ∧
      ((corners lerps.length).map (cornerWeight lerps)).sum = 1 := by
  obtain ⟨hdims, hne, hrm, hsize, hL, hshape⟩ := hwf
  obtain ⟨ls, h1, h2, h3⟩ := searches_bounds psp.paramSamplePoints q hne (by omega)
  have hcells : ∀ js, IsCell psp.paramSamplePoints js →
      0 ≤ 0 + flatIndex psp.paramSamplePoints js ∧
      0 + flatIndex psp.paramSamplePoints js < psp.profiles.length := by
    intro js hjs
    obtain ⟨a, b⟩ := flatIndex_range psp.paramSamplePoints js hrm hjs
    rw [hsize]
    constructor <;> omega
  obtain ⟨r, hr, _, hv⟩ := go_expand psp hL psp.sigmas.length hshape psp.paramSamplePoints ls h2
    hdims 0 0 (by simp) hcells
  have hw0 : wrapInt 0 = 0 := by decide
  rw [hw0] at hr
  refine ⟨ls, r, h1, ?_, hv, fun c _ => cornerWeight_nonneg ls h3 c, cornerWeight_sum ls⟩
  unfold sample
  rw [h1]
  simp only [nsample, List.drop_zero]
  exact hr

end Skin

namespace Skin

/-- Witness for C19: the two-dimensional example table at the query
`(1/2, 5/2)`, inside the cell between the grid points 0, 1 and 0, 5. -/
theorem sample_multilinear_witness :
    ∃ lerps r, sample.searches gridTable.paramSamplePoints [1 / 2, 5 / 2] = some lerps ∧
      sample gridTable [1 / 2, 5 / 2] = some r ∧
      (∀ m, r.red.getD m 0 = multilinear gridTable lerps (fun p => p.red) m ∧
        r.green.getD m 0 = multilinear gridTable lerps (fun p => p.green) m ∧
        r.blue.getD m 0 = multilinear gridTable lerps (fun p => p.blue) m) ∧
      (∀ c ∈ corners lerps.length, 0 ≤ cornerWeight lerps c) ∧
      ((corners lerps.length).map (cornerWeight lerps)).sum = 1 :=
  sample_multilinear gridTable
    ⟨by decide, by decide, ⟨by decide, by decide, trivial⟩, by decide, by decide, by decide⟩
    [1 / 2, 5 / 2] rfl

end Skin

namespace Skin

/-! ## The loader: the header check -/

/-- The header check of the `ID` branch: the only `Ill-formed` failure, taken
exactly when the line has fewer than `nParams + 3` tokens. -/
theorem parseHeader_illFormed (atof : String → ℚ) (st : ParserState) (tokens : List String) :
    parseHeader atof st tokens = Except.error ParseError.illFormed ↔
      tokens.length < st.psp.paramSamplePoints.length + 3 := by
  unfold parseHeader
  dsimp only
  by_cases h1 : tokens.length < st.psp.paramSamplePoints.length + 1 + 2
  · rw [if_pos h1]
    simp only [true_iff]
    omega
  · rw [if_neg h1]
    have h2 : ¬ tokens.length < st.psp.paramSamplePoints.length + 3 := by omega
    simp only [h2, iff_false]
    split_ifs <;> simp

/-- C23. Exact header acceptance threshold: with `nDims` dimension lines accepted
before it, the first line whose first token is `ID` fails the header check
(`parseFile` ends in the fatal format error) if and only if it has fewer than
`nDims + 3` tokens, whatever follows it; in particular an `ID` line with exactly
`nDims + 2` tokens is rejected with the fatal format error. -/
theorem parseFile_header_threshold (atoi : String → Int) (atof : String → ℚ)
    (pre : List (List String)) (idLine : List String) (post : List (List String))
    (hpre : ∀ l ∈ pre, l.head? ≠ some "ID") (hid : idLine.head? = some "ID") :
    (parseFile atoi atof (pre ++ idLine :: post) = Except.error ParseError.illFormed ↔
      idLine.length < acceptedDimensions atoi pre + 3) ∧
    (idLine.length = acceptedDimensions atoi pre + 2 →
      parseFile atoi atof (pre ++ idLine :: post) = Except.error ParseError.illFormed) := by
  obtain ⟨st, e1, e2, e3, _⟩ :=
    parseLines_sample_section atoi atof pre hpre ParserState.init rfl
  have hlen : st.psp.paramSamplePoints.length = acceptedDimensions atoi pre := by
    rw [e3]; simp [ParserState.init]
  have hne : ¬ (idLine.length = 0 ∨ idLine.head? = some "Param") := by
    rintro (h | h)
    · have : idLine = [] := List.length_eq_zero.mp h
      rw [this] at hid; simp at hid
    · rw [hid] at h; simp at h
  have hline : parseLine atoi atof st idLine = parseHeader atof st idLine := by
    unfold parseLine
    rw [if_pos e2, if_neg hne, if_pos hid]
  have hiff : parseFile atoi atof (pre ++ idLine :: post) = Except.error ParseError.illFormed ↔
      idLine.length < acceptedDimensions atoi pre + 3 := by
    rw [← hlen, ← parseHeader_illFormed atof st idLine]
    unfold parseFile
    rw [parseLines_append, e1]
    simp only [parseLines, hline]
    cases hh : parseHeader atof st idLine with
    | error e =>
      simp only
      constructor
      · intro h
        injection h with h'
        rw [h']
      · intro h
        injection h with h'
        rw [h']
    | ok st1 =>
      simp only
      have hw := (parseHeader_ok atof st st1 idLine hh).1
      rw [parseLines_rows atoi atof post st1 hw]
      simp only
      split_ifs <;> simp
  exact ⟨hiff, fun h => hiff.mpr (by omega)⟩

/-- Witness for C23: one accepted dimension line, then an `ID` line of exactly
three tokens (`ID`, the parameter column, the channel-marker column). -/
theorem parseFile_header_threshold_witness :
    parseFile digitValue digitAtof ([["mel", "2", "0", "1"]] ++ ["ID", "mel", "RGB"] :: [])
      = Except.error ParseError.illFormed :=
  (parseFile_header_threshold digitValue digitAtof [["mel", "2", "0", "1"]]
    ["ID", "mel", "RGB"] [] (by decide) (by decide)).2 (by decide)

end Skin

namespace Skin

/-! ## The loader: skipped rows -/

/-- A skipped row leaves the state as it is. -/
theorem parseProfileRow_skipped (atoi : String → Int) (atof : String → ℚ) (st : ParserState)
    (tokens : List String) (h : rowSkipped atoi st tokens) :
    parseProfileRow atoi atof st tokens = st := by
  unfold parseProfileRow
  dsimp only
  rcases h with h | h | h | h
  · rw [if_pos h]
  · split_ifs <;> rfl
  · split_ifs with h1 h2 h3 <;> first | rfl | (exfalso; omega)
  · split_ifs with h1 h2 h3 <;> first | rfl | (exfalso; omega)

/-- Whether a row is skipped depends on the three counters of the state only. -/
theorem rowSkipped_congr (atoi : String → Int) (st st' : ParserState) (tokens : List String)
    (h1 : st'.rgbColumnIndex = st.rgbColumnIndex) (h2 : st'.minColumns = st.minColumns)
    (h3 : st'.totalProfiles = st.totalProfiles) :
    rowSkipped atoi st' tokens ↔ rowSkipped atoi st tokens := by
  unfold rowSkipped
  rw [h1, h2, h3]

theorem foldl_rows_want (atoi : String → Int) (atof : String → ℚ)
    (rows : List (List String)) (st : ParserState) :
    (rows.foldl (parseProfileRow atoi atof) st).wantSamplePoints = st.wantSamplePoints := by
  induction rows generalizing st with
  | nil => rfl
  | cons r rest ih =>
    simp only [List.foldl_cons]
    rw [ih, (parseProfileRow_frame atoi atof st r).1]

/-- In the profile section a line is handled by `parseProfileRow`. -/
theorem parseLine_row (atoi : String → Int) (atof : String → ℚ) (st : ParserState)
    (tokens : List String) (hw : st.wantSamplePoints = false) :
    parseLine atoi atof st tokens = Except.ok (parseProfileRow atoi atof st tokens) := by
  unfold parseLine
  rw [if_neg (by rw [hw]; simp)]

/-- C21. Tolerant skip leaves the table unchanged: in the profile section (after
the lines `head` the loop is in a state with `wantSamplePoints = false`), a line
that has fewer than `minColumns` tokens, or whose token at the channel-marker
column is none of `R`, `G`, `B`, or whose leading integer id is negative or not
below the total profile count, is processed without error and leaves every
field of the parser state and of `psp` as it was, wherever it stands among the
rows; so `parseFile` gives the same result with and without that line. -/
theorem parseFile_skip (atoi : String → Int) (atof : String → ℚ)
    (head rows1 rows2 : List (List String)) (skip : List String) (st1 : ParserState)
    (hhead : parseLines atoi atof ParserState.init head = Except.ok st1)
    (hsec : st1.wantSamplePoints = false)
    (hskip : rowSkipped atoi st1 skip) :
    (∃ st, parseLines atoi atof ParserState.init (head ++ rows1) = Except.ok st ∧
      parseLine atoi atof st skip = Except.ok st) ∧
    parseFile atoi atof (head ++ rows1 ++ skip :: rows2) =
      parseFile atoi atof (head ++ rows1 ++ rows2) := by
  have hrun1 : parseLines atoi atof ParserState.init (head ++ rows1) =
      Except.ok (rows1.foldl (parseProfileRow atoi atof) st1) := by
    rw [parseLines_append, hhead]
    exact parseLines_rows atoi atof rows1 st1 hsec
  obtain ⟨f1, f2, f3, _, _, _⟩ := foldl_rows_frame atoi atof rows1 st1
  have hskip' : rowSkipped atoi (rows1.foldl (parseProfileRow atoi atof) st1) skip :=
    (rowSkipped_congr atoi st1 _ skip f1 f2 f3).mpr hskip
  have hw : (rows1.foldl (parseProfileRow atoi atof) st1).wantSamplePoints = false := by
    rw [foldl_rows_want]; exact hsec
  have hstep : parseLine atoi atof (rows1.foldl (parseProfileRow atoi atof) st1) skip =
      Except.ok (rows1.foldl (parseProfileRow atoi atof) st1) := by
    rw [parseLine_row atoi atof _ skip hw, parseProfileRow_skipped atoi atof _ skip hskip']
  refine ⟨⟨_, hrun1, hstep⟩, ?_⟩
  unfold parseFile
  rw [parseLines_append atoi atof ParserState.init (head ++ rows1) (skip :: rows2),
    parseLines_append atoi atof ParserState.init (head ++ rows1) rows2, hrun1]
  simp only [parseLines, hstep]

/-- Witness for C21: in the two-dimensional example file, a row whose channel
marker is `X`, put after the first three rows, changes nothing. -/
theorem parseFile_skip_witness :
    parseFile digitValue digitAtof
        (gridLines.take 4 ++ (gridLines.drop 4).take 3 ++
          ["0", "0", "0", "X", "5"] :: gridLines.drop 7) =
      parseFile digitValue digitAtof
        (gridLines.take 4 ++ (gridLines.drop 4).take 3 ++ gridLines.drop 7) :=
  (parseFile_skip digitValue digitAtof (gridLines.take 4) ((gridLines.drop 4).take 3)
    (gridLines.drop 7) ["0", "0", "0", "X", "5"] gridHeaderState
    (by decide) (by decide) (by decide)).2

end Skin

namespace Skin

/-! ## The loader: accepted rows -/

/-- What holds in the profile section of every run: the channel-marker column
follows the parameter columns, the coefficient columns end at `minColumns`, and
`totalProfiles` is the size of the profile array. -/
theorem profile_section (atoi : String → Int) (atof : String → ℚ)
    (head : List (List String)) (st : ParserState)
    (hhead : parseLines atoi atof ParserState.init head = Except.ok st)
    (hsec : st.wantSamplePoints = false) :
    st.rgbColumnIndex = st.psp.paramSamplePoints.length + 1 ∧
    st.minColumns = st.rgbColumnIndex + 1 + st.psp.sigmas.length ∧
    st.totalProfiles = (st.psp.profiles.length : Int) := by
  rcases lines_split head with hno | ⟨pre, idLine, rows, hsplit, hpre, hid⟩
  · obtain ⟨st', e1, e2, _, _⟩ := no_header_run atoi atof head hno
    rw [e1] at hhead
    simp only [Except.ok.injEq] at hhead
    rw [hhead] at e2
    rw [e2] at hsec
    exact absurd hsec (by simp)
  · rw [hsplit] at hhead
    obtain ⟨st0, st1, _, _, _, hh, _, hfold⟩ :=
      header_run atoi atof pre idLine rows st hpre hid hhead
    obtain ⟨_, h2, h3, h4, _, h6, h7, _⟩ := parseHeader_ok atof st0 st1 idLine hh
    obtain ⟨f1, f2, f3, f4, f5, f6⟩ := foldl_rows_frame atoi atof rows st1
    rw [← hfold] at f1 f2 f3 f4 f5 f6
    refine ⟨?_, ?_, ?_⟩
    · rw [f1, f5, h2, h6, assignMultipliers_length]
    · rw [f2, f1, f4, h3]
    · rw [f3, f6, h7, resizeProfiles_length]
      omega

/-- Rows that do not address channel `m` of cell `id` leave it as it is. -/
theorem rows_keep_channel (atoi : String → Int) (atof : String → ℚ)
    (rows : List (List String)) (st0 : ParserState)
    (htot : st0.totalProfiles = (st0.psp.profiles.length : Int))
    (id : Nat) (hid : id < st0.psp.profiles.length) (m : String) (hm : m ∈ ["R", "G", "B"])
    (hno : ∀ r ∈ rows, ¬ rowAddresses atoi st0.rgbColumnIndex st0.minColumns r id m) :
    channelOf ((rows.foldl (parseProfileRow atoi atof) st0).psp.profiles.getD id
        { red := [], green := [], blue := [] }) m =
      channelOf (st0.psp.profiles.getD id { red := [], green := [], blue := [] }) m := by
  induction rows generalizing st0 with
  | nil => rfl
  | cons r rest ih =>
    simp only [List.foldl_cons]
    obtain ⟨_, g2, g3, g4, _, _⟩ := parseProfileRow_frame atoi atof st0 r
    have g6 := parseProfileRow_profiles_length atoi atof st0 r
    have hrest : ∀ r' ∈ rest, ¬ rowAddresses atoi (parseProfileRow atoi atof st0 r).rgbColumnIndex
        (parseProfileRow atoi atof st0 r).minColumns r' id m := by
      intro r' hr'
      rw [g2, g3]
      exact hno r' (List.mem_cons_of_mem _ hr')
    rw [ih (parseProfileRow atoi atof st0 r) (by rw [g4, g6]; exact htot) (by rw [g6]; exact hid)
      hrest]
    have hr : ¬ rowAddresses atoi st0.rgbColumnIndex st0.minColumns r id m :=
      hno r (List.mem_cons_self _ _)
    rcases parseProfileRow_cases atoi atof st0 r htot with
      ⟨hsame, _⟩ | ⟨id0, m0, p', hid0, _, haddr, hset, _, hother⟩
    · rw [hsame]
    · rw [hset, getD_set]
      by_cases hi : id0 = id
      · subst hi
        rw [if_pos ⟨rfl, hid0⟩]
        have hmm : m ≠ m0 := by
          intro hc
          subst hc
          exact hr haddr
        exact hother m hm hmm
      · rw [if_neg (fun hc => hi hc.1)]

/-- An accepted row, seen as one step of `parseProfileRow`. -/
theorem parseProfileRow_accepted (atoi : String → Int) (atof : String → ℚ) (st : ParserState)
    (r : List String) (htot : st.totalProfiles = (st.psp.profiles.length : Int))
    (id : Nat) (m : String) (hm : m ∈ ["R", "G", "B"]) (hid : id < st.psp.profiles.length)
    (haddr : rowAddresses atoi st.rgbColumnIndex st.minColumns r id m) :
    ∃ p', (parseProfileRow atoi atof st r).psp.profiles = st.psp.profiles.set id p' ∧
      channelOf p' m =
        (List.range' (st.rgbColumnIndex + 1) (st.minColumns - (st.rgbColumnIndex + 1))).map
          (fun i => atof (r.getD i "")) ∧
      ∀ m' ∈ ["R", "G", "B"], m' ≠ m →
        channelOf p' m' =
          channelOf (st.psp.profiles.getD id { red := [], green := [], blue := [] }) m' := by
  rcases parseProfileRow_cases atoi atof st r htot with
    ⟨_, hno⟩ | ⟨id0, m0, p', _, _, haddr0, hset, hch, hother⟩
  · exact absurd haddr (hno id m hid hm)
  · have hi : id0 = id := by
      have h1 := haddr0.2.2
      have h2 := haddr.2.2
      rw [h1] at h2
      exact_mod_cast h2
    have hmm : m0 = m := haddr0.2.1.symm.trans haddr.2.1
    subst hi
    subst hmm
    exact ⟨p', hset, hch, hother⟩

end Skin

namespace Skin

/-- C22. An accepted profile row overwrites exactly one channel: in the profile
section (after the lines `head`), a line `r` with at least `minColumns` tokens,
marker `m` among `R`, `G`, `B` and id in `[0, total)` is processed without
error; after it channel `m` of `profiles[id]` holds exactly the parsed values of
the tokens `nDims + 2 .. minColumns - 1` of `r`, one per sigma (tokens from
`minColumns` on are not read); every other cell, the other two channels of that
cell, the sigmas, the sample points and the counters of the parser state are
unchanged; and when no later row addresses the same cell and channel, the values
of `r` are the stored ones at the end of the loop. -/
theorem parseFile_row_overwrite (atoi : String → Int) (atof : String → ℚ)
    (head : List (List String)) (st : ParserState)
    (hhead : parseLines atoi atof ParserState.init head = Except.ok st)
    (hsec : st.wantSamplePoints = false)
    (r : List String) (id : Nat) (m : String) (hm : m ∈ ["R", "G", "B"])
    (hid : (id : Int) < st.totalProfiles)
    (haddr : rowAddresses atoi st.rgbColumnIndex st.minColumns r id m) :
    ∃ st', parseLines atoi atof ParserState.init (head ++ [r]) = Except.ok st' ∧
      st.minColumns = st.psp.paramSamplePoints.length + 2 + st.psp.sigmas.length ∧
      id < st'.psp.profiles.length ∧
      channelOf (st'.psp.profiles.getD id { red := [], green := [], blue := [] }) m =
        (List.range' (st.psp.paramSamplePoints.length + 2) st.psp.sigmas.length).map
          (fun i => atof (r.getD i "")) ∧
      (∀ id', id' ≠ id → st'.psp.profiles[id']? = st.psp.profiles[id']?) ∧
      (∀ m' ∈ ["R", "G", "B"], m' ≠ m →
        channelOf (st'.psp.profiles.getD id { red := [], green := [], blue := [] }) m' =
          channelOf (st.psp.profiles.getD id { red := [], green := [], blue := [] }) m') ∧
      st'.psp.sigmas = st.psp.sigmas ∧
      st'.psp.paramSamplePoints = st.psp.paramSamplePoints ∧
      st'.psp.profiles.length = st.psp.profiles.length ∧
      st'.wantSamplePoints = st.wantSamplePoints ∧ st'.rgbColumnIndex = st.rgbColumnIndex ∧
      st'.minColumns = st.minColumns ∧ st'.totalProfiles = st.totalProfiles ∧
      (∀ rows2 st2,
        parseLines atoi atof ParserState.init (head ++ r :: rows2) = Except.ok st2 →
        (∀ r' ∈ rows2, ¬ rowAddresses atoi st.rgbColumnIndex st.minColumns r' id m) →
        channelOf (st2.psp.profiles.getD id { red := [], green := [], blue := [] }) m =
          (List.range' (st.psp.paramSamplePoints.length + 2) st.psp.sigmas.length).map
            (fun i => atof (r.getD i ""))) := by
  obtain ⟨hrgb, hmin, htot⟩ := profile_section atoi atof head st hhead hsec
  have hidn : id < st.psp.profiles.length := by
    rw [htot] at hid
    exact_mod_cast hid
  obtain ⟨p', hset, hch, hother⟩ :=
    parseProfileRow_accepted atoi atof st r htot id m hm hidn haddr
  obtain ⟨g1, g2, g3, g4, g5, g6⟩ := parseProfileRow_frame atoi atof st r
  have g7 := parseProfileRow_profiles_length atoi atof st r
  have hcols : st.rgbColumnIndex + 1 = st.psp.paramSamplePoints.length + 2 := by omega
  have hcnt : st.minColumns - (st.psp.paramSamplePoints.length + 2) = st.psp.sigmas.length := by
    omega
  rw [hcols, hcnt] at hch
  have hrun : parseLines atoi atof ParserState.init (head ++ [r]) =
      Except.ok (parseProfileRow atoi atof st r) := by
    rw [parseLines_append, hhead]
    simp only [parseLines, parseLine_row atoi atof st r hsec]
  have hval : channelOf ((parseProfileRow atoi atof st r).psp.profiles.getD id
      { red := [], green := [], blue := [] }) m =
      (List.range' (st.psp.paramSamplePoints.length + 2) st.psp.sigmas.length).map
        (fun i => atof (r.getD i "")) := by
    rw [hset, getD_set, if_pos ⟨rfl, hidn⟩]
    exact hch
  refine ⟨parseProfileRow atoi atof st r, hrun, by omega, by rw [g7]; exact hidn, hval, ?_, ?_,
    g5, g6, g7, g1, g2, g3, g4, ?_⟩
  · intro id' hne
    rw [hset, List.getElem?_set_ne (fun h => hne h.symm)]
  · intro m' hm' hne
    rw [hset, getD_set, if_pos ⟨rfl, hidn⟩]
    exact hother m' hm' hne
  · intro rows2 st2 hrun2 hno
    have hsplit : head ++ r :: rows2 = (head ++ [r]) ++ rows2 := by simp
    rw [hsplit, parseLines_append, hrun] at hrun2
    simp only at hrun2
    rw [parseLines_rows atoi atof rows2 _ (by rw [g1]; exact hsec)] at hrun2
    simp only [Except.ok.injEq] at hrun2
    rw [← hrun2, rows_keep_channel atoi atof rows2 (parseProfileRow atoi atof st r)
      (by rw [g4, g7]; exact htot) id (by rw [g7]; exact hidn) m hm
      (by rw [g2, g3]; exact hno)]
    exact hval

/-- Witness for C22: after the `ID` line of the two-dimensional example file, the
row `2 1 0 G 3 7` sets the green channel of cell 2 from its token 4; its last
token is not read. -/
theorem parseFile_row_overwrite_witness :
    ∃ st', parseLines digitValue digitAtof ParserState.init
        (gridLines.take 4 ++ [["2", "1", "0", "G", "3", "7"]]) = Except.ok st' ∧
      channelOf (st'.psp.profiles.getD 2 { red := [], green := [], blue := [] }) "G" =
        (List.range' (gridHeaderState.psp.paramSamplePoints.length + 2)
          gridHeaderState.psp.sigmas.length).map
          (fun i => digitAtof ((["2", "1", "0", "G", "3", "7"] : List String).getD i "")) :=
  have h := parseFile_row_overwrite digitValue digitAtof (gridLines.take 4) gridHeaderState
    (by decide) (by decide) ["2", "1", "0", "G", "3", "7"] 2 "G" (by decide) (by decide)
    (by decide)
  h.elim (fun st' hs => ⟨st', hs.1, hs.2.2.2.1⟩)

end Skin

namespace Skin

/-! ## Tables set as by the loader -/

/-- On non-empty dimensions the cells of a run of trailing dimensions are not
more than the cells of the table. -/
theorem gridSize_drop_le (sps : List SamplePoints) (hne : ∀ sp ∈ sps, sp.points ≠ [])
    (d : Nat) : gridSize (sps.drop d) ≤ gridSize sps := by
  induction sps generalizing d with
  | nil => simp
  | cons sp rest ih =>
    have hrest : ∀ s ∈ rest, s.points ≠ [] := fun s hs => hne s (List.mem_cons_of_mem _ hs)
    have hpos : 1 ≤ sp.points.length :=
      List.length_pos.mpr (hne sp (List.mem_cons_self _ _))
    have hstep : gridSize rest ≤ gridSize (sp :: rest) := by
      rw [gridSize_cons]
      exact Nat.le_mul_of_pos_left _ hpos
    cases d with
    | zero => exact le_refl _
    | succ d =>
      simp only [List.drop_succ_cons]
      exact le_trans (ih hrest d) hstep

/-- A table set as by the loader, with one profile per cell and no empty
dimension, has row-major strides and fewer than `2^31` profiles. -/
theorem setByLoader_rowMajor (psp : ParamSamplePoints)
    (hne : ∀ sp ∈ psp.paramSamplePoints, sp.points ≠ [])
    (hloader : SetByLoader psp) (hsize : psp.profiles.length = gridSize psp.paramSamplePoints) :
    RowMajor psp.paramSamplePoints ∧ psp.profiles.length < 2147483648 := by
  unfold SetByLoader at hloader
  have h1 : (assignMultipliers psp.paramSamplePoints).1 = psp.paramSamplePoints := by
    rw [hloader]
  have h2 : (assignMultipliers psp.paramSamplePoints).2 = (psp.profiles.length : Int) := by
    rw [hloader]
  have hL : psp.profiles.length < 2147483648 := by
    have := (assignMultipliers_range psp.paramSamplePoints).2
    rw [h2] at this
    exact_mod_cast this
  refine ⟨?_, hL⟩
  rw [← h1]
  apply assignMultipliers_rowMajor
  intro d
  have := gridSize_drop_le psp.paramSamplePoints hne d
  omega

end Skin

namespace Skin

/-- Running the multiplier loop again over its own result changes nothing. -/
theorem assignMultipliers_idem (sps : List SamplePoints) :
    assignMultipliers (assignMultipliers sps).1 = assignMultipliers sps := by
  induction sps with
  | nil => rfl
  | cons sp rest ih =>
    simp only [assignMultipliers, ih]

/-- Every table loaded from a file with an `ID` line is set as by the loader. -/
theorem parseFile_setByLoader (atoi : String → Int) (atof : String → ℚ)
    (lines : List (List String)) (psp : ParamSamplePoints)
    (hload : parseFile atoi atof lines = Except.ok psp)
    (hid : ∃ l ∈ lines, l.head? = some "ID") : SetByLoader psp := by
  obtain ⟨st2, hrun, hpsp, _⟩ := parseFile_ok atoi atof lines psp hload
  obtain ⟨l, hl, hlid⟩ := hid
  rcases lines_split lines with hno | ⟨pre, idLine, rows, hsplit, hpre, hid'⟩
  · exact absurd hlid (hno l hl)
  · rw [hsplit] at hrun
    obtain ⟨st0, st1, _, _, _, hh, _, hfold⟩ :=
      header_run atoi atof pre idLine rows st2 hpre hid' hrun
    obtain ⟨_, _, _, h4, h5, h6, h7, _⟩ := parseHeader_ok atof st0 st1 idLine hh
    obtain ⟨_, _, _, _, f5, f6⟩ := foldl_rows_frame atoi atof rows st1
    rw [← hfold] at f5 f6
    unfold SetByLoader
    rw [← hpsp, f5, f6, h6, assignMultipliers_idem, h7, resizeProfiles_length]
    have hcast : ((st1.totalProfiles.toNat : Nat) : Int) = st1.totalProfiles := by omega
    rw [hcast, h5]

end Skin

namespace Skin

/-! ## binary32: the comparisons -/

theorem F32.cmp_le_of_lt (a b : F32) (h : F32.lt a b = true) : F32.le a b = true := by
  cases a <;> cases b <;> simp [F32.lt, F32.le] at h ⊢
  · simp [h]
  · exact h
  · exact h
  · exact h.le

theorem F32.cmp_le_refl (a : F32) (h : a ≠ F32.nan) : F32.le a a = true := by
  cases a <;> simp [F32.le] at h ⊢

theorem F32.cmp_lt_irrefl (a : F32) : F32.lt a a = false := by
  cases a <;> simp [F32.lt]

/-- Two values that are not NaN compare one way or the other. -/
theorem F32.cmp_lt_of_not_le (a b : F32) (ha : a ≠ F32.nan) (hb : b ≠ F32.nan)
    (h : F32.le a b = false) : F32.lt b a = true := by
  cases a <;> cases b <;> simp [F32.lt, F32.le] at ha hb h ⊢
  · simp [h]
  · exact h
  · exact h
  · exact h

theorem F32.cmp_not_lt_of_le (a b : F32) (h : F32.le a b = true) : F32.lt b a = false := by
  cases a <;> cases b <;> simp [F32.lt, F32.le] at h ⊢
  · rcases h with h | h <;> simp [h]
  · exact h
  · exact h
  · exact h

theorem F32.cmp_lt_of_lt_of_le (a b c : F32) (h1 : F32.lt a b = true) (h2 : F32.le b c = true) :
    F32.lt a c = true := by
  cases a <;> cases b <;> cases c <;> simp [F32.lt, F32.le] at h1 h2 ⊢
  all_goals first
    | exact h1.trans_le h2
    | simp_all

/-- Values that are not NaN are ordered: one is below the other or they are
equal. -/
theorem F32.cmp_trichotomy (a b : F32) (ha : a ≠ F32.nan) (hb : b ≠ F32.nan) :
    F32.lt a b = true ∨ a = b ∨ F32.lt b a = true := by
  cases a with
  | nan => exact absurd rfl ha
  | inf s =>
    cases b with
    | nan => exact absurd rfl hb
    | inf t => cases s <;> cases t <;> simp [F32.lt]
    | fin y => cases s <;> simp [F32.lt]
  | fin x =>
    cases b with
    | nan => exact absurd rfl hb
    | inf t => cases t <;> simp [F32.lt]
    | fin y =>
      simp only [F32.lt, decide_eq_true_eq, F32.fin.injEq]
      rcases lt_or_ge x y with h | h
      · exact Or.inl h
      · rcases h.lt_or_eq with h | h
        · exact Or.inr (Or.inr h)
        · exact Or.inr (Or.inl h.symm)

theorem F32.cmp_eq_iff (a b : F32) : F32.eq a b = true ↔ a ≠ F32.nan ∧ a = b := by
  simp [F32.eq]

end Skin

namespace Skin

/-! ## binary32: rounding -/

theorem F32.roundHalfEven_int (n : Int) : F32.roundHalfEven (n : ℚ) = n := by
  unfold F32.roundHalfEven
  simp

/-- Rounding to the nearest integer keeps the order. -/
theorem F32.roundHalfEven_mono (x y : ℚ) (h : x ≤ y) :
    F32.roundHalfEven x ≤ F32.roundHalfEven y := by
  have hfl : ⌊x⌋ ≤ ⌊y⌋ := Int.floor_mono h
  have hx0 : (⌊x⌋ : ℚ) ≤ x := Int.floor_le x
  have hx1 : x < ⌊x⌋ + 1 := Int.lt_floor_add_one x
  have hy0 : (⌊y⌋ : ℚ) ≤ y := Int.floor_le y
  have hy1 : y < ⌊y⌋ + 1 := Int.lt_floor_add_one y
  -- when the floors agree, the fractional parts are ordered
  have hsame : ⌊x⌋ = ⌊y⌋ → x - ⌊x⌋ ≤ y - ⌊y⌋ := by
    intro e
    rw [e]
    linarith
  have hlt : ⌊x⌋ ≠ ⌊y⌋ → ⌊x⌋ + 1 ≤ ⌊y⌋ := by
    intro hne
    omega
  unfold F32.roundHalfEven
  by_cases e : ⌊x⌋ = ⌊y⌋
  · have hf := hsame e
    split_ifs <;> first | omega | (exfalso; linarith)
  · have := hlt e
    split_ifs <;> omega

/-- The exponent search: the result is among the candidates, its bound holds
unless every candidate has failed, and every candidate before it has failed. -/
theorem F32.exponentFrom_spec (x : ℚ) (fuel : Nat) (e0 : Int) :
    e0 ≤ F32.exponentFrom x fuel e0 ∧ F32.exponentFrom x fuel e0 ≤ e0 + fuel ∧
    (F32.exponentFrom x fuel e0 < e0 + fuel → |x| < 2 ^ (F32.exponentFrom x fuel e0 + 1)) ∧
    (e0 < F32.exponentFrom x fuel e0 → (2 : ℚ) ^ (F32.exponentFrom x fuel e0) ≤ |x|) := by
  induction fuel generalizing e0 with
  | zero => simp [F32.exponentFrom]
  | succ fuel ih =>
    unfold F32.exponentFrom
    by_cases h : |x| < 2 ^ (e0 + 1)
    · rw [if_pos h]
      refine ⟨le_refl _, by push_cast; omega, fun _ => h, fun hc => absurd hc (lt_irrefl _)⟩
    · rw [if_neg h]
      obtain ⟨h1, h2, h3, h4⟩ := ih (e0 + 1)
      refine ⟨by omega, by push_cast; omega, ?_, ?_⟩
      · intro hlt
        apply h3
        push_cast at hlt
        omega
      · intro _
        by_cases hc : e0 + 1 < F32.exponentFrom x fuel (e0 + 1)
        · exact h4 hc
        · have e : F32.exponentFrom x fuel (e0 + 1) = e0 + 1 := by omega
          rw [e]
          exact not_lt.mp h

theorem F32.exponent_spec (x : ℚ) :
    -126 ≤ F32.exponent x ∧ F32.exponent x ≤ 128 ∧
    (F32.exponent x < 128 → |x| < 2 ^ (F32.exponent x + 1)) ∧
    (-126 < F32.exponent x → (2 : ℚ) ^ (F32.exponent x) ≤ |x|) := by
  obtain ⟨h1, h2, h3, h4⟩ := F32.exponentFrom_spec x 254 (-126)
  refine ⟨h1, by simpa using h2, ?_, h4⟩
  intro h
  apply h3
  unfold F32.exponent at h
  simpa using h

/-- A larger magnitude has no smaller exponent. -/
theorem F32.exponent_mono (x y : ℚ) (h : |x| ≤ |y|) : F32.exponent x ≤ F32.exponent y := by
  by_contra hc
  have hlt : F32.exponent y < F32.exponent x := not_le.mp hc
  obtain ⟨_, x2, _, x4⟩ := F32.exponent_spec x
  obtain ⟨y1, _, y3, _⟩ := F32.exponent_spec y
  have hy := y3 (by omega)
  have hx := x4 (by omega)
  have hpow : (2 : ℚ) ^ (F32.exponent y + 1) ≤ 2 ^ (F32.exponent x) :=
    zpow_le_zpow_right₀ (by norm_num) (by omega)
  linarith

theorem F32.quantum_pos (e : Int) : (0 : ℚ) < 2 ^ e := zpow_pos (by norm_num) e

/-- Rounding a number that is not negative gives a number that is not negative. -/
theorem F32.roundQ_nonneg (x : ℚ) (h : 0 ≤ x) : 0 ≤ F32.roundQ x := by
  unfold F32.roundQ
  have hq := F32.quantum_pos (F32.exponent x - 23)
  have h0 : (0 : ℚ) ≤ x / 2 ^ (F32.exponent x - 23) := div_nonneg h hq.le
  have h1 := F32.roundHalfEven_mono 0 _ h0
  have h2 : F32.roundHalfEven 0 = 0 := by
    have := F32.roundHalfEven_int 0
    simpa using this
  rw [h2] at h1
  have h3 : (0 : ℚ) ≤ (F32.roundHalfEven (x / 2 ^ (F32.exponent x - 23)) : ℚ) := by
    exact_mod_cast h1
  exact mul_nonneg h3 hq.le

/-- Rounding keeps the order of the numbers that are not negative. -/
theorem F32.roundQ_mono (x y : ℚ) (hx : 0 ≤ x) (h : x ≤ y) : F32.roundQ x ≤ F32.roundQ y := by
  have hy : 0 ≤ y := hx.trans h
  have habs : |x| ≤ |y| := by rw [abs_of_nonneg hx, abs_of_nonneg hy]; exact h
  have he := F32.exponent_mono x y habs
  obtain ⟨x1, x2, x3, _⟩ := F32.exponent_spec x
  obtain ⟨_, _, _, y4⟩ := F32.exponent_spec y
  rcases he.lt_or_eq with hlt | heq
  · -- different exponents: a power of two lies between the two results
    have hxb : x < 2 ^ (F32.exponent x + 1) := by
      have := x3 (by omega)
      rwa [abs_of_nonneg hx] at this
    have hyb : (2 : ℚ) ^ (F32.exponent y) ≤ y := by
      have := y4 (by omega)
      rwa [abs_of_nonneg hy] at this
    have hqx := F32.quantum_pos (F32.exponent x - 23)
    have hqy := F32.quantum_pos (F32.exponent y - 23)
    have e1 : (2 : ℚ) ^ (F32.exponent x + 1) / 2 ^ (F32.exponent x - 23) = ((2 ^ 24 : Int) : ℚ) := by
      rw [← zpow_sub₀ (by norm_num : (2 : ℚ) ≠ 0)]
      have : F32.exponent x + 1 - (F32.exponent x - 23) = 24 := by omega
      rw [this]
      norm_num
    have e2 : (2 : ℚ) ^ (F32.exponent y) / 2 ^ (F32.exponent y - 23) = ((2 ^ 23 : Int) : ℚ) := by
      rw [← zpow_sub₀ (by norm_num : (2 : ℚ) ≠ 0)]
      have : F32.exponent y - (F32.exponent y - 23) = 23 := by omega
      rw [this]
      norm_num
    have s1 : F32.roundHalfEven (x / 2 ^ (F32.exponent x - 23)) ≤ 2 ^ 24 := by
      have := F32.roundHalfEven_mono _ _
        (div_le_div_of_nonneg_right hxb.le hqx.le)
      rwa [e1, F32.roundHalfEven_int] at this
    have s2 : 2 ^ 23 ≤ F32.roundHalfEven (y / 2 ^ (F32.exponent y - 23)) := by
      have := F32.roundHalfEven_mono _ _
        (div_le_div_of_nonneg_right hyb hqy.le)
      rwa [e2, F32.roundHalfEven_int] at this
    have t1 : F32.roundQ x ≤ 2 ^ (F32.exponent x + 1) := by
      unfold F32.roundQ
      have : ((F32.roundHalfEven (x / 2 ^ (F32.exponent x - 23)) : Int) : ℚ) ≤ ((2 ^ 24 : Int) : ℚ) := by
        exact_mod_cast s1
      calc (F32.roundHalfEven (x / 2 ^ (F32.exponent x - 23)) : ℚ) * 2 ^ (F32.exponent x - 23)
          ≤ ((2 ^ 24 : Int) : ℚ) * 2 ^ (F32.exponent x - 23) :=
            mul_le_mul_of_nonneg_right this hqx.le
        _ = 2 ^ (F32.exponent x + 1) := by
            rw [← e1]
            field_simp
    have t2 : (2 : ℚ) ^ (F32.exponent y) ≤ F32.roundQ y := by
      unfold F32.roundQ
      have : ((2 ^ 23 : Int) : ℚ) ≤ ((F32.roundHalfEven (y / 2 ^ (F32.exponent y - 23)) : Int) : ℚ) := by
        exact_mod_cast s2
      calc (2 : ℚ) ^ (F32.exponent y) = ((2 ^ 23 : Int) : ℚ) * 2 ^ (F32.exponent y - 23) := by
            rw [← e2]
            field_simp
        _ ≤ (F32.roundHalfEven (y / 2 ^ (F32.exponent y - 23)) : ℚ) * 2 ^ (F32.exponent y - 23) :=
            mul_le_mul_of_nonneg_right this hqy.le
    have t3 : (2 : ℚ) ^ (F32.exponent x + 1) ≤ 2 ^ (F32.exponent y) :=
      zpow_le_zpow_right₀ (by norm_num) (by omega)
    linarith
  · -- one exponent: the nearest integers are ordered
    unfold F32.roundQ
    rw [← heq]
    have hq := F32.quantum_pos (F32.exponent x - 23)
    have := F32.roundHalfEven_mono _ _ (div_le_div_of_nonneg_right h hq.le)
    have hc : ((F32.roundHalfEven (x / 2 ^ (F32.exponent x - 23)) : Int) : ℚ) ≤
        ((F32.roundHalfEven (y / 2 ^ (F32.exponent x - 23)) : Int) : ℚ) := by
      exact_mod_cast this
    exact mul_le_mul_of_nonneg_right hc hq.le

theorem F32.roundQ_one : F32.roundQ 1 = 1 := by decide!

theorem F32.roundQ_least : F32.roundQ (2 ^ (-149 : Int)) = 2 ^ (-149 : Int) := by decide!

/-- A finite `float` is what rounding leaves as it is. -/
theorem F32.isBinary32_fin (p : ℚ) (h : F32.IsBinary32 (F32.fin p)) : F32.roundQ p = p := by
  have h' : F32.round p = F32.fin p := h
  unfold F32.round at h'
  split_ifs at h'
  exact F32.fin.inj h'

/-- A finite `float` is a whole multiple of `2^-149`. -/
theorem F32.isBinary32_multiple (p : ℚ) (h : F32.IsBinary32 (F32.fin p)) :
    ∃ n : Int, p = (n : ℚ) * 2 ^ (-149 : Int) := by
  have hp := F32.isBinary32_fin p h
  obtain ⟨h1, _, _, _⟩ := F32.exponent_spec p
  refine ⟨F32.roundHalfEven (p / 2 ^ (F32.exponent p - 23)) *
    2 ^ (F32.exponent p + 126).toNat, ?_⟩
  have e1 : ((2 ^ (F32.exponent p + 126).toNat : Int) : ℚ) = 2 ^ (F32.exponent p + 126) := by
    push_cast
    rw [← zpow_natCast]
    congr 1
    omega
  have e2 : (2 : ℚ) ^ (F32.exponent p - 23) = 2 ^ (F32.exponent p + 126) * 2 ^ (-149 : Int) := by
    rw [← zpow_add₀ (by norm_num : (2 : ℚ) ≠ 0)]
    congr 1
    omega
  conv_lhs => rw [← hp]
  unfold F32.roundQ
  rw [Int.cast_mul, e1, e2]
  ring

/-- The `float` difference of two distinct finite `float`s is not zero: it
rounds a number of magnitude at least `2^-149`. -/
theorem F32.roundQ_sub_pos (p q : ℚ) (hp : F32.IsBinary32 (F32.fin p))
    (hq : F32.IsBinary32 (F32.fin q)) (h : q < p) : 0 < F32.roundQ (p - q) := by
  obtain ⟨n, hn⟩ := F32.isBinary32_multiple p hp
  obtain ⟨m, hm⟩ := F32.isBinary32_multiple q hq
  have hu : (0 : ℚ) < 2 ^ (-149 : Int) := F32.quantum_pos _
  have hnm : m < n := by
    by_contra hc
    have : (n : ℚ) ≤ (m : ℚ) := by exact_mod_cast not_lt.mp hc
    have := mul_le_mul_of_nonneg_right this hu.le
    rw [← hn, ← hm] at this
    linarith
  have h1 : ((1 : Int) : ℚ) ≤ ((n - m : Int) : ℚ) := by
    have : (1 : Int) ≤ n - m := by omega
    exact_mod_cast this
  have h2 : (2 : ℚ) ^ (-149 : Int) ≤ p - q := by
    have := mul_le_mul_of_nonneg_right h1 hu.le
    rw [hn, hm]
    push_cast at this ⊢
    linarith
  have h3 := F32.roundQ_mono _ _ hu.le h2
  rw [F32.roundQ_least] at h3
  linarith

end Skin

namespace Skin

/-! ## The interpolator in binary32: the three branches of `searchLerp` -/

/-- Where the scan stops: at the first entry that does not compare below the
sample. -/
theorem scan_spec_binary32 (l : List F32) (x : F32) (k id : Nat)
    (h : Binary32.searchLerp.scan l x k = some id) :
    k ≤ id ∧ id - k < l.length ∧ F32.lt (l.getD (id - k) (F32.fin 0)) x = false ∧
      ∀ m, m < id - k → F32.lt (l.getD m (F32.fin 0)) x = true := by
  induction l generalizing k with
  | nil => simp [Binary32.searchLerp.scan] at h
  | cons p rest ih =>
    by_cases hp : F32.lt p x = true
    · simp only [Binary32.searchLerp.scan, hp, if_true] at h
      obtain ⟨h1, h2, h3, h4⟩ := ih (k + 1) h
      have e : id - k = (id - (k + 1)) + 1 := by omega
      refine ⟨by omega, by rw [e]; simpa using h2, by rw [e]; simpa using h3, ?_⟩
      intro m hm
      cases m with
      | zero => simpa using hp
      | succ m => simpa using h4 m (by omega)
    · have hp' : F32.lt p x = false := by simpa using hp
      simp only [Binary32.searchLerp.scan, hp', Bool.false_eq_true, if_false,
        Option.some.injEq] at h
      subst h
      refine ⟨le_refl _, by simp, by simpa using hp', ?_⟩
      intro m hm
      omega

/-- The scan ends inside a list whose last entry does not compare below the
sample. -/
theorem scan_total_binary32 (l : List F32) (x : F32) (k : Nat) (hne : l ≠ [])
    (hlast : F32.lt (l.getLast hne) x = false) :
    ∃ id, Binary32.searchLerp.scan l x k = some id := by
  induction l generalizing k with
  | nil => exact absurd rfl hne
  | cons p rest ih =>
    by_cases hp : F32.lt p x = true
    · simp only [Binary32.searchLerp.scan, hp, if_true]
      have hr : rest ≠ [] := by
        intro hr
        subst hr
        simp only [List.getLast_singleton] at hlast
        rw [hlast] at hp
        exact absurd hp (by simp)
      apply ih (k + 1) hr
      rw [List.getLast_cons hr] at hlast
      exact hlast
    · simp only [Binary32.searchLerp.scan, hp]
      exact ⟨k, rfl⟩

/-- The three branches of `searchLerp` on a non-empty dimension, sorted or not,
where on a dimension with one point neither the point nor the sample is a NaN:
clamp to the first point, clamp to the last point, or stop the scan at the first
index `id ≥ 1` whose coordinate does not compare below the sample. -/
theorem searchLerp_cases_binary32 (sp : Binary32.SamplePoints) (x : F32)
    (hne : sp.points ≠ [])
    (hone : sp.points.length = 1 → x ≠ F32.nan ∧ sp.points ≠ [F32.nan]) :
    (F32.le x (sp.points.getD 0 (F32.fin 0)) = true ∧
      Binary32.searchLerp sp x = some { minId := 0, maxId := 0, lerpAmount := F32.fin 0 }) ∨
    (F32.le x (sp.points.getD 0 (F32.fin 0)) = false ∧
      Binary32.searchLerp sp x =
        some { minId := sp.points.length - 1, maxId := sp.points.length - 1,
               lerpAmount := F32.fin 0 }) ∨
    (F32.le x (sp.points.getD 0 (F32.fin 0)) = false ∧
      ∃ id, 1 ≤ id ∧ id < sp.points.length ∧
        (∀ m, 1 ≤ m → m < id → F32.lt (sp.points.getD m (F32.fin 0)) x = true) ∧
        F32.lt (sp.points.getD id (F32.fin 0)) x = false ∧
        Binary32.searchLerp sp x =
          some (if F32.gt (sp.points.getD id (F32.fin 0)) x = true then
                  { minId := id - 1, maxId := id,
                    lerpAmount :=
                      F32.div (F32.sub x (sp.points.getD (id - 1) (F32.fin 0)))
                        (F32.sub (sp.points.getD id (F32.fin 0))
                          (sp.points.getD (id - 1) (F32.fin 0))) }
                else { minId := id, maxId := id, lerpAmount := F32.fin 0 })) := by
  obtain ⟨pts, mult⟩ := sp
  cases pts with
  | nil => exact absurd rfl hne
  | cons p0 rest =>
    unfold Binary32.searchLerp
    simp only [List.getD_cons_zero]
    by_cases h0 : F32.le x p0 = true
    · left
      rw [if_pos h0]
      exact ⟨h0, rfl⟩
    · right
      rw [if_neg h0]
      have h0' : F32.le x p0 = false := by simpa using h0
      by_cases hl : F32.ge x ((p0 :: rest).getLast (List.cons_ne_nil p0 rest)) = true
      · left
        rw [if_pos hl]
        exact ⟨h0', rfl⟩
      · right
        rw [if_neg hl]
        have hl' : F32.le ((p0 :: rest).getLast (List.cons_ne_nil p0 rest)) x = false := by
          simpa [F32.ge] using hl
        refine ⟨h0', ?_⟩
        have hne' : rest ≠ [] := by
          intro hr
          subst hr
          simp only [List.getLast_singleton] at hl'
          obtain ⟨hx, hp⟩ := hone rfl
          have hp0 : p0 ≠ F32.nan := by
            intro hc
            apply hp
            simp only [hc]
          have h1 := F32.cmp_lt_of_not_le x p0 hx hp0 h0'
          have h2 := F32.cmp_le_of_lt p0 x h1
          rw [h2] at hl'
          exact absurd hl' (by simp)
        have hlast : F32.lt (rest.getLast hne') x = false := by
          rw [List.getLast_cons hne'] at hl'
          by_contra hc
          have hc' : F32.lt (rest.getLast hne') x = true := by simpa using hc
          have := F32.cmp_le_of_lt _ _ hc'
          rw [this] at hl'
          exact absurd hl' (by simp)
        obtain ⟨id, h1⟩ := scan_total_binary32 rest x 1 hne' hlast
        obtain ⟨s1, s2, s3, s4⟩ := scan_spec_binary32 rest x 1 id h1
        have eid : (p0 :: rest).getD id (F32.fin 0) = rest.getD (id - 1) (F32.fin 0) := by
          have : id = (id - 1) + 1 := by omega
          rw [this]
          simp
        refine ⟨id, s1, by simp only [List.length_cons]; omega, ?_, by rw [eid]; exact s3, ?_⟩
        · intro m hm1 hm
          cases m with
          | zero => omega
          | succ m => simpa using s4 m (by omega)
        · rw [h1]
          simp only
          split_ifs <;> rfl

end Skin

namespace Skin

/-! ## The interpolator in binary32: the lerp fraction -/

/-- A finite `float` difference is the rounded difference of two finite
`float`s. -/
theorem F32.sub_eq_fin (s p : F32) (a : ℚ) (h : F32.sub s p = F32.fin a) :
    ∃ sv pv, s = F32.fin sv ∧ p = F32.fin pv ∧ a = F32.roundQ (sv - pv) := by
  cases s with
  | nan => simp [F32.sub, F32.add] at h
  | inf t =>
    cases p with
    | nan => simp [F32.sub, F32.add, F32.neg] at h
    | inf u =>
      simp only [F32.sub, F32.add, F32.neg] at h
      split_ifs at h
    | fin pv => simp [F32.sub, F32.add, F32.neg] at h
  | fin sv =>
    cases p with
    | nan => simp [F32.sub, F32.add, F32.neg] at h
    | inf t => simp [F32.sub, F32.add, F32.neg] at h
    | fin pv =>
      refine ⟨sv, pv, rfl, rfl, ?_⟩
      simp only [F32.sub, F32.add, F32.neg, F32.round] at h
      split_ifs at h
      rw [sub_eq_add_neg]
      exact (F32.fin.inj h).symm

/-- The quotient of `searchLerp`: with the sample strictly between two `float`
coordinates and the difference `sample - points[id - 1]` finite, the lerp
fraction is a finite `float` between 0 and 1. -/
theorem lerpAmount_range (s p0 p1 : F32) (a : ℚ)
    (hp0 : F32.IsBinary32 p0) (hp1 : F32.IsBinary32 p1)
    (hlo : F32.lt p0 s = true) (hhi : F32.lt s p1 = true)
    (ha : F32.sub s p0 = F32.fin a) :
    ∃ t, F32.div (F32.sub s p0) (F32.sub p1 p0) = F32.fin t ∧ 0 ≤ t ∧ t ≤ 1 := by
  obtain ⟨sv, pv, rfl, rfl, hav⟩ := F32.sub_eq_fin s p0 a ha
  have hps : pv < sv := by simpa [F32.lt] using hlo
  have ha0 : 0 ≤ a := by
    rw [hav]
    exact F32.roundQ_nonneg _ (by linarith)
  rw [ha]
  cases p1 with
  | nan => simp [F32.lt] at hhi
  | inf t =>
    have ht : t = false := by simpa [F32.lt] using hhi
    subst ht
    exact ⟨0, by simp [F32.sub, F32.add, F32.neg, F32.div], le_refl _, by norm_num⟩
  | fin p1v =>
    have hsp : sv < p1v := by simpa [F32.lt] using hhi
    have hB : 0 < F32.roundQ (p1v - pv) := F32.roundQ_sub_pos p1v pv hp1 hp0 (by linarith)
    have haB : a ≤ F32.roundQ (p1v - pv) := by
      rw [hav]
      exact F32.roundQ_mono _ _ (by linarith) (by linarith)
    have hsub : F32.sub (F32.fin p1v) (F32.fin pv) = F32.round (p1v - pv) := by
      simp only [F32.sub, F32.add, F32.neg, sub_eq_add_neg]
    rw [hsub]
    unfold F32.round
    by_cases hov : |F32.roundQ (p1v - pv)| < 2 ^ 128
    · rw [if_pos hov]
      have hne : F32.roundQ (p1v - pv) ≠ 0 := ne_of_gt hB
      simp only [F32.div, hne, if_false]
      have hq0 : 0 ≤ a / F32.roundQ (p1v - pv) := div_nonneg ha0 hB.le
      have hq1 : a / F32.roundQ (p1v - pv) ≤ 1 := by
        rw [div_le_one hB]
        exact haB
      have ht0 := F32.roundQ_nonneg _ hq0
      have ht1 := F32.roundQ_mono _ _ hq0 hq1
      rw [F32.roundQ_one] at ht1
      have habs : |F32.roundQ (a / F32.roundQ (p1v - pv))| < 2 ^ 128 := by
        rw [abs_of_nonneg ht0]
        have : (1 : ℚ) < 2 ^ 128 := by norm_num
        linarith
      refine ⟨F32.roundQ (a / F32.roundQ (p1v - pv)), ?_, ht0, ht1⟩
      unfold F32.round
      rw [if_pos habs]
    · rw [if_neg hov]
      exact ⟨0, by simp [F32.div], le_refl _, by norm_num⟩

/-- C17 (amended). `searchLerp` is total and well-bounded in binary32: for every
non-empty list of `float` points, sorted or not, and every query value, where on
a list of one point neither that point nor the query is a NaN, the scan ends
inside the list and `searchLerp` returns a result with
`minId ≤ maxId ≤ minId + 1` and `maxId < points.size()`; `lerpAmount` is 0
whenever `minId = maxId`; and whenever `minId < maxId` and the `float`
difference `sample - points[minId]` is finite (neither a NaN nor an infinity),
`lerpAmount` is a finite `float` with `0 ≤ lerpAmount ≤ 1`. -/
theorem searchLerp_bounds (sps : Binary32.SamplePoints) (sample : F32)
    (hne : sps.points ≠ [])
    (hone : sps.points.length = 1 → sample ≠ F32.nan ∧ sps.points ≠ [F32.nan])
    (hfloat : ∀ p ∈ sps.points, F32.IsBinary32 p) :
    ∃ l, Binary32.searchLerp sps sample = some l ∧ l.minId ≤ l.maxId ∧
      l.maxId ≤ l.minId + 1 ∧ l.maxId < sps.points.length ∧
      (l.minId = l.maxId → l.lerpAmount = F32.fin 0) ∧
      (l.minId ≠ l.maxId →
        ∀ a, F32.sub sample (sps.points.getD l.minId (F32.fin 0)) = F32.fin a →
          ∃ t, l.lerpAmount = F32.fin t ∧ 0 ≤ t ∧ t ≤ 1) := by
  have hpos : 0 < sps.points.length := List.length_pos.mpr hne
  have hmem : ∀ i, i < sps.points.length →
      F32.IsBinary32 (sps.points.getD i (F32.fin 0)) := by
    intro i hi
    rw [List.getD_eq_getElem _ _ hi]
    exact hfloat _ (List.getElem_mem hi)
  rcases searchLerp_cases_binary32 sps sample hne hone with
    ⟨_, h⟩ | ⟨_, h⟩ | ⟨h0, id, h1, h2, h3, h4, h⟩
  · exact ⟨_, h, le_refl _, by simp, hpos, fun _ => rfl, fun hc => absurd rfl hc⟩
  · exact ⟨_, h, le_refl _, by simp, by simp only; omega, fun _ => rfl,
      fun hc => absurd rfl hc⟩
  · by_cases hgt : F32.gt (sps.points.getD id (F32.fin 0)) sample = true
    · rw [if_pos hgt] at h
      refine ⟨_, h, by simp, by simp only; omega, h2, ?_, ?_⟩
      · intro hc
        simp only at hc
        omega
      · intro _ a ha
        simp only at ha ⊢
        obtain ⟨sv, pv, hs, hp, _⟩ := F32.sub_eq_fin _ _ a ha
        have hlo : F32.lt (sps.points.getD (id - 1) (F32.fin 0)) sample = true := by
          by_cases hid : id = 1
          · subst hid
            simp only [Nat.sub_self] at hp ⊢
            apply F32.cmp_lt_of_not_le _ _ _ _ h0
            · rw [hs]; simp
            · rw [hp]; simp
          · exact h3 (id - 1) (by omega) (by omega)
        exact lerpAmount_range sample _ _ a (hmem (id - 1) (by omega)) (hmem id h2) hlo hgt ha
    · rw [if_neg hgt] at h
      exact ⟨_, h, le_refl _, by simp, h2, fun _ => rfl, fun hc => absurd rfl hc⟩

/-- Witness for C17: the points 0 and 3 and the query 1, strictly inside the
cell; the lerp fraction is the `float` nearest to one third. -/
theorem searchLerp_bounds_witness :
    ∃ l, Binary32.searchLerp Binary32.thirdsDimension (F32.fin 1) = some l ∧
      l.minId ≤ l.maxId ∧ l.maxId ≤ l.minId + 1 ∧
      l.maxId < Binary32.thirdsDimension.points.length ∧
      (l.minId = l.maxId → l.lerpAmount = F32.fin 0) ∧
      (l.minId ≠ l.maxId →
        ∀ a, F32.sub (F32.fin 1) (Binary32.thirdsDimension.points.getD l.minId (F32.fin 0)) =
            F32.fin a →
          ∃ t, l.lerpAmount = F32.fin t ∧ 0 ≤ t ∧ t ≤ 1) :=
  searchLerp_bounds Binary32.thirdsDimension (F32.fin 1) (by decide) (by decide) (by decide!)

/-- C17 fails as stated in binary32. (1) By rounding: on the points `-1` and
`2^-30`, all `float`s, the query `2^-31` lies strictly inside the cell, both
differences `sample - points[0]` and `points[1] - points[0]` round to 1, and
`searchLerp` returns `lerpAmount = 1` with `minId = 0 ≠ maxId = 1`. (2) On a
NaN: with one point and a NaN query, or a NaN point and the query 0, both clamp
tests are false and the scan reads `points[1]`, past the end. (3) By overflow:
on the points `-2^127` and `3 * 2^126` and the query `2^127` both differences
are infinite and `lerpAmount` is a NaN. -/
theorem searchLerp_bounds_counterexample :
    (Binary32.searchLerp Binary32.roundedDimension (F32.fin (1 / 2 ^ 31)) =
        some { minId := 0, maxId := 1, lerpAmount := F32.fin 1 } ∧
      (∀ p ∈ Binary32.roundedDimension.points, F32.IsBinary32 p) ∧
      F32.IsBinary32 (F32.fin (1 / 2 ^ 31))) ∧
    (Binary32.searchLerp Binary32.onePointDimension F32.nan = none ∧
      Binary32.searchLerp Binary32.nanPointDimension (F32.fin 0) = none) ∧
    (Binary32.searchLerp Binary32.wideDimension (F32.fin (2 ^ 127)) =
        some { minId := 0, maxId := 1, lerpAmount := F32.nan } ∧
      (∀ p ∈ Binary32.wideDimension.points, F32.IsBinary32 p) ∧
      F32.IsBinary32 (F32.fin (2 ^ 127))) :=
  ⟨⟨by decide!, by decide!, by decide!⟩, ⟨by decide, by decide⟩,
    ⟨by decide!, by decide!, by decide!⟩⟩

end Skin

namespace Skin

/-! ## The interpolator in binary32: the reads of the profile array -/

/-- The multiplier loop depends on the sizes of the dimensions only. -/
theorem assignMultipliers_layout (sps : List Binary32.SamplePoints) :
    assignMultipliers (sps.map Binary32.SamplePoints.layout) =
      ((Binary32.assignMultipliers sps).1.map Binary32.SamplePoints.layout,
        (Binary32.assignMultipliers sps).2) := by
  induction sps with
  | nil => rfl
  | cons sp rest ih =>
    simp only [List.map_cons, assignMultipliers, Binary32.assignMultipliers, ih,
      Binary32.SamplePoints.layout, List.length_map]

theorem gridSize_layout (sps : List Binary32.SamplePoints) :
    gridSize (sps.map Binary32.SamplePoints.layout) = Binary32.gridSize sps := by
  unfold gridSize Binary32.gridSize
  rw [List.map_map]
  congr 1
  apply List.map_congr_left
  intro sp _
  simp [Binary32.SamplePoints.layout]

/-- A binary32 table set as by the loader, with one profile per cell and no
empty dimension, has row-major strides and fewer than `2^31` profiles. -/
theorem setByLoader_layout (psp : Binary32.ParamSamplePoints)
    (hne : ∀ sp ∈ psp.paramSamplePoints, sp.points ≠ [])
    (hloader : Binary32.SetByLoader psp)
    (hsize : psp.profiles.length = Binary32.gridSize psp.paramSamplePoints) :
    RowMajor (psp.paramSamplePoints.map Binary32.SamplePoints.layout) ∧
      psp.profiles.length < 2147483648 := by
  have h := setByLoader_rowMajor
    { paramSamplePoints := psp.paramSamplePoints.map Binary32.SamplePoints.layout,
      profiles := List.replicate psp.profiles.length { red := [], green := [], blue := [] },
      sigmas := [] }
    (by
      intro sp hsp
      obtain ⟨s, hs, rfl⟩ := List.mem_map.mp hsp
      have := hne s hs
      simpa [Binary32.SamplePoints.layout] using this)
    (by
      unfold SetByLoader
      unfold Binary32.SetByLoader at hloader
      simp only [assignMultipliers_layout, hloader, List.length_replicate])
    (by
      simp only [List.length_replicate, gridSize_layout]
      exact hsize)
  simpa using h

theorem rgb_lerp_total_binary32 (t : F32) (a b : Binary32.RGBProfile) (S : Nat)
    (ha : a.red.length = S ∧ a.green.length = S ∧ a.blue.length = S)
    (hb : b.red.length = S ∧ b.green.length = S ∧ b.blue.length = S) :
    ∃ r, Binary32.RGBProfile.lerp t a b = some r ∧
      r.red.length = S ∧ r.green.length = S ∧ r.blue.length = S := by
  obtain ⟨a1, a2, a3⟩ := ha
  obtain ⟨b1, b2, b3⟩ := hb
  simp only [Binary32.RGBProfile.lerp, Binary32.SingleProfile.lerp, a1, a2, a3, b1, b2, b3,
    if_true]
  exact ⟨_, rfl, by simp [a1, b1], by simp [a2, b2], by simp [a3, b3]⟩

theorem profileAt_ok_binary32 (psp : Binary32.ParamSamplePoints) (x : Int) (h0 : 0 ≤ x)
    (h1 : x < psp.profiles.length) (hL : psp.profiles.length < 2147483648) :
    ∃ p, Binary32.profileAt psp (wrapInt x) = some p ∧ p ∈ psp.profiles := by
  rw [wrapInt_of_range x (by omega) (by omega)]
  unfold Binary32.profileAt
  rw [if_pos h0]
  have hx : x.toNat < psp.profiles.length := by omega
  exact ⟨psp.profiles[x.toNat], List.getElem?_eq_getElem hx, List.getElem_mem hx⟩

/-- With every lerp index below the size of its dimension and every cell inside
the profile array, the recursion of `nsample` reads the array at the last
dimension only, at indices inside the array; and with all profiles of one
shape it returns a profile of that shape. -/
theorem reads_bounds (psp : Binary32.ParamSamplePoints)
    (hL : psp.profiles.length < 2147483648)
    (post : List Binary32.SamplePoints) (ls : List Binary32.LerpStruct)
    (hbr : List.Forall₂
      (fun (l : Binary32.LerpStruct) (sp : Binary32.SamplePoints) =>
        l.minId < sp.points.length ∧ l.maxId < sp.points.length) ls post)
    (hne : post ≠ []) (dim : Nat) (b : Int)
    (hdrop : psp.paramSamplePoints.drop dim = post)
    (hcells : ∀ js, IsCell (post.map Binary32.SamplePoints.layout) js →
      0 ≤ b + flatIndex (post.map Binary32.SamplePoints.layout) js ∧
      b + flatIndex (post.map Binary32.SamplePoints.layout) js < psp.profiles.length) :
    (∃ l, Binary32.nsample.reads psp (psp.paramSamplePoints.length : Int) ls dim (wrapInt b) =
        some l ∧ l ≠ [] ∧
      ∀ x ∈ l, (x.1 : Int) = (psp.paramSamplePoints.length : Int) - 1 ∧
        0 ≤ x.2 ∧ x.2 < (psp.profiles.length : Int)) ∧
    (∀ S, (∀ p ∈ psp.profiles, p.red.length = S ∧ p.green.length = S ∧ p.blue.length = S) →
      ∃ r, Binary32.nsample.go psp (psp.paramSamplePoints.length : Int) ls dim (wrapInt b) =
          some r ∧ r.red.length = S ∧ r.green.length = S ∧ r.blue.length = S) := by
  induction hbr generalizing dim b with
  | nil => exact absurd rfl hne
  | @cons l sp ls' post' hl hrest ih =>
    have hlen : dim < psp.paramSamplePoints.length := by
      by_contra hge
      have : psp.paramSamplePoints.drop dim = [] := List.drop_eq_nil_of_le (by omega)
      rw [this] at hdrop
      exact absurd hdrop (by simp)
    have hget : psp.paramSamplePoints[dim]? = some sp := by
      have := List.getElem?_drop psp.paramSamplePoints dim 0
      rw [hdrop] at this
      simpa using this.symm
    have hdrop' : psp.paramSamplePoints.drop (dim + 1) = post' := by
      have := List.drop_drop 1 dim psp.paramSamplePoints
      rw [hdrop] at this
      simpa [Nat.add_comm] using this.symm
    have hN : psp.paramSamplePoints.length = dim + (post'.length + 1) := by
      have := congrArg List.length hdrop
      simp only [List.length_drop, List.length_cons] at this
      omega
    have hstep : ∀ c : Nat, wrapInt (wrapInt b + wrapInt ((c : Int) * sp.idMultiplier)) =
        wrapInt (b + (c : Int) * sp.idMultiplier) := fun c => wrapInt_add_wrapInt _ _
    have hcell1 : ∀ c : Nat, c < sp.points.length → ∀ js,
        IsCell (post'.map Binary32.SamplePoints.layout) js →
        0 ≤ b + (c : Int) * sp.idMultiplier +
            flatIndex (post'.map Binary32.SamplePoints.layout) js ∧
        b + (c : Int) * sp.idMultiplier +
            flatIndex (post'.map Binary32.SamplePoints.layout) js < psp.profiles.length := by
      intro c hc js hjs
      have hc' : c < (Binary32.SamplePoints.layout sp).points.length := by
        simpa [Binary32.SamplePoints.layout] using hc
      have hcell := hcells (c :: js) (List.Forall₂.cons hc' hjs)
      simp only [List.map_cons, flatIndex, Binary32.SamplePoints.layout] at hcell
      constructor <;> omega
    by_cases hnil : post' = []
    · -- the last dimension: the reads happen here
      subst hnil
      have hleaf : ((dim : Int) = (psp.paramSamplePoints.length : Int) - 1) := by
        rw [hN]; simp
      have hidx : ∀ c : Nat, c < sp.points.length →
          0 ≤ b + (c : Int) * sp.idMultiplier ∧
          b + (c : Int) * sp.idMultiplier < psp.profiles.length := by
        intro c hc
        have := hcell1 c hc [] List.Forall₂.nil
        simpa [flatIndex] using this
      obtain ⟨m0, m1⟩ := hidx l.minId hl.1
      obtain ⟨x0, x1⟩ := hidx l.maxId hl.2
      constructor
      · simp only [Binary32.nsample.reads, hget, hstep, hleaf, decide_True, if_true]
        have hin : ∀ c : Nat, c < sp.points.length →
            ∀ x ∈ [(dim, wrapInt (b + (c : Int) * sp.idMultiplier))],
              (x.1 : Int) = (psp.paramSamplePoints.length : Int) - 1 ∧
              0 ≤ x.2 ∧ x.2 < (psp.profiles.length : Int) := by
          intro c hc x hx
          rw [List.mem_singleton] at hx
          subst hx
          obtain ⟨c0, c1⟩ := hidx c hc
          rw [wrapInt_of_range _ (by omega) (by omega)]
          exact ⟨hleaf, c0, c1⟩
        by_cases hmm : l.maxId ≠ l.minId
        · rw [if_pos hmm]
          refine ⟨_, rfl, by simp, ?_⟩
          intro x hx
          rcases List.mem_append.mp hx with h | h
          · exact hin l.minId hl.1 x h
          · exact hin l.maxId hl.2 x h
        · rw [if_neg hmm]
          exact ⟨_, rfl, by simp, hin l.minId hl.1⟩
      · intro S hshape
        obtain ⟨p1, hp1, q1⟩ := profileAt_ok_binary32 psp _ m0 m1 hL
        obtain ⟨p2, hp2, q2⟩ := profileAt_ok_binary32 psp _ x0 x1 hL
        simp only [Binary32.nsample.go, hget, hstep, hleaf, decide_True, if_true, hp1, hp2]
        by_cases hmm : l.maxId ≠ l.minId
        · rw [if_pos hmm]
          exact rgb_lerp_total_binary32 l.lerpAmount p1 p2 S (hshape p1 q1) (hshape p2 q2)
        · rw [if_neg hmm]
          exact ⟨p1, rfl, hshape p1 q1⟩
    · -- an inner dimension: one or two calls for the next dimension
      have hpos : 0 < post'.length := List.length_pos.mpr hnil
      have hnl : ¬ ((dim : Int) = (psp.paramSamplePoints.length : Int) - 1) := by
        rw [hN]; push_cast; omega
      obtain ⟨⟨r1, hr1, n1, v1⟩, g1⟩ :=
        ih hnil (dim + 1) (b + (l.minId : Int) * sp.idMultiplier) hdrop' (hcell1 l.minId hl.1)
      obtain ⟨⟨r2, hr2, _, v2⟩, g2⟩ :=
        ih hnil (dim + 1) (b + (l.maxId : Int) * sp.idMultiplier) hdrop' (hcell1 l.maxId hl.2)
      constructor
      · simp only [Binary32.nsample.reads, hget, hstep, hnl, decide_False, Bool.false_eq_true,
          if_false, hr1, hr2]
        by_cases hmm : l.maxId ≠ l.minId
        · rw [if_pos hmm]
          refine ⟨r1 ++ r2, rfl, by simp [n1], ?_⟩
          intro x hx
          rcases List.mem_append.mp hx with h | h
          · exact v1 x h
          · exact v2 x h
        · rw [if_neg hmm]
          exact ⟨r1, rfl, n1, v1⟩
      · intro S hshape
        obtain ⟨p1, hp1, q1⟩ := g1 S hshape
        obtain ⟨p2, hp2, q2⟩ := g2 S hshape
        simp only [Binary32.nsample.go, hget, hstep, hnl, decide_False, Bool.false_eq_true,
          if_false, hp1, hp2]
        by_cases hmm : l.maxId ≠ l.minId
        · rw [if_pos hmm]
          exact rgb_lerp_total_binary32 l.lerpAmount p1 p2 S q1 q2
        · rw [if_neg hmm]
          exact ⟨p1, rfl, q1⟩

/-- On non-empty dimensions, where on a dimension with one point neither the
point nor the query scalar is a NaN, the searches of `sample` return, with every
index below the size of its dimension. -/
theorem searches_total_binary32 (sps : List Binary32.SamplePoints) (q : List F32)
    (hne : ∀ sp ∈ sps, sp.points ≠ []) (hq : sps.length ≤ q.length)
    (hnan : ∀ (d : Nat) (sp : Binary32.SamplePoints) (x : F32), sps[d]? = some sp →
      q[d]? = some x →
      sp.points.length = 1 → x ≠ F32.nan ∧ sp.points ≠ [F32.nan]) :
    ∃ ls, Binary32.sample.searches sps q = some ls ∧
      List.Forall₂
        (fun (l : Binary32.LerpStruct) (sp : Binary32.SamplePoints) =>
          l.minId < sp.points.length ∧ l.maxId < sp.points.length) ls sps := by
  induction sps generalizing q with
  | nil => exact ⟨[], by simp [Binary32.sample.searches], List.Forall₂.nil⟩
  | cons sp sps ih =>
    cases q with
    | nil => simp at hq
    | cons x qs =>
      have hsp := hne sp (List.mem_cons_self _ _)
      have hone := hnan 0 sp x (by simp) (by simp)
      have hl : ∃ l, Binary32.searchLerp sp x = some l ∧
          l.minId < sp.points.length ∧ l.maxId < sp.points.length := by
        have hpos : 0 < sp.points.length := List.length_pos.mpr hsp
        rcases searchLerp_cases_binary32 sp x hsp hone with
          ⟨_, h⟩ | ⟨_, h⟩ | ⟨_, id, h1, h2, _, _, h⟩
        · exact ⟨_, h, hpos, hpos⟩
        · exact ⟨_, h, by simp only; omega, by simp only; omega⟩
        · refine ⟨_, h, ?_, ?_⟩ <;> split_ifs <;> simp only <;> omega
      obtain ⟨l, h1, h2, h3⟩ := hl
      obtain ⟨ls, h4, h5⟩ := ih qs (fun s hs => hne s (List.mem_cons_of_mem _ hs))
        (by simpa using hq)
        (fun d s y hs hy => hnan (d + 1) s y (by simpa using hs) (by simpa using hy))
      exact ⟨l :: ls, by simp only [Binary32.sample.searches, h1, h4],
        List.Forall₂.cons ⟨h2, h3⟩ h5⟩

/-- C24 (amended). `sample` never reads outside the table, in binary32: for
every table with at least one dimension, every dimension non-empty,
`idMultiplier` (and the size of the profile array) set as by the loader and
`profiles.size()` equal to the product of the dimension sizes, and for every
query with one scalar per dimension, where on every dimension with a single
point neither that point nor the query scalar is a NaN, the searches return one
lerp per dimension, the recursion of `nsample` ends without running off `lerps`
or `paramSamplePoints`, every read of `psp.profiles` happens in the call for the
last dimension `nDims - 1` (the recursion has depth `nDims`) and every index
`minId`/`maxId` read is in `[0, profiles.size())`; when moreover all profiles
have one shape, `sample` returns a profile. -/
theorem sample_reads_in_bounds (psp : Binary32.ParamSamplePoints)
    (hdims : psp.paramSamplePoints ≠ [])
    (hne : ∀ sp ∈ psp.paramSamplePoints, sp.points ≠ [])
    (hloader : Binary32.SetByLoader psp)
    (hsize : psp.profiles.length = Binary32.gridSize psp.paramSamplePoints)
    (q : List F32) (hq : q.length = psp.paramSamplePoints.length)
    (hnan : ∀ (d : Nat) (sp : Binary32.SamplePoints) (x : F32),
      psp.paramSamplePoints[d]? = some sp → q[d]? = some x →
      sp.points.length = 1 → x ≠ F32.nan ∧ sp.points ≠ [F32.nan]) :
    ∃ lerps reads, Binary32.sample.searches psp.paramSamplePoints q = some lerps ∧
      lerps.length = psp.paramSamplePoints.length ∧
      Binary32.nsample.reads psp (psp.paramSamplePoints.length : Int) lerps 0 0 = some reads ∧
      reads ≠ [] ∧
      (∀ x ∈ reads, (x.1 : Int) = (psp.paramSamplePoints.length : Int) - 1 ∧
        0 ≤ x.2 ∧ x.2 < (psp.profiles.length : Int)) ∧
      (∀ S, (∀ p ∈ psp.profiles, p.red.length = S ∧ p.green.length = S ∧ p.blue.length = S) →
        ∃ r, Binary32.sample psp q = some r) := by
  obtain ⟨hrm, hL⟩ := setByLoader_layout psp hne hloader hsize
  obtain ⟨ls, h1, h2⟩ := searches_total_binary32 psp.paramSamplePoints q hne (by omega) hnan
  have hcells0 : ∀ js, IsCell (psp.paramSamplePoints.map Binary32.SamplePoints.layout) js →
      0 ≤ 0 + flatIndex (psp.paramSamplePoints.map Binary32.SamplePoints.layout) js ∧
      0 + flatIndex (psp.paramSamplePoints.map Binary32.SamplePoints.layout) js <
        psp.profiles.length := by
    intro js hjs
    obtain ⟨a, b⟩ := flatIndex_range _ js hrm hjs
    rw [gridSize_layout, ← hsize] at b
    constructor <;> omega
  obtain ⟨⟨l, hl, hn, hv⟩, hgo⟩ := reads_bounds psp hL psp.paramSamplePoints ls h2 hdims 0 0
    (by simp) hcells0
  have hw0 : wrapInt 0 = 0 := by decide
  rw [hw0] at hl hgo
  refine ⟨ls, l, h1, h2.length_eq, hl, hn, hv, ?_⟩
  intro S hshape
  obtain ⟨r, hr, _⟩ := hgo S hshape
  refine ⟨r, ?_⟩
  unfold Binary32.sample
  rw [h1]
  simpa [Binary32.nsample] using hr

/-- Witness for C24: the two-dimensional example table, whose dimensions have
more than one point, at a query with a NaN scalar. -/
theorem sample_reads_in_bounds_witness :
    ∃ lerps reads,
      Binary32.sample.searches Binary32.gridTable.paramSamplePoints
          [F32.nan, F32.fin (5 / 2)] = some lerps ∧
      lerps.length = Binary32.gridTable.paramSamplePoints.length ∧
      Binary32.nsample.reads Binary32.gridTable
          (Binary32.gridTable.paramSamplePoints.length : Int) lerps 0 0 = some reads ∧
      reads ≠ [] ∧
      (∀ x ∈ reads, (x.1 : Int) = (Binary32.gridTable.paramSamplePoints.length : Int) - 1 ∧
        0 ≤ x.2 ∧ x.2 < (Binary32.gridTable.profiles.length : Int)) ∧
      (∀ S, (∀ p ∈ Binary32.gridTable.profiles,
          p.red.length = S ∧ p.green.length = S ∧ p.blue.length = S) →
        ∃ r, Binary32.sample Binary32.gridTable [F32.nan, F32.fin (5 / 2)] = some r) :=
  sample_reads_in_bounds Binary32.gridTable (by decide) (by decide) (by decide) (by decide)
    [F32.nan, F32.fin (5 / 2)] rfl
    (by
      intro d sp x hs _ hlen
      rcases d with _ | _ | d
      · simp only [Binary32.gridTable, List.getElem?_cons_zero, Option.some.injEq] at hs
        rw [← hs] at hlen
        simp at hlen
      · simp only [Binary32.gridTable, List.getElem?_cons_succ, List.getElem?_cons_zero,
          Option.some.injEq] at hs
        rw [← hs] at hlen
        simp at hlen
      · simp [Binary32.gridTable] at hs)

/-- C24 fails as stated on a NaN query. The table `oneCellTable` has one
dimension with one point, its stride and size as the loader sets them and one
profile, and the query is a NaN: both clamp tests of `searchLerp` are false and
the scan reads `points[1]`, outside the table, so that the searches and `sample`
fail here. In the source that read yields some `float` `v`; `v < NaN` and
`v > NaN` are false whatever `v` is, so `searchLerp` goes on to return
`minId = maxId = 1`, and with these indices `nsample` reads `profiles[1]`, past
the one profile of the table. -/
theorem sample_reads_in_bounds_counterexample :
    (Binary32.oneCellTable.paramSamplePoints ≠ [] ∧
      (∀ sp ∈ Binary32.oneCellTable.paramSamplePoints, sp.points ≠ []) ∧
      Binary32.SetByLoader Binary32.oneCellTable ∧
      Binary32.oneCellTable.profiles.length =
        Binary32.gridSize Binary32.oneCellTable.paramSamplePoints) ∧
    Binary32.sample.searches Binary32.oneCellTable.paramSamplePoints [F32.nan] = none ∧
    Binary32.sample Binary32.oneCellTable [F32.nan] = none ∧
    (∀ v : F32, F32.lt v F32.nan = false ∧ F32.gt v F32.nan = false) ∧
    Binary32.nsample.reads Binary32.oneCellTable 1
        [{ minId := 1, maxId := 1, lerpAmount := F32.fin 0 }] 0 0 = some [(0, 1)] ∧
    ¬ ((1 : Int) < (Binary32.oneCellTable.profiles.length : Int)) :=
  ⟨⟨by decide, by decide, by decide, by decide⟩, by decide, by decide,
    fun v => by cases v <;> simp [F32.lt, F32.gt], by decide, by decide⟩

end Skin

namespace Skin

/-! ## The reducer in binary32: sorting -/

theorem F32.cmp_le_of_not_lt (a b : F32) (ha : a ≠ F32.nan) (hb : b ≠ F32.nan)
    (h : F32.lt a b = false) : F32.le b a = true := by
  rcases F32.cmp_trichotomy a b ha hb with h1 | h1 | h1
  · rw [h1] at h
    exact absurd h (by simp)
  · rw [h1]
    exact F32.cmp_le_refl b hb
  · exact F32.cmp_le_of_lt b a h1

theorem F32.cmp_lt_asymm (a b : F32) (h : F32.lt a b = true) : F32.lt b a = false :=
  F32.cmp_not_lt_of_le a b (F32.cmp_le_of_lt a b h)

/-- On weights that are not NaN the comparison of `partial_sort` orders by
weight first and by id second. -/
theorem weightOrder_false_iff_binary32 (a b : Binary32.SigmaWeight)
    (ha : a.weight ≠ F32.nan) (hb : b.weight ≠ F32.nan) :
    Binary32.weightOrder b a = false ↔
      F32.lt b.weight a.weight = true ∨ (b.weight = a.weight ∧ b.id ≤ a.id) := by
  unfold Binary32.weightOrder F32.gt
  rcases F32.cmp_trichotomy b.weight a.weight hb ha with h | h | h
  · have h1 := F32.cmp_lt_asymm _ _ h
    have h2 : F32.eq b.weight a.weight = false := by
      have : ¬ (F32.eq b.weight a.weight = true) := by
        rw [F32.cmp_eq_iff]
        rintro ⟨_, e⟩
        rw [e, F32.cmp_lt_irrefl] at h
        exact absurd h (by simp)
      simpa using this
    simp [h, h1, h2]
  · have h1 : F32.lt a.weight b.weight = false := by rw [h]; exact F32.cmp_lt_irrefl _
    have h2 : F32.eq b.weight a.weight = true := (F32.cmp_eq_iff _ _).mpr ⟨hb, h⟩
    have h3 : F32.lt b.weight a.weight = false := by rw [h]; exact F32.cmp_lt_irrefl _
    rw [h1, h2, h3]
    simp only [Bool.false_eq_true, if_false, if_true, false_or, decide_eq_false_iff_not,
      gt_iff_lt, not_lt]
    exact ⟨fun g => ⟨h, g⟩, fun g => g.2⟩
  · have h1 := F32.cmp_lt_asymm _ _ h
    have h2 : b.weight ≠ a.weight := by
      intro e
      rw [e, F32.cmp_lt_irrefl] at h
      exact absurd h (by simp)
    simp [h, h1, h2]

theorem sigmaWeights_ids_binary32 (profile : Binary32.RGBProfile) (n : Nat) :
    (Binary32.sigmaWeights profile n).map (fun sw => sw.id) = List.range n := by
  unfold Binary32.sigmaWeights
  rw [List.map_map]
  conv_rhs => rw [← List.map_id (List.range n)]
  rfl

theorem sigmaWeights_mem_binary32 (profile : Binary32.RGBProfile) (n : Nat)
    (sw : Binary32.SigmaWeight) (h : sw ∈ Binary32.sigmaWeights profile n) :
    sw.id < n ∧ sw.weight = Binary32.luminanceWeight profile sw.id := by
  unfold Binary32.sigmaWeights at h
  rw [List.mem_map] at h
  obtain ⟨sid, hsid, rfl⟩ := h
  exact ⟨List.mem_range.mp hsid, rfl⟩

/-! ## The reducer in binary32: the nearest selected slot -/

/-- The scan over the slots `s .. s + len - 1`, started from the best slot `b`
among the slots below `s`, ends at the first slot of least distance, when no
distance is a NaN. -/
theorem argmin_scan_from_binary32 (d : Nat → F32) (len s b : Nat) (hb : b < s)
    (hd : ∀ k, k < s + len → d k ≠ F32.nan)
    (hmin : ∀ k', k' < s → F32.le (d b) (d k') = true)
    (hfirst : ∀ k', k' < b → F32.lt (d b) (d k') = true) :
    ((List.range' s len).foldl
        (fun (acc : Nat × F32) s => if F32.lt (d s) acc.2 = true then (s, d s) else acc)
        (b, d b)).1 < s + len ∧
    (∀ k', k' < s + len →
      F32.le (d ((List.range' s len).foldl
        (fun (acc : Nat × F32) s => if F32.lt (d s) acc.2 = true then (s, d s) else acc)
        (b, d b)).1) (d k') = true) ∧
    (∀ k', k' < ((List.range' s len).foldl
        (fun (acc : Nat × F32) s => if F32.lt (d s) acc.2 = true then (s, d s) else acc)
        (b, d b)).1 →
      F32.lt (d ((List.range' s len).foldl
        (fun (acc : Nat × F32) s => if F32.lt (d s) acc.2 = true then (s, d s) else acc)
        (b, d b)).1) (d k') = true) := by
  induction len generalizing s b with
  | zero => exact ⟨by simpa using hb, by simpa using hmin, by simpa using hfirst⟩
  | succ len ih =>
    simp only [List.range', List.foldl_cons]
    have hds : d s ≠ F32.nan := hd s (by omega)
    have hdb : d b ≠ F32.nan := hd b (by omega)
    by_cases hlt : F32.lt (d s) (d b) = true
    · rw [if_pos hlt]
      have := ih (s + 1) s (by omega) (fun k hk => hd k (by omega))
        (fun k' hk' => by
          rcases Nat.lt_succ_iff_lt_or_eq.mp hk' with h | h
          · exact F32.cmp_le_of_lt _ _ (F32.cmp_lt_of_lt_of_le _ _ _ hlt (hmin k' h))
          · rw [h]; exact F32.cmp_le_refl _ hds)
        (fun k' hk' => F32.cmp_lt_of_lt_of_le _ _ _ hlt (hmin k' hk'))
      rw [show s + (len + 1) = s + 1 + len by omega]
      exact this
    · rw [if_neg hlt]
      have hlt' : F32.lt (d s) (d b) = false := by simpa using hlt
      have := ih (s + 1) b (by omega) (fun k hk => hd k (by omega))
        (fun k' hk' => by
          rcases Nat.lt_succ_iff_lt_or_eq.mp hk' with h | h
          · exact hmin k' h
          · rw [h]; exact F32.cmp_le_of_not_lt _ _ hds hdb hlt')
        hfirst
      rw [show s + (len + 1) = s + 1 + len by omega]
      exact this

theorem nearestSelected_lt_binary32 (sigmas : List F32) (sws : List Binary32.SigmaWeight)
    (sigma : F32) : Binary32.nearestSelected sigmas sws sigma < 6 := by
  unfold Binary32.nearestSelected
  simp only [NUM_GAUSSIANS, List.range', List.foldl_cons, List.foldl_nil]
  split_ifs <;> simp

theorem slotDistance_eq (sigmas : List F32) (sel rest : List Binary32.SigmaWeight)
    (j k : Nat) (hk : k < sel.length) :
    Binary32.slotDistance sigmas (sel ++ rest) (sigmas.getD j (F32.fin 0)) k =
      Binary32.sigmaDistance sigmas (sel.map (fun sw => sw.id)) j k := by
  unfold Binary32.slotDistance Binary32.sigmaDistance
  have : ((sel ++ rest).getD k default).id = (sel.map (fun sw => sw.id)).getD k 0 := by
    rw [List.getD_eq_getElem _ _ (by rw [List.length_append]; omega),
      List.getD_eq_getElem _ _ (by rw [List.length_map]; exact hk),
      List.getElem_append_left hk, List.getElem_map]
  rw [this]

/-- The slot the merge loop picks for term `j` is the nearest slot of `j`, when
no distance of `j` to a slot is a NaN. -/
theorem nearestSelected_isNearest_binary32 (sigmas : List F32)
    (sel rest : List Binary32.SigmaWeight) (hsel : sel.length = 6) (j : Nat)
    (hd : ∀ k, k < 6 →
      Binary32.sigmaDistance sigmas (sel.map (fun sw => sw.id)) j k ≠ F32.nan) :
    Binary32.IsNearestSlot sigmas (sel.map (fun sw => sw.id)) j
      (Binary32.nearestSelected sigmas (sel ++ rest) (sigmas.getD j (F32.fin 0))) := by
  have hdk : ∀ k, k < 6 →
      Binary32.slotDistance sigmas (sel ++ rest) (sigmas.getD j (F32.fin 0)) k =
        Binary32.sigmaDistance sigmas (sel.map (fun sw => sw.id)) j k :=
    fun k hk => slotDistance_eq sigmas sel rest j k (by omega)
  obtain ⟨h1, h2, h3⟩ := argmin_scan_from_binary32
    (fun s => Binary32.slotDistance sigmas (sel ++ rest) (sigmas.getD j (F32.fin 0)) s) 5 1 0
    (by omega)
    (fun k hk => by
      simp only
      rw [hdk k (by omega)]
      exact hd k (by omega))
    (fun k' hk' => by
      have : k' = 0 := by omega
      rw [this]
      simp only
      apply F32.cmp_le_refl
      rw [hdk 0 (by omega)]
      exact hd 0 (by omega))
    (fun k' hk' => absurd hk' (by omega))
  have hfold : Binary32.nearestSelected sigmas (sel ++ rest) (sigmas.getD j (F32.fin 0)) =
      ((List.range' 1 5).foldl
        (fun (acc : Nat × F32) s =>
          if F32.lt (Binary32.slotDistance sigmas (sel ++ rest) (sigmas.getD j (F32.fin 0)) s)
              acc.2 = true
          then (s, Binary32.slotDistance sigmas (sel ++ rest) (sigmas.getD j (F32.fin 0)) s)
          else acc)
        (0, Binary32.slotDistance sigmas (sel ++ rest) (sigmas.getD j (F32.fin 0)) 0)).1 := rfl
  rw [← hfold] at h1 h2 h3
  refine ⟨h1, fun k' hk' => ?_, fun k' hk' => ?_⟩
  · rw [← hdk _ h1, ← hdk k' hk']
    exact h2 k' hk'
  · rw [← hdk _ h1, ← hdk k' (by omega)]
    exact h3 k' hk'

/-- A term has at most one nearest slot. -/
theorem isNearestSlot_unique_binary32 (sigmas : List F32) (selected : List Nat)
    (j k1 k2 : Nat) (h1 : Binary32.IsNearestSlot sigmas selected j k1)
    (h2 : Binary32.IsNearestSlot sigmas selected j k2) : k1 = k2 := by
  rcases Nat.lt_trichotomy k1 k2 with h | h | h
  · have a := h2.2.2 k1 h
    have b := F32.cmp_not_lt_of_le _ _ (h1.2.1 k2 h2.1)
    rw [a] at b
    exact absurd b (by simp)
  · exact h
  · have a := h1.2.2 k2 h
    have b := F32.cmp_not_lt_of_le _ _ (h2.2.1 k1 h1.1)
    rw [a] at b
    exact absurd b (by simp)

end Skin

namespace Skin

/-! ## The reducer in binary32: the write loop and the merge loop -/

/-- The write loop fills slot `k` from the `k`-th selected term. -/
theorem writeSelected_eq_binary32 (profile : Binary32.RGBProfile) (sigmas : List F32)
    (sel rest : List Binary32.SigmaWeight) (hsel : sel.length = 6) :
    Binary32.writeSelected profile sigmas (sel ++ rest) Binary32.GaussianParams.fresh =
      { sigmas := sel.map (fun sw => sigmas.getD sw.id (F32.fin 0)),
        coeffs := sel.map (fun sw => Binary32.termCoeffs profile sw.id) } := by
  obtain ⟨a0, a1, a2, a3, a4, a5, rfl⟩ := length_six sel hsel
  simp [Binary32.writeSelected, NUM_GAUSSIANS, Binary32.GaussianParams.fresh, List.range,
    List.range.loop, List.replicate, Binary32.termCoeffs]

/-- The merge loop leaves the sigmas alone and adds every merged term, in the
order of the loop, to the slot `nearestSelected` picks for it. -/
theorem merge_fold_binary32 (profile : Binary32.RGBProfile) (sigmas : List F32)
    (sws rest : List Binary32.SigmaWeight) (gp : Binary32.GaussianParams)
    (hlen : gp.coeffs.length = 6) :
    (rest.foldl (Binary32.mergeStep profile sigmas sws) gp).sigmas = gp.sigmas ∧
    (rest.foldl (Binary32.mergeStep profile sigmas sws) gp).coeffs.length = 6 ∧
    ∀ k, k < 6 →
      (rest.foldl (Binary32.mergeStep profile sigmas sws) gp).coeffs.getD k
          { x := F32.fin 0, y := F32.fin 0, z := F32.fin 0 } =
        Binary32.addTerms profile
          (gp.coeffs.getD k { x := F32.fin 0, y := F32.fin 0, z := F32.fin 0 })
          ((rest.filter (fun sw =>
            decide (Binary32.nearestSelected sigmas sws (sigmas.getD sw.id (F32.fin 0)) = k))).map
              (fun sw => sw.id)) := by
  induction rest generalizing gp with
  | nil =>
    refine ⟨rfl, hlen, fun k _ => ?_⟩
    simp [Binary32.addTerms]
  | cons sw rest ih =>
    simp only [List.foldl_cons]
    have hlen' : (Binary32.mergeStep profile sigmas sws gp sw).coeffs.length = 6 := by
      simp [Binary32.mergeStep, hlen]
    obtain ⟨h1, h2, h3⟩ := ih (Binary32.mergeStep profile sigmas sws gp sw) hlen'
    refine ⟨h1, h2, fun k hk => ?_⟩
    rw [h3 k hk]
    have hn := nearestSelected_lt_binary32 sigmas sws (sigmas.getD sw.id (F32.fin 0))
    by_cases hk' : Binary32.nearestSelected sigmas sws (sigmas.getD sw.id (F32.fin 0)) = k
    · have hget : (Binary32.mergeStep profile sigmas sws gp sw).coeffs.getD k
            { x := F32.fin 0, y := F32.fin 0, z := F32.fin 0 } =
          { x := F32.add (gp.coeffs.getD k { x := F32.fin 0, y := F32.fin 0, z := F32.fin 0 }).x
              (profile.red.getD sw.id (F32.fin 0)),
            y := F32.add (gp.coeffs.getD k { x := F32.fin 0, y := F32.fin 0, z := F32.fin 0 }).y
              (profile.green.getD sw.id (F32.fin 0)),
            z := F32.add (gp.coeffs.getD k { x := F32.fin 0, y := F32.fin 0, z := F32.fin 0 }).z
              (profile.blue.getD sw.id (F32.fin 0)) } := by
        simp only [Binary32.mergeStep, getD_set]
        rw [if_pos ⟨hk', by omega⟩, hk']
      rw [hget]
      simp only [List.filter_cons, hk', decide_True, if_true, List.map_cons, Binary32.addTerms,
        List.foldl_cons]
    · have hget : (Binary32.mergeStep profile sigmas sws gp sw).coeffs.getD k
            { x := F32.fin 0, y := F32.fin 0, z := F32.fin 0 } =
          gp.coeffs.getD k { x := F32.fin 0, y := F32.fin 0, z := F32.fin 0 } := by
        simp only [Binary32.mergeStep, getD_set]
        rw [if_neg (fun hc => hk' hc.1)]
      rw [hget]
      simp only [List.filter_cons, hk', decide_False, Bool.false_eq_true, if_false]

/-! ## The reducer in binary32: the shape of the result -/

/-- The reduce branch: the six selected entries `sel` are the first six entries
`partial_sort` leaves, in id order, `rest` are the other entries in the order
`partial_sort` leaves them, and the result is the merge of `rest` into the
slots written from `sel`. -/
theorem reduce_form_binary32
    (partial_sort : List Binary32.SigmaWeight → List Binary32.SigmaWeight)
    (profile : Binary32.RGBProfile) (sigmas : List F32)
    (hn : 6 < sigmas.length)
    (hr : profile.red.length = sigmas.length)
    (hg : profile.green.length = sigmas.length)
    (hb : profile.blue.length = sigmas.length)
    (hps : IsPartialSort Binary32.weightOrder 6 (Binary32.sigmaWeights profile sigmas.length)
      (partial_sort (Binary32.sigmaWeights profile sigmas.length))) :
    ∃ sel rest : List Binary32.SigmaWeight,
      sel.length = 6 ∧ (sel ++ rest).Perm (Binary32.sigmaWeights profile sigmas.length) ∧
      sel.Sorted Binary32.idOrder ∧
      sel.Perm ((partial_sort (Binary32.sigmaWeights profile sigmas.length)).take 6) ∧
      rest = (partial_sort (Binary32.sigmaWeights profile sigmas.length)).drop 6 ∧
      (∀ a ∈ sel, ∀ b ∈ rest, Binary32.weightOrder b a = false) ∧
      Binary32.getParamsFromRGBProfile partial_sort profile sigmas =
        some (rest.foldl (Binary32.mergeStep profile sigmas (sel ++ rest))
          { sigmas := sel.map (fun sw => sigmas.getD sw.id (F32.fin 0)),
            coeffs := sel.map (fun sw => Binary32.termCoeffs profile sw.id) }) := by
  obtain ⟨hperm, _, hdom⟩ := hps
  have hlen : (partial_sort (Binary32.sigmaWeights profile sigmas.length)).length =
      sigmas.length := by
    rw [hperm.length_eq]
    simp [Binary32.sigmaWeights]
  have htake : ((partial_sort (Binary32.sigmaWeights profile sigmas.length)).take 6).length =
      6 := by
    rw [List.length_take, hlen]; omega
  have hsel : (((partial_sort (Binary32.sigmaWeights profile sigmas.length)).take
      6).insertionSort Binary32.idOrder).length = 6 := by
    rw [List.length_insertionSort, htake]
  refine ⟨((partial_sort (Binary32.sigmaWeights profile sigmas.length)).take 6).insertionSort
      Binary32.idOrder,
    (partial_sort (Binary32.sigmaWeights profile sigmas.length)).drop 6, hsel, ?_, ?_,
    List.perm_insertionSort _ _, rfl, ?_, ?_⟩
  · have h1 := (List.perm_insertionSort Binary32.idOrder
      ((partial_sort (Binary32.sigmaWeights profile sigmas.length)).take 6)).append_right
      ((partial_sort (Binary32.sigmaWeights profile sigmas.length)).drop 6)
    rw [List.take_append_drop] at h1
    exact h1.trans hperm
  · exact List.sorted_insertionSort Binary32.idOrder _
  · intro a ha b hb
    exact hdom a ((List.perm_insertionSort Binary32.idOrder _).mem_iff.mp ha) b hb
  · have h1 : ¬ (profile.red.length < sigmas.length ∨ profile.green.length < sigmas.length
        ∨ profile.blue.length < sigmas.length) := by omega
    have h2 : sigmas.length > NUM_GAUSSIANS := hn
    unfold Binary32.getParamsFromRGBProfile
    rw [if_neg h1, if_pos h2]
    simp only [NUM_GAUSSIANS]
    rw [writeSelected_eq_binary32 profile sigmas _ _ hsel]
    unfold Binary32.mergeRest
    simp only [NUM_GAUSSIANS]
    rw [List.drop_left' hsel]

/-- The ids of the selected entries: increasing and below `n`; the ids of the
other entries are the other ids below `n`, each once. -/
theorem selected_ids_binary32 (profile : Binary32.RGBProfile) (n : Nat)
    (sel rest : List Binary32.SigmaWeight)
    (hperm : (sel ++ rest).Perm (Binary32.sigmaWeights profile n))
    (hsorted : sel.Sorted Binary32.idOrder) :
    (sel.map (fun sw => sw.id)).Sorted (· < ·) ∧
    (∀ i ∈ sel.map (fun sw => sw.id), i < n) ∧
    (rest.map (fun sw => sw.id)).Nodup ∧
    (∀ j, j ∈ rest.map (fun sw => sw.id) ↔ (j < n ∧ j ∉ sel.map (fun sw => sw.id))) := by
  have hids : ((sel ++ rest).map (fun sw => sw.id)).Perm (List.range n) := by
    rw [← sigmaWeights_ids_binary32 profile n]
    exact hperm.map _
  have hnodup : ((sel ++ rest).map (fun sw => sw.id)).Nodup :=
    hids.nodup_iff.mpr (List.nodup_range n)
  rw [List.map_append] at hnodup hids
  have hnd := List.nodup_append.mp hnodup
  refine ⟨?_, ?_, hnd.2.1, ?_⟩
  · have hle : (sel.map (fun sw => sw.id)).Sorted (· ≤ ·) := by
      unfold List.Sorted at hsorted ⊢
      rw [List.pairwise_map]
      exact hsorted
    exact hle.lt_of_le hnd.1
  · intro i hi
    exact List.mem_range.mp (hids.mem_iff.mp (List.mem_append_left _ hi))
  · intro j
    constructor
    · intro hj
      refine ⟨?_, fun hc => hnd.2.2 hc hj⟩
      exact List.mem_range.mp (hids.mem_iff.mp (List.mem_append_right _ hj))
    · rintro ⟨hj, hns⟩
      rcases List.mem_append.mp (hids.mem_iff.mpr (List.mem_range.mpr hj)) with h | h
      · exact absurd h hns
      · exact h

/-- When no weight is a NaN, every selected id dominates every other id: by a
larger weight, or by an equal weight and a larger id. -/
theorem selected_dominate_binary32 (profile : Binary32.RGBProfile) (n : Nat)
    (sel rest : List Binary32.SigmaWeight)
    (hperm : (sel ++ rest).Perm (Binary32.sigmaWeights profile n))
    (hsorted : sel.Sorted Binary32.idOrder)
    (hdom : ∀ a ∈ sel, ∀ b ∈ rest, Binary32.weightOrder b a = false)
    (hnan : ∀ i, i < n → Binary32.luminanceWeight profile i ≠ F32.nan) :
    ∀ j, j < n → j ∉ sel.map (fun sw => sw.id) → ∀ i ∈ sel.map (fun sw => sw.id),
      F32.lt (Binary32.luminanceWeight profile j) (Binary32.luminanceWeight profile i) = true ∨
      (Binary32.luminanceWeight profile j = Binary32.luminanceWeight profile i ∧ j < i) := by
  obtain ⟨_, _, _, hrest_iff⟩ := selected_ids_binary32 profile n sel rest hperm hsorted
  intro j hj hns i hi
  obtain ⟨b, hb, hbid⟩ := List.mem_map.mp ((hrest_iff j).mpr ⟨hj, hns⟩)
  obtain ⟨a, ha, haid⟩ := List.mem_map.mp hi
  obtain ⟨hbn, hbw⟩ := sigmaWeights_mem_binary32 profile n b
    (hperm.mem_iff.mp (List.mem_append_right _ hb))
  obtain ⟨han, haw⟩ := sigmaWeights_mem_binary32 profile n a
    (hperm.mem_iff.mp (List.mem_append_left _ ha))
  have hcmp := (weightOrder_false_iff_binary32 a b (by rw [haw]; exact hnan _ han)
    (by rw [hbw]; exact hnan _ hbn)).mp (hdom a ha b hb)
  rw [hbw, haw, hbid, haid] at hcmp
  rcases hcmp with h | ⟨h, hle⟩
  · exact Or.inl h
  · refine Or.inr ⟨h, lt_of_le_of_ne hle ?_⟩
    intro hji
    apply hns
    rw [hji]
    exact hi

end Skin

namespace Skin

/-- C4 (amended). Reducer selection and order in binary32: for an input with
`n > 6` sigmas, with `weight_i` the `float` the first loop computes for
`(red[i] * 0.2126f)^2 + (green[i] * 0.7152f)^2 + (blue[i] * 0.0722f)^2` and no
`weight_i` a NaN, whatever order `partial_sort` leaves the unselected entries
in, there are indices `i_0 < ... < i_5` below `n` (the list `I`) such that
output sigma `k` is `sigmas[i_k]`, and every unselected index `j` and selected
index `i_k` satisfy `weight_j < weight_{i_k}`, or `weight_j = weight_{i_k}` and
`j < i_k`. When all weights are equal the selected terms are the last six input
terms. -/
theorem getParamsFromRGBProfile_selection
    (partial_sort : List Binary32.SigmaWeight → List Binary32.SigmaWeight)
    (profile : Binary32.RGBProfile) (sigmas : List F32)
    (hn : 6 < sigmas.length)
    (hr : profile.red.length = sigmas.length)
    (hg : profile.green.length = sigmas.length)
    (hb : profile.blue.length = sigmas.length)
    (hnan : ∀ i, i < sigmas.length → Binary32.luminanceWeight profile i ≠ F32.nan)
    (hps : IsPartialSort Binary32.weightOrder 6 (Binary32.sigmaWeights profile sigmas.length)
      (partial_sort (Binary32.sigmaWeights profile sigmas.length))) :
    ∃ (gp : Binary32.GaussianParams) (I : List Nat),
      Binary32.getParamsFromRGBProfile partial_sort profile sigmas = some gp ∧
      I.length = 6 ∧ I.Sorted (· < ·) ∧ (∀ i ∈ I, i < sigmas.length) ∧
      gp.sigmas = I.map (fun i => sigmas.getD i (F32.fin 0)) ∧
      (∀ j, j < sigmas.length → j ∉ I → ∀ i ∈ I,
        F32.lt (Binary32.luminanceWeight profile j) (Binary32.luminanceWeight profile i) =
          true ∨
        (Binary32.luminanceWeight profile j = Binary32.luminanceWeight profile i ∧ j < i)) ∧
      ((∀ i j, i < sigmas.length → j < sigmas.length →
          Binary32.luminanceWeight profile i = Binary32.luminanceWeight profile j) →
        I = List.range' (sigmas.length - 6) 6) := by
  obtain ⟨sel, rest, hsel, hperm, hsorted, _, _, hdom, hres⟩ :=
    reduce_form_binary32 partial_sort profile sigmas hn hr hg hb hps
  obtain ⟨hI1, hI2, _, _⟩ := selected_ids_binary32 profile sigmas.length sel rest hperm hsorted
  have hI5 := selected_dominate_binary32 profile sigmas.length sel rest hperm hsorted hdom hnan
  have hlen0 : (sel.map (fun sw => Binary32.termCoeffs profile sw.id)).length = 6 := by
    rw [List.length_map, hsel]
  obtain ⟨hsig, _, _⟩ := merge_fold_binary32 profile sigmas (sel ++ rest) rest
    { sigmas := sel.map (fun sw => sigmas.getD sw.id (F32.fin 0)),
      coeffs := sel.map (fun sw => Binary32.termCoeffs profile sw.id) } hlen0
  have hIlen : (sel.map (fun sw => sw.id)).length = 6 := by rw [List.length_map, hsel]
  refine ⟨_, sel.map (fun sw => sw.id), hres, hIlen, hI1, hI2, ?_, hI5, ?_⟩
  · rw [hsig, List.map_map]
    rfl
  · intro heq
    apply last_six sigmas.length _ hIlen hn hI1 hI2
    intro j hj hns i hi
    rcases hI5 j hj hns i hi with h | ⟨_, h⟩
    · rw [heq j i hj (hI2 i hi), F32.cmp_lt_irrefl] at h
      exact absurd h (by simp)
    · exact h

/-- Witness for C4 on eight terms, with the whole range sorted. -/
theorem getParamsFromRGBProfile_selection_witness :
    ∃ (gp : Binary32.GaussianParams) (I : List Nat),
      Binary32.getParamsFromRGBProfile Binary32.sortAll
          (Binary32.RGBProfile.ofValues eightProfile) (eightSigmas.map F32.fin) = some gp ∧
      I.length = 6 ∧ I.Sorted (· < ·) ∧ (∀ i ∈ I, i < (eightSigmas.map F32.fin).length) ∧
      gp.sigmas = I.map (fun i => (eightSigmas.map F32.fin).getD i (F32.fin 0)) ∧
      (∀ j, j < (eightSigmas.map F32.fin).length → j ∉ I → ∀ i ∈ I,
        F32.lt (Binary32.luminanceWeight (Binary32.RGBProfile.ofValues eightProfile) j)
            (Binary32.luminanceWeight (Binary32.RGBProfile.ofValues eightProfile) i) = true ∨
        (Binary32.luminanceWeight (Binary32.RGBProfile.ofValues eightProfile) j =
            Binary32.luminanceWeight (Binary32.RGBProfile.ofValues eightProfile) i ∧ j < i)) ∧
      ((∀ i j, i < (eightSigmas.map F32.fin).length → j < (eightSigmas.map F32.fin).length →
          Binary32.luminanceWeight (Binary32.RGBProfile.ofValues eightProfile) i =
            Binary32.luminanceWeight (Binary32.RGBProfile.ofValues eightProfile) j) →
        I = List.range' ((eightSigmas.map F32.fin).length - 6) 6) :=
  getParamsFromRGBProfile_selection Binary32.sortAll
    (Binary32.RGBProfile.ofValues eightProfile) (eightSigmas.map F32.fin)
    (by decide) (by decide) (by decide) (by decide) (by decide!) (by decide!)

/-- C4 fails as stated, with the weights of the claim computed exactly.
(1) By rounding: in `tieProfile`, whose coefficients are `float`s, the terms 0
and 1 have one exact weight, so the claim selects term 1 and not term 0; the
`float` weights are 2311966.75 for term 0 and 2311966.25 for term 1, and the
reducer (seven terms: the outcome of `partial_sort` is the sorted range) writes
the sigmas of the terms 0, 2, 3, 4, 5, 6. No choice of indices satisfies the
claim for this output. (2) On a NaN: in `nanProfile` the weight of term 0 is a
NaN, and term 0 and another term `i` satisfy what the claim requires of an
unselected and a selected term neither with term 0 unselected nor with term 0
selected; six of the seven terms are selected, so term 0 is in such a pair. -/
theorem getParamsFromRGBProfile_selection_counterexample :
    ((∀ x ∈ tieProfile.red ++ tieProfile.green ++ tieProfile.blue ++ tieSigmas,
        F32.IsBinary32 (F32.fin x)) ∧
      IsPartialSort Binary32.weightOrder 6
        (Binary32.sigmaWeights (Binary32.RGBProfile.ofValues tieProfile) 7)
        (Binary32.sortAll (Binary32.sigmaWeights (Binary32.RGBProfile.ofValues tieProfile) 7)) ∧
      luminanceWeight tieProfile 1 = luminanceWeight tieProfile 0 ∧
      Binary32.luminanceWeight (Binary32.RGBProfile.ofValues tieProfile) 0 =
        F32.fin (2311966 + 3 / 4) ∧
      Binary32.luminanceWeight (Binary32.RGBProfile.ofValues tieProfile) 1 =
        F32.fin (2311966 + 1 / 4) ∧
      (Binary32.getParamsFromRGBProfile Binary32.sortAll
          (Binary32.RGBProfile.ofValues tieProfile) (tieSigmas.map F32.fin)).map
          (fun gp => gp.sigmas) =
        some [F32.fin 1, F32.fin 3, F32.fin 4, F32.fin 5, F32.fin 6, F32.fin 7] ∧
      ¬ ∃ (gp : Binary32.GaussianParams) (I : List Nat),
          Binary32.getParamsFromRGBProfile Binary32.sortAll
            (Binary32.RGBProfile.ofValues tieProfile) (tieSigmas.map F32.fin) = some gp ∧
          I.length = 6 ∧ I.Sorted (· < ·) ∧ (∀ i ∈ I, i < 7) ∧
          gp.sigmas = I.map (fun i => (tieSigmas.map F32.fin).getD i (F32.fin 0)) ∧
          ∀ j, j < 7 → j ∉ I → ∀ i ∈ I,
            luminanceWeight tieProfile j < luminanceWeight tieProfile i ∨
            (luminanceWeight tieProfile j = luminanceWeight tieProfile i ∧ j < i)) ∧
    (Binary32.luminanceWeight nanProfile 0 = F32.nan ∧
      ∀ i, i < 7 → i ≠ 0 →
        ¬ (F32.lt (Binary32.luminanceWeight nanProfile 0)
              (Binary32.luminanceWeight nanProfile i) = true ∨
            (Binary32.luminanceWeight nanProfile 0 = Binary32.luminanceWeight nanProfile i ∧
              0 < i)) ∧
        ¬ (F32.lt (Binary32.luminanceWeight nanProfile i)
              (Binary32.luminanceWeight nanProfile 0) = true ∨
            (Binary32.luminanceWeight nanProfile i = Binary32.luminanceWeight nanProfile 0 ∧
              i < 0))) := by
  have hrun : (Binary32.getParamsFromRGBProfile Binary32.sortAll
      (Binary32.RGBProfile.ofValues tieProfile) (tieSigmas.map F32.fin)).map
        (fun gp => gp.sigmas) =
      some [F32.fin 1, F32.fin 3, F32.fin 4, F32.fin 5, F32.fin 6, F32.fin 7] := by decide!
  have hw : luminanceWeight tieProfile 1 = luminanceWeight tieProfile 0 := by decide!
  have hsig : ∀ a, a < 7 → (tieSigmas.map F32.fin).getD a (F32.fin 0) = F32.fin ((a : ℚ) + 1) := by
    intro a ha
    interval_cases a <;> simp [tieSigmas] <;> norm_num
  refine ⟨⟨by decide!, by decide!, hw, by decide!, by decide!, hrun, ?_⟩, by decide!, by decide!⟩
  rintro ⟨gp, I, hgp, hlen, _, hlt, hI, hdom⟩
  rw [hgp] at hrun
  simp only [Option.map_some', Option.some.injEq] at hrun
  rw [hrun] at hI
  obtain ⟨a0, a1, a2, a3, a4, a5, rfl⟩ := length_six I hlen
  simp only [List.mem_cons, List.mem_singleton, List.not_mem_nil, or_false, forall_eq_or_imp,
    forall_eq] at hlt
  obtain ⟨l0, l1, l2, l3, l4, l5⟩ := hlt
  simp only [List.map_cons, List.map_nil, List.cons.injEq, and_true] at hI
  obtain ⟨e0, e1, e2, e3, e4, e5⟩ := hI
  rw [hsig a0 l0] at e0
  rw [hsig a1 l1] at e1
  rw [hsig a2 l2] at e2
  rw [hsig a3 l3] at e3
  rw [hsig a4 l4] at e4
  rw [hsig a5 l5] at e5
  have f0 : a0 = 0 := by
    have := F32.fin.inj e0
    have h : (a0 : ℚ) = 0 := by linarith
    exact_mod_cast h
  have f1 : a1 = 2 := by
    have := F32.fin.inj e1
    have h : (a1 : ℚ) = 2 := by linarith
    exact_mod_cast h
  have f2 : a2 = 3 := by
    have := F32.fin.inj e2
    have h : (a2 : ℚ) = 3 := by linarith
    exact_mod_cast h
  have f3 : a3 = 4 := by
    have := F32.fin.inj e3
    have h : (a3 : ℚ) = 4 := by linarith
    exact_mod_cast h
  have f4 : a4 = 5 := by
    have := F32.fin.inj e4
    have h : (a4 : ℚ) = 5 := by linarith
    exact_mod_cast h
  have f5 : a5 = 6 := by
    have := F32.fin.inj e5
    have h : (a5 : ℚ) = 6 := by linarith
    exact_mod_cast h
  subst f0 f1 f2 f3 f4 f5
  rcases hdom 1 (by norm_num) (by simp) 0 (by simp) with h | ⟨_, h⟩
  · rw [hw] at h
    exact absurd h (lt_irrefl _)
  · exact absurd h (by norm_num)

end Skin

namespace Skin

/-- C5 (amended). Reducer merge rule in binary32: for an input with `n > 6`
sigmas, with `I` the selected indices `i_0 < ... < i_5` (the ids of the first six
entries `partial_sort` leaves) and `J` the unselected indices in the order
`partial_sort` leaves them, where no `float` distance
`|sigmas[j] - sigmas[i_k]|` of an unselected term to a slot is a NaN: the output
sigmas are `sigmas[i_k]`, not changed by merging; every unselected term has
exactly one slot `k` that is the smallest slot index minimising the `float`
distance `|sigmas[j] - sigmas[i_k]|` over the 6 slots; and output coefficient
`k` is the coefficient triple of term `i_k` with the triples of exactly those
unselected terms added to it, one after the other in the order of `J`, each
addition rounded to `float`. -/
theorem getParamsFromRGBProfile_merge
    (partial_sort : List Binary32.SigmaWeight → List Binary32.SigmaWeight)
    (profile : Binary32.RGBProfile) (sigmas : List F32)
    (hn : 6 < sigmas.length)
    (hr : profile.red.length = sigmas.length)
    (hg : profile.green.length = sigmas.length)
    (hb : profile.blue.length = sigmas.length)
    (hps : IsPartialSort Binary32.weightOrder 6 (Binary32.sigmaWeights profile sigmas.length)
      (partial_sort (Binary32.sigmaWeights profile sigmas.length)))
    (hdist : ∀ a ∈ (partial_sort (Binary32.sigmaWeights profile sigmas.length)).take 6,
      ∀ b ∈ (partial_sort (Binary32.sigmaWeights profile sigmas.length)).drop 6,
        F32.abs (F32.sub (sigmas.getD b.id (F32.fin 0)) (sigmas.getD a.id (F32.fin 0))) ≠
          F32.nan) :
    ∃ (gp : Binary32.GaussianParams) (I J : List Nat),
      Binary32.getParamsFromRGBProfile partial_sort profile sigmas = some gp ∧
      I.length = 6 ∧ I.Sorted (· < ·) ∧
      I.Perm (((partial_sort (Binary32.sigmaWeights profile sigmas.length)).take 6).map
        (fun sw => sw.id)) ∧
      J = ((partial_sort (Binary32.sigmaWeights profile sigmas.length)).drop 6).map
        (fun sw => sw.id) ∧
      J.Nodup ∧ (∀ j, j ∈ J ↔ (j < sigmas.length ∧ j ∉ I)) ∧
      gp.sigmas = I.map (fun i => sigmas.getD i (F32.fin 0)) ∧
      gp.coeffs.length = 6 ∧
      (∀ j ∈ J, ∃! k, Binary32.IsNearestSlot sigmas I j k) ∧
      (∀ k, k < 6 →
        gp.coeffs.getD k { x := F32.fin 0, y := F32.fin 0, z := F32.fin 0 } =
          Binary32.addTerms profile (Binary32.termCoeffs profile (I.getD k 0))
            (J.filter (fun j => decide (Binary32.IsNearestSlot sigmas I j k)))) := by
  obtain ⟨sel, rest, hsel, hperm, hsorted, hselp, hrest, _, hres⟩ :=
    reduce_form_binary32 partial_sort profile sigmas hn hr hg hb hps
  obtain ⟨hI1, _, hI3, hI4⟩ :=
    selected_ids_binary32 profile sigmas.length sel rest hperm hsorted
  have hlen0 : (sel.map (fun sw => Binary32.termCoeffs profile sw.id)).length = 6 := by
    rw [List.length_map, hsel]
  obtain ⟨hsig, hclen, hco⟩ := merge_fold_binary32 profile sigmas (sel ++ rest) rest
    { sigmas := sel.map (fun sw => sigmas.getD sw.id (F32.fin 0)),
      coeffs := sel.map (fun sw => Binary32.termCoeffs profile sw.id) } hlen0
  have hIlen : (sel.map (fun sw => sw.id)).length = 6 := by rw [List.length_map, hsel]
  -- no distance of an unselected term to a slot is a NaN
  have hd : ∀ j ∈ rest.map (fun sw => sw.id), ∀ k, k < 6 →
      Binary32.sigmaDistance sigmas (sel.map (fun sw => sw.id)) j k ≠ F32.nan := by
    intro j hj k hk
    obtain ⟨b, hb', rfl⟩ := List.mem_map.mp hj
    have hk1 : k < sel.length := by omega
    have hk2 : k < (sel.map (fun sw => sw.id)).length := by rw [hIlen]; exact hk
    unfold Binary32.sigmaDistance
    rw [List.getD_eq_getElem _ _ hk2, List.getElem_map]
    apply hdist (sel[k]) (hselp.mem_iff.mp (List.getElem_mem hk1)) b
    rw [← hrest]
    exact hb'
  have hnear : ∀ j ∈ rest.map (fun sw => sw.id), ∀ k,
      Binary32.nearestSelected sigmas (sel ++ rest) (sigmas.getD j (F32.fin 0)) = k ↔
        Binary32.IsNearestSlot sigmas (sel.map (fun sw => sw.id)) j k := by
    intro j hj k
    constructor
    · intro h
      rw [← h]
      exact nearestSelected_isNearest_binary32 sigmas sel rest hsel j (hd j hj)
    · intro h
      exact isNearestSlot_unique_binary32 sigmas _ j _ _
        (nearestSelected_isNearest_binary32 sigmas sel rest hsel j (hd j hj)) h
  refine ⟨_, sel.map (fun sw => sw.id), rest.map (fun sw => sw.id), hres, hIlen, hI1,
    hselp.map _, by rw [hrest], hI3, hI4, ?_, hclen, ?_, ?_⟩
  · rw [hsig, List.map_map]
    rfl
  · intro j hj
    refine ⟨Binary32.nearestSelected sigmas (sel ++ rest) (sigmas.getD j (F32.fin 0)),
      nearestSelected_isNearest_binary32 sigmas sel rest hsel j (hd j hj), ?_⟩
    intro k hk
    exact isNearestSlot_unique_binary32 sigmas _ j _ _ hk
      (nearestSelected_isNearest_binary32 sigmas sel rest hsel j (hd j hj))
  · intro k hk
    rw [hco k hk]
    have hk1 : k < sel.length := by omega
    have hk2 : k < (sel.map (fun sw => sw.id)).length := by rw [hIlen]; exact hk
    have hk3 : k < (sel.map (fun sw => Binary32.termCoeffs profile sw.id)).length := by
      rw [hlen0]; exact hk
    have hget : (sel.map (fun sw => Binary32.termCoeffs profile sw.id)).getD k
          { x := F32.fin 0, y := F32.fin 0, z := F32.fin 0 } =
        Binary32.termCoeffs profile ((sel.map (fun sw => sw.id)).getD k 0) := by
      rw [List.getD_eq_getElem _ _ hk3, List.getD_eq_getElem _ _ hk2]
      simp only [List.getElem_map]
    simp only [hget]
    congr 1
    rw [List.filter_map]
    congr 1
    apply List.filter_congr
    intro sw hsw
    have := hnear sw.id (List.mem_map_of_mem _ hsw) k
    simp only [Function.comp]
    exact decide_eq_decide.mpr this

/-- Witness for C5 on eight terms, with the whole range sorted. -/
theorem getParamsFromRGBProfile_merge_witness :
    ∃ (gp : Binary32.GaussianParams) (I J : List Nat),
      Binary32.getParamsFromRGBProfile Binary32.sortAll
          (Binary32.RGBProfile.ofValues eightProfile) (eightSigmas.map F32.fin) = some gp ∧
      I.length = 6 ∧ I.Sorted (· < ·) ∧
      I.Perm (((Binary32.sortAll (Binary32.sigmaWeights
          (Binary32.RGBProfile.ofValues eightProfile) (eightSigmas.map F32.fin).length)).take
            6).map (fun sw => sw.id)) ∧
      J = ((Binary32.sortAll (Binary32.sigmaWeights
          (Binary32.RGBProfile.ofValues eightProfile) (eightSigmas.map F32.fin).length)).drop
            6).map (fun sw => sw.id) ∧
      J.Nodup ∧ (∀ j, j ∈ J ↔ (j < (eightSigmas.map F32.fin).length ∧ j ∉ I)) ∧
      gp.sigmas = I.map (fun i => (eightSigmas.map F32.fin).getD i (F32.fin 0)) ∧
      gp.coeffs.length = 6 ∧
      (∀ j ∈ J, ∃! k, Binary32.IsNearestSlot (eightSigmas.map F32.fin) I j k) ∧
      (∀ k, k < 6 →
        gp.coeffs.getD k { x := F32.fin 0, y := F32.fin 0, z := F32.fin 0 } =
          Binary32.addTerms (Binary32.RGBProfile.ofValues eightProfile)
            (Binary32.termCoeffs (Binary32.RGBProfile.ofValues eightProfile) (I.getD k 0))
            (J.filter (fun j =>
              decide (Binary32.IsNearestSlot (eightSigmas.map F32.fin) I j k)))) :=
  getParamsFromRGBProfile_merge Binary32.sortAll
    (Binary32.RGBProfile.ofValues eightProfile) (eightSigmas.map F32.fin)
    (by decide) (by decide) (by decide) (by decide) (by decide!) (by decide!)

/-- C5 fails as stated, with the distances and the sums of the claim computed
exactly. (1) By rounding of the distance: in `farProfile` with `farSigmas`, all
`float`s, the terms 0 to 5 are selected and term 6, with sigma 1024, is not; the
exact distance of term 6 is least at slot 5, so the claim adds its red
coefficient 1 to slot 5; all six `float` distances are 1024, and the reducer
adds it to slot 0, whose red coefficient becomes 3. (2) On a NaN: with a NaN as
sigma of term 6 every distance is a NaN, no slot minimises it, and the reducer
adds the term to slot 0. (3) By rounding of the sum: in `orderProfile` the
unselected terms 6 and 7, with the red coefficients 1 and 2, are both added to
slot 0, whose red coefficient is `2^24`; the exact sum `2^24 + 3` is not a
`float`, and two admissible outcomes of `partial_sort`, with the two terms in
either order, give the red coefficients `2^24 + 4` and `2^24 + 2`: the output
depends on the order in which the terms are added. -/
theorem getParamsFromRGBProfile_merge_counterexample :
    ((∀ x ∈ farProfile.red ++ farProfile.green ++ farProfile.blue ++ farSigmas,
        F32.IsBinary32 (F32.fin x)) ∧
      IsPartialSort Binary32.weightOrder 6
        (Binary32.sigmaWeights (Binary32.RGBProfile.ofValues farProfile) 7)
        (Binary32.sortAll (Binary32.sigmaWeights (Binary32.RGBProfile.ofValues farProfile) 7)) ∧
      (Binary32.getParamsFromRGBProfile Binary32.sortAll
          (Binary32.RGBProfile.ofValues farProfile) (farSigmas.map F32.fin)).map
          (fun gp => (gp.sigmas, gp.coeffs.map (fun c => c.x))) =
        some ((farSigmas.take 6).map F32.fin,
          [F32.fin 3, F32.fin 2, F32.fin 2, F32.fin 2, F32.fin 2, F32.fin 2]) ∧
      IsNearestSlot farSigmas [0, 1, 2, 3, 4, 5] 6 5 ∧
      (∀ k, k < 6 →
        Binary32.sigmaDistance (farSigmas.map F32.fin) [0, 1, 2, 3, 4, 5] 6 k =
          F32.fin 1024)) ∧
    ((Binary32.getParamsFromRGBProfile Binary32.sortAll
          (Binary32.RGBProfile.ofValues farProfile) nanSigmas).map
          (fun gp => (gp.sigmas, gp.coeffs.map (fun c => c.x))) =
        some (nanSigmas.take 6,
          [F32.fin 3, F32.fin 2, F32.fin 2, F32.fin 2, F32.fin 2, F32.fin 2]) ∧
      ∀ k, k < 6 → ¬ Binary32.IsNearestSlot nanSigmas [0, 1, 2, 3, 4, 5] 6 k) ∧
    ((∀ x ∈ orderProfile.red ++ orderProfile.green ++ orderProfile.blue ++ orderSigmas,
        F32.IsBinary32 (F32.fin x)) ∧
      IsPartialSort Binary32.weightOrder 6
        (Binary32.sigmaWeights (Binary32.RGBProfile.ofValues orderProfile) 8)
        (Binary32.sortAll
          (Binary32.sigmaWeights (Binary32.RGBProfile.ofValues orderProfile) 8)) ∧
      IsPartialSort Binary32.weightOrder 6
        (Binary32.sigmaWeights (Binary32.RGBProfile.ofValues orderProfile) 8)
        (Binary32.sortTailReversed
          (Binary32.sigmaWeights (Binary32.RGBProfile.ofValues orderProfile) 8)) ∧
      (Binary32.getParamsFromRGBProfile Binary32.sortAll
          (Binary32.RGBProfile.ofValues orderProfile) (orderSigmas.map F32.fin)).map
          (fun gp => gp.coeffs.map (fun c => c.x)) =
        some [F32.fin 16777220, F32.fin 0, F32.fin 0, F32.fin 0, F32.fin 0, F32.fin 0] ∧
      (Binary32.getParamsFromRGBProfile Binary32.sortTailReversed
          (Binary32.RGBProfile.ofValues orderProfile) (orderSigmas.map F32.fin)).map
          (fun gp => gp.coeffs.map (fun c => c.x)) =
        some [F32.fin 16777218, F32.fin 0, F32.fin 0, F32.fin 0, F32.fin 0, F32.fin 0]) :=
  ⟨⟨by decide!, by decide!, by decide!, by decide!, by decide!⟩,
    ⟨by decide!, by decide!⟩,
    ⟨by decide!, by decide!, by decide!, by decide!, by decide!⟩⟩

end Skin
